import Mathlib

/-! Aura container of a game unit (`shared/game/aura_container.cpp`).

A shallow embedding of `wowpp::AuraContainer`: the per-unit registry of the
aura instances (`AuraSpellSlot`) applied to a unit, with slot allocation,
stacking / overwrite resolution and the removal operations.

Conventions of the embedding

* The container is a value that is passed through every operation.  A C++
  iterator into `m_auras` is the index of the element it points at, and
  `m_auras.end()` is the length of the list.
* A failed `ASSERT` aborts the program: operations return `Option`, and
  `none` means that no state is produced (an assertion failed, or a loop ran
  out of the fuel it was given; every loop is started with enough fuel).
* `m_auraTypeCount` is a map from aura type to counter.  A key that is not in
  the map and a key mapped to `0` are indistinguishable through `operator[]`
  and `hasAura`, so the map is a total function.
* The class `AuraSpellSlot`, the enumerations and the unit field table are
  declared outside the files at hand.  The data an instance carries is a
  record; the member functions whose bodies are not available are either
  fields of the environment `Env` or modelled from the specification, and
  say so.
* The apply / unapply handlers of an instance read the whole unit (its fields
  and its container) and write the fields of the unit.  Every invocation is
  appended to the log `calls` of the container.
* The two `float` computations of `consumeAbsorb` are fields of `Env`;
  `FloatArithmetic` says that they are binary32 computations (round to nearest,
  ties to even, every operation rounded on its own) followed by the conversion
  to `UInt32` where C++ defines it.  The other `float` values (multipliers,
  resist percentages) are rational numbers and their arithmetic is not rounded.
-/

namespace wowpp

/-- The part of a spell definition (`proto::SpellEntry`) the container reads. -/
structure SpellEntry where
  id : Nat := 0
  baseid : Nat := 0
  rank : Int := 0
  stackamount : Nat := 0
  attributes0 : Nat := 0
  dispel : Nat := 0
  aurainterruptflags : Nat := 0
  deriving DecidableEq, Repr

/-- One effect of an aura instance: `getEffect().aura()`,
`getEffect().miscvaluea()` (as a bit pattern), `getBasePoints()` and
`getEffect().multiplevalue()`.  The multiple value is a `float` in the code;
it is an exact rational here. -/
structure AuraEffect where
  aura : Nat := 0
  miscvaluea : Nat := 0
  basePoints : Int := 0
  multiplevalue : ℚ := 0
  deriving DecidableEq, Repr

/-- One aura instance.  `ptr` is the identity of the object the `AuraPtr`
points at; `caster` is `none` for a null caster pointer; `slot` is `0xFF`
when the instance has no client-visible slot. -/
structure AuraSpellSlot where
  ptr : Nat := 0
  spell : SpellEntry := {}
  caster : Option Nat := none
  itemGuid : Nat := 0
  effects : List AuraEffect := []
  slot : Nat := 0xFF
  stackCount : Nat := 1
  passive : Bool := false
  positive : Bool := true
  deathPersistent : Bool := false
  channeled : Bool := false
  totalDuration : Nat := 0
  remainingTime : Nat := 0
  remainingCharges : Nat := 0
  deriving DecidableEq, Repr

/-- The fields of the owning unit, read by `getUInt32Value`. -/
structure GameUnit where
  getUInt32Value : Nat → Nat

/-- Write one field of the unit. -/
def GameUnit.setUInt32Value (u : GameUnit) (index value : Nat) : GameUnit :=
  { getUInt32Value := fun i => if i = index then value else u.getUInt32Value i }

/-- An invocation of a handler of an instance, as recorded in the log. -/
inductive HandlerCall where
  | applyEffects (aura : AuraSpellSlot) (restoration : Bool)
  | misapplyEffects (aura : AuraSpellSlot)
  deriving DecidableEq, Repr

/-- The container together with the unit that owns it. -/
structure AuraContainer where
  m_owner : GameUnit
  m_auras : List AuraSpellSlot := []
  m_auraTypeCount : Nat → Nat := fun _ => 0
  calls : List HandlerCall := []

/-- What the container uses and is declared elsewhere: enumerators, the base
index of the aura slot fields, and member functions of `AuraSpellSlot` whose
bodies are not available.  `manaShieldCapacity mana e` stands for
`(float)ownerMana / multiple` converted to `UInt32`, and
`manaAfter mana amount e` for `ownerMana -= (amount * multiple)`. -/
structure Env where
  HiddenClientSide : Nat
  ModShapeShift : Nat
  SchoolAbsorb : Nat
  ManaShield : Nat
  AuraEffectField : Nat
  Power1 : Nat
  shouldOverwriteAura : AuraSpellSlot → AuraSpellSlot → Bool
  hasMechanics : AuraSpellSlot → Nat → Bool
  applyEffects : AuraSpellSlot → Bool → AuraContainer → GameUnit
  misapplyEffects : AuraSpellSlot → AuraContainer → GameUnit
  manaShieldCapacity : Nat → AuraEffect → Nat
  manaAfter : Nat → Nat → AuraEffect → Nat

namespace AuraSpellSlot

/-- Modelled from the spec: `AuraSpellSlot::hasValidSlot` is not among the
sources; the slot index `0xFF` means "no visible slot". -/
def hasValidSlot (a : AuraSpellSlot) : Bool := a.slot != 0xFF

/-- Modelled from the spec: `AuraSpellSlot::hasEffect` is not among the
sources; an instance has an effect of a type when at least one of its effects
carries that type. -/
def hasEffect (a : AuraSpellSlot) (auraType : Nat) : Bool :=
  a.effects.any (fun e => e.aura == auraType)

/-- Modelled from the spec: `AuraSpellSlot::setSlot` is not among the
sources; it stores the client-visible slot index. -/
def setSlot (a : AuraSpellSlot) (newSlot : Nat) : AuraSpellSlot :=
  { a with slot := newSlot }

/-- Modelled from the spec: `AuraSpellSlot::addStack` is not among the
sources; the stack count of the existing instance goes up by one and is capped
at the stack amount of the definition. -/
def addStack (a : AuraSpellSlot) (_aura : AuraSpellSlot) : AuraSpellSlot :=
  { a with stackCount := if a.stackCount < a.spell.stackamount then a.stackCount + 1 else a.stackCount }

end AuraSpellSlot

namespace AuraContainer

/-- `AuraContainer::AuraContainer(owner)`: no instance, no counter. -/
def empty (owner : GameUnit) : AuraContainer := { m_owner := owner }

/-- The loop of `addAura` that bumps the counter of every effect of the new
instance (lines 133-136). -/
def increaseCounters (cnt : Nat → Nat) : List AuraEffect → (Nat → Nat)
  | [] => cnt
  | e :: es => increaseCounters (fun t => if t = e.aura then cnt t + 1 else cnt t) es

/-- The loop of `removeAura` that lowers the counter of every effect of the
removed instance (lines 166-170); `none` when the assertion
`m_auraTypeCount[...] > 0` fails. -/
def reduceCounters (cnt : Nat → Nat) : List AuraEffect → Option (Nat → Nat)
  | [] => some cnt
  | e :: es =>
    if 0 < cnt e.aura then
      reduceCounters (fun t => if t = e.aura then cnt t - 1 else cnt t) es
    else none

/-- `AuraContainer::hasAura`. -/
def hasAura (c : AuraContainer) (type : Nat) : Bool := decide (0 < c.m_auraTypeCount type)

/-- Lines 159-170 of `removeAura(iterator)`: the instance is taken out of the
list and the counters are lowered.  The result is the removed instance
(`strong`) and the container in the state the unapply handlers will see. -/
def removeAura_detach (c : AuraContainer) (it : Nat) : Option (AuraSpellSlot × AuraContainer) :=
  match c.m_auras[it]? with
  | none => none
  | some strong =>
    match reduceCounters c.m_auraTypeCount strong.effects with
    | none => none
    | some cnt => some (strong, { c with m_auras := c.m_auras.eraseIdx it, m_auraTypeCount := cnt })

/-- Line 177 of `removeAura(iterator)`: `strong->misapplyEffects()`. -/
def misapply (E : Env) (strong : AuraSpellSlot) (c : AuraContainer) : AuraContainer :=
  { c with m_owner := E.misapplyEffects strong c,
           calls := c.calls ++ [HandlerCall.misapplyEffects strong] }

/-- `AuraContainer::removeAura(AuraList::iterator &it)`.  The iterator
returned by `erase` is the same index. -/
def removeAura (E : Env) (c : AuraContainer) (it : Nat) : Option AuraContainer :=
  match removeAura_detach c it with
  | none => none
  | some (strong, c') => some (misapply E strong c')

/-- `AuraContainer::findAura`: the index of the first element that is the
given object, the length of the list when there is none. -/
def findAura (c : AuraContainer) (aura : AuraSpellSlot) : Nat :=
  c.m_auras.findIdx (fun x => x.ptr == aura.ptr)

/-- `AuraContainer::removeAura(AuraSpellSlot &aura)`. -/
def removeAuraRef (E : Env) (c : AuraContainer) (aura : AuraSpellSlot) : Option AuraContainer :=
  if findAura c aura < c.m_auras.length then removeAura E c (findAura c aura) else some c

/-- The loop shared by the removal operations:
`for (it = begin; it != end;) { if (p(*it)) removeAura(it); else ++it; }`. -/
def removeLoop (E : Env) (p : AuraSpellSlot → Bool) : Nat → Nat → AuraContainer → Option AuraContainer
  | 0, it, c => if it < c.m_auras.length then none else some c
  | fuel + 1, it, c =>
    match c.m_auras[it]? with
    | none => some c
    | some x =>
      if p x then
        match removeAura E c it with
        | none => none
        | some c' => removeLoop E p fuel it c'
      else removeLoop E p fuel (it + 1) c

/-- `AuraContainer::removeAurasByType`. -/
def removeAurasByType (E : Env) (c : AuraContainer) (auraType : Nat) : Option AuraContainer :=
  if auraType = 0 then none
  else removeLoop E (fun x => x.hasEffect auraType) c.m_auras.length 0 c

/-- The outcome of the scan of `addAura` over the existing instances (lines
47-88). -/
inductive Resolution where
  /-- Lines 60-62: a stack is added to the instance at the index. -/
  | stack (it : Nat)
  /-- Lines 66-69: the instance at the index is replaced. -/
  | replace (it : Nat)
  /-- Line 77: the new aura is rejected. -/
  | reject
  /-- The loop reached the end of the list. -/
  | notFound
  deriving DecidableEq, Repr

/-- The scan of `addAura` (lines 47-88), started at iterator `it` with `rest`
the elements from `it` on.  The loop body changes nothing before it leaves the
loop, so the scan is a function of the list. -/
def addAura_scan (E : Env) (aura : AuraSpellSlot) : List AuraSpellSlot → Nat → Resolution
  | [], _ => Resolution.notFound
  | x :: rest, it =>
    if x.hasValidSlot = true ∧ E.shouldOverwriteAura aura x = true then
      if (x.spell.baseid = aura.spell.baseid ∧ x.spell.rank ≤ aura.spell.rank)
          ∨ ¬ x.spell.baseid = aura.spell.baseid then
        if x.spell.id = aura.spell.id ∧ 0 < aura.spell.stackamount
            ∧ x.caster = aura.caster ∧ aura.caster.isSome = true then
          Resolution.stack it
        else Resolution.replace it
      else if x.spell.baseid = aura.spell.baseid then Resolution.reject
      else addAura_scan E aura rest (it + 1)
    else addAura_scan E aura rest (it + 1)

/-- The two slot loops of `addAura` (lines 95-102 and 106-113): the first
index `i` with `lo <= i < lo + n` whose aura field reads `0`, else `0xFF`. -/
def findFreeSlot (E : Env) (owner : GameUnit) (lo n : Nat) : Nat :=
  ((List.range' lo n).find? (fun i => owner.getUInt32Value (E.AuraEffectField + i) == 0)).getD 0xFF

/-- Lines 90-115 of `addAura`: the slot of the new aura when none was taken
over from a replaced instance. -/
def determineSlot (E : Env) (c : AuraContainer) (aura : AuraSpellSlot) (newSlot : Nat) : Nat :=
  if newSlot = 0xFF then
    if aura.positive then findFreeSlot E c.m_owner 0 40 else findFreeSlot E c.m_owner 40 16
  else newSlot

/-- Lines 129-139 of `addAura`: the new instance is appended, the counters of
its effects are increased, and `applyEffects` runs on the container in that
state. -/
def addAura_apply (E : Env) (c : AuraContainer) (aura : AuraSpellSlot) (restoration : Bool) :
    AuraContainer :=
  let c2 : AuraContainer :=
    { c with m_auras := c.m_auras ++ [aura],
             m_auraTypeCount := increaseCounters c.m_auraTypeCount aura.effects }
  { c2 with m_owner := E.applyEffects aura restoration c2,
            calls := c2.calls ++ [HandlerCall.applyEffects aura restoration] }

/-- Lines 125-140 of `addAura`: shape-shift cleanup, then insertion, counters and
`applyEffects`. -/
def addAura_insert (E : Env) (c : AuraContainer) (aura : AuraSpellSlot) (restoration : Bool) :
    Option (Bool × AuraContainer) :=
  match (if aura.hasEffect E.ModShapeShift then removeAurasByType E c E.ModShapeShift else some c) with
  | none => none
  | some c1 => some (true, addAura_apply E c1 aura restoration)

/-- Lines 90-140 of `addAura`, entered with the slot taken over from a
replaced instance or `0xFF`. -/
def addAura_place (E : Env) (c : AuraContainer) (aura : AuraSpellSlot) (newSlot : Nat)
    (restoration : Bool) : Option (Bool × AuraContainer) :=
  if determineSlot E c aura newSlot = 0xFF then some (false, c)
  else addAura_insert E c (aura.setSlot (determineSlot E c aura newSlot)) restoration

/-- `AuraContainer::addAura`.  The result is the returned flag and the
container afterwards. -/
def addAura (E : Env) (c : AuraContainer) (aura : AuraSpellSlot) (restoration : Bool) :
    Option (Bool × AuraContainer) :=
  if aura.passive = false ∧ aura.spell.attributes0 &&& E.HiddenClientSide = 0 then
    match addAura_scan E aura c.m_auras 0 with
    | Resolution.stack it =>
      match c.m_auras[it]? with
      | none => none
      | some x => some (true, { c with m_auras := c.m_auras.set it (x.addStack aura) })
    | Resolution.reject => some (false, c)
    | Resolution.replace it =>
      match c.m_auras[it]? with
      | none => none
      | some x =>
        match removeAura E c it with
        | none => none
        | some c' => addAura_place E c' aura x.slot restoration
    | Resolution.notFound => addAura_place E c aura 0xFF restoration
  else addAura_insert E c aura restoration

/-- `AuraContainer::handleTargetDeath`. -/
def handleTargetDeath (E : Env) (c : AuraContainer) : Option AuraContainer :=
  removeLoop E (fun x => !x.deathPersistent) c.m_auras.length 0 c

/-- `AuraContainer::removeAllAurasDueToSpell`. -/
def removeAllAurasDueToSpell (E : Env) (c : AuraContainer) (spellId : Nat) : Option AuraContainer :=
  if spellId = 0 then none
  else removeLoop E (fun x => decide (x.spell.id = spellId)) c.m_auras.length 0 c

/-- `AuraContainer::removeAllAurasDueToItem`. -/
def removeAllAurasDueToItem (E : Env) (c : AuraContainer) (itemGuid : Nat) : Option AuraContainer :=
  if itemGuid = 0 then none
  else removeLoop E (fun x => decide (x.itemGuid = itemGuid)) c.m_auras.length 0 c

/-- `AuraContainer::removeAllAurasDueToMechanic`. -/
def removeAllAurasDueToMechanic (E : Env) (c : AuraContainer) (immunityMask : Nat) :
    Option AuraContainer :=
  if immunityMask = 0 then none
  else removeLoop E (fun x => E.hasMechanics x immunityMask) c.m_auras.length 0 c

/-- The loop of `removeAurasDueToDispel` (lines 552-565), with the running
`successCount`. -/
def dispelLoop (E : Env) (dispelType : Nat) (dispelPositive : Bool) (count : Nat) :
    Nat → Nat → Nat → AuraContainer → Option (Nat × AuraContainer)
  | 0, it, successCount, c => if it < c.m_auras.length then none else some (successCount, c)
  | fuel + 1, it, successCount, c =>
    match c.m_auras[it]? with
    | none => some (successCount, c)
    | some x =>
      if x.spell.dispel = dispelType ∧ x.positive = dispelPositive then
        match removeAura E c it with
        | none => none
        | some c' =>
          if count ≤ successCount + 1 then some (successCount + 1, c')
          else dispelLoop E dispelType dispelPositive count fuel it (successCount + 1) c'
      else dispelLoop E dispelType dispelPositive count fuel (it + 1) successCount c

/-- `AuraContainer::removeAurasDueToDispel`: the number of removed instances
and the container afterwards. -/
def removeAurasDueToDispel (E : Env) (c : AuraContainer) (dispelType : Nat) (dispelPositive : Bool)
    (count : Nat) : Option (Nat × AuraContainer) :=
  if dispelType = 0 ∨ count = 0 then none
  else dispelLoop E dispelType dispelPositive count c.m_auras.length 0 0 c

/-- `AuraContainer::removeAllAurasDueToInterrupt`. -/
def removeAllAurasDueToInterrupt (E : Env) (c : AuraContainer) (flags : Nat) : Option AuraContainer :=
  removeLoop E (fun x => x.spell.aurainterruptflags &&& flags != 0) c.m_auras.length 0 c

/-- `AuraContainer::removeAllAuras`. -/
def removeAllAuras (E : Env) (c : AuraContainer) : Option AuraContainer :=
  removeLoop E (fun _ => true) c.m_auras.length 0 c

/-- Conversion of a `UInt32` value to `Int32`, as in `setBasePoints(UInt32)`. -/
def toInt32 (v : Nat) : Int :=
  if v % 4294967296 < 2147483648 then ((v % 4294967296 : Nat) : Int)
  else ((v % 4294967296 : Nat) : Int) - 4294967296

/-- One absorption of `consumeAbsorb`, as recorded in the log of the run: the
effect that absorbed, the local `ownerMana` before it, and the operands of the
`UInt32` subtraction that was executed (`consumable - damage` in line 262,
`damage -= consumable` in line 280).  In both branches the subtrahend is the
amount that is added to `absorbed`. -/
structure AbsorbEvent where
  effect : AuraEffect
  ownerMana : Nat
  minuend : Nat
  subtrahend : Nat
  deriving DecidableEq, Repr

/-- The local variables of `consumeAbsorb` that the effect callback captures,
and the log `events` of the absorptions so far. -/
structure AbsorbState where
  damage : Nat
  absorbed : Nat := 0
  ownerMana : Nat
  manaConsumed : Bool := false
  shouldRemove : Bool := false
  events : List AbsorbEvent := []
  deriving DecidableEq, Repr

/-- The callback of `consumeAbsorb` on one effect (lines 230-296): whether
the iteration over the effects goes on, the effect afterwards and the captured
variables afterwards. -/
def consumeAbsorb_effect (E : Env) (school : Nat) (e : AuraEffect) (s : AbsorbState) :
    Bool × AuraEffect × AbsorbState :=
  if (e.aura = E.SchoolAbsorb ∨ e.aura = E.ManaShield) ∧ e.miscvaluea &&& school ≠ 0 then
    let consumableByMana : Nat := if e.aura = E.ManaShield then E.manaShieldCapacity s.ownerMana e else 0
    let consumable0 : Nat := e.basePoints.natAbs % 4294967296
    let consumable : Nat := if e.aura = E.ManaShield then min consumableByMana consumable0 else consumable0
    if e.aura = E.ManaShield ∧ consumable ≤ 0 then (false, e, s)
    else if s.damage ≤ consumable then
      let e' : AuraEffect := { e with basePoints := toInt32 (consumable - s.damage) }
      (false, e',
        { s with absorbed := (s.absorbed + s.damage) % 4294967296,
                 ownerMana := if e.aura = E.ManaShield then E.manaAfter s.ownerMana s.damage e else s.ownerMana,
                 manaConsumed := if e.aura = E.ManaShield then true else s.manaConsumed,
                 damage := 0,
                 shouldRemove := if e'.basePoints = 0 then true else s.shouldRemove,
                 events := s.events ++ [{ effect := e, ownerMana := s.ownerMana,
                                          minuend := consumable, subtrahend := s.damage }] })
    else
      (false, e,
        { s with absorbed := (s.absorbed + consumable) % 4294967296,
                 damage := s.damage - consumable,
                 shouldRemove := true,
                 ownerMana := if e.aura = E.ManaShield then E.manaAfter s.ownerMana consumable e else s.ownerMana,
                 manaConsumed := if e.aura = E.ManaShield then true else s.manaConsumed,
                 events := s.events ++ [{ effect := e, ownerMana := s.ownerMana,
                                          minuend := s.damage, subtrahend := consumable }] })
  else (decide (s.damage ≠ 0), e, s)

/-- The call `slot->forEachEffect(...)` of `consumeAbsorb`: the callback runs on the
effects in order until it returns false. -/
def consumeAbsorb_effects (E : Env) (school : Nat) :
    List AuraEffect → AbsorbState → List AuraEffect × AbsorbState
  | [], s => ([], s)
  | e :: es, s =>
    match consumeAbsorb_effect E school e s with
    | (true, e', s') =>
      match consumeAbsorb_effects E school es s' with
      | (es', s'') => (e' :: es', s'')
    | (false, e', s') => (e' :: es, s')

/-- The loop of `consumeAbsorb` over the instances (lines 225-305). -/
def consumeAbsorb_loop (E : Env) (school : Nat) :
    Nat → Nat → AbsorbState → AuraContainer → Option (AbsorbState × AuraContainer)
  | 0, it, s, c => if it < c.m_auras.length then none else some (s, c)
  | fuel + 1, it, s, c =>
    match c.m_auras[it]? with
    | none => some (s, c)
    | some slot =>
      match consumeAbsorb_effects E school slot.effects { s with shouldRemove := false } with
      | (es', s') =>
        let c1 : AuraContainer := { c with m_auras := c.m_auras.set it { slot with effects := es' } }
        if s'.shouldRemove then
          match removeAura E c1 it with
          | none => none
          | some c2 =>
            if s'.damage = 0 then some (s', c2) else consumeAbsorb_loop E school fuel it s' c2
        else if s'.damage = 0 then some (s', c1)
        else consumeAbsorb_loop E school fuel (it + 1) s' c1

/-- `AuraContainer::consumeAbsorb`: the absorbed amount and the container
afterwards. -/
def consumeAbsorb (E : Env) (c : AuraContainer) (damage school : Nat) : Option (Nat × AuraContainer) :=
  match consumeAbsorb_loop E school c.m_auras.length 0
      { damage := damage, ownerMana := c.m_owner.getUInt32Value E.Power1 } c with
  | none => none
  | some (s, c') =>
    if s.manaConsumed then
      some (s.absorbed, { c' with m_owner := c'.m_owner.setUInt32Value E.Power1 s.ownerMana })
    else some (s.absorbed, c')

/-- The number of effects of type `T` in an effect list. -/
def countEffects (T : Nat) (es : List AuraEffect) : Nat := es.countP (fun e => e.aura == T)

/-- The number of (instance, effect) pairs of the instance list whose effect has
type `T`. -/
def effectCount (T : Nat) : List AuraSpellSlot → Nat
  | [] => 0
  | a :: rest => countEffects T a.effects + effectCount T rest

/-- Counter consistency: every counter equals the number of (instance, effect)
pairs of its type. -/
def CountersOk (c : AuraContainer) : Prop :=
  ∀ T, c.m_auraTypeCount T = effectCount T c.m_auras

/-- The states the container can be in: the empty container of a unit, and
every state produced from such a state by an operation that returns. -/
inductive Reachable (E : Env) : AuraContainer → Prop where
  | empty (owner : GameUnit) : Reachable E (AuraContainer.empty owner)
  | addAura {c c' : AuraContainer} (aura : AuraSpellSlot) (restoration b : Bool) :
      Reachable E c → addAura E c aura restoration = some (b, c') → Reachable E c'
  | removeAura {c c' : AuraContainer} (it : Nat) :
      Reachable E c → removeAura E c it = some c' → Reachable E c'
  | removeAuraRef {c c' : AuraContainer} (aura : AuraSpellSlot) :
      Reachable E c → removeAuraRef E c aura = some c' → Reachable E c'
  | removeAllAurasDueToSpell {c c' : AuraContainer} (spellId : Nat) :
      Reachable E c → removeAllAurasDueToSpell E c spellId = some c' → Reachable E c'
  | removeAllAurasDueToItem {c c' : AuraContainer} (itemGuid : Nat) :
      Reachable E c → removeAllAurasDueToItem E c itemGuid = some c' → Reachable E c'
  | removeAllAurasDueToMechanic {c c' : AuraContainer} (immunityMask : Nat) :
      Reachable E c → removeAllAurasDueToMechanic E c immunityMask = some c' → Reachable E c'
  | removeAllAurasDueToInterrupt {c c' : AuraContainer} (flags : Nat) :
      Reachable E c → removeAllAurasDueToInterrupt E c flags = some c' → Reachable E c'
  | removeAurasDueToDispel {c c' : AuraContainer} (dispelType : Nat) (dispelPositive : Bool)
      (count n : Nat) :
      Reachable E c → removeAurasDueToDispel E c dispelType dispelPositive count = some (n, c') →
      Reachable E c'
  | removeAurasByType {c c' : AuraContainer} (auraType : Nat) :
      Reachable E c → removeAurasByType E c auraType = some c' → Reachable E c'
  | handleTargetDeath {c c' : AuraContainer} :
      Reachable E c → handleTargetDeath E c = some c' → Reachable E c'
  | removeAllAuras {c c' : AuraContainer} :
      Reachable E c → removeAllAuras E c = some c' → Reachable E c'
  | consumeAbsorb {c c' : AuraContainer} (damage school n : Nat) :
      Reachable E c → consumeAbsorb E c damage school = some (n, c') → Reachable E c'

/-- The instances that survive the shape-shift cleanup of `addAura` (lines
126-127) for the new aura: all of them when the new aura has no `ModShapeShift`
effect, else those without a `ModShapeShift` effect. -/
def afterCleanup (E : Env) (aura : AuraSpellSlot) (l : List AuraSpellSlot) : List AuraSpellSlot :=
  if aura.hasEffect E.ModShapeShift then l.filter (fun x => !x.hasEffect E.ModShapeShift) else l

/-- The instances the shape-shift cleanup of `addAura` removes for the new
aura, in list order. -/
def cleanedUp (E : Env) (aura : AuraSpellSlot) (l : List AuraSpellSlot) : List AuraSpellSlot :=
  if aura.hasEffect E.ModShapeShift then l.filter (fun x => x.hasEffect E.ModShapeShift) else []

/-- An existing instance is an overwrite candidate for the new aura (the test
of line 49). -/
def isCandidate (E : Env) (aura x : AuraSpellSlot) : Bool :=
  x.hasValidSlot && E.shouldOverwriteAura aura x

/-- A new aura gets a client-visible slot (the test of line 42). -/
def isVisible (E : Env) (aura : AuraSpellSlot) : Prop :=
  aura.passive = false ∧ aura.spell.attributes0 &&& E.HiddenClientSide = 0

instance (E : Env) (aura : AuraSpellSlot) : Decidable (isVisible E aura) := by
  unfold isVisible; infer_instance

/-- The slot index lies in the range of the polarity: below 40 for a positive
aura, from 40 to 55 for a negative one. -/
def slotInRange (positive : Bool) (slot : Nat) : Prop :=
  if positive then slot < 40 else 40 ≤ slot ∧ slot < 56

instance (positive : Bool) (slot : Nat) : Decidable (slotInRange positive slot) := by
  unfold slotInRange; infer_instance

/-! ## Concrete inputs

An environment and a few instances on which the operations are evaluated.  The
enumerators carry the values of the client protocol.  An existing instance is
an overwrite candidate when it has the base spell of the new aura, or when both
are shape-shift auras; the handlers write the spell id into the slot field of
the instance when it is applied and clear the field when it is unapplied. -/

/-- A unit all of whose fields read `0`. -/
def demoOwner : GameUnit := { getUInt32Value := fun _ => 0 }

/-- A unit whose fields all read `1`: no aura slot field is free. -/
def fullOwner : GameUnit := { getUInt32Value := fun _ => 1 }

/-- The environment of the concrete inputs. -/
def demoEnv : Env where
  HiddenClientSide := 0x80
  ModShapeShift := 36
  SchoolAbsorb := 69
  ManaShield := 97
  AuraEffectField := 47
  Power1 := 23
  shouldOverwriteAura := fun aura x =>
    aura.spell.baseid == x.spell.baseid || (aura.hasEffect 36 && x.hasEffect 36)
  hasMechanics := fun _ _ => false
  applyEffects := fun aura _ c =>
    if aura.slot = 0xFF then c.m_owner else c.m_owner.setUInt32Value (47 + aura.slot) aura.spell.id
  misapplyEffects := fun aura c =>
    if aura.slot = 0xFF then c.m_owner else c.m_owner.setUInt32Value (47 + aura.slot) 0
  manaShieldCapacity := fun mana _ => mana
  manaAfter := fun mana amount _ => mana - amount

/-- The container after `addAura`; the container itself when the call aborts. -/
def afterAddAura (E : Env) (c : AuraContainer) (aura : AuraSpellSlot) (restoration : Bool) :
    AuraContainer :=
  match addAura E c aura restoration with
  | some (_, c') => c'
  | none => c

/-- Rank 1 of spell 100 cast by unit 7: a positive aura with a shape-shift effect
and one more effect. -/
def demoAura1 : AuraSpellSlot :=
  { ptr := 1, spell := { id := 100, baseid := 100, rank := 1 }, caster := some 7,
    effects := [{ aura := 36 }, { aura := 4, basePoints := 10 }] }

/-- The container of `demoOwner` after `demoAura1` was added. -/
def demoState1 : AuraContainer := afterAddAura demoEnv (AuraContainer.empty demoOwner) demoAura1 false

/-- Rank 2 of the same base spell, cast by unit 8. -/
def demoAura2 : AuraSpellSlot :=
  { ptr := 2, spell := { id := 101, baseid := 100, rank := 2 }, caster := some 8,
    effects := [{ aura := 4, basePoints := 20 }] }

/-- The container of `demoOwner` after `demoAura2` was added. -/
def demoState2 : AuraContainer := afterAddAura demoEnv (AuraContainer.empty demoOwner) demoAura2 false

/-- Rank 1 of spell 100 again, cast by another unit (unit 8). -/
def demoAura1b : AuraSpellSlot :=
  { ptr := 3, spell := { id := 100, baseid := 100, rank := 1 }, caster := some 8,
    effects := [{ aura := 36 }, { aura := 4, basePoints := 10 }] }

/-- A negative shape-shift aura of another base spell, cast by unit 9. -/
def demoNegative : AuraSpellSlot :=
  { ptr := 4, spell := { id := 200, baseid := 200, rank := 1 }, caster := some 9,
    positive := false, effects := [{ aura := 36 }] }

/-- The container of `demoOwner` after `demoNegative` was added: the instance
holds slot 40, the first slot of the negative range. -/
def demoStateNegative : AuraContainer :=
  afterAddAura demoEnv (AuraContainer.empty demoOwner) demoNegative false

/-- Modelled from the spec: the overwrite predicate of step 1 of the insertion
algorithm, `AuraSpellSlot::shouldOverwriteAura`, whose code is not among the
sources: "same spell from same caster always qualifies; unique aura states,
e.g. mutually exclusive shapeshift-class auras, also qualify".  `shapeShift`
is the number of the shape-shift aura type. -/
def specShouldOverwriteAura (shapeShift : Nat) (aura x : AuraSpellSlot) : Bool :=
  (aura.spell.id == x.spell.id && aura.caster == x.caster)
    || (aura.hasEffect shapeShift && x.hasEffect shapeShift)

/-- The environment of the concrete inputs with the overwrite predicate of the
specification. -/
def specEnv : Env := { demoEnv with shouldOverwriteAura := specShouldOverwriteAura 36 }

/-- The container of `demoOwner` after `demoNegative` was added under `specEnv`:
the instance holds slot 40, the first slot of the negative range. -/
def specStateNegative : AuraContainer :=
  afterAddAura specEnv (AuraContainer.empty demoOwner) demoNegative false

/-- One call of `addAura` for every aura of the list, in order: the returned flags
and the container after the last call. -/
def addAuras (E : Env) (restoration : Bool) :
    AuraContainer → List AuraSpellSlot → Option (List Bool × AuraContainer)
  | c, [] => some ([], c)
  | c, aura :: rest =>
    match addAura E c aura restoration with
    | none => none
    | some (b, c') =>
      match addAuras E restoration c' rest with
      | none => none
      | some (bs, c'') => some (b :: bs, c'')

/-- A stackable spell (stack amount 2), rank 1 of base spell 300. -/
def stackSpell : SpellEntry := { id := 300, baseid := 300, rank := 1, stackamount := 2 }

/-- An aura of `stackSpell` cast by unit 7; `ptr` tells the objects apart. -/
def stackAura (ptr : Nat) : AuraSpellSlot :=
  { ptr := ptr, spell := stackSpell, caster := some 7, effects := [{ aura := 4, basePoints := 5 }] }

/-- Rank 2 of base spell 300 (another spell id), cast by unit 7. -/
def stackAuraRank2 : AuraSpellSlot :=
  { ptr := 9, spell := { id := 301, baseid := 300, rank := 2, stackamount := 2 }, caster := some 7,
    effects := [{ aura := 4, basePoints := 9 }] }

/-- The container of `demoOwner` after `stackAuraRank2` was added. -/
def demoStateRank2 : AuraContainer :=
  afterAddAura demoEnv (AuraContainer.empty demoOwner) stackAuraRank2 false

/-- Rank 0 of base spell 300 (another spell id than `stackSpell`), cast by unit
8. -/
def stackAuraLower : AuraSpellSlot :=
  { ptr := 34, spell := { id := 299, baseid := 300, rank := 0 }, caster := some 8,
    effects := [{ aura := 4, basePoints := 2 }] }

/-- The container of `demoOwner` after `stackAuraLower` was added. -/
def demoStateLower : AuraContainer :=
  afterAddAura demoEnv (AuraContainer.empty demoOwner) stackAuraLower false

/-- A stackable shape-shift spell (stack amount 2), rank 2 of base spell 310. -/
def formSpell : SpellEntry := { id := 311, baseid := 310, rank := 2, stackamount := 2 }

/-- An aura of `formSpell` cast by unit 7; `ptr` tells the objects apart. -/
def formAura (ptr : Nat) : AuraSpellSlot :=
  { ptr := ptr, spell := formSpell, caster := some 7, effects := [{ aura := 36 }] }

/-- Rank 1 of base spell 310 (another spell id), without a shape-shift effect,
cast by unit 8. -/
def formLower : AuraSpellSlot :=
  { ptr := 33, spell := { id := 310, baseid := 310, rank := 1 }, caster := some 8,
    effects := [{ aura := 4, basePoints := 3 }] }

/-- The container of `demoOwner` after `demoAura1` (a shape-shift aura of base
spell 100) and then `formLower` were added. -/
def twoCandidateState : AuraContainer :=
  afterAddAura demoEnv (afterAddAura demoEnv (AuraContainer.empty demoOwner) demoAura1 false)
    formLower false

/-- Outcome "stack" of a call of `addAura` from `c` to `c'` with flag `b`: the
scan stopped at the first overwrite candidate `x` with the result `stack`, the
call returned true, `x` got a stack in place, nothing was appended or removed
and no handler ran. -/
def StackOutcome (E : Env) (c c' : AuraContainer) (aura : AuraSpellSlot) (b : Bool) : Prop :=
  ∃ pre x suf, isVisible E aura ∧ c.m_auras = pre ++ x :: suf
    ∧ (∀ y ∈ pre, isCandidate E aura y = false) ∧ isCandidate E aura x = true
    ∧ addAura_scan E aura c.m_auras 0 = Resolution.stack pre.length
    ∧ b = true ∧ c'.m_auras = pre ++ x.addStack aura :: suf ∧ c'.calls = c.calls

/-- Outcome "replace" of a call of `addAura`: the scan stopped at the first
overwrite candidate `x` with the result `replace`, the call returned true, `x`
was removed and unapplied, and the new aura was appended with the slot of `x`
(after the shape-shift cleanup of the other instances). -/
def ReplaceOutcome (E : Env) (c c' : AuraContainer) (aura : AuraSpellSlot)
    (restoration b : Bool) : Prop :=
  ∃ pre x suf, isVisible E aura ∧ c.m_auras = pre ++ x :: suf
    ∧ (∀ y ∈ pre, isCandidate E aura y = false) ∧ isCandidate E aura x = true
    ∧ addAura_scan E aura c.m_auras 0 = Resolution.replace pre.length
    ∧ b = true
    ∧ c'.m_auras = afterCleanup E aura (pre ++ suf) ++ [aura.setSlot x.slot]
    ∧ c'.calls = c.calls ++ [HandlerCall.misapplyEffects x]
        ++ (cleanedUp E aura (pre ++ suf)).map HandlerCall.misapplyEffects
        ++ [HandlerCall.applyEffects (aura.setSlot x.slot) restoration]

/-- Outcome "no existing instance touched" of a call of `addAura`: the aura is
not visible or the scan ended with `reject` or at the end of the list; the
call was rejected with the container unchanged, or the new aura was appended
(after the shape-shift cleanup). -/
def UntouchedOutcome (E : Env) (c c' : AuraContainer) (aura : AuraSpellSlot)
    (restoration b : Bool) : Prop :=
  (¬ isVisible E aura ∨ addAura_scan E aura c.m_auras 0 = Resolution.reject
      ∨ addAura_scan E aura c.m_auras 0 = Resolution.notFound)
    ∧ ((b = false ∧ c' = c)
      ∨ (b = true ∧ ∃ s, c'.m_auras = afterCleanup E aura c.m_auras ++ [aura.setSlot s]
          ∧ c'.calls = c.calls ++ (cleanedUp E aura c.m_auras).map HandlerCall.misapplyEffects
              ++ [HandlerCall.applyEffects (aura.setSlot s) restoration]))

/-- A passive shape-shift aura: it gets no client-visible slot. -/
def demoPassiveShift : AuraSpellSlot :=
  { ptr := 5, spell := { id := 400, baseid := 400, rank := 1 }, caster := some 7,
    passive := true, effects := [{ aura := 36 }] }

/-- The list without the first `n` elements that satisfy `p`. -/
def removeFirst (p : AuraSpellSlot → Bool) : Nat → List AuraSpellSlot → List AuraSpellSlot
  | 0, l => l
  | _ + 1, [] => []
  | n + 1, x :: l => if p x then removeFirst p n l else x :: removeFirst p (n + 1) l

/-- The first `n` elements of the list that satisfy `p`, in list order. -/
def firstMatching (p : AuraSpellSlot → Bool) : Nat → List AuraSpellSlot → List AuraSpellSlot
  | 0, _ => []
  | _ + 1, [] => []
  | n + 1, x :: l => if p x then x :: firstMatching p n l else firstMatching p (n + 1) l

/-- The test of `removeAurasDueToDispel` on an instance (lines 554-555). -/
def dispelMatch (dispelType : Nat) (dispelPositive : Bool) (x : AuraSpellSlot) : Bool :=
  decide (x.spell.dispel = dispelType ∧ x.positive = dispelPositive)

/-- A second aura on `demoOwner`, of another base spell: no overwrite candidate
of `demoAura1`, dispel type 1, death persistent. -/
def demoAura3 : AuraSpellSlot :=
  { ptr := 6, spell := { id := 500, baseid := 500, rank := 1, dispel := 1 }, caster := some 7,
    deathPersistent := true, effects := [{ aura := 4, basePoints := 20 }] }

/-- A third aura, dispel type 1, not death persistent. -/
def demoAura4 : AuraSpellSlot :=
  { ptr := 7, spell := { id := 600, baseid := 600, rank := 1, dispel := 1 }, caster := some 7,
    effects := [{ aura := 4, basePoints := -5 }, { aura := 8 }] }

/-- The container of `demoOwner` after `demoAura1`, `demoAura3` and `demoAura4`
were added, in this order. -/
def demoState3 : AuraContainer :=
  afterAddAura demoEnv (afterAddAura demoEnv demoState1 demoAura3 false) demoAura4 false

/-- Modelled from the spec: `AuraSpellSlot::forEachEffect` is not among the
sources; the functor is called on the effects of the instance in order until it
returns false (the callbacks of `consumeAbsorb` return false to "stop aura
effect iteration").  The functor threads a state of its own; the result is the
log of its calls, each with the returned flag, and the state afterwards. -/
def forEachEffect {σ : Type} (functor : σ → AuraEffect → Bool × σ) :
    List AuraEffect → σ → List (AuraEffect × Bool) × σ
  | [], st => ([], st)
  | e :: es, st =>
    match functor st e with
    | (true, st') =>
      match forEachEffect functor es st' with
      | (log, st'') => ((e, true) :: log, st'')
    | (false, st') => ([(e, false)], st')

/-- Modelled from the spec: `AuraSpellSlot::forEachEffectOfType` is not among
the sources; it is `forEachEffect` restricted to the effects of the type. -/
def forEachEffectOfType {σ : Type} (type : Nat) (functor : σ → AuraEffect → Bool × σ)
    (effects : List AuraEffect) (st : σ) : List (AuraEffect × Bool) × σ :=
  forEachEffect functor (effects.filter (fun e => e.aura == type)) st

/-- The loop of `AuraContainer::forEachAura` (lines 377-382) over the instances. -/
def forEachAura_loop {σ : Type} (functor : σ → AuraEffect → Bool × σ) :
    List AuraSpellSlot → σ → List (AuraEffect × Bool) × σ
  | [], st => ([], st)
  | aura :: rest, st =>
    match forEachEffect functor aura.effects st with
    | (log, st') =>
      match forEachAura_loop functor rest st' with
      | (log', st'') => (log ++ log', st'')

/-- `AuraContainer::forEachAura`: the log of the calls of the functor and its state
afterwards. -/
def forEachAura {σ : Type} (c : AuraContainer) (functor : σ → AuraEffect → Bool × σ) (st : σ) :
    List (AuraEffect × Bool) × σ :=
  forEachAura_loop functor c.m_auras st

/-- The loop of `AuraContainer::forEachAuraOfType` (lines 391-399). -/
def forEachAuraOfType_loop {σ : Type} (type : Nat) (functor : σ → AuraEffect → Bool × σ) :
    List AuraSpellSlot → σ → List (AuraEffect × Bool) × σ
  | [], st => ([], st)
  | aura :: rest, st =>
    if aura.hasEffect type then
      match forEachEffectOfType type functor aura.effects st with
      | (log, st') =>
        match forEachAuraOfType_loop type functor rest st' with
        | (log', st'') => (log ++ log', st'')
    else forEachAuraOfType_loop type functor rest st

/-- `AuraContainer::forEachAuraOfType`. -/
def forEachAuraOfType {σ : Type} (c : AuraContainer) (type : Nat)
    (functor : σ → AuraEffect → Bool × σ) (st : σ) : List (AuraEffect × Bool) × σ :=
  if !hasAura c type then ([], st) else forEachAuraOfType_loop type functor c.m_auras st

/-- The callback of `getTotalMultiplier` (line 367) over the effects of the type
of one instance; the `float` arithmetic is exact rational arithmetic. -/
def getTotalMultiplier_effects (type : Nat) : List AuraEffect → ℚ → ℚ
  | [], multiplier => multiplier
  | e :: es, multiplier =>
    if e.aura = type then
      getTotalMultiplier_effects type es (multiplier * ((100 + (e.basePoints : ℚ)) / 100))
    else getTotalMultiplier_effects type es multiplier

/-- The loop of `getTotalMultiplier` over the instances (lines 364-370). -/
def getTotalMultiplier_loop (type : Nat) : List AuraSpellSlot → ℚ → ℚ
  | [], multiplier => multiplier
  | aura :: rest, multiplier =>
    getTotalMultiplier_loop type rest (getTotalMultiplier_effects type aura.effects multiplier)

/-- `AuraContainer::getTotalMultiplier`, over exact rationals. -/
def getTotalMultiplier (c : AuraContainer) (type : Nat) : ℚ :=
  getTotalMultiplier_loop type c.m_auras 1

/-- All effects of all instances, in list order. -/
def allEffects : List AuraSpellSlot → List AuraEffect
  | [] => []
  | aura :: rest => aura.effects ++ allEffects rest

/-- A container with three instances: effects of type 4 with base points 10
and 20 in two instances, and an effect of type 8 in between. -/
def demoMultiplierState : AuraContainer :=
  { m_owner := demoOwner,
    m_auras := [{ ptr := 1, effects := [{ aura := 4, basePoints := 10 }] },
                { ptr := 2, effects := [{ aura := 8, basePoints := 50 }] },
                { ptr := 3, effects := [{ aura := 4, basePoints := 20 }] }],
    m_auraTypeCount := fun t => if t = 4 then 2 else if t = 8 then 1 else 0 }

/-- A visitor that returns "stop" on every effect and counts its calls. -/
def stopVisitor (calls : Nat) (_e : AuraEffect) : Bool × Nat := (false, calls + 1)

/-- The `multiple` of the callback of `consumeAbsorb` (line 241): the multiple
value of the effect, `1` when that is `0`. -/
def multipleOf (e : AuraEffect) : ℚ := if e.multiplevalue = 0 then 1 else e.multiplevalue

/-- Conversion of a number to `UInt32`: the integral part (`0` for a negative
value), modulo `2^32`.  For a `float` whose value cut towards zero is a
`UInt32` this is the conversion of C++, which is not defined for other
values. -/
def floatToUInt32 (q : ℚ) : Nat := ⌊q⌋₊ % 4294967296

/-- Rounding of a rational number to the nearest integer, to the even one of
its two neighbours when it lies halfway between them. -/
def roundHalfEven (x : ℚ) : ℤ :=
  if x - ⌊x⌋ < 1 / 2 then ⌊x⌋
  else if 1 / 2 < x - ⌊x⌋ then ⌊x⌋ + 1
  else if ⌊x⌋ % 2 = 0 then ⌊x⌋ else ⌊x⌋ + 1

/-- The exponent of the binary32 interval of `q`: `floor (log2 |q|)`, and
`-126` for zero and the subnormal numbers. -/
def f32Exponent (q : ℚ) : ℤ := max (Int.log 2 |q|) (-126)

/-- Rounding to binary32, the format of `float`, to nearest with ties to even
(the rounding of an IEEE 754 operation): the multiple of
`2 ^ (exponent - 23)` that is nearest to `q`.  The overflow to infinity is not
modelled: the result is the `float` for `|q| < 2^128`. -/
def roundF32 (q : ℚ) : ℚ :=
  (roundHalfEven (q / 2 ^ (f32Exponent q - 23)) : ℚ) * 2 ^ (f32Exponent q - 23)

/-- The `float` quotient `(float)ownerMana / multiple` of line 242: the
conversion of the `UInt32` and the division are binary32 operations, each
rounded on its own. -/
def f32Quotient (ownerMana : Nat) (e : AuraEffect) : ℚ :=
  roundF32 (roundF32 (ownerMana : ℚ) / multipleOf e)

/-- The `float` difference of `ownerMana -= (amount * multiple)` (lines 265 and
285) before it is converted back: `(float)ownerMana - (float)amount * multiple`
with the two conversions, the product and the difference each rounded to
binary32.  It can be negative. -/
def f32Difference (ownerMana amount : Nat) (e : AuraEffect) : ℚ :=
  roundF32 (roundF32 (ownerMana : ℚ) - roundF32 (roundF32 (amount : ℚ) * multipleOf e))

/-- The two `float` computations of `consumeAbsorb` are binary32 computations
followed by the conversion to `UInt32`: `manaShieldCapacity` is line 242 and
`manaAfter` is lines 265 and 285.  C++ defines that conversion when the value
cut towards zero is a `UInt32`, that is for a value above `-1` and below
`2^32`; nothing is assumed about the result for other values. -/
def FloatArithmetic (E : Env) : Prop :=
  (∀ mana e, -1 < f32Quotient mana e → f32Quotient mana e < 4294967296 →
    E.manaShieldCapacity mana e = ⌊f32Quotient mana e⌋₊)
  ∧ (∀ mana amount e, -1 < f32Difference mana amount e →
      f32Difference mana amount e < 4294967296 →
      E.manaAfter mana amount e = ⌊f32Difference mana amount e⌋₊)

/-- The environment of the concrete inputs with binary32 computations; a
value outside the range of `UInt32` is converted as by `floatToUInt32`. -/
def floatEnv : Env :=
  { demoEnv with
    manaShieldCapacity := fun mana e => floatToUInt32 (f32Quotient mana e)
    manaAfter := fun mana amount e => floatToUInt32 (f32Difference mana amount e) }

/-- The effect is an absorb effect for the school (the test of lines 234-238). -/
def absorbMatch (E : Env) (school : Nat) (e : AuraEffect) : Prop :=
  (e.aura = E.SchoolAbsorb ∨ e.aura = E.ManaShield) ∧ e.miscvaluea &&& school ≠ 0

instance (E : Env) (school : Nat) (e : AuraEffect) : Decidable (absorbMatch E school e) := by
  unfold absorbMatch; infer_instance

/-- The sum of `|base points|` over the absorb effects for the school in an
effect list. -/
def effectsCapacity (E : Env) (school : Nat) : List AuraEffect → Nat
  | [] => 0
  | e :: es =>
    (if absorbMatch E school e then e.basePoints.natAbs else 0) + effectsCapacity E school es

/-- The sum of `|base points|` over the absorb effects for the school of all
instances. -/
def capacitySum (E : Env) (school : Nat) : List AuraSpellSlot → Nat
  | [] => 0
  | x :: rest => effectsCapacity E school x.effects + capacitySum E school rest

/-- The local variables of `consumeAbsorb` before the loop (lines 221-223). -/
def absorbStart (E : Env) (c : AuraContainer) (damage : Nat) : AbsorbState :=
  { damage := damage, ownerMana := c.m_owner.getUInt32Value E.Power1 }

/-- The value of the local `consumable` of the callback of `consumeAbsorb` once
the mana cap is applied (lines 243-249), for the local `ownerMana` given. -/
def consumableOf (E : Env) (e : AuraEffect) (ownerMana : Nat) : Nat :=
  if e.aura = E.ManaShield then
    min (E.manaShieldCapacity ownerMana e) (e.basePoints.natAbs % 4294967296)
  else e.basePoints.natAbs % 4294967296

/-- A school absorb aura: 50 points for the school with mask 4 (fire). -/
def absorbAura : AuraSpellSlot :=
  { ptr := 10, spell := { id := 700, baseid := 700, rank := 1 }, caster := some 7,
    effects := [{ aura := 69, miscvaluea := 4, basePoints := 50 }] }

/-- The container of `demoOwner` after `demoAura3` and then `absorbAura` were
added: the absorb aura is the second instance. -/
def demoAbsorbState : AuraContainer :=
  afterAddAura demoEnv (afterAddAura demoEnv (AuraContainer.empty demoOwner) demoAura3 false)
    absorbAura false

/-- A school absorb aura for the school with mask 4 whose capacity is 0. -/
def zeroAbsorbAura : AuraSpellSlot :=
  { ptr := 11, spell := { id := 701, baseid := 701, rank := 1 }, caster := some 7,
    effects := [{ aura := 69, miscvaluea := 4, basePoints := 0 }] }

/-- The container of `demoOwner` after `demoAura3` and then `zeroAbsorbAura` were
added: the absorb aura is the second instance. -/
def zeroAbsorbState : AuraContainer :=
  afterAddAura demoEnv (afterAddAura demoEnv (AuraContainer.empty demoOwner) demoAura3 false)
    zeroAbsorbAura false

/-- The container after `consumeAbsorb`; the container itself when the call
aborts. -/
def afterConsumeAbsorb (E : Env) (c : AuraContainer) (damage school : Nat) : AuraContainer :=
  match consumeAbsorb E c damage school with
  | some (_, c') => c'
  | none => c

/-- A second school absorb aura for the school with mask 4, of 30 points. -/
def absorbAura2 : AuraSpellSlot :=
  { ptr := 12, spell := { id := 702, baseid := 702, rank := 1 }, caster := some 7,
    effects := [{ aura := 69, miscvaluea := 4, basePoints := 30 }] }

/-- The container of `demoOwner` after `absorbAura` and then `absorbAura2` were
added. -/
def twoAbsorbState : AuraContainer :=
  afterAddAura demoEnv (afterAddAura demoEnv (AuraContainer.empty demoOwner) absorbAura false)
    absorbAura2 false

/-- The absorptions of the log that were made by a `ManaShield` effect: the
ones at which `ownerMana` is lowered and `manaConsumed` is set (lines 263-267
and 283-287). -/
def manaShieldEvents (E : Env) (evs : List AbsorbEvent) : List AbsorbEvent :=
  evs.filter (fun ev => decide (ev.effect.aura = E.ManaShield))

/-- The product `amount * multiple` of lines 265 and 285 as a number, without
rounding. -/
def manaCost (ev : AbsorbEvent) : ℚ := (ev.subtrahend : ℚ) * multipleOf ev.effect

/-- The local `ownerMana` after the statements `ownerMana -= (amount * multiple)`
of the given absorptions, in order, starting from `mana`. -/
def manaAfterEvents (E : Env) (mana : Nat) (evs : List AbsorbEvent) : Nat :=
  evs.foldl (fun m ev => E.manaAfter m ev.subtrahend ev.effect) mana

/-- The same with the binary32 difference cut to its integral part at every
absorption. -/
def f32ManaAfterEvents (mana : Nat) (evs : List AbsorbEvent) : Nat :=
  evs.foldl (fun m ev => ⌊f32Difference m ev.subtrahend ev.effect⌋₊) mana

/-- Starting from `mana`, the binary32 difference of every one of the
absorptions is above `-1` and below `2^32`, so that its conversion to `UInt32`
is defined. -/
def InRangeEvents : Nat → List AbsorbEvent → Prop
  | _, [] => True
  | mana, ev :: evs =>
    (-1 < f32Difference mana ev.subtrahend ev.effect
      ∧ f32Difference mana ev.subtrahend ev.effect < 4294967296)
    ∧ InRangeEvents ⌊f32Difference mana ev.subtrahend ev.effect⌋₊ evs

/-- Starting from `mana`, the binary32 difference of every one of the
absorptions is a `UInt32` and is the difference `mana - amount * multiple`
without rounding. -/
def ExactEvents : Nat → List AbsorbEvent → Prop
  | _, [] => True
  | mana, ev :: evs =>
    ∃ n : ℕ, n < 4294967296 ∧ f32Difference mana ev.subtrahend ev.effect = (n : ℚ)
      ∧ (n : ℚ) = (mana : ℚ) - manaCost ev ∧ ExactEvents n evs

/-- What the loop of `consumeAbsorb` maintains about the locals `ownerMana` and
`manaConsumed`, for the mana `m0` read before the loop. -/
def ManaInv (E : Env) (m0 : Nat) (s : AbsorbState) : Prop :=
  (s.manaConsumed = true ↔ manaShieldEvents E s.events ≠ [])
  ∧ s.ownerMana = manaAfterEvents E m0 (manaShieldEvents E s.events)

/-- A unit with 10 mana (field 23) whose other fields read `0`. -/
def manaOwner : GameUnit := { getUInt32Value := fun i => if i = 23 then 10 else 0 }

/-- A mana shield effect for the school with mask 4: 100 points, 3/2 mana per
point of damage. -/
def shieldEffect : AuraEffect :=
  { aura := 97, miscvaluea := 4, basePoints := 100, multiplevalue := 3 / 2 }

/-- A mana shield aura with the effect `shieldEffect`. -/
def shieldAura : AuraSpellSlot :=
  { ptr := 13, spell := { id := 800, baseid := 800, rank := 1 }, caster := some 7,
    effects := [shieldEffect] }

/-- The container of `manaOwner` after `shieldAura` was added. -/
def shieldState : AuraContainer :=
  afterAddAura floatEnv (AuraContainer.empty manaOwner) shieldAura false

/-- A mana shield aura for the school with mask 4: 100 points, 2 mana per
point of damage. -/
def shieldAura2 : AuraSpellSlot :=
  { ptr := 14, spell := { id := 801, baseid := 801, rank := 1 }, caster := some 7,
    effects := [{ aura := 97, miscvaluea := 4, basePoints := 100, multiplevalue := 2 }] }

/-- The container of `manaOwner` after `shieldAura2` was added. -/
def shieldState2 : AuraContainer :=
  afterAddAura floatEnv (AuraContainer.empty manaOwner) shieldAura2 false

/-- A unit with 3 mana (field 23) whose other fields read `0`. -/
def manaOwner3 : GameUnit := { getUInt32Value := fun i => if i = 23 then 3 else 0 }

/-- A mana shield effect for the school with mask 4: 100 points, and the
multiple `0.3f`, the binary32 number nearest to `3/10`. -/
def shieldEffect03 : AuraEffect :=
  { aura := 97, miscvaluea := 4, basePoints := 100, multiplevalue := 5033165 / 16777216 }

/-- A mana shield aura with the effect `shieldEffect03`. -/
def shieldAura03 : AuraSpellSlot :=
  { ptr := 15, spell := { id := 802, baseid := 802, rank := 1 }, caster := some 7,
    effects := [shieldEffect03] }

/-- The container of `manaOwner3` after `shieldAura03` was added. -/
def shieldState03 : AuraContainer :=
  afterAddAura floatEnv (AuraContainer.empty manaOwner3) shieldAura03 false

/-- A mana shield effect for the school with mask 4: 100 points, and as
multiple the binary32 number nearest to `1/7`. -/
def shieldEffect7 : AuraEffect :=
  { aura := 97, miscvaluea := 4, basePoints := 100, multiplevalue := 9586981 / 67108864 }

/-- A mana shield aura with the effect `shieldEffect7`. -/
def shieldAura7 : AuraSpellSlot :=
  { ptr := 16, spell := { id := 803, baseid := 803, rank := 1 }, caster := some 7,
    effects := [shieldEffect7] }

/-- The container of `manaOwner3` after `shieldAura7` was added. -/
def shieldState7 : AuraContainer :=
  afterAddAura floatEnv (AuraContainer.empty manaOwner3) shieldAura7 false

/-- The callback of `getMaximumBasePoints` (lines 320-322): the threshold is
raised to the base points of the effect when these are above it, and the
iteration goes on. -/
def maximumVisitor (treshold : Int) (e : AuraEffect) : Bool × Int :=
  (true, if e.basePoints > treshold then e.basePoints else treshold)

/-- The loop of `getMaximumBasePoints` over the instances (lines 317-324). -/
def getMaximumBasePoints_loop (type : Nat) : List AuraSpellSlot → Int → Int
  | [], treshold => treshold
  | aura :: rest, treshold =>
    getMaximumBasePoints_loop type rest
      (forEachEffectOfType type maximumVisitor aura.effects treshold).2

/-- `AuraContainer::getMaximumBasePoints`: the threshold starts at `0`. -/
def getMaximumBasePoints (c : AuraContainer) (type : Nat) : Int :=
  getMaximumBasePoints_loop type c.m_auras 0

/-- The base points of the effects of a type over all instances, in list
order. -/
def basePointsOfType (type : Nat) (l : List AuraSpellSlot) : List Int :=
  ((allEffects l).filter (fun e => e.aura == type)).map (fun e => e.basePoints)

/-- The container of `demoOwner` after `demoAura4` was added: one effect of type
4 with base points `-5`, and one effect of type 8. -/
def negativeState : AuraContainer :=
  afterAddAura demoEnv (AuraContainer.empty demoOwner) demoAura4 false

/-- Modelled from the spec: the record type `AuraData` is declared outside the
files at hand; it holds the spell id, the caster guid, the item guid, the
maximum duration, the remaining time, the remaining charges, the stack count
and the array of base points, which is a function of the index here (the bound
of the array is not part of the model). -/
structure AuraData where
  spell : Nat := 0
  casterGuid : Nat := 0
  itemGuid : Nat := 0
  maxDuration : Nat := 0
  remainingTime : Nat := 0
  remainingCharges : Nat := 0
  stackCount : Nat := 0
  basePoints : Nat → Int := fun _ => 0

/-- The callback of `serializeAuraData` (lines 426-431): the base points of the
effect are stored at `effectIndex`, which is then increased. -/
def serializeVisitor (st : Nat × AuraData) (eff : AuraEffect) : Bool × (Nat × AuraData) :=
  (true, (st.1 + 1,
    { st.2 with basePoints := fun i => if i = st.1 then eff.basePoints else st.2.basePoints i }))

/-- Lines 417-431 of `serializeAuraData`: the record of one instance, built
from the default-constructed record `dflt`.  The caster of an instance is
identified by its guid. -/
def serializeAura (dflt : AuraData) (aura : AuraSpellSlot) : AuraData :=
  let data1 : AuraData := { dflt with spell := aura.spell.id }
  let data2 : AuraData :=
    match aura.caster with
    | some guid => { data1 with casterGuid := guid }
    | none => data1
  let data3 : AuraData :=
    { data2 with itemGuid := aura.itemGuid, maxDuration := aura.totalDuration,
                 remainingTime := aura.remainingTime,
                 remainingCharges := aura.remainingCharges, stackCount := aura.stackCount }
  (forEachEffect serializeVisitor aura.effects (0, data3)).2.2

/-- The loop of `serializeAuraData` (lines 411-435). -/
def serializeAuraData_loop (dflt : AuraData) : List AuraSpellSlot → List AuraData → List AuraData
  | [], out_data => out_data
  | aura :: rest, out_data =>
    if aura.passive || aura.channeled then serializeAuraData_loop dflt rest out_data
    else serializeAuraData_loop dflt rest (out_data ++ [serializeAura dflt aura])

/-- `AuraContainer::serializeAuraData`: the returned flag and `out_data`
afterwards.  The member function is `const`; it reads the container. -/
def serializeAuraData (dflt : AuraData) (c : AuraContainer) (_out_data : List AuraData) :
    Bool × List AuraData :=
  (true, serializeAuraData_loop dflt c.m_auras [])

/-- The record of an instance in the words of the specification: spell id,
caster guid when the caster is set, item guid, total duration, remaining time,
remaining charges, stack count, and at index `k` the base points of the `k`-th
effect.  What is not written is as in the default-constructed record. -/
def recordOf (dflt : AuraData) (aura : AuraSpellSlot) : AuraData :=
  { spell := aura.spell.id,
    casterGuid := aura.caster.getD dflt.casterGuid,
    itemGuid := aura.itemGuid,
    maxDuration := aura.totalDuration,
    remainingTime := aura.remainingTime,
    remainingCharges := aura.remainingCharges,
    stackCount := aura.stackCount,
    basePoints := fun k => (aura.effects[k]?.map (fun e => e.basePoints)).getD (dflt.basePoints k) }

/-- The part of an effect of a spell definition (`proto::SpellEffect`) that is
read: `type()`, `aura()`, `miscvaluea()` and `multiplevalue()`. -/
structure SpellEffect where
  type : Nat := 0
  aura : Nat := 0
  miscvaluea : Nat := 0
  multiplevalue : ℚ := 0
  deriving DecidableEq, Repr

/-- What `restoreAuraData` uses and is declared elsewhere: the lookup of a spell
definition by id (`getProject().spells.getById`), the effects of a definition,
the enumerator `spell_effects::ApplyAura`, whether the owner is in a world
instance, the lookup of a unit by guid in that instance (`findObjectByGUID`
followed by the cast to `GameUnit`; a unit is identified by its guid), and the
object that `make_shared<AuraSpellSlot>` yields for the record with the given
index, definition and item guid. -/
structure RestoreEnv where
  getById : Nat → Option SpellEntry
  effects : SpellEntry → List SpellEffect
  ApplyAura : Nat
  hasWorld : Bool
  findUnit : Nat → Option Nat
  makeSlot : Nat → SpellEntry → Nat → AuraSpellSlot

/-- Modelled from the spec: the setters `setInitialDuration`, `setStackCount`
and `setChargeCount` of `AuraSpellSlot` are not among the sources; they store
the remaining time, the stack count and the charge count (a `UInt8`) of the
record.  `setOwner` stores the owner, which the record of an instance does not
carry. -/
def restoreCounts (a : AuraSpellSlot) (d : AuraData) : AuraSpellSlot :=
  { a with remainingTime := d.remainingTime, stackCount := d.stackCount,
           remainingCharges := d.remainingCharges % 256 }

/-- Modelled from the spec: `AuraSpellSlot::setCaster` is not among the sources;
it stores the caster. -/
def setCaster (a : AuraSpellSlot) (caster : Nat) : AuraSpellSlot := { a with caster := some caster }

/-- Lines 463-471 of `restoreAuraData`: the caster that is found for a record,
`none` for the null pointer. -/
def restoreCaster (R : RestoreEnv) (d : AuraData) : Option Nat :=
  if R.hasWorld then R.findUnit d.casterGuid else none

/-- The loop of `restoreAuraData` over the effects of the definition (lines
480-487): an effect is created for every `ApplyAura` effect with an aura type,
with the base points at the running index. -/
def restoreEffects (R : RestoreEnv) (d : AuraData) : List SpellEffect → Nat → List AuraEffect
  | [], _ => []
  | spellEffect :: rest, effectIndex =>
    if spellEffect.type = R.ApplyAura ∧ spellEffect.aura ≠ 0 then
      { aura := spellEffect.aura, miscvaluea := spellEffect.miscvaluea,
        basePoints := d.basePoints effectIndex, multiplevalue := spellEffect.multiplevalue }
        :: restoreEffects R d rest (effectIndex + 1)
    else restoreEffects R d rest effectIndex

/-- Lines 455-487 of `restoreAuraData`: the instance that is built for the
record with index `k` whose spell id resolved to `entry`.  `addAuraEffect`
appends the effect to the effects of the instance. -/
def restoreAura (R : RestoreEnv) (k : Nat) (d : AuraData) (entry : SpellEntry) : AuraSpellSlot :=
  let aura1 : AuraSpellSlot := restoreCounts (R.makeSlot k entry d.itemGuid) d
  let aura2 : AuraSpellSlot :=
    match restoreCaster R d with
    | some caster => setCaster aura1 caster
    | none => aura1
  { aura2 with effects := aura2.effects ++ restoreEffects R d (R.effects entry) 0 }

/-- The loop of `restoreAuraData` over the records (lines 445-494), `k` being
the index of the first record of the list. -/
def restoreAuraData_loop (E : Env) (R : RestoreEnv) :
    List AuraData → Nat → AuraContainer → Option AuraContainer
  | [], _, c => some c
  | auraData :: rest, k, c =>
    match R.getById auraData.spell with
    | none => restoreAuraData_loop E R rest (k + 1) c
    | some spellEntry =>
      match addAura E c (restoreAura R k auraData spellEntry) true with
      | none => none
      | some (_, c') => restoreAuraData_loop E R rest (k + 1) c'

/-- `AuraContainer::restoreAuraData`: the returned flag and the container
afterwards. -/
def restoreAuraData (E : Env) (R : RestoreEnv) (c : AuraContainer) (data : List AuraData) :
    Option (Bool × AuraContainer) :=
  match restoreAuraData_loop E R data 0 c with
  | none => none
  | some c' => some (true, c')

/-- The instances of the records whose spell id resolves, in the order of the
records, `k` being the index of the first record of the list. -/
def resolvedAuras (R : RestoreEnv) : List AuraData → Nat → List AuraSpellSlot
  | [], _ => []
  | d :: rest, k =>
    match R.getById d.spell with
    | none => resolvedAuras R rest (k + 1)
    | some entry => restoreAura R k d entry :: resolvedAuras R rest (k + 1)

/-- A project with the one spell 700, which has one `ApplyAura` effect (type 6)
of aura type 69 for the school with mask 4, and a world instance in which the
unit with guid 7 is found and no other. -/
def demoRestoreEnv : RestoreEnv where
  getById := fun id => if id = 700 then some { id := 700, baseid := 700, rank := 1 } else none
  effects := fun _ => [{ type := 6, aura := 69, miscvaluea := 4 }]
  ApplyAura := 6
  hasWorld := true
  findUnit := fun guid => if guid = 7 then some 7 else none
  makeSlot := fun k entry itemGuid => { ptr := 100 + k, spell := entry, itemGuid := itemGuid }

/-- A snapshot of two records: one of the unknown spell 999, and one of spell
700 cast by the unit with guid 7. -/
def demoSnapshot : List AuraData :=
  [{ spell := 999, casterGuid := 7 },
   { spell := 700, casterGuid := 7, stackCount := 1, basePoints := fun _ => 50 }]

/-- A record of spell 700 whose caster guid 8 is not found in the world. -/
def lostCasterRecord : AuraData :=
  { spell := 700, casterGuid := 8, stackCount := 1, basePoints := fun _ => 50 }

/-- The container after `restoreAuraData`; the container itself when the call
aborts. -/
def afterRestore (E : Env) (R : RestoreEnv) (c : AuraContainer) (data : List AuraData) :
    AuraContainer :=
  match restoreAuraData E R c data with
  | some (_, c') => c'
  | none => c

/-- The local variables of `consumeAbsorb 1 school` on `shieldState` before the
loop. -/
def shieldStart : AbsorbState := absorbStart floatEnv shieldState 1

/-- Conversion of an `Int32` to `UInt32`: the value modulo `2^32`. -/
def int32ToUInt32 (v : Int) : Nat := (v % 4294967296).toNat

/-- What the spell effects of a cast use and is declared elsewhere: the
enumerators `hit_info::Miss`, `victim_state::Evades`, `IsImmune` and `Normal`,
`aura_type::PeriodicDamage`, `PeriodicHeal` and `PeriodicLeech`, the flag
`spell_attributes_ex_d::StackDotModifier`, and the member functions
`calculateEffectBasePoints` and `getSpellPointsTotal` of the cast, whose
results are taken as converted to `UInt32`.  `tickQuotient n m` is what
`remainingDamage / aura.getMaxTickCount()` of line 357 adds to the `UInt32`
`totalPoints` for `remainingDamage = n` and a tick count `m` other than `0`:
the type of `getMaxTickCount()` is declared elsewhere, and with it whether the
division is the signed or the unsigned one. -/
structure CastEnv where
  Miss : Nat
  Evades : Nat
  IsImmune : Nat
  Normal : Nat
  PeriodicDamage : Nat
  PeriodicHeal : Nat
  PeriodicLeech : Nat
  StackDotModifier : Nat
  calculateEffectBasePoints : SpellEffect → Nat
  getSpellPointsTotal : SpellEffect → Nat → Nat → Nat
  tickQuotient : Int → Int → Nat

/-- One target of a spell effect as the attack table reports it (`hitInfos[i]`,
`victimStates[i]`, `resists[i]`, a `float` that is an exact rational here),
with `isAlive()` and the aura container of the target unit. -/
structure SpellTarget where
  hitInfo : Nat
  victimState : Nat
  resist : ℚ
  alive : Bool
  auras : AuraContainer

/-- Lines 895-917 of `spellEffectDispel`: `totalPoints` and `spellFailed` for one
target. -/
def spellEffectDispel_points (K : CastEnv) (effect : SpellEffect) (t : SpellTarget) : Nat × Bool :=
  if t.hitInfo = K.Miss then (0, true)
  else if t.victimState = K.IsImmune then (0, true)
  else if t.victimState = K.Normal then
    if t.resist = 100 then (0, true) else (K.calculateEffectBasePoints effect, false)
  else (0, false)

/-- Lines 919-939 of `spellEffectDispel`, for one target: the container of the
target afterwards.  `totalPoints` is converted to the `bool` parameter
`dispelPositive`, and `count` has its default value `1`. -/
def spellEffectDispel_target (E : Env) (K : CastEnv) (effect : SpellEffect) (t : SpellTarget) :
    Option AuraContainer :=
  if (spellEffectDispel_points K effect t).2 then some t.auras
  else if t.alive then
    match removeAurasDueToDispel E t.auras effect.miscvaluea
        (decide ((spellEffectDispel_points K effect t).1 ≠ 0)) 1 with
    | none => none
    | some (_, c') => some c'
  else some t.auras

/-- The loop of `spellEffectDispel` over the targets (lines 890-951): the
containers of the targets afterwards. -/
def spellEffectDispel (E : Env) (K : CastEnv) (effect : SpellEffect) :
    List SpellTarget → Option (List AuraContainer)
  | [] => some []
  | t :: rest =>
    match spellEffectDispel_target E K effect t with
    | none => none
    | some c' =>
      match spellEffectDispel E K effect rest with
      | none => none
      | some cs => some (c' :: cs)

/-- The enumerators of the concrete casts; the effect points are 30 for every
effect, and the quotient of line 357 is the `Int32` one, cut towards zero. -/
def demoCastEnv : CastEnv where
  Miss := 1
  Evades := 2
  IsImmune := 3
  Normal := 0
  PeriodicDamage := 3
  PeriodicHeal := 8
  PeriodicLeech := 53
  StackDotModifier := 0x200
  calculateEffectBasePoints := fun _ => 30
  getSpellPointsTotal := fun _ spellPower _ => 30 + spellPower
  tickQuotient := fun n m => int32ToUInt32 (Int.tdiv n m)

/-- A living target that is hit normally with no resistance and carries the
auras of `demoState3`. -/
def demoTarget : SpellTarget :=
  { hitInfo := 0, victimState := 0, resist := 0, alive := true, auras := demoState3 }

/-- Enumerators and field indices that the effect handlers use and that are
declared elsewhere: `unit_fields::Bytes1`, `character_fields::CharacterBytes2`,
`aura_type::ModStealth`, `aura_type::WaterWalk`, and the base indices
`character_fields::ModDamageDonePos`, `ModDamageDoneNeg` and
`ModDamageDonePct`. -/
structure FieldEnv where
  Bytes1 : Nat
  CharacterBytes2 : Nat
  ModStealth : Nat
  WaterWalk : Nat
  ModDamageDonePos : Nat
  ModDamageDoneNeg : Nat
  ModDamageDonePct : Nat

/-- Byte `offset` of the 32-bit value `v`. -/
def byteOf (v offset : Nat) : Nat := (v / 256 ^ offset) % 256

/-- Modelled from the spec: `setByteValue` is not among the sources; it replaces
byte `offset` of the 32-bit field `index` by `value`. -/
def setByteValue (u : GameUnit) (index offset value : Nat) : GameUnit :=
  u.setUInt32Value index
    (u.getUInt32Value index - byteOf (u.getUInt32Value index) offset * 256 ^ offset
      + (value % 256) * 256 ^ offset)

/-- `AuraEffect::handleModStealth` (lines 141-163) on the target unit that owns
the container `c`: the fields of the unit afterwards.  `notifyStealthChanged`
writes no field. -/
def handleModStealth (F : FieldEnv) (isGameCharacter apply : Bool) (c : AuraContainer) :
    GameUnit :=
  if apply then
    let u1 := setByteValue c.m_owner F.Bytes1 2 0x02
    if isGameCharacter then
      u1.setUInt32Value F.CharacterBytes2 (u1.getUInt32Value F.CharacterBytes2 ||| 0x20)
    else u1
  else
    let u1 := setByteValue c.m_owner F.Bytes1 2 0x00
    if isGameCharacter then
      u1.setUInt32Value F.CharacterBytes2 (u1.getUInt32Value F.CharacterBytes2 &&& 0xFFFFFFDF)
    else u1

/-- `AuraEffect::handleWaterWalk` (lines 811-817): the pending movement flag
change that is set, `none` when none is set. -/
def handleWaterWalk (F : FieldEnv) (apply : Bool) (c : AuraContainer) : Option Bool :=
  if apply || !hasAura c F.WaterWalk then some apply else none

/-- The field indices and enumerators of the concrete inputs. -/
def demoFields : FieldEnv where
  Bytes1 := 138
  CharacterBytes2 := 239
  ModStealth := 16
  WaterWalk := 104
  ModDamageDonePos := 1185
  ModDamageDoneNeg := 1192
  ModDamageDonePct := 1199

/-- Modelled from the spec: the dispatch from `applyEffects` / `misapplyEffects`
of an instance to the handlers of its effects is not among the sources.  In
this environment the owner is a player character, and an instance with a
`ModStealth` effect runs `handleModStealth` after the slot field was written. -/
def stealthEnv : Env :=
  { demoEnv with
    applyEffects := fun aura restoration c =>
      if aura.hasEffect 16 then
        handleModStealth demoFields true true { c with m_owner := demoEnv.applyEffects aura restoration c }
      else demoEnv.applyEffects aura restoration c
    misapplyEffects := fun aura c =>
      if aura.hasEffect 16 then
        handleModStealth demoFields true false { c with m_owner := demoEnv.misapplyEffects aura c }
      else demoEnv.misapplyEffects aura c }

/-- A stealth aura of spell 900. -/
def stealthAura1 : AuraSpellSlot :=
  { ptr := 20, spell := { id := 900, baseid := 900, rank := 1 }, caster := some 7,
    effects := [{ aura := 16 }] }

/-- A stealth aura of another spell, 901. -/
def stealthAura2 : AuraSpellSlot :=
  { ptr := 21, spell := { id := 901, baseid := 901, rank := 1 }, caster := some 7,
    effects := [{ aura := 16 }] }

/-- The container of `demoOwner` after the two stealth auras were added. -/
def stealthState : AuraContainer :=
  afterAddAura stealthEnv (afterAddAura stealthEnv (AuraContainer.empty demoOwner) stealthAura1 false)
    stealthAura2 false

/-- What is observed of a container in the stealth scenario: the instances,
`hasAura(ModStealth)`, byte 2 of `Bytes1` and bit `0x20` of
`CharacterBytes2`. -/
def stealthView (c : AuraContainer) : List AuraSpellSlot × Bool × Nat × Nat :=
  (c.m_auras, hasAura c 16, byteOf (c.m_owner.getUInt32Value 138) 2,
    c.m_owner.getUInt32Value 239 &&& 0x20)

/-- Conversion of a `float` to `Int32` in exact arithmetic: the value is cut
towards zero.  Values outside the range of `Int32` are not wrapped. -/
def floatToInt32 (q : ℚ) : Int := if 0 ≤ q then ⌊q⌋ else ⌈q⌉

/-- The body of the loop of `AuraEffect::handleModDamageDone` (lines 109-117) for
one school whose bit is set in the mask: the fields of the unit afterwards.
`pct` is the value read by `getFloatValue(ModDamageDonePct + school)`; the
difference of the two `UInt32` fields wraps, and the `float` arithmetic is
exact rational arithmetic. -/
def handleModDamageDone_school (F : FieldEnv) (pct : ℚ) (apply : Bool) (basePoints : Int)
    (school : Nat) (u : GameUnit) : GameUnit :=
  let spellDmgPos : Nat := u.getUInt32Value (F.ModDamageDonePos + school)
  let spellDmgNeg : Nat := u.getUInt32Value (F.ModDamageDoneNeg + school)
  let difference : Nat := (spellDmgPos % 4294967296 + 4294967296 - spellDmgNeg % 4294967296) % 4294967296
  let spellDmg : Int :=
    floatToInt32 ((difference : ℚ) * pct + (((if apply then basePoints else -basePoints) : Int) : ℚ))
  (u.setUInt32Value (F.ModDamageDonePos + school)
      (if spellDmg > 0 then int32ToUInt32 spellDmg else 0)).setUInt32Value
    (F.ModDamageDoneNeg + school) (if spellDmg < 0 then int32ToUInt32 spellDmg else 0)

/-- `AuraEffect::handleModDamageDone` (lines 98-120): the fields of the target
afterwards.  `pct school` is the `float` field `ModDamageDonePct + school` of
the target, which the handler does not write. -/
def handleModDamageDone (F : FieldEnv) (isGameCharacter : Bool) (pct : Nat → ℚ) (apply : Bool)
    (e : AuraEffect) (u : GameUnit) : GameUnit :=
  if !isGameCharacter then u
  else
    [1, 2, 3, 4, 5, 6].foldl
      (fun u school =>
        if e.miscvaluea &&& (1 <<< school) ≠ 0 then
          handleModDamageDone_school F (pct school) apply e.basePoints school u
        else u) u

/-- A `ModDamageDone` effect (aura type 13) of `-10` points for school 1 (mask
bit 1). -/
def damageDoneEffect : AuraEffect := { aura := 13, miscvaluea := 2, basePoints := -10 }

/-- The statements of the `switch` of `spellEffectApplyAura` (lines 293-301), in
source order: the assignment under the three `case` labels, and the assignment
under `default`.  There is no `break`. -/
def switchAssignments : List Bool := [true, false]

/-- The statement the `switch` jumps to: the first one for the three periodic
aura types, the one under `default` otherwise. -/
def switchEntry (K : CastEnv) (aura : Nat) : Nat :=
  if aura = K.PeriodicDamage ∨ aura = K.PeriodicHeal ∨ aura = K.PeriodicLeech then 0 else 1

/-- The local `modifiedByBonus` after the `switch`: the statements from the
entry on are executed in order.  `none` stands for the variable that was never
assigned. -/
def modifiedByBonus (K : CastEnv) (aura : Nat) : Option Bool :=
  (switchAssignments.drop (switchEntry K aura)).foldl (fun _ value => some value) none

/-- What the callback of lines 350-360 reads of a `PeriodicDamage` effect of the
target: the spell id of its instance, its base points and its tick counters.
The callback returns true on every effect, so `forEachAuraOfType` passes all
`PeriodicDamage` effects of the target to it, in order. -/
structure PeriodicEffect where
  spellId : Nat
  basePoints : Int
  tickCount : Int
  maxTickCount : Int
  deriving DecidableEq, Repr

/-- The callback of lines 350-360 on one effect: `totalPoints` afterwards.  For
an effect of the spell being cast the quotient of line 357 is added, the sum
wrapping as a `UInt32`; when `getMaxTickCount()` is `0` the division is one by
zero and there is no value (`none`).  An overflow of the `Int32` product is
not modelled. -/
def stackDotVisitor (K : CastEnv) (spellId : Nat) (totalPoints : Nat) (aura : PeriodicEffect) :
    Option Nat :=
  if aura.spellId = spellId then
    if aura.maxTickCount = 0 then none
    else
      some ((totalPoints
        + K.tickQuotient (aura.basePoints * (aura.maxTickCount - aura.tickCount)) aura.maxTickCount)
        % 4294967296)
  else some totalPoints

/-- The call of `forEachAuraOfType` of line 350 on the `PeriodicDamage` effects
of the target: the callback runs on each of them in order; `totalPoints`
afterwards, or `none` when one of the divisions is by zero. -/
def stackDotPoints (K : CastEnv) (spellId : Nat) : List PeriodicEffect → Nat → Option Nat
  | [], totalPoints => some totalPoints
  | aura :: rest, totalPoints =>
    match stackDotVisitor K spellId totalPoints aura with
    | none => none
    | some totalPoints1 => stackDotPoints K spellId rest totalPoints1

/-- The numbers of `game::spell_miss_info` that `spellEffectApplyAura` assigns. -/
inductive SpellMissInfo where
  | None
  | Miss
  | Evade
  | Immune
  | Resist
  deriving DecidableEq, Repr

/-- Lines 312-362 of `spellEffectApplyAura` for one target: `totalPoints` and
`missInfo`.  `spellId` and `attributes4` are `m_spell.id()` and
`m_spell.attributes(4)`, `spellPower` and `spellBonusPct` are the bonus values
of the caster for the school, and `dots` are the `PeriodicDamage` effects of
the target.  The result is `none` when `modifiedByBonus` is read without having
been assigned, and when the callback of line 350 divides by zero. -/
def spellEffectApplyAura_points (K : CastEnv) (spellId attributes4 : Nat) (effect : SpellEffect)
    (spellPower spellBonusPct : Nat) (t : SpellTarget) (dots : List PeriodicEffect) :
    Option (Nat × SpellMissInfo) :=
  if t.hitInfo = K.Miss then some (0, SpellMissInfo.Miss)
  else if t.victimState = K.Evades then some (0, SpellMissInfo.Evade)
  else if t.victimState = K.IsImmune then some (0, SpellMissInfo.Immune)
  else if t.victimState = K.Normal then
    if t.resist = 100 then some (0, SpellMissInfo.Resist)
    else
      match modifiedByBonus K effect.aura with
      | none => none
      | some flag =>
        let totalPoints1 : Nat :=
          if flag then
            floatToUInt32 ((K.getSpellPointsTotal effect spellPower spellBonusPct : ℚ)
              - (K.getSpellPointsTotal effect spellPower spellBonusPct : ℚ) * (t.resist / 100))
          else K.calculateEffectBasePoints effect
        if effect.aura = K.PeriodicDamage ∧ attributes4 &&& K.StackDotModifier ≠ 0 then
          (stackDotPoints K spellId dots totalPoints1).map (fun p => (p, SpellMissInfo.None))
        else some (totalPoints1, SpellMissInfo.None)
  else some (0, SpellMissInfo.None)

/-- A periodic damage effect (aura type 3) of a spell. -/
def dotEffect : SpellEffect := { type := 6, aura := 3 }

/-- A `PeriodicDamage` effect of spell 1 on the target: 10 points per tick, 4
ticks, none of them done. -/
def runningDot : PeriodicEffect := { spellId := 1, basePoints := 10, tickCount := 0, maxTickCount := 4 }

/-- The number of entries of the list that are the instance with identity `p`. -/
def ptrCount (p : Nat) (l : List AuraSpellSlot) : Nat := l.countP (fun x => x.ptr == p)

/-- The handler log read from the start for the instance with identity `p`,
with `n` applications of `p` open: an `applyEffects` on `p` opens an
application, a `misapplyEffects` on `p` closes one and is an error (`none`)
when none is open.  The result is the number of applications left open. -/
def pairing (p : Nat) : List HandlerCall → Nat → Option Nat
  | [], n => some n
  | HandlerCall.applyEffects x _ :: rest, n => pairing p rest (if x.ptr = p then n + 1 else n)
  | HandlerCall.misapplyEffects x :: rest, n =>
    if x.ptr = p then (if n = 0 then none else pairing p rest (n - 1)) else pairing p rest n

/-- The number of `applyEffects` calls of the log on the instance `p`. -/
def applyCount (p : Nat) : List HandlerCall → Nat
  | [] => 0
  | HandlerCall.applyEffects x _ :: rest => (if x.ptr = p then 1 else 0) + applyCount p rest
  | HandlerCall.misapplyEffects _ :: rest => applyCount p rest

/-- The number of `misapplyEffects` calls of the log on the instance `p`. -/
def misapplyCount (p : Nat) : List HandlerCall → Nat
  | [] => 0
  | HandlerCall.applyEffects _ _ :: rest => misapplyCount p rest
  | HandlerCall.misapplyEffects x :: rest => (if x.ptr = p then 1 else 0) + misapplyCount p rest

/-- The log of the container is well paired for every instance, and the open
applications of an instance are its entries in the list. -/
def Paired (c : AuraContainer) : Prop :=
  ∀ p, pairing p c.calls 0 = some (ptrCount p c.m_auras)

/-- The container of `demoState3` after `handleTargetDeath`: the two instances
that are not death persistent were removed and unapplied. -/
def demoStateDeath : AuraContainer :=
  match handleTargetDeath demoEnv demoState3 with
  | some c' => c'
  | none => demoState3

/-! ## Counters -/

theorem countEffects_cons (T : Nat) (e : AuraEffect) (es : List AuraEffect) :
    countEffects T (e :: es) = countEffects T es + (if e.aura = T then 1 else 0) := by
  simp [countEffects, List.countP_cons]

theorem effectCount_append (T : Nat) (l₁ l₂ : List AuraSpellSlot) :
    effectCount T (l₁ ++ l₂) = effectCount T l₁ + effectCount T l₂ := by
  induction l₁ with
  | nil => simp [effectCount]
  | cons a rest ih => simp [effectCount, ih, Nat.add_assoc]

theorem effectCount_singleton (T : Nat) (a : AuraSpellSlot) :
    effectCount T [a] = countEffects T a.effects := by
  simp [effectCount]

theorem increaseCounters_apply (cnt : Nat → Nat) (es : List AuraEffect) (T : Nat) :
    increaseCounters cnt es T = cnt T + countEffects T es := by
  induction es generalizing cnt with
  | nil => simp [increaseCounters, countEffects]
  | cons e es ih =>
    rw [increaseCounters, ih, countEffects_cons]
    by_cases h : T = e.aura
    · subst h; simp; omega
    · have h' : ¬ e.aura = T := fun h2 => h h2.symm
      simp [h, h']

theorem reduceCounters_of_le (cnt : Nat → Nat) (es : List AuraEffect)
    (h : ∀ T, countEffects T es ≤ cnt T) :
    ∃ cnt', reduceCounters cnt es = some cnt' ∧ ∀ T, cnt' T = cnt T - countEffects T es := by
  induction es generalizing cnt with
  | nil => exact ⟨cnt, rfl, by simp [countEffects]⟩
  | cons e es ih =>
    have hpos : 0 < cnt e.aura := by
      have := h e.aura
      rw [countEffects_cons] at this
      simp at this
      omega
    have hle : ∀ T, countEffects T es ≤ (fun t => if t = e.aura then cnt t - 1 else cnt t) T := by
      intro T
      have := h T
      rw [countEffects_cons] at this
      by_cases hT : T = e.aura
      · subst hT; simp at this ⊢; omega
      · have h' : ¬ e.aura = T := fun h2 => hT h2.symm
        simp [hT, h'] at this ⊢; exact this
    obtain ⟨cnt', h1, h2⟩ := ih _ hle
    refine ⟨cnt', ?_, ?_⟩
    · simp [reduceCounters, hpos, h1]
    · intro T
      rw [h2 T, countEffects_cons]
      by_cases hT : T = e.aura
      · subst hT; simp; omega
      · have h' : ¬ e.aura = T := fun h2 => hT h2.symm
        simp [hT, h']

theorem reduceCounters_some_le (cnt cnt' : Nat → Nat) (es : List AuraEffect)
    (h : reduceCounters cnt es = some cnt') (T : Nat) :
    countEffects T es ≤ cnt T ∧ cnt' T = cnt T - countEffects T es := by
  induction es generalizing cnt with
  | nil =>
    simp [reduceCounters] at h
    subst h
    simp [countEffects]
  | cons e es ih =>
    rw [reduceCounters] at h
    by_cases hpos : 0 < cnt e.aura
    · rw [if_pos hpos] at h
      have := ih _ h
      rw [countEffects_cons]
      by_cases hT : T = e.aura
      · subst hT; simp at this ⊢; omega
      · have h' : ¬ e.aura = T := fun h2 => hT h2.symm
        simp [hT, h'] at this ⊢; exact this
    · rw [if_neg hpos] at h
      exact absurd h (by simp)

/-! ## Removal of one instance -/

theorem getElem?_split {α : Type} (pre suf : List α) (x : α) :
    (pre ++ x :: suf)[pre.length]? = some x := by
  rw [List.getElem?_append_right (Nat.le_refl _)]
  simp

theorem eraseIdx_split {α : Type} (pre suf : List α) (x : α) :
    (pre ++ x :: suf).eraseIdx pre.length = pre ++ suf := by
  rw [List.eraseIdx_append_of_length_le (Nat.le_refl _)]
  simp

theorem split_of_getElem? {α : Type} (l : List α) (i : Nat) (x : α) (h : l[i]? = some x) :
    l = l.take i ++ x :: l.drop (i + 1) ∧ (l.take i).length = i := by
  have hlt : i < l.length := by
    rcases Nat.lt_or_ge i l.length with h1 | h1
    · exact h1
    · rw [List.getElem?_eq_none h1] at h; exact absurd h (by simp)
  have hx : l[i] = x := by
    rw [List.getElem?_eq_getElem hlt] at h
    exact Option.some.inj h
  constructor
  · rw [← hx, ← List.drop_eq_getElem_cons hlt, List.take_append_drop]
  · simp [List.length_take]; omega

theorem removeAura_detach_split (c : AuraContainer) (pre suf : List AuraSpellSlot) (x : AuraSpellSlot)
    (hl : c.m_auras = pre ++ x :: suf) (hc : CountersOk c) :
    ∃ cnt, removeAura_detach c pre.length
        = some (x, { c with m_auras := pre ++ suf, m_auraTypeCount := cnt })
      ∧ ∀ T, cnt T = effectCount T (pre ++ suf) := by
  have hle : ∀ T, countEffects T x.effects ≤ c.m_auraTypeCount T := by
    intro T
    rw [hc T, hl, effectCount_append]
    simp [effectCount]
    omega
  obtain ⟨cnt, h1, h2⟩ := reduceCounters_of_le _ _ hle
  refine ⟨cnt, ?_, ?_⟩
  · simp only [removeAura_detach, hl, getElem?_split, eraseIdx_split]
    rw [h1]
  · intro T
    rw [h2 T, hc T, hl, effectCount_append, effectCount_append]
    simp [effectCount]
    omega

theorem removeAura_split (E : Env) (c : AuraContainer) (pre suf : List AuraSpellSlot)
    (x : AuraSpellSlot) (hl : c.m_auras = pre ++ x :: suf) (hc : CountersOk c) :
    ∃ c2, removeAura_detach c pre.length = some (x, c2)
      ∧ removeAura E c pre.length = some (misapply E x c2)
      ∧ c2.m_auras = pre ++ suf ∧ CountersOk c2
      ∧ c2.m_owner = c.m_owner ∧ c2.calls = c.calls := by
  obtain ⟨cnt, h1, h2⟩ := removeAura_detach_split c pre suf x hl hc
  refine ⟨_, h1, ?_, rfl, ?_, rfl, rfl⟩
  · simp [removeAura, h1]
  · intro T; exact h2 T

theorem misapply_m_auras (E : Env) (x : AuraSpellSlot) (c : AuraContainer) :
    (misapply E x c).m_auras = c.m_auras := rfl

theorem misapply_counters (E : Env) (x : AuraSpellSlot) (c : AuraContainer) :
    (misapply E x c).m_auraTypeCount = c.m_auraTypeCount := rfl

theorem misapply_calls (E : Env) (x : AuraSpellSlot) (c : AuraContainer) :
    (misapply E x c).calls = c.calls ++ [HandlerCall.misapplyEffects x] := rfl

theorem misapply_CountersOk (E : Env) (x : AuraSpellSlot) (c : AuraContainer) (h : CountersOk c) :
    CountersOk (misapply E x c) := h

/-- The removal loop, started at the end of `pre` with `suf` still to visit:
it returns, keeps `pre`, removes from `suf` exactly the instances that satisfy
`p`, keeps the counters consistent and unapplies the removed instances in list
order. -/
theorem removeLoop_split (E : Env) (p : AuraSpellSlot → Bool) (suf : List AuraSpellSlot) :
    ∀ (fuel : Nat) (pre : List AuraSpellSlot) (c : AuraContainer),
      c.m_auras = pre ++ suf → CountersOk c → suf.length ≤ fuel →
      ∃ c', removeLoop E p fuel pre.length c = some c'
        ∧ c'.m_auras = pre ++ suf.filter (fun x => !p x)
        ∧ CountersOk c'
        ∧ c'.calls = c.calls ++ (suf.filter p).map HandlerCall.misapplyEffects := by
  induction suf with
  | nil =>
    intro fuel pre c hl hc _
    refine ⟨c, ?_, by simpa using hl, hc, by simp⟩
    cases fuel with
    | zero => simp [removeLoop, hl]
    | succ n =>
      have : c.m_auras[pre.length]? = none := by
        rw [hl]; simp
      simp [removeLoop, this]
  | cons x suf ih =>
    intro fuel pre c hl hc hf
    cases fuel with
    | zero => simp at hf
    | succ n =>
      have hn : suf.length ≤ n := by simpa using hf
      have hget : c.m_auras[pre.length]? = some x := by rw [hl]; exact getElem?_split pre suf x
      by_cases hp : p x = true
      · obtain ⟨c2, _, h2, h3, h4, _, h6⟩ := removeAura_split E c pre suf x hl hc
        obtain ⟨c', k1, k2, k3, k4⟩ := ih n pre (misapply E x c2) h3 h4 hn
        refine ⟨c', ?_, ?_, k3, ?_⟩
        · simp only [removeLoop, hget, hp, if_true, h2]
          exact k1
        · simp [k2, hp]
        · rw [k4, misapply_calls, h6]
          simp [hp]
      · have hl' : c.m_auras = (pre ++ [x]) ++ suf := by simp [hl]
        obtain ⟨c', k1, k2, k3, k4⟩ := ih n (pre ++ [x]) c hl' hc hn
        refine ⟨c', ?_, ?_, k3, ?_⟩
        · simp only [removeLoop, hget, hp]
          simpa using k1
        · simp [k2, hp]
        · simp [k4, hp]

/-- The removal loop from the beginning of the list. -/
theorem removeLoop_begin (E : Env) (p : AuraSpellSlot → Bool) (c : AuraContainer)
    (hc : CountersOk c) :
    ∃ c', removeLoop E p c.m_auras.length 0 c = some c'
      ∧ c'.m_auras = c.m_auras.filter (fun x => !p x)
      ∧ CountersOk c'
      ∧ c'.calls = c.calls ++ (c.m_auras.filter p).map HandlerCall.misapplyEffects := by
  simpa using removeLoop_split E p c.m_auras c.m_auras.length [] c rfl hc (Nat.le_refl _)

theorem removeAura_of_getElem? (E : Env) (c : AuraContainer) (it : Nat) (x : AuraSpellSlot)
    (hx : c.m_auras[it]? = some x) (hc : CountersOk c) :
    ∃ c2, removeAura_detach c it = some (x, c2)
      ∧ removeAura E c it = some (misapply E x c2)
      ∧ c2.m_auras = c.m_auras.eraseIdx it ∧ CountersOk c2
      ∧ c2.m_owner = c.m_owner ∧ c2.calls = c.calls := by
  obtain ⟨hl, hlen⟩ := split_of_getElem? c.m_auras it x hx
  have h := removeAura_split E c _ _ x hl hc
  rw [hlen] at h
  obtain ⟨c2, h1, h2, h3, h4, h5, h6⟩ := h
  exact ⟨c2, h1, h2, by rw [h3, List.eraseIdx_eq_take_drop_succ], h4, h5, h6⟩

theorem removeAura_some (E : Env) (c c' : AuraContainer) (it : Nat)
    (h : removeAura E c it = some c') :
    ∃ x, c.m_auras[it]? = some x := by
  unfold removeAura removeAura_detach at h
  cases hx : c.m_auras[it]? with
  | none => rw [hx] at h; simp at h
  | some x => exact ⟨x, rfl⟩

theorem removeAura_CountersOk (E : Env) (c c' : AuraContainer) (it : Nat)
    (h : removeAura E c it = some c') (hc : CountersOk c) : CountersOk c' := by
  obtain ⟨x, hx⟩ := removeAura_some E c c' it h
  obtain ⟨c2, _, h2, _, h4, _, _⟩ := removeAura_of_getElem? E c it x hx hc
  rw [h2] at h
  cases h
  exact h4

theorem removeLoop_CountersOk (E : Env) (p : AuraSpellSlot → Bool) (c c' : AuraContainer)
    (h : removeLoop E p c.m_auras.length 0 c = some c') (hc : CountersOk c) : CountersOk c' := by
  obtain ⟨c2, h1, _, h3, _⟩ := removeLoop_begin E p c hc
  rw [h1] at h
  cases h
  exact h3

/-! ## The dispel loop -/

theorem dispelLoop_split (E : Env) (dispelType : Nat) (dispelPositive : Bool) (count : Nat)
    (suf : List AuraSpellSlot) :
    ∀ (fuel : Nat) (pre : List AuraSpellSlot) (n : Nat) (c : AuraContainer),
      c.m_auras = pre ++ suf → CountersOk c → suf.length ≤ fuel →
      ∃ r, dispelLoop E dispelType dispelPositive count fuel pre.length n c = some r
        ∧ CountersOk r.2 := by
  induction suf with
  | nil =>
    intro fuel pre n c hl hc _
    refine ⟨(n, c), ?_, hc⟩
    cases fuel with
    | zero => simp [dispelLoop, hl]
    | succ k =>
      have : c.m_auras[pre.length]? = none := by rw [hl]; simp
      simp [dispelLoop, this]
  | cons x suf ih =>
    intro fuel pre n c hl hc hf
    cases fuel with
    | zero => simp at hf
    | succ k =>
      have hk : suf.length ≤ k := by simpa using hf
      have hget : c.m_auras[pre.length]? = some x := by rw [hl]; exact getElem?_split pre suf x
      by_cases hp : x.spell.dispel = dispelType ∧ x.positive = dispelPositive
      · obtain ⟨c2, _, h2, h3, h4, _, _⟩ := removeAura_split E c pre suf x hl hc
        by_cases hcount : count ≤ n + 1
        · refine ⟨(n + 1, misapply E x c2), ?_, h4⟩
          simp only [dispelLoop, hget, hp, and_self, if_true, h2, hcount]
        · obtain ⟨r, k1, k2⟩ := ih k pre (n + 1) (misapply E x c2) h3 h4 hk
          refine ⟨r, ?_, k2⟩
          simp only [dispelLoop, hget, hp, and_self, if_true, h2, hcount, if_false]
          exact k1
      · have hl' : c.m_auras = (pre ++ [x]) ++ suf := by simp [hl]
        obtain ⟨r, k1, k2⟩ := ih k (pre ++ [x]) n c hl' hc hk
        refine ⟨r, ?_, k2⟩
        simp only [dispelLoop, hget, hp, if_false]
        simpa using k1

theorem removeAurasDueToDispel_CountersOk (E : Env) (c : AuraContainer) (dispelType : Nat)
    (dispelPositive : Bool) (count : Nat) (r : Nat × AuraContainer)
    (h : removeAurasDueToDispel E c dispelType dispelPositive count = some r)
    (hc : CountersOk c) : CountersOk r.2 := by
  unfold removeAurasDueToDispel at h
  split at h
  · simp at h
  · obtain ⟨r', h1, h2⟩ :=
      dispelLoop_split E dispelType dispelPositive count c.m_auras c.m_auras.length [] 0 c
        (by simp) hc (Nat.le_refl _)
    simp only [List.length_nil] at h1
    rw [h1] at h
    cases h
    exact h2

/-! ## The absorb loop -/

theorem consumeAbsorb_effect_aura (E : Env) (school : Nat) (e : AuraEffect) (s : AbsorbState) :
    (consumeAbsorb_effect E school e s).2.1.aura = e.aura := by
  unfold consumeAbsorb_effect
  dsimp only
  split_ifs <;> rfl

theorem consumeAbsorb_effects_count (E : Env) (school T : Nat) (es : List AuraEffect) :
    ∀ s : AbsorbState, countEffects T (consumeAbsorb_effects E school es s).1 = countEffects T es := by
  induction es with
  | nil => intro s; rfl
  | cons e es ih =>
    intro s
    have ha := consumeAbsorb_effect_aura E school e s
    unfold consumeAbsorb_effects
    rcases hr : consumeAbsorb_effect E school e s with ⟨b, e', s'⟩
    rw [hr] at ha
    simp only at ha
    cases b with
    | true =>
      simp only
      rcases hr2 : consumeAbsorb_effects E school es s' with ⟨es', s''⟩
      have := ih s'
      rw [hr2] at this
      simp only at this ⊢
      rw [countEffects_cons, countEffects_cons, this, ha]
    | false =>
      simp only
      rw [countEffects_cons, countEffects_cons, ha]

theorem set_split {α : Type} (pre suf : List α) (x y : α) :
    (pre ++ x :: suf).set pre.length y = pre ++ y :: suf := by
  rw [List.set_append_right _ _ (Nat.le_refl _)]
  simp

theorem effectCount_replace (T : Nat) (pre suf : List AuraSpellSlot) (x y : AuraSpellSlot)
    (h : countEffects T y.effects = countEffects T x.effects) :
    effectCount T (pre ++ y :: suf) = effectCount T (pre ++ x :: suf) := by
  simp [effectCount_append, effectCount, h]

theorem consumeAbsorb_loop_split (E : Env) (school : Nat) (suf : List AuraSpellSlot) :
    ∀ (fuel : Nat) (pre : List AuraSpellSlot) (s : AbsorbState) (c : AuraContainer),
      c.m_auras = pre ++ suf → CountersOk c → suf.length ≤ fuel →
      ∃ r, consumeAbsorb_loop E school fuel pre.length s c = some r ∧ CountersOk r.2 := by
  induction suf with
  | nil =>
    intro fuel pre s c hl hc _
    refine ⟨(s, c), ?_, hc⟩
    cases fuel with
    | zero => simp [consumeAbsorb_loop, hl]
    | succ k =>
      have : c.m_auras[pre.length]? = none := by rw [hl]; simp
      simp [consumeAbsorb_loop, this]
  | cons x suf ih =>
    intro fuel pre s c hl hc hf
    cases fuel with
    | zero => simp at hf
    | succ k =>
      have hk : suf.length ≤ k := by simpa using hf
      have hget : c.m_auras[pre.length]? = some x := by rw [hl]; exact getElem?_split pre suf x
      rcases hr : consumeAbsorb_effects E school x.effects { s with shouldRemove := false }
        with ⟨es', s'⟩
      have hcnt : ∀ T, countEffects T es' = countEffects T x.effects := by
        intro T
        have := consumeAbsorb_effects_count E school T x.effects { s with shouldRemove := false }
        rw [hr] at this
        exact this
      obtain ⟨x', hx'⟩ : ∃ x' : AuraSpellSlot, x' = { x with effects := es' } := ⟨_, rfl⟩
      obtain ⟨c1, hc1def⟩ : ∃ c1 : AuraContainer,
          c1 = { c with m_auras := c.m_auras.set pre.length x' } := ⟨_, rfl⟩
      have hl1 : c1.m_auras = pre ++ x' :: suf := by
        rw [hc1def]
        show c.m_auras.set pre.length x' = _
        rw [hl]; exact set_split pre suf x _
      have hc1 : CountersOk c1 := by
        intro T
        rw [hl1, effectCount_replace T pre suf x x' (by rw [hx']; exact hcnt T), ← hl, hc1def]
        exact hc T
      have hstep : consumeAbsorb_loop E school (k + 1) pre.length s c =
          if s'.shouldRemove = true then
            match removeAura E c1 pre.length with
            | none => none
            | some c2 =>
              if s'.damage = 0 then some (s', c2) else consumeAbsorb_loop E school k pre.length s' c2
          else if s'.damage = 0 then some (s', c1)
          else consumeAbsorb_loop E school k (pre.length + 1) s' c1 := by
        simp only [consumeAbsorb_loop, hget, hr, hc1def, hx']
      rw [hstep]
      by_cases hrem : s'.shouldRemove = true
      · obtain ⟨c2, _, h2, h3, h4, _, _⟩ := removeAura_split E c1 pre suf x' hl1 hc1
        rw [if_pos hrem, h2]
        by_cases hd : s'.damage = 0
        · exact ⟨(s', misapply E x' c2), by simp [hd], h4⟩
        · obtain ⟨r, k1, k2⟩ := ih k pre s' (misapply E x' c2) h3 h4 hk
          exact ⟨r, by simp only [hd, if_false]; exact k1, k2⟩
      · rw [if_neg hrem]
        by_cases hd : s'.damage = 0
        · exact ⟨(s', c1), by simp [hd], hc1⟩
        · have hl' : c1.m_auras = (pre ++ [x']) ++ suf := by simp [hl1]
          obtain ⟨r, k1, k2⟩ := ih k (pre ++ [x']) s' c1 hl' hc1 hk
          refine ⟨r, ?_, k2⟩
          rw [if_neg hd]
          simpa using k1

theorem consumeAbsorb_CountersOk (E : Env) (c : AuraContainer) (damage school : Nat)
    (r : Nat × AuraContainer) (h : consumeAbsorb E c damage school = some r)
    (hc : CountersOk c) : CountersOk r.2 := by
  obtain ⟨r', h1, h2⟩ :=
    consumeAbsorb_loop_split E school c.m_auras c.m_auras.length []
      { damage := damage, ownerMana := c.m_owner.getUInt32Value E.Power1 } c (by simp) hc
      (Nat.le_refl _)
  simp only [List.length_nil] at h1
  unfold consumeAbsorb at h
  rw [h1] at h
  rcases r' with ⟨s, c'⟩
  simp only at h h2
  split at h
  · cases h; exact h2
  · cases h; exact h2

/-! ## Insertion of the new aura -/

theorem effectCount_set (T : Nat) (l : List AuraSpellSlot) (it : Nat) (x y : AuraSpellSlot)
    (hx : l[it]? = some x) (h : countEffects T y.effects = countEffects T x.effects) :
    effectCount T (l.set it y) = effectCount T l := by
  obtain ⟨hl, hlen⟩ := split_of_getElem? l it x hx
  have h1 : l.set it y = l.take it ++ y :: l.drop (it + 1) := by
    conv_lhs => rw [hl]
    have := set_split (l.take it) (l.drop (it + 1)) x y
    rw [hlen] at this
    exact this
  rw [h1, effectCount_replace T _ _ x y h, ← hl]

theorem addAura_insert_some (E : Env) (c c' : AuraContainer) (aura : AuraSpellSlot)
    (restoration b : Bool) (h : addAura_insert E c aura restoration = some (b, c'))
    (hc : CountersOk c) :
    b = true ∧ c'.m_auras = afterCleanup E aura c.m_auras ++ [aura] ∧ CountersOk c'
      ∧ c'.calls = c.calls ++ (cleanedUp E aura c.m_auras).map HandlerCall.misapplyEffects
          ++ [HandlerCall.applyEffects aura restoration] := by
  have key : ∀ c1 : AuraContainer, CountersOk c1 →
      CountersOk (addAura_apply E c1 aura restoration) := by
    intro c1 h1 T
    show increaseCounters c1.m_auraTypeCount aura.effects T = effectCount T (c1.m_auras ++ [aura])
    rw [increaseCounters_apply, effectCount_append, effectCount_singleton, h1 T]
  unfold addAura_insert at h
  by_cases hss : aura.hasEffect E.ModShapeShift = true
  · simp only [hss, if_true] at h
    unfold removeAurasByType at h
    by_cases h0 : E.ModShapeShift = 0
    · simp [h0] at h
    · simp only [h0, if_false] at h
      obtain ⟨c1, k1, k2, k3, k4⟩ := removeLoop_begin E (fun x => x.hasEffect E.ModShapeShift) c hc
      rw [k1] at h
      simp only [Option.some.injEq, Prod.mk.injEq] at h
      obtain ⟨hb, hc'⟩ := h
      subst hc'
      refine ⟨hb.symm, ?_, key c1 k3, ?_⟩
      · simp [afterCleanup, hss, k2, addAura_apply]
      · simp [cleanedUp, hss, k4, addAura_apply]
  · rw [if_neg hss] at h
    simp only [Option.some.injEq, Prod.mk.injEq] at h
    obtain ⟨hb, hc'⟩ := h
    subst hc'
    refine ⟨hb.symm, ?_, key c hc, ?_⟩
    · simp [afterCleanup, hss, addAura_apply]
    · simp [cleanedUp, hss, addAura_apply]

theorem addAura_insert_returns (E : Env) (c : AuraContainer) (aura : AuraSpellSlot)
    (restoration : Bool) (hc : CountersOk c)
    (h0 : E.ModShapeShift ≠ 0 ∨ aura.hasEffect E.ModShapeShift = false) :
    ∃ c', addAura_insert E c aura restoration = some (true, c') := by
  unfold addAura_insert
  by_cases hss : aura.hasEffect E.ModShapeShift = true
  · have h1 : E.ModShapeShift ≠ 0 := by
      rcases h0 with h0 | h0
      · exact h0
      · rw [hss] at h0; exact absurd h0 (by simp)
    obtain ⟨c1, k1, _⟩ := removeLoop_begin E (fun x => x.hasEffect E.ModShapeShift) c hc
    simp only [hss, if_true, removeAurasByType, h1, if_false, k1]
    exact ⟨_, rfl⟩
  · rw [if_neg hss]
    exact ⟨_, rfl⟩

theorem addAura_place_some (E : Env) (c c' : AuraContainer) (aura : AuraSpellSlot) (newSlot : Nat)
    (restoration b : Bool) (h : addAura_place E c aura newSlot restoration = some (b, c'))
    (hc : CountersOk c) :
    (determineSlot E c aura newSlot = 0xFF ∧ b = false ∧ c' = c)
    ∨ (determineSlot E c aura newSlot ≠ 0xFF ∧ b = true
        ∧ c'.m_auras = afterCleanup E aura c.m_auras
            ++ [aura.setSlot (determineSlot E c aura newSlot)]
        ∧ CountersOk c'
        ∧ c'.calls = c.calls ++ (cleanedUp E aura c.m_auras).map HandlerCall.misapplyEffects
            ++ [HandlerCall.applyEffects (aura.setSlot (determineSlot E c aura newSlot)) restoration]) := by
  unfold addAura_place at h
  by_cases hs : determineSlot E c aura newSlot = 0xFF
  · left
    rw [if_pos hs] at h
    simp only [Option.some.injEq, Prod.mk.injEq] at h
    exact ⟨hs, h.1.symm, h.2.symm⟩
  · right
    rw [if_neg hs] at h
    obtain ⟨h1, h2, h3, h4⟩ := addAura_insert_some E c c' _ restoration b h hc
    exact ⟨hs, h1, h2, h3, h4⟩

/-! ## The scan for an overwrite candidate -/

theorem isCandidate_iff (E : Env) (aura x : AuraSpellSlot) :
    (x.hasValidSlot = true ∧ E.shouldOverwriteAura aura x = true) ↔ isCandidate E aura x = true := by
  simp [isCandidate]

theorem addAura_scan_none (E : Env) (aura : AuraSpellSlot) (l : List AuraSpellSlot) :
    ∀ k, (∀ y ∈ l, isCandidate E aura y = false) →
      addAura_scan E aura l k = Resolution.notFound := by
  induction l with
  | nil => intro k _; rfl
  | cons x rest ih =>
    intro k h
    have hx : ¬ (x.hasValidSlot = true ∧ E.shouldOverwriteAura aura x = true) := by
      rw [isCandidate_iff, h x (List.mem_cons_self _ _)]; simp
    rw [addAura_scan, if_neg hx]
    exact ih (k + 1) (fun y hy => h y (List.mem_cons_of_mem _ hy))

/-- The scan stops at the first overwrite candidate and decides there. -/
theorem addAura_scan_split (E : Env) (aura x : AuraSpellSlot) (pre suf : List AuraSpellSlot) :
    ∀ k, (∀ y ∈ pre, isCandidate E aura y = false) → isCandidate E aura x = true →
      addAura_scan E aura (pre ++ x :: suf) k =
        if x.spell.baseid = aura.spell.baseid ∧ aura.spell.rank < x.spell.rank then
          Resolution.reject
        else if x.spell.id = aura.spell.id ∧ 0 < aura.spell.stackamount
            ∧ x.caster = aura.caster ∧ aura.caster.isSome = true then
          Resolution.stack (k + pre.length)
        else Resolution.replace (k + pre.length) := by
  induction pre with
  | nil =>
    intro k _ hx
    have hx' := (isCandidate_iff E aura x).mpr hx
    simp only [List.nil_append, addAura_scan, List.length_nil, Nat.add_zero]
    rw [if_pos hx']
    by_cases hb : x.spell.baseid = aura.spell.baseid
    · by_cases hr : x.spell.rank ≤ aura.spell.rank
      · have hr' : ¬ aura.spell.rank < x.spell.rank := by omega
        simp [hb, hr, hr']
      · have hr' : aura.spell.rank < x.spell.rank := by omega
        simp [hb, hr, hr']
    · simp [hb]
  | cons y pre ih =>
    intro k hpre hx
    have hy : ¬ (y.hasValidSlot = true ∧ E.shouldOverwriteAura aura y = true) := by
      rw [isCandidate_iff, hpre y (List.mem_cons_self _ _)]; simp
    have hstep : addAura_scan E aura ((y :: pre) ++ x :: suf) k
        = addAura_scan E aura (pre ++ x :: suf) (k + 1) := by
      show addAura_scan E aura (y :: (pre ++ x :: suf)) k = _
      rw [addAura_scan, if_neg hy]
    rw [hstep, ih (k + 1) (fun z hz => hpre z (List.mem_cons_of_mem _ hz)) hx]
    simp only [List.length_cons]
    have : k + 1 + pre.length = k + (pre.length + 1) := by omega
    rw [this]

theorem candidate_cases (E : Env) (aura : AuraSpellSlot) (l : List AuraSpellSlot) :
    (∀ y ∈ l, isCandidate E aura y = false)
    ∨ ∃ pre x suf, l = pre ++ x :: suf ∧ (∀ y ∈ pre, isCandidate E aura y = false)
        ∧ isCandidate E aura x = true := by
  induction l with
  | nil => left; intro y hy; simp at hy
  | cons a rest ih =>
    by_cases ha : isCandidate E aura a = true
    · right; exact ⟨[], a, rest, rfl, by simp, ha⟩
    · have ha' : isCandidate E aura a = false := by simpa using ha
      rcases ih with h | ⟨pre, x, suf, h1, h2, h3⟩
      · left
        intro y hy
        rcases List.mem_cons.mp hy with rfl | hy
        · exact ha'
        · exact h y hy
      · right
        refine ⟨a :: pre, x, suf, by simp [h1], ?_, h3⟩
        intro y hy
        rcases List.mem_cons.mp hy with rfl | hy
        · exact ha'
        · exact h2 y hy

/-! ## Counter consistency is preserved -/

theorem addAura_place_CountersOk (E : Env) (c c' : AuraContainer) (aura : AuraSpellSlot)
    (newSlot : Nat) (restoration b : Bool)
    (h : addAura_place E c aura newSlot restoration = some (b, c')) (hc : CountersOk c) :
    CountersOk c' := by
  rcases addAura_place_some E c c' aura newSlot restoration b h hc with ⟨_, _, h3⟩ | ⟨_, _, _, h4, _⟩
  · rw [h3]; exact hc
  · exact h4

theorem addAura_CountersOk (E : Env) (c c' : AuraContainer) (aura : AuraSpellSlot)
    (restoration b : Bool) (h : addAura E c aura restoration = some (b, c'))
    (hc : CountersOk c) : CountersOk c' := by
  unfold addAura at h
  by_cases hv : aura.passive = false ∧ aura.spell.attributes0 &&& E.HiddenClientSide = 0
  · rw [if_pos hv] at h
    cases hs : addAura_scan E aura c.m_auras 0 with
    | stack it =>
      rw [hs] at h
      simp only at h
      cases hx : c.m_auras[it]? with
      | none => rw [hx] at h; simp at h
      | some x =>
        rw [hx] at h
        simp only [Option.some.injEq, Prod.mk.injEq] at h
        obtain ⟨_, h2⟩ := h
        subst h2
        intro T
        show c.m_auraTypeCount T = effectCount T (c.m_auras.set it (x.addStack aura))
        rw [effectCount_set T c.m_auras it x (x.addStack aura) hx rfl]
        exact hc T
    | replace it =>
      rw [hs] at h
      simp only at h
      cases hx : c.m_auras[it]? with
      | none => rw [hx] at h; simp at h
      | some x =>
        rw [hx] at h
        simp only at h
        cases hr : removeAura E c it with
        | none => rw [hr] at h; simp at h
        | some c1 =>
          rw [hr] at h
          simp only at h
          exact addAura_place_CountersOk E c1 c' aura x.slot restoration b h
            (removeAura_CountersOk E c c1 it hr hc)
    | reject =>
      rw [hs] at h
      simp only [Option.some.injEq, Prod.mk.injEq] at h
      rw [← h.2]; exact hc
    | notFound =>
      rw [hs] at h
      simp only at h
      exact addAura_place_CountersOk E c c' aura 0xFF restoration b h hc
  · rw [if_neg hv] at h
    exact (addAura_insert_some E c c' aura restoration b h hc).2.2.1

theorem removeAuraRef_CountersOk (E : Env) (c c' : AuraContainer) (aura : AuraSpellSlot)
    (h : removeAuraRef E c aura = some c') (hc : CountersOk c) : CountersOk c' := by
  unfold removeAuraRef at h
  split at h
  · exact removeAura_CountersOk E c c' _ h hc
  · cases h; exact hc

theorem Reachable_CountersOk (E : Env) (c : AuraContainer) (h : Reachable E c) : CountersOk c := by
  induction h with
  | empty owner => intro T; rfl
  | addAura aura restoration b _ hstep ih => exact addAura_CountersOk E _ _ aura restoration b hstep ih
  | removeAura it _ hstep ih => exact removeAura_CountersOk E _ _ it hstep ih
  | removeAuraRef aura _ hstep ih => exact removeAuraRef_CountersOk E _ _ aura hstep ih
  | removeAllAurasDueToSpell spellId _ hstep ih =>
    unfold removeAllAurasDueToSpell at hstep
    split at hstep
    · simp at hstep
    · exact removeLoop_CountersOk E _ _ _ hstep ih
  | removeAllAurasDueToItem itemGuid _ hstep ih =>
    unfold removeAllAurasDueToItem at hstep
    split at hstep
    · simp at hstep
    · exact removeLoop_CountersOk E _ _ _ hstep ih
  | removeAllAurasDueToMechanic immunityMask _ hstep ih =>
    unfold removeAllAurasDueToMechanic at hstep
    split at hstep
    · simp at hstep
    · exact removeLoop_CountersOk E _ _ _ hstep ih
  | removeAllAurasDueToInterrupt flags _ hstep ih =>
    exact removeLoop_CountersOk E _ _ _ hstep ih
  | removeAurasDueToDispel dispelType dispelPositive count n _ hstep ih =>
    exact removeAurasDueToDispel_CountersOk E _ dispelType dispelPositive count _ hstep ih
  | removeAurasByType auraType _ hstep ih =>
    unfold removeAurasByType at hstep
    split at hstep
    · simp at hstep
    · exact removeLoop_CountersOk E _ _ _ hstep ih
  | handleTargetDeath _ hstep ih => exact removeLoop_CountersOk E _ _ _ hstep ih
  | removeAllAuras _ hstep ih => exact removeLoop_CountersOk E _ _ _ hstep ih
  | consumeAbsorb damage school n _ hstep ih =>
    exact consumeAbsorb_CountersOk E _ damage school _ hstep ih

/-! ## `addAura` on a visible aura, by the outcome of the scan -/

theorem addAura_of_no_candidate (E : Env) (c : AuraContainer) (aura : AuraSpellSlot)
    (restoration : Bool) (hv : isVisible E aura)
    (hnone : ∀ y ∈ c.m_auras, isCandidate E aura y = false) :
    addAura E c aura restoration = addAura_place E c aura 0xFF restoration := by
  have hv' : aura.passive = false ∧ aura.spell.attributes0 &&& E.HiddenClientSide = 0 := hv
  unfold addAura
  rw [if_pos hv', addAura_scan_none E aura c.m_auras 0 hnone]

theorem addAura_of_candidate (E : Env) (c : AuraContainer) (aura x : AuraSpellSlot)
    (restoration : Bool) (pre suf : List AuraSpellSlot) (hv : isVisible E aura)
    (hl : c.m_auras = pre ++ x :: suf)
    (hpre : ∀ y ∈ pre, isCandidate E aura y = false) (hx : isCandidate E aura x = true) :
    addAura E c aura restoration =
      if x.spell.baseid = aura.spell.baseid ∧ aura.spell.rank < x.spell.rank then some (false, c)
      else if x.spell.id = aura.spell.id ∧ 0 < aura.spell.stackamount
          ∧ x.caster = aura.caster ∧ aura.caster.isSome = true then
        some (true, { c with m_auras := pre ++ x.addStack aura :: suf })
      else
        match removeAura E c pre.length with
        | none => none
        | some c' => addAura_place E c' aura x.slot restoration := by
  have hget : c.m_auras[pre.length]? = some x := by rw [hl]; exact getElem?_split pre suf x
  have hset : c.m_auras.set pre.length (x.addStack aura) = pre ++ x.addStack aura :: suf := by
    rw [hl]; exact set_split pre suf x _
  have hv' : aura.passive = false ∧ aura.spell.attributes0 &&& E.HiddenClientSide = 0 := hv
  have hscan := addAura_scan_split E aura x pre suf 0 hpre hx
  rw [← hl, Nat.zero_add] at hscan
  unfold addAura
  rw [if_pos hv', hscan]
  split_ifs
  · rfl
  · simp only [hget, hset]
  · simp only [hget]

theorem slot_of_candidate (E : Env) (aura x : AuraSpellSlot) (hx : isCandidate E aura x = true) :
    x.slot ≠ 0xFF := by
  simp only [isCandidate, AuraSpellSlot.hasValidSlot, Bool.and_eq_true, bne_iff_ne] at hx
  exact hx.1

/-- The replacement path: the first overwrite candidate is neither of a
higher rank of the same base spell nor stacked upon. -/
theorem addAura_replaces (E : Env) (c : AuraContainer) (aura x : AuraSpellSlot)
    (restoration : Bool) (pre suf : List AuraSpellSlot) (hv : isVisible E aura)
    (hl : c.m_auras = pre ++ x :: suf)
    (hpre : ∀ y ∈ pre, isCandidate E aura y = false) (hx : isCandidate E aura x = true)
    (hrank : ¬ (x.spell.baseid = aura.spell.baseid ∧ aura.spell.rank < x.spell.rank))
    (hstack : ¬ (x.spell.id = aura.spell.id ∧ 0 < aura.spell.stackamount
          ∧ x.caster = aura.caster ∧ aura.caster.isSome = true))
    (hc : CountersOk c)
    (h0 : E.ModShapeShift ≠ 0 ∨ aura.hasEffect E.ModShapeShift = false) :
    ∃ c', addAura E c aura restoration = some (true, c')
      ∧ c'.m_auras = afterCleanup E aura (pre ++ suf) ++ [aura.setSlot x.slot]
      ∧ CountersOk c'
      ∧ c'.calls = c.calls ++ [HandlerCall.misapplyEffects x]
          ++ (cleanedUp E aura (pre ++ suf)).map HandlerCall.misapplyEffects
          ++ [HandlerCall.applyEffects (aura.setSlot x.slot) restoration] := by
  obtain ⟨c2, _, h2, h3, h4, _, h6⟩ := removeAura_split E c pre suf x hl hc
  have hslot : determineSlot E (misapply E x c2) aura x.slot = x.slot := by
    unfold determineSlot
    rw [if_neg (slot_of_candidate E aura x hx)]
  have hret := addAura_insert_returns E (misapply E x c2) (aura.setSlot x.slot) restoration
    (misapply_CountersOk E x c2 h4) h0
  obtain ⟨c', hc'⟩ := hret
  obtain ⟨_, k2, k3, k4⟩ := addAura_insert_some E _ c' _ restoration true hc'
    (misapply_CountersOk E x c2 h4)
  refine ⟨c', ?_, ?_, k3, ?_⟩
  · rw [addAura_of_candidate E c aura x restoration pre suf hv hl hpre hx, if_neg hrank,
      if_neg hstack, h2]
    simp only [addAura_place, hslot, if_neg (slot_of_candidate E aura x hx)]
    exact hc'
  · rw [k2, misapply_m_auras, h3]; rfl
  · rw [k4, misapply_calls, misapply_m_auras, h3, h6]; rfl

/-! ## The search for a free slot -/

theorem find?_range' (p : Nat → Bool) :
    ∀ (n lo : Nat),
      ((List.range' lo n).find? p = none ∧ ∀ j, lo ≤ j → j < lo + n → p j = false)
      ∨ ∃ s, (List.range' lo n).find? p = some s ∧ lo ≤ s ∧ s < lo + n ∧ p s = true
          ∧ ∀ j, lo ≤ j → j < s → p j = false := by
  intro n
  induction n with
  | zero =>
    intro lo
    left
    exact ⟨rfl, fun j h1 h2 => by omega⟩
  | succ n ih =>
    intro lo
    rw [List.range'_succ]
    by_cases hp : p lo = true
    · right
      exact ⟨lo, by simp [List.find?, hp], Nat.le_refl _, by omega, hp, fun j h1 h2 => by omega⟩
    · have hp' : p lo = false := by simpa using hp
      rcases ih (lo + 1) with ⟨h1, h2⟩ | ⟨s, h1, h2, h3, h4, h5⟩
      · left
        refine ⟨by simp [List.find?, hp', h1], ?_⟩
        intro j hj1 hj2
        rcases Nat.eq_or_lt_of_le hj1 with rfl | hlt
        · exact hp'
        · exact h2 j hlt (by omega)
      · right
        refine ⟨s, by simp [List.find?, hp', h1], by omega, by omega, h4, ?_⟩
        intro j hj1 hj2
        rcases Nat.eq_or_lt_of_le hj1 with rfl | hlt
        · exact hp'
        · exact h5 j hlt hj2

/-- The slot loop returns `0xFF` when no field of the range reads `0`, else
the lowest index of the range whose field reads `0`. -/
theorem findFreeSlot_spec (E : Env) (owner : GameUnit) (lo n : Nat) (hn : lo + n ≤ 0xFF) :
    (findFreeSlot E owner lo n = 0xFF
      ∧ ∀ j, lo ≤ j → j < lo + n → owner.getUInt32Value (E.AuraEffectField + j) ≠ 0)
    ∨ (findFreeSlot E owner lo n ≠ 0xFF
      ∧ lo ≤ findFreeSlot E owner lo n ∧ findFreeSlot E owner lo n < lo + n
      ∧ owner.getUInt32Value (E.AuraEffectField + findFreeSlot E owner lo n) = 0
      ∧ ∀ j, lo ≤ j → j < findFreeSlot E owner lo n →
          owner.getUInt32Value (E.AuraEffectField + j) ≠ 0) := by
  unfold findFreeSlot
  rcases find?_range' (fun i => owner.getUInt32Value (E.AuraEffectField + i) == 0) n lo with
    ⟨h1, h2⟩ | ⟨s, h1, h2, h3, h4, h5⟩
  · left
    rw [h1]
    refine ⟨rfl, ?_⟩
    intro j hj1 hj2
    have := h2 j hj1 hj2
    simpa using this
  · right
    rw [h1]
    simp only [Option.getD_some]
    refine ⟨by omega, h2, h3, by simpa using h4, ?_⟩
    intro j hj1 hj2
    have := h5 j hj1 hj2
    simpa using this

/-- The slot determined for an aura that takes over no slot: `0xFF` when the
range of its polarity has no free field, else the lowest free index of that
range. -/
theorem determineSlot_fresh (E : Env) (c : AuraContainer) (aura : AuraSpellSlot) :
    (determineSlot E c aura 0xFF = 0xFF
      ∧ ∀ j, slotInRange aura.positive j → c.m_owner.getUInt32Value (E.AuraEffectField + j) ≠ 0)
    ∨ (determineSlot E c aura 0xFF ≠ 0xFF
      ∧ slotInRange aura.positive (determineSlot E c aura 0xFF)
      ∧ c.m_owner.getUInt32Value (E.AuraEffectField + determineSlot E c aura 0xFF) = 0
      ∧ ∀ j, slotInRange aura.positive j → j < determineSlot E c aura 0xFF →
          c.m_owner.getUInt32Value (E.AuraEffectField + j) ≠ 0) := by
  unfold determineSlot
  rw [if_pos rfl]
  cases hp : aura.positive with
  | true =>
    simp only [if_true, slotInRange]
    rcases findFreeSlot_spec E c.m_owner 0 40 (by omega) with ⟨h1, h2⟩ | ⟨h1, h2, h3, h4, h5⟩
    · left
      exact ⟨h1, fun j hj => h2 j (Nat.zero_le _) (by omega)⟩
    · right
      exact ⟨h1, by omega, h4, fun j _ hj2 => h5 j (Nat.zero_le _) hj2⟩
  | false =>
    simp only [Bool.false_eq_true, if_false, slotInRange]
    rcases findFreeSlot_spec E c.m_owner 40 16 (by omega) with ⟨h1, h2⟩ | ⟨h1, h2, h3, h4, h5⟩
    · left
      exact ⟨h1, fun j hj => h2 j hj.1 (by omega)⟩
    · right
      exact ⟨h1, ⟨h2, by omega⟩, h4, fun j hj1 hj2 => h5 j hj1.1 hj2⟩

/-! ## C1: counter consistency in every reachable state -/

/-- C1: in every state reachable from the empty container by `addAura`,
`removeAura` and the removal operations (and `consumeAbsorb`), the counter of
every effect type equals the number of (instance, effect) pairs of that type in
the instance list; consequently `removeAura` at any valid iterator returns: the
assertion on the counter does not fail. -/
theorem C1_counters_consistent (E : Env) (c : AuraContainer) (h : Reachable E c) :
    (∀ T, c.m_auraTypeCount T = effectCount T c.m_auras)
    ∧ (∀ it, it < c.m_auras.length → ∃ c', removeAura E c it = some c') := by
  have hc := Reachable_CountersOk E c h
  refine ⟨hc, ?_⟩
  intro it hit
  have hx : c.m_auras[it]? = some c.m_auras[it] := List.getElem?_eq_getElem hit
  obtain ⟨c2, _, h2, _⟩ := removeAura_of_getElem? E c it _ hx hc
  exact ⟨_, h2⟩

theorem C1_counters_consistent_witness :
    (∀ T, demoState1.m_auraTypeCount T = effectCount T demoState1.m_auras)
    ∧ (∀ it, it < demoState1.m_auras.length → ∃ c', removeAura demoEnv demoState1 it = some c') :=
  C1_counters_consistent demoEnv demoState1
    (Reachable.addAura demoAura1 false true (Reachable.empty demoOwner) rfl)

/-! ## C2, C3: the rank rule -/

/-- C2: for a visible new aura whose first overwrite candidate in list order
has the same base spell and a strictly higher rank, `addAura` returns false and
the container is the one before the call: same instance list, same counters,
same unit fields, and no handler call is logged. -/
theorem C2_lower_rank_rejected (E : Env) (c : AuraContainer) (aura x : AuraSpellSlot)
    (restoration : Bool) (pre suf : List AuraSpellSlot) (hv : isVisible E aura)
    (hl : c.m_auras = pre ++ x :: suf)
    (hpre : ∀ y ∈ pre, isCandidate E aura y = false) (hx : isCandidate E aura x = true)
    (hbase : x.spell.baseid = aura.spell.baseid) (hrank : aura.spell.rank < x.spell.rank) :
    addAura E c aura restoration = some (false, c) := by
  rw [addAura_of_candidate E c aura x restoration pre suf hv hl hpre hx, if_pos ⟨hbase, hrank⟩]

theorem C2_lower_rank_rejected_witness :
    addAura demoEnv demoState2 demoAura1 false = some (false, demoState2) :=
  C2_lower_rank_rejected demoEnv demoState2 demoAura1 (demoAura2.setSlot 0) false [] []
    (by decide) rfl (by simp) (by decide) rfl (by decide)

/-- C3, as the code has it: for a visible new aura whose first overwrite
candidate has the same base spell and was cast by a different caster, a
strictly higher rank of the candidate makes `addAura` return false with the
container unchanged, while an equal (or lower) rank makes `addAura` remove the
candidate, unapply it, and add the new aura in the slot of the candidate. -/
theorem C3_equal_rank_replaces (E : Env) (c : AuraContainer) (aura x : AuraSpellSlot)
    (restoration : Bool) (pre suf : List AuraSpellSlot) (hv : isVisible E aura)
    (hl : c.m_auras = pre ++ x :: suf)
    (hpre : ∀ y ∈ pre, isCandidate E aura y = false) (hx : isCandidate E aura x = true)
    (hbase : x.spell.baseid = aura.spell.baseid) (hcaster : x.caster ≠ aura.caster)
    (hc : CountersOk c) (h0 : E.ModShapeShift ≠ 0) :
    (aura.spell.rank < x.spell.rank → addAura E c aura restoration = some (false, c))
    ∧ (x.spell.rank ≤ aura.spell.rank →
        ∃ c', addAura E c aura restoration = some (true, c')
          ∧ c'.m_auras = afterCleanup E aura (pre ++ suf) ++ [aura.setSlot x.slot]
          ∧ c'.calls = c.calls ++ [HandlerCall.misapplyEffects x]
              ++ (cleanedUp E aura (pre ++ suf)).map HandlerCall.misapplyEffects
              ++ [HandlerCall.applyEffects (aura.setSlot x.slot) restoration]) := by
  constructor
  · intro hrank
    rw [addAura_of_candidate E c aura x restoration pre suf hv hl hpre hx, if_pos ⟨hbase, hrank⟩]
  · intro hrank
    obtain ⟨c', h1, h2, _, h4⟩ := addAura_replaces E c aura x restoration pre suf hv hl hpre hx
      (fun h => by omega) (fun h => hcaster h.2.2.1) hc (Or.inl h0)
    exact ⟨c', h1, h2, h4⟩

theorem C3_equal_rank_replaces_witness :
    (demoAura1b.spell.rank < (demoAura1.setSlot 0).spell.rank →
      addAura demoEnv demoState1 demoAura1b false = some (false, demoState1))
    ∧ ((demoAura1.setSlot 0).spell.rank ≤ demoAura1b.spell.rank →
        ∃ c', addAura demoEnv demoState1 demoAura1b false = some (true, c')
          ∧ c'.m_auras = afterCleanup demoEnv demoAura1b ([] ++ [])
              ++ [demoAura1b.setSlot (demoAura1.setSlot 0).slot]
          ∧ c'.calls = demoState1.calls ++ [HandlerCall.misapplyEffects (demoAura1.setSlot 0)]
              ++ (cleanedUp demoEnv demoAura1b ([] ++ [])).map HandlerCall.misapplyEffects
              ++ [HandlerCall.applyEffects (demoAura1b.setSlot (demoAura1.setSlot 0).slot) false]) :=
  C3_equal_rank_replaces demoEnv demoState1 demoAura1b (demoAura1.setSlot 0) false [] []
    (by decide) rfl (by simp) (by decide) rfl (by decide)
    (Reachable_CountersOk demoEnv demoState1
      (Reachable.addAura demoAura1 false true (Reachable.empty demoOwner) rfl))
    (by decide)

/-- C3 fails as stated: the unit carries rank 1 of spell 100 cast by unit 7 in
slot 0; rank 1 of the same spell cast by unit 8 is an overwrite candidate pair
of equal rank and different casters, and `addAura` returns true, the existing
instance is gone and the new one holds its slot. -/
theorem C3_equal_rank_counterexample :
    isVisible demoEnv demoAura1b
    ∧ demoState1.m_auras = [demoAura1.setSlot 0]
    ∧ isCandidate demoEnv demoAura1b (demoAura1.setSlot 0) = true
    ∧ (demoAura1.setSlot 0).spell.baseid = demoAura1b.spell.baseid
    ∧ demoAura1b.spell.rank ≤ (demoAura1.setSlot 0).spell.rank
    ∧ (demoAura1.setSlot 0).caster ≠ demoAura1b.caster
    ∧ (addAura demoEnv demoState1 demoAura1b false).map Prod.fst = some true
    ∧ (afterAddAura demoEnv demoState1 demoAura1b false).m_auras = [demoAura1b.setSlot 0] := by
  refine ⟨by decide, rfl, by decide, rfl, by decide, by decide, rfl, rfl⟩

/-! ## C4, C5: slot allocation -/

/-- C4: for a visible new aura with no overwrite candidate in the container,
when every aura slot field of the range of its polarity (0..39 if positive,
40..55 if negative) is non-zero, `addAura` returns false and the container is
the one before the call: the instance list, the counters and the unit fields
are unchanged, no instance is removed (also when the new aura has a
`ModShapeShift` effect) and no handler call is logged. -/
theorem C4_no_free_slot (E : Env) (c : AuraContainer) (aura : AuraSpellSlot) (restoration : Bool)
    (hv : isVisible E aura) (hnone : ∀ y ∈ c.m_auras, isCandidate E aura y = false)
    (hfull : ∀ i, slotInRange aura.positive i →
      c.m_owner.getUInt32Value (E.AuraEffectField + i) ≠ 0) :
    addAura E c aura restoration = some (false, c) := by
  rw [addAura_of_no_candidate E c aura restoration hv hnone]
  unfold addAura_place
  rcases determineSlot_fresh E c aura with ⟨h1, _⟩ | ⟨_, h2, h3, _⟩
  · rw [if_pos h1]
  · exact absurd h3 (hfull _ h2)

theorem C4_no_free_slot_witness :
    addAura demoEnv (AuraContainer.empty fullOwner) demoAura1 false
      = some (false, AuraContainer.empty fullOwner) :=
  C4_no_free_slot demoEnv (AuraContainer.empty fullOwner) demoAura1 false (by decide)
    (fun y hy => by simp [AuraContainer.empty] at hy)
    (fun i _ => by simp [AuraContainer.empty, fullOwner])

/-- C5: when `addAura` returns true for a visible aura that has no overwrite
candidate in the container (nothing is replaced, nothing is stacked), the new
instance is appended with a slot `s` that lies in the range of its polarity,
whose field `unit_fields::AuraEffect + s` read `0` at the call, and below which
no index of that range had a field reading `0`. -/
theorem C5_lowest_free_slot (E : Env) (c c' : AuraContainer) (aura : AuraSpellSlot)
    (restoration : Bool) (hv : isVisible E aura)
    (hnone : ∀ y ∈ c.m_auras, isCandidate E aura y = false) (hc : CountersOk c)
    (h : addAura E c aura restoration = some (true, c')) :
    ∃ s, c'.m_auras = afterCleanup E aura c.m_auras ++ [aura.setSlot s]
      ∧ slotInRange aura.positive s
      ∧ c.m_owner.getUInt32Value (E.AuraEffectField + s) = 0
      ∧ ∀ j, slotInRange aura.positive j → j < s →
          c.m_owner.getUInt32Value (E.AuraEffectField + j) ≠ 0 := by
  rw [addAura_of_no_candidate E c aura restoration hv hnone] at h
  rcases addAura_place_some E c c' aura 0xFF restoration true h hc with
    ⟨_, hb, _⟩ | ⟨hs, _, hl, _, _⟩
  · exact absurd hb (by simp)
  · rcases determineSlot_fresh E c aura with ⟨h1, _⟩ | ⟨_, h2, h3, h4⟩
    · exact absurd h1 hs
    · exact ⟨_, hl, h2, h3, h4⟩

theorem C5_lowest_free_slot_witness :
    ∃ s, demoState1.m_auras = afterCleanup demoEnv demoAura1 (AuraContainer.empty demoOwner).m_auras
        ++ [demoAura1.setSlot s]
      ∧ slotInRange demoAura1.positive s
      ∧ (AuraContainer.empty demoOwner).m_owner.getUInt32Value (demoEnv.AuraEffectField + s) = 0
      ∧ ∀ j, slotInRange demoAura1.positive j → j < s →
          (AuraContainer.empty demoOwner).m_owner.getUInt32Value (demoEnv.AuraEffectField + j) ≠ 0 :=
  C5_lowest_free_slot demoEnv (AuraContainer.empty demoOwner) demoState1 demoAura1 false
    (by decide) (fun y hy => by simp [AuraContainer.empty] at hy) (fun T => rfl) rfl

/-! ## C6: the slot of a new instance -/

/-- C6, as the code has it: a visible aura that `addAura` adds while no
overwrite candidate exists holds a slot in the range of its polarity; a visible
aura that `addAura` adds in place of its first overwrite candidate holds
exactly the slot of that candidate, whatever range that slot lies in. -/
theorem C6_slot_of_new_instance (E : Env) (c c' : AuraContainer) (aura : AuraSpellSlot)
    (restoration : Bool) (hv : isVisible E aura) (hc : CountersOk c)
    (h : addAura E c aura restoration = some (true, c')) :
    ((∀ y ∈ c.m_auras, isCandidate E aura y = false) →
      ∃ s, c'.m_auras = afterCleanup E aura c.m_auras ++ [aura.setSlot s]
        ∧ slotInRange aura.positive s)
    ∧ (∀ pre x suf, c.m_auras = pre ++ x :: suf →
        (∀ y ∈ pre, isCandidate E aura y = false) → isCandidate E aura x = true →
        ¬ (x.spell.id = aura.spell.id ∧ 0 < aura.spell.stackamount
            ∧ x.caster = aura.caster ∧ aura.caster.isSome = true) →
        c'.m_auras = afterCleanup E aura (pre ++ suf) ++ [aura.setSlot x.slot]) := by
  constructor
  · intro hnone
    rw [addAura_of_no_candidate E c aura restoration hv hnone] at h
    rcases addAura_place_some E c c' aura 0xFF restoration true h hc with
      ⟨_, hb, _⟩ | ⟨hs, _, hl, _, _⟩
    · exact absurd hb (by simp)
    · rcases determineSlot_fresh E c aura with ⟨h1, _⟩ | ⟨_, h2, _, _⟩
      · exact absurd h1 hs
      · exact ⟨_, hl, h2⟩
  · intro pre x suf hl hpre hx hstack
    rw [addAura_of_candidate E c aura x restoration pre suf hv hl hpre hx] at h
    by_cases hrank : x.spell.baseid = aura.spell.baseid ∧ aura.spell.rank < x.spell.rank
    · rw [if_pos hrank] at h
      simp at h
    · rw [if_neg hrank, if_neg hstack] at h
      obtain ⟨c2, _, h2, h3, h4, _, _⟩ := removeAura_split E c pre suf x hl hc
      rw [h2] at h
      simp only at h
      have hslot : determineSlot E (misapply E x c2) aura x.slot = x.slot := by
        unfold determineSlot
        rw [if_neg (slot_of_candidate E aura x hx)]
      rcases addAura_place_some E _ c' aura x.slot restoration true h
          (misapply_CountersOk E x c2 h4) with ⟨_, hb, _⟩ | ⟨_, _, hl', _, _⟩
      · exact absurd hb (by simp)
      · rw [hl', hslot, misapply_m_auras, h3]

theorem C6_slot_of_new_instance_witness :
    ((∀ y ∈ specStateNegative.m_auras, isCandidate specEnv demoAura1 y = false) →
      ∃ s, (afterAddAura specEnv specStateNegative demoAura1 false).m_auras
          = afterCleanup specEnv demoAura1 specStateNegative.m_auras ++ [demoAura1.setSlot s]
        ∧ slotInRange demoAura1.positive s)
    ∧ (∀ pre x suf, specStateNegative.m_auras = pre ++ x :: suf →
        (∀ y ∈ pre, isCandidate specEnv demoAura1 y = false) →
        isCandidate specEnv demoAura1 x = true →
        ¬ (x.spell.id = demoAura1.spell.id ∧ 0 < demoAura1.spell.stackamount
            ∧ x.caster = demoAura1.caster ∧ demoAura1.caster.isSome = true) →
        (afterAddAura specEnv specStateNegative demoAura1 false).m_auras
          = afterCleanup specEnv demoAura1 (pre ++ suf) ++ [demoAura1.setSlot x.slot]) :=
  C6_slot_of_new_instance specEnv specStateNegative
    (afterAddAura specEnv specStateNegative demoAura1 false) demoAura1 false (by decide)
    (Reachable_CountersOk specEnv specStateNegative
      (Reachable.addAura demoNegative false true (Reachable.empty demoOwner) rfl))
    rfl

/-- C6 fails as stated, with the overwrite predicate as the specification
describes it: the unit carries a negative shape-shift aura, added by `addAura`
into slot 40; a positive shape-shift aura of another spell has it as overwrite
candidate (two shape-shift auras exclude each other), `addAura` returns true
and the positive aura ends up in slot 40, which is not below 40. -/
theorem C6_slot_range_counterexample :
    isVisible specEnv demoAura1
    ∧ demoAura1.positive = true
    ∧ demoNegative.positive = false
    ∧ addAura specEnv (AuraContainer.empty demoOwner) demoNegative false
        = some (true, specStateNegative)
    ∧ specStateNegative.m_auras = [demoNegative.setSlot 40]
    ∧ specEnv.shouldOverwriteAura demoAura1 (demoNegative.setSlot 40)
        = specShouldOverwriteAura specEnv.ModShapeShift demoAura1 (demoNegative.setSlot 40)
    ∧ isCandidate specEnv demoAura1 (demoNegative.setSlot 40) = true
    ∧ (addAura specEnv specStateNegative demoAura1 false).map Prod.fst = some true
    ∧ (afterAddAura specEnv specStateNegative demoAura1 false).m_auras = [demoAura1.setSlot 40]
    ∧ ¬ slotInRange demoAura1.positive (demoAura1.setSlot 40).slot := by
  refine ⟨by decide, rfl, rfl, rfl, rfl, rfl, by decide, rfl, rfl, by decide⟩

/-! ## C7: stacking -/

theorem addStack_stackCount (inst a : AuraSpellSlot) (n sa : Nat)
    (hsa : inst.spell.stackamount = sa) (hle : inst.stackCount ≤ sa) :
    ({ inst.addStack a with stackCount := min ((inst.addStack a).stackCount + n) sa } : AuraSpellSlot)
      = { inst with stackCount := min (inst.stackCount + (n + 1)) sa }
    ∧ (inst.addStack a).stackCount ≤ sa := by
  unfold AuraSpellSlot.addStack
  rw [hsa]
  by_cases h : inst.stackCount < sa
  · simp only [if_pos h]
    refine ⟨?_, by omega⟩
    have : min (inst.stackCount + 1 + n) sa = min (inst.stackCount + (n + 1)) sa := by
      rw [Nat.add_assoc, Nat.add_comm 1 n]
    rw [this]
  · simp only [if_neg h]
    refine ⟨?_, hle⟩
    have : min (inst.stackCount + n) sa = min (inst.stackCount + (n + 1)) sa := by
      rw [Nat.min_def, Nat.min_def]
      split_ifs <;> omega
    rw [this]

/-- Repeated calls on a container whose last instance is the instance of the
spell and whose other instances are no overwrite candidates: every call adds a
stack to that instance. -/
theorem addAuras_stack (E : Env) (restoration : Bool) (S : SpellEntry) (g : Nat)
    (kept : List AuraSpellSlot) (hS : 0 < S.stackamount)
    (hq : ∀ a x : AuraSpellSlot, a.spell = S → x.spell = S → a.caster = x.caster →
      E.shouldOverwriteAura a x = true) :
    ∀ (rest : List AuraSpellSlot) (c : AuraContainer) (inst : AuraSpellSlot),
      c.m_auras = kept ++ [inst] → inst.spell = S → inst.caster = some g → inst.slot ≠ 0xFF →
      inst.stackCount ≤ S.stackamount →
      (∀ a ∈ rest, a.spell = S ∧ a.caster = some g ∧ isVisible E a) →
      (∀ a ∈ rest, ∀ y ∈ kept, isCandidate E a y = false) →
      ∃ c', addAuras E restoration c rest = some (List.replicate rest.length true, c')
        ∧ c'.m_auras = kept ++ [{ inst with stackCount := min (inst.stackCount + rest.length) S.stackamount }]
        ∧ c'.m_auraTypeCount = c.m_auraTypeCount := by
  intro rest
  induction rest with
  | nil =>
    intro c inst hl _ _ _ hle _ _
    refine ⟨c, rfl, ?_, rfl⟩
    rw [hl]
    simp only [List.length_nil, Nat.add_zero, Nat.min_eq_left hle]
  | cons a rest ih =>
    intro c inst hl hsp hca hslot hle hrest hnone
    obtain ⟨ha1, ha2, ha3⟩ := hrest a (List.mem_cons_self _ _)
    have hx : isCandidate E a inst = true := by
      simp only [isCandidate, AuraSpellSlot.hasValidSlot, Bool.and_eq_true, bne_iff_ne]
      exact ⟨hslot, hq a inst ha1 hsp (by rw [ha2, hca])⟩
    have hrank : ¬ (inst.spell.baseid = a.spell.baseid ∧ a.spell.rank < inst.spell.rank) := by
      rw [ha1, hsp]; intro h; omega
    have hstack : inst.spell.id = a.spell.id ∧ 0 < a.spell.stackamount
        ∧ inst.caster = a.caster ∧ a.caster.isSome = true := by
      rw [ha1, hsp, ha2, hca]; exact ⟨rfl, hS, rfl, rfl⟩
    have hadd := addAura_of_candidate E c a inst restoration kept [] ha3 hl
      (hnone a (List.mem_cons_self _ _)) hx
    rw [if_neg hrank, if_pos hstack] at hadd
    have hle' := addStack_stackCount inst a rest.length S.stackamount (by rw [hsp]) hle
    obtain ⟨c', k1, k2, k3⟩ := ih { c with m_auras := kept ++ [inst.addStack a] } (inst.addStack a)
      rfl hsp hca hslot hle'.2
      (fun b hb => hrest b (List.mem_cons_of_mem _ hb))
      (fun b hb => hnone b (List.mem_cons_of_mem _ hb))
    refine ⟨c', ?_, ?_, k3⟩
    · simp only [addAuras, hadd, k1, List.length_cons, List.replicate_succ]
    · rw [k2]
      exact congrArg (fun z => kept ++ [z]) hle'.1

/-- A list either holds no element with the property, or splits at the first
one, which `find?` returns and `eraseP` takes out. -/
theorem firstCandidate_split {α : Type} (p : α → Bool) :
    ∀ l : List α,
      (l.find? p = none ∧ (∀ y ∈ l, p y = false) ∧ l.eraseP p = l)
      ∨ ∃ pre x suf, l = pre ++ x :: suf ∧ (∀ y ∈ pre, p y = false) ∧ p x = true
          ∧ l.find? p = some x ∧ l.eraseP p = pre ++ suf := by
  intro l
  induction l with
  | nil => exact Or.inl ⟨rfl, fun y hy => (by cases hy), rfl⟩
  | cons a l ih =>
    by_cases ha : p a = true
    · refine Or.inr ⟨[], a, l, rfl, fun y hy => (by cases hy), ha, ?_, ?_⟩
      · simp [List.find?, ha]
      · simp [List.eraseP_cons, ha]
    · have ha' : p a = false := by simpa using ha
      rcases ih with ⟨h1, h2, h3⟩ | ⟨pre, x, suf, h1, h2, h3, h4, h5⟩
      · refine Or.inl ⟨?_, ?_, ?_⟩
        · simp [List.find?, ha', h1]
        · intro y hy
          rcases List.mem_cons.mp hy with rfl | hy
          · exact ha'
          · exact h2 y hy
        · simp [List.eraseP_cons, ha', h3]
      · refine Or.inr ⟨a :: pre, x, suf, by rw [h1]; rfl, ?_, h3, ?_, ?_⟩
        · intro y hy
          rcases List.mem_cons.mp hy with rfl | hy
          · exact ha'
          · exact h2 y hy
        · simp [List.find?, ha', h4]
        · simp [List.eraseP_cons, ha', h5]

theorem afterCleanup_subset (E : Env) (aura : AuraSpellSlot) (l : List AuraSpellSlot) :
    ∀ y ∈ afterCleanup E aura l, y ∈ l := by
  intro y hy
  unfold afterCleanup at hy
  split at hy
  · exact (List.mem_filter.mp hy).1
  · exact hy

/-- C7, as the code has it: the container holds no aura of spell `S`; the
first overwrite candidate of the new aura, when there is one, is not a higher
rank of the base spell of `S`; when there is none, a slot field of the polarity
range is free; and none of the instances that stay after the first call (all
but that first candidate and the instances the shape-shift cleanup removes) is
an overwrite candidate of the further auras.  Then calling `addAura` with
`N >= 1` visible auras of spell `S` (stack amount above 0), all from the same
non-null caster, makes every call return true and leaves exactly one instance
of `S`, appended with one slot (the slot of the replaced candidate, else a free
one of the polarity range) and stack count `min N stackamount`; the counters
count the effects of that instance once.  That an aura of the same spell and
caster is an overwrite candidate, and the stack count after `addStack`, are
taken from the specification. -/
theorem C7_stacking (E : Env) (restoration : Bool) (S : SpellEntry) (g : Nat) (c : AuraContainer)
    (first : AuraSpellSlot) (rest : List AuraSpellSlot) (hS : 0 < S.stackamount)
    (hq : ∀ a x : AuraSpellSlot, a.spell = S → x.spell = S → a.caster = x.caster →
      E.shouldOverwriteAura a x = true)
    (hall : ∀ a ∈ first :: rest, a.spell = S ∧ a.caster = some g ∧ isVisible E a)
    (hfresh : first.stackCount = 1)
    (hno : ∀ y ∈ c.m_auras, y.spell.id ≠ S.id)
    (hrank : ∀ x, c.m_auras.find? (isCandidate E first) = some x →
      ¬ (x.spell.baseid = S.baseid ∧ S.rank < x.spell.rank))
    (hfree : c.m_auras.find? (isCandidate E first) = none →
      ∃ i, slotInRange first.positive i ∧ c.m_owner.getUInt32Value (E.AuraEffectField + i) = 0)
    (hothers : ∀ a ∈ rest,
      ∀ y ∈ afterCleanup E first (c.m_auras.eraseP (isCandidate E first)),
        isCandidate E a y = false)
    (hc : CountersOk c) (h0 : E.ModShapeShift ≠ 0) :
    ∃ c' s, addAuras E restoration c (first :: rest)
        = some (List.replicate (rest.length + 1) true, c')
      ∧ c'.m_auras = afterCleanup E first (c.m_auras.eraseP (isCandidate E first))
          ++ [{ first.setSlot s with stackCount := min (rest.length + 1) S.stackamount }]
      ∧ s ≠ 0xFF
      ∧ (c.m_auras.find? (isCandidate E first) = none → slotInRange first.positive s)
      ∧ (∀ x, c.m_auras.find? (isCandidate E first) = some x → s = x.slot)
      ∧ (∀ y ∈ afterCleanup E first (c.m_auras.eraseP (isCandidate E first)), y.spell.id ≠ S.id)
      ∧ (∀ T, c'.m_auraTypeCount T
          = effectCount T (afterCleanup E first (c.m_auras.eraseP (isCandidate E first)))
            + countEffects T first.effects) := by
  obtain ⟨hf1, hf2, hf3⟩ := hall first (List.mem_cons_self _ _)
  rcases firstCandidate_split (isCandidate E first) c.m_auras with
    ⟨hfind, hnone, herase⟩ | ⟨pre, x, suf, hl, hpre, hx, hfind, herase⟩
  · rw [herase] at hothers
    rw [herase]
    have hadd := addAura_of_no_candidate E c first restoration hf3 hnone
    rcases determineSlot_fresh E c first with ⟨_, h2⟩ | ⟨h1, h2, _, _⟩
    · obtain ⟨i, hi1, hi2⟩ := hfree hfind
      exact absurd hi2 (h2 i hi1)
    · obtain ⟨c1, hc1⟩ := addAura_insert_returns E c
        (first.setSlot (determineSlot E c first 0xFF)) restoration hc (Or.inl h0)
      obtain ⟨_, k2, k3, _⟩ := addAura_insert_some E c c1 _ restoration true hc1 hc
      have hadd1 : addAura E c first restoration = some (true, c1) := by
        rw [hadd]; unfold addAura_place; rw [if_neg h1]; exact hc1
      have hk2 : c1.m_auras = afterCleanup E first c.m_auras
          ++ [first.setSlot (determineSlot E c first 0xFF)] := k2
      obtain ⟨c', m1, m2, m3⟩ := addAuras_stack E restoration S g (afterCleanup E first c.m_auras)
        hS hq rest c1 (first.setSlot (determineSlot E c first 0xFF)) hk2 hf1 hf2 h1
        (by show first.stackCount ≤ S.stackamount; omega)
        (fun a ha => hall a (List.mem_cons_of_mem _ ha)) hothers
      refine ⟨c', determineSlot E c first 0xFF, ?_, ?_, h1, fun _ => h2, ?_,
        fun y hy => hno y (afterCleanup_subset E first _ y hy), ?_⟩
      · simp only [addAuras, hadd1, m1, List.replicate_succ]
      · rw [m2]
        have : (first.setSlot (determineSlot E c first 0xFF)).stackCount = 1 := hfresh
        rw [this, Nat.add_comm 1 rest.length]
      · intro y hy
        rw [hfind] at hy
        cases hy
      · intro T
        rw [m3, k3 T, hk2, effectCount_append, effectCount_singleton]
        rfl
  · rw [herase] at hothers
    rw [herase]
    have hxmem : x ∈ c.m_auras := by rw [hl]; simp
    have hxno : x.spell.id ≠ S.id := hno x hxmem
    have hslot : x.slot ≠ 0xFF := slot_of_candidate E first x hx
    obtain ⟨c1, hadd1, k2, k3, _⟩ := addAura_replaces E c first x restoration pre suf hf3 hl hpre hx
      (by rw [hf1]; exact hrank x hfind) (by rw [hf1]; intro h; exact hxno h.1) hc (Or.inl h0)
    obtain ⟨c', m1, m2, m3⟩ := addAuras_stack E restoration S g (afterCleanup E first (pre ++ suf))
      hS hq rest c1 (first.setSlot x.slot) k2 hf1 hf2 hslot
      (by show first.stackCount ≤ S.stackamount; omega)
      (fun a ha => hall a (List.mem_cons_of_mem _ ha)) hothers
    refine ⟨c', x.slot, ?_, ?_, hslot, ?_, ?_, ?_, ?_⟩
    · simp only [addAuras, hadd1, m1, List.replicate_succ]
    · rw [m2]
      have : (first.setSlot x.slot).stackCount = 1 := hfresh
      rw [this, Nat.add_comm 1 rest.length]
    · intro hn
      rw [hfind] at hn
      cases hn
    · intro y hy
      rw [hfind] at hy
      cases hy
      rfl
    · intro y hy
      have hy1 := afterCleanup_subset E first _ y hy
      refine hno y ?_
      rw [hl]
      rcases List.mem_append.mp hy1 with h | h
      · exact List.mem_append_left _ h
      · exact List.mem_append_right _ (List.mem_cons_of_mem _ h)
    · intro T
      rw [m3, k3 T, k2, effectCount_append, effectCount_singleton]
      rfl

theorem demoStateLower_CountersOk : CountersOk demoStateLower :=
  Reachable_CountersOk demoEnv demoStateLower
    (Reachable.addAura stackAuraLower false true (Reachable.empty demoOwner) rfl)

theorem C7_stacking_witness :
    ∃ c' s, addAuras demoEnv false demoStateLower (stackAura 1 :: [stackAura 2, stackAura 3])
        = some (List.replicate ([stackAura 2, stackAura 3].length + 1) true, c')
      ∧ c'.m_auras = afterCleanup demoEnv (stackAura 1)
            (demoStateLower.m_auras.eraseP (isCandidate demoEnv (stackAura 1)))
          ++ [{ (stackAura 1).setSlot s with
                stackCount := min ([stackAura 2, stackAura 3].length + 1) stackSpell.stackamount }]
      ∧ s ≠ 0xFF
      ∧ (demoStateLower.m_auras.find? (isCandidate demoEnv (stackAura 1)) = none →
          slotInRange (stackAura 1).positive s)
      ∧ (∀ x, demoStateLower.m_auras.find? (isCandidate demoEnv (stackAura 1)) = some x →
          s = x.slot)
      ∧ (∀ y ∈ afterCleanup demoEnv (stackAura 1)
            (demoStateLower.m_auras.eraseP (isCandidate demoEnv (stackAura 1))),
          y.spell.id ≠ stackSpell.id)
      ∧ (∀ T, c'.m_auraTypeCount T
          = effectCount T (afterCleanup demoEnv (stackAura 1)
              (demoStateLower.m_auras.eraseP (isCandidate demoEnv (stackAura 1))))
            + countEffects T (stackAura 1).effects) :=
  C7_stacking demoEnv false stackSpell 7 demoStateLower (stackAura 1)
    [stackAura 2, stackAura 3] (by decide)
    (fun a x ha hx _ => by simp [demoEnv, ha, hx])
    (fun a ha => by
      simp only [List.mem_cons, List.mem_singleton, List.not_mem_nil, or_false] at ha
      rcases ha with rfl | rfl | rfl <;> exact ⟨rfl, rfl, by decide⟩)
    rfl
    (by decide)
    (fun x hx => by
      have hx1 : some (stackAuraLower.setSlot 0) = some x := hx
      cases hx1
      decide)
    (fun h => by
      have h1 : some (stackAuraLower.setSlot 0) = none := h
      cases h1)
    (fun a _ y hy => by
      have hy1 : y ∈ ([] : List AuraSpellSlot) := hy
      cases hy1)
    demoStateLower_CountersOk (by decide)

/-- C7 fails as stated.  First input: the unit carries rank 2 of base spell 300
(spell 301) and no aura of spell 300; one call of `addAura` with a visible,
stackable aura of spell 300 from a non-null caster returns false and the
container is unchanged.  Second input: the container is empty and no positive
slot field of the unit reads `0`; the call returns false as well.  Third
input: the unit carries a shape-shift aura and, behind it, rank 1 of base spell
310, and no aura of spell 311; two calls with visible, stackable shape-shift
auras of spell 311 (rank 2 of base spell 310) return true, the first replaces
the shape-shift aura, the second replaces rank 1 and its cleanup removes the
instance of the first call: one instance of the spell is left, with stack
count 1. -/
theorem C7_stacking_counterexample :
    (∀ y ∈ demoStateRank2.m_auras, y.spell.id ≠ stackSpell.id)
    ∧ isVisible demoEnv (stackAura 1) ∧ 0 < stackSpell.stackamount
    ∧ (stackAura 1).spell = stackSpell ∧ (stackAura 1).caster = some 7
    ∧ addAuras demoEnv false demoStateRank2 [stackAura 1] = some ([false], demoStateRank2)
    ∧ addAuras demoEnv false (AuraContainer.empty fullOwner) [stackAura 1]
        = some ([false], AuraContainer.empty fullOwner)
    ∧ twoCandidateState.m_auras = [demoAura1.setSlot 0, formLower.setSlot 1]
    ∧ (∀ y ∈ twoCandidateState.m_auras, y.spell.id ≠ formSpell.id)
    ∧ (∀ a ∈ [formAura 20, formAura 21],
        a.spell = formSpell ∧ a.caster = some 7 ∧ isVisible demoEnv a)
    ∧ 0 < formSpell.stackamount
    ∧ (addAuras demoEnv false twoCandidateState [formAura 20, formAura 21]).map
          (fun r => (r.1, r.2.m_auras))
        = some ([true, true], [(formAura 21).setSlot 1])
    ∧ ((formAura 21).setSlot 1).stackCount = 1 ∧ min 2 formSpell.stackamount = 2 := by
  refine ⟨by decide, by decide, by decide, rfl, rfl, rfl, rfl, rfl, by decide, by decide,
    by decide, rfl, rfl, rfl⟩

/-! ## C8: one outcome per call -/

theorem addAura_outcome (E : Env) (c c' : AuraContainer) (aura : AuraSpellSlot)
    (restoration b : Bool) (hc : CountersOk c)
    (h : addAura E c aura restoration = some (b, c')) :
    StackOutcome E c c' aura b ∨ ReplaceOutcome E c c' aura restoration b
      ∨ UntouchedOutcome E c c' aura restoration b := by
  unfold StackOutcome ReplaceOutcome UntouchedOutcome
  by_cases hv : isVisible E aura
  · rcases candidate_cases E aura c.m_auras with hnone | ⟨pre, x, suf, hl, hpre, hx⟩
    · right; right
      refine ⟨Or.inr (Or.inr (addAura_scan_none E aura c.m_auras 0 hnone)), ?_⟩
      rw [addAura_of_no_candidate E c aura restoration hv hnone] at h
      rcases addAura_place_some E c c' aura 0xFF restoration b h hc with
        ⟨_, hb, hcc⟩ | ⟨_, hb, hl', _, hcalls⟩
      · exact Or.inl ⟨hb, hcc⟩
      · exact Or.inr ⟨hb, _, hl', hcalls⟩
    · have hscan := addAura_scan_split E aura x pre suf 0 hpre hx
      rw [← hl, Nat.zero_add] at hscan
      rw [addAura_of_candidate E c aura x restoration pre suf hv hl hpre hx] at h
      by_cases hrank : x.spell.baseid = aura.spell.baseid ∧ aura.spell.rank < x.spell.rank
      · right; right
        rw [if_pos hrank] at hscan h
        simp only [Option.some.injEq, Prod.mk.injEq] at h
        exact ⟨Or.inr (Or.inl hscan), Or.inl ⟨h.1.symm, h.2.symm⟩⟩
      · rw [if_neg hrank] at hscan h
        by_cases hstack : x.spell.id = aura.spell.id ∧ 0 < aura.spell.stackamount
            ∧ x.caster = aura.caster ∧ aura.caster.isSome = true
        · left
          rw [if_pos hstack] at hscan h
          simp only [Option.some.injEq, Prod.mk.injEq] at h
          obtain ⟨hb, hcc⟩ := h
          subst hcc
          exact ⟨pre, x, suf, hv, hl, hpre, hx, hscan, hb.symm, rfl, rfl⟩
        · right; left
          rw [if_neg hstack] at hscan h
          obtain ⟨c2, _, h2, h3, h4, _, h6⟩ := removeAura_split E c pre suf x hl hc
          rw [h2] at h
          simp only at h
          have hslot : determineSlot E (misapply E x c2) aura x.slot = x.slot := by
            unfold determineSlot
            rw [if_neg (slot_of_candidate E aura x hx)]
          rcases addAura_place_some E _ c' aura x.slot restoration b h
              (misapply_CountersOk E x c2 h4) with ⟨hs, _, _⟩ | ⟨_, hb, hl', _, hcalls⟩
          · rw [hslot] at hs
            exact absurd hs (slot_of_candidate E aura x hx)
          · refine ⟨pre, x, suf, hv, hl, hpre, hx, hscan, hb, ?_, ?_⟩
            · rw [hl', hslot, misapply_m_auras, h3]
            · rw [hcalls, hslot, misapply_calls, misapply_m_auras, h3, h6]
  · right; right
    refine ⟨Or.inl hv, Or.inr ?_⟩
    have hv' : ¬ (aura.passive = false ∧ aura.spell.attributes0 &&& E.HiddenClientSide = 0) := hv
    unfold addAura at h
    rw [if_neg hv'] at h
    obtain ⟨hb, hl', _, hcalls⟩ := addAura_insert_some E c c' aura restoration b h hc
    exact ⟨hb, aura.slot, hl', hcalls⟩

/-- C8: a call of `addAura` that returns has exactly one of three outcomes.
Either it adds a stack to the first overwrite candidate (nothing is appended
or removed, no handler runs); or it removes the first overwrite candidate and
appends the new aura; or it touches no existing instance: it is rejected with
the container unchanged, or the new aura is appended.  The shape-shift cleanup
is left aside (it is the `afterCleanup` of the outcomes).  Stacking and
replacing exclude each other, and only the first overwrite candidate in list
order is stacked upon or replaced. -/
theorem C8_single_outcome (E : Env) (c c' : AuraContainer) (aura : AuraSpellSlot)
    (restoration b : Bool) (hc : CountersOk c)
    (h : addAura E c aura restoration = some (b, c')) :
    (StackOutcome E c c' aura b ∧ ¬ ReplaceOutcome E c c' aura restoration b
        ∧ ¬ UntouchedOutcome E c c' aura restoration b)
    ∨ (ReplaceOutcome E c c' aura restoration b ∧ ¬ StackOutcome E c c' aura b
        ∧ ¬ UntouchedOutcome E c c' aura restoration b)
    ∨ (UntouchedOutcome E c c' aura restoration b ∧ ¬ StackOutcome E c c' aura b
        ∧ ¬ ReplaceOutcome E c c' aura restoration b) := by
  have hSR : StackOutcome E c c' aura b → ¬ ReplaceOutcome E c c' aura restoration b := by
    rintro ⟨_, _, _, _, _, _, _, hs, _⟩ ⟨_, _, _, _, _, _, _, hr, _⟩
    rw [hs] at hr
    exact Resolution.noConfusion hr
  have hSU : StackOutcome E c c' aura b → ¬ UntouchedOutcome E c c' aura restoration b := by
    rintro ⟨_, _, _, hv, _, _, _, hs, _⟩ ⟨hu, _⟩
    rcases hu with hu | hu | hu
    · exact hu hv
    · rw [hs] at hu; exact Resolution.noConfusion hu
    · rw [hs] at hu; exact Resolution.noConfusion hu
  have hRU : ReplaceOutcome E c c' aura restoration b →
      ¬ UntouchedOutcome E c c' aura restoration b := by
    rintro ⟨_, _, _, hv, _, _, _, hr, _⟩ ⟨hu, _⟩
    rcases hu with hu | hu | hu
    · exact hu hv
    · rw [hr] at hu; exact Resolution.noConfusion hu
    · rw [hr] at hu; exact Resolution.noConfusion hu
  rcases addAura_outcome E c c' aura restoration b hc h with h1 | h1 | h1
  · exact Or.inl ⟨h1, hSR h1, hSU h1⟩
  · exact Or.inr (Or.inl ⟨h1, fun h2 => hSR h2 h1, hRU h1⟩)
  · exact Or.inr (Or.inr ⟨h1, fun h2 => hSU h2 h1, fun h2 => hRU h2 h1⟩)

theorem C8_single_outcome_witness :
    (StackOutcome demoEnv demoState1 (afterAddAura demoEnv demoState1 demoAura1b false)
          demoAura1b true
        ∧ ¬ ReplaceOutcome demoEnv demoState1 (afterAddAura demoEnv demoState1 demoAura1b false)
          demoAura1b false true
        ∧ ¬ UntouchedOutcome demoEnv demoState1 (afterAddAura demoEnv demoState1 demoAura1b false)
          demoAura1b false true)
    ∨ (ReplaceOutcome demoEnv demoState1 (afterAddAura demoEnv demoState1 demoAura1b false)
          demoAura1b false true
        ∧ ¬ StackOutcome demoEnv demoState1 (afterAddAura demoEnv demoState1 demoAura1b false)
          demoAura1b true
        ∧ ¬ UntouchedOutcome demoEnv demoState1 (afterAddAura demoEnv demoState1 demoAura1b false)
          demoAura1b false true)
    ∨ (UntouchedOutcome demoEnv demoState1 (afterAddAura demoEnv demoState1 demoAura1b false)
          demoAura1b false true
        ∧ ¬ StackOutcome demoEnv demoState1 (afterAddAura demoEnv demoState1 demoAura1b false)
          demoAura1b true
        ∧ ¬ ReplaceOutcome demoEnv demoState1 (afterAddAura demoEnv demoState1 demoAura1b false)
          demoAura1b false true) :=
  C8_single_outcome demoEnv demoState1 (afterAddAura demoEnv demoState1 demoAura1b false)
    demoAura1b false true
    (Reachable_CountersOk demoEnv demoState1
      (Reachable.addAura demoAura1 false true (Reachable.empty demoOwner) rfl))
    rfl

/-! ## C9: shape-shift auras exclude each other -/

theorem addAura_insert_shapeshift (E : Env) (c0 c' : AuraContainer) (a : AuraSpellSlot)
    (restoration b : Bool) (h : addAura_insert E c0 a restoration = some (b, c'))
    (hss : a.hasEffect E.ModShapeShift = true) (hc : CountersOk c0) :
    ∃ c1, removeAurasByType E c0 E.ModShapeShift = some c1
      ∧ c' = addAura_apply E c1 a restoration
      ∧ c1.m_auras = c0.m_auras.filter (fun x => !x.hasEffect E.ModShapeShift)
      ∧ c1.calls = c0.calls
          ++ (c0.m_auras.filter (fun x => x.hasEffect E.ModShapeShift)).map HandlerCall.misapplyEffects := by
  unfold addAura_insert at h
  rw [if_pos hss] at h
  cases hr : removeAurasByType E c0 E.ModShapeShift with
  | none => rw [hr] at h; simp at h
  | some c1 =>
    rw [hr] at h
    simp only [Option.some.injEq, Prod.mk.injEq] at h
    have hr' := hr
    unfold removeAurasByType at hr'
    by_cases h0 : E.ModShapeShift = 0
    · rw [if_pos h0] at hr'; simp at hr'
    · rw [if_neg h0] at hr'
      obtain ⟨c1', k1, k2, _, k4⟩ := removeLoop_begin E (fun x => x.hasEffect E.ModShapeShift) c0 hc
      rw [k1] at hr'
      have e : c1' = c1 := Option.some.inj hr'
      rw [e] at k2 k4
      exact ⟨c1, rfl, h.2.symm, k2, k4⟩

theorem setSlot_self (a : AuraSpellSlot) : a.setSlot a.slot = a := by
  cases a; rfl

/-- C9: when `addAura` returns true for an aura with a `ModShapeShift` effect
that was not merged into an existing instance as a stack, there is a state
`c1` of the container, reached before the new instance is appended, in which
no instance with a `ModShapeShift` effect is left and every instance of the
state before the call that had one has been removed and unapplied; the final
state arises from `c1` by appending the new instance, raising its counters and
running its `applyEffects`.  So the new instance is the only one with a
`ModShapeShift` effect. -/
theorem C9_shapeshift_exclusive (E : Env) (c c' : AuraContainer) (aura : AuraSpellSlot)
    (restoration : Bool) (hc : CountersOk c)
    (hss : aura.hasEffect E.ModShapeShift = true)
    (hns : ¬ StackOutcome E c c' aura true)
    (h : addAura E c aura restoration = some (true, c')) :
    ∃ c1 s,
      (∀ y ∈ c1.m_auras, y ∈ c.m_auras ∧ y.hasEffect E.ModShapeShift = false)
      ∧ (∀ y ∈ c.m_auras, y.hasEffect E.ModShapeShift = true →
          HandlerCall.misapplyEffects y ∈ c1.calls ∧ y ∉ c1.m_auras)
      ∧ c' = addAura_apply E c1 (aura.setSlot s) restoration
      ∧ c'.m_auras = c1.m_auras ++ [aura.setSlot s]
      ∧ c'.calls = c1.calls ++ [HandlerCall.applyEffects (aura.setSlot s) restoration]
      ∧ (aura.setSlot s).hasEffect E.ModShapeShift = true := by
  have fin : ∀ (c0 : AuraContainer) (s : Nat), CountersOk c0 →
      (∀ y ∈ c0.m_auras, y ∈ c.m_auras) →
      (∀ y ∈ c.m_auras, y.hasEffect E.ModShapeShift = true →
        y ∈ c0.m_auras ∨ HandlerCall.misapplyEffects y ∈ c0.calls) →
      addAura_insert E c0 (aura.setSlot s) restoration = some (true, c') →
      ∃ c1 s,
        (∀ y ∈ c1.m_auras, y ∈ c.m_auras ∧ y.hasEffect E.ModShapeShift = false)
        ∧ (∀ y ∈ c.m_auras, y.hasEffect E.ModShapeShift = true →
            HandlerCall.misapplyEffects y ∈ c1.calls ∧ y ∉ c1.m_auras)
        ∧ c' = addAura_apply E c1 (aura.setSlot s) restoration
        ∧ c'.m_auras = c1.m_auras ++ [aura.setSlot s]
        ∧ c'.calls = c1.calls ++ [HandlerCall.applyEffects (aura.setSlot s) restoration]
        ∧ (aura.setSlot s).hasEffect E.ModShapeShift = true := by
    intro c0 s hc0 hsub hcov hins
    obtain ⟨c1, _, k2, k3, k4⟩ := addAura_insert_shapeshift E c0 c' (aura.setSlot s) restoration
      true hins hss hc0
    have hmem : ∀ y ∈ c1.m_auras, y ∈ c0.m_auras ∧ y.hasEffect E.ModShapeShift = false := by
      intro y hy
      rw [k3] at hy
      have := List.mem_filter.mp hy
      exact ⟨this.1, by simpa using this.2⟩
    refine ⟨c1, s, fun y hy => ⟨hsub y (hmem y hy).1, (hmem y hy).2⟩, ?_, k2, ?_, ?_, hss⟩
    · intro y hy hys
      refine ⟨?_, fun hin => ?_⟩
      · rw [k4]
        rcases hcov y hy hys with h1 | h1
        · exact List.mem_append_right _
            (List.mem_map.mpr ⟨y, List.mem_filter.mpr ⟨h1, hys⟩, rfl⟩)
        · exact List.mem_append_left _ h1
      · have := (hmem y hin).2
        rw [hys] at this
        exact absurd this (by simp)
    · rw [k2]; rfl
    · rw [k2]; rfl
  by_cases hv : isVisible E aura
  · rcases candidate_cases E aura c.m_auras with hnone | ⟨pre, x, suf, hl, hpre, hx⟩
    · rw [addAura_of_no_candidate E c aura restoration hv hnone] at h
      unfold addAura_place at h
      split at h
      · simp at h
      · exact fin c _ hc (fun y hy => hy) (fun y hy _ => Or.inl hy) h
    · have hscan := addAura_scan_split E aura x pre suf 0 hpre hx
      rw [← hl, Nat.zero_add] at hscan
      rw [addAura_of_candidate E c aura x restoration pre suf hv hl hpre hx] at h
      by_cases hrank : x.spell.baseid = aura.spell.baseid ∧ aura.spell.rank < x.spell.rank
      · rw [if_pos hrank] at h; simp at h
      · rw [if_neg hrank] at h hscan
        by_cases hstack : x.spell.id = aura.spell.id ∧ 0 < aura.spell.stackamount
            ∧ x.caster = aura.caster ∧ aura.caster.isSome = true
        · rw [if_pos hstack] at h hscan
          simp only [Option.some.injEq, Prod.mk.injEq, true_and] at h
          subst h
          exact absurd ⟨pre, x, suf, hv, hl, hpre, hx, hscan, rfl, rfl, rfl⟩ hns
        · rw [if_neg hstack] at h
          obtain ⟨c2, _, h2, h3, h4, _, h6⟩ := removeAura_split E c pre suf x hl hc
          rw [h2] at h
          simp only at h
          unfold addAura_place at h
          split at h
          · simp at h
          · refine fin (misapply E x c2) _ (misapply_CountersOk E x c2 h4) ?_ ?_ h
            · intro y hy
              rw [misapply_m_auras, h3] at hy
              rw [hl]
              rcases List.mem_append.mp hy with h1 | h1
              · exact List.mem_append_left _ h1
              · exact List.mem_append_right _ (List.mem_cons_of_mem _ h1)
            · intro y hy _
              rw [hl] at hy
              rw [misapply_m_auras, h3, misapply_calls]
              rcases List.mem_append.mp hy with h1 | h1
              · exact Or.inl (List.mem_append_left _ h1)
              · rcases List.mem_cons.mp h1 with h1 | h1
                · right
                  rw [h1]
                  exact List.mem_append_right _ (List.mem_singleton.mpr rfl)
                · exact Or.inl (List.mem_append_right _ h1)
  · have hv' : ¬ (aura.passive = false ∧ aura.spell.attributes0 &&& E.HiddenClientSide = 0) := hv
    unfold addAura at h
    rw [if_neg hv'] at h
    rw [← setSlot_self aura] at h
    have hss' : aura.hasEffect E.ModShapeShift = true := hss
    exact fin c aura.slot hc (fun y hy => hy) (fun y hy _ => Or.inl hy) h

theorem C9_shapeshift_exclusive_witness :
    ∃ c1 s,
      (∀ y ∈ c1.m_auras, y ∈ demoStateNegative.m_auras ∧ y.hasEffect demoEnv.ModShapeShift = false)
      ∧ (∀ y ∈ demoStateNegative.m_auras, y.hasEffect demoEnv.ModShapeShift = true →
          HandlerCall.misapplyEffects y ∈ c1.calls ∧ y ∉ c1.m_auras)
      ∧ afterAddAura demoEnv demoStateNegative demoPassiveShift false
          = addAura_apply demoEnv c1 (demoPassiveShift.setSlot s) false
      ∧ (afterAddAura demoEnv demoStateNegative demoPassiveShift false).m_auras
          = c1.m_auras ++ [demoPassiveShift.setSlot s]
      ∧ (afterAddAura demoEnv demoStateNegative demoPassiveShift false).calls
          = c1.calls ++ [HandlerCall.applyEffects (demoPassiveShift.setSlot s) false]
      ∧ (demoPassiveShift.setSlot s).hasEffect demoEnv.ModShapeShift = true :=
  C9_shapeshift_exclusive demoEnv demoStateNegative
    (afterAddAura demoEnv demoStateNegative demoPassiveShift false) demoPassiveShift false
    (Reachable_CountersOk demoEnv demoStateNegative
      (Reachable.addAura demoNegative false true (Reachable.empty demoOwner) rfl))
    rfl
    (fun h => by
      obtain ⟨_, _, _, hv, _⟩ := h
      exact absurd hv (by decide))
    rfl

/-! ## C10: what the unapply handlers see -/

theorem countEffects_pos_iff (T : Nat) (es : List AuraEffect) :
    0 < countEffects T es ↔ es.any (fun e => e.aura == T) = true := by
  unfold countEffects
  rw [List.countP_pos_iff, List.any_eq_true]

theorem effectCount_pos_iff (T : Nat) (l : List AuraSpellSlot) :
    0 < effectCount T l ↔ ∃ y ∈ l, y.hasEffect T = true := by
  induction l with
  | nil => simp [effectCount]
  | cons a rest ih =>
    simp only [effectCount, List.mem_cons, exists_eq_or_imp]
    rw [← ih, ← show (0 < countEffects T a.effects ↔ a.hasEffect T = true) from
      countEffects_pos_iff T a.effects]
    omega

/-- C10: when `removeAura` removes the instance `x` at a valid iterator of a
container with consistent counters, the unapply handlers of `x` run on the
state `c2` in which `x` is already erased from the list and every counter is
already lowered by the number of effects of `x` of its type; in that state
`hasAura T` holds exactly when an instance still in the list has an effect of
type `T`. -/
theorem C10_unapply_sees_post_removal (E : Env) (c : AuraContainer) (it : Nat) (x : AuraSpellSlot)
    (hc : CountersOk c) (hx : c.m_auras[it]? = some x) :
    ∃ c2, removeAura_detach c it = some (x, c2)
      ∧ removeAura E c it = some (misapply E x c2)
      ∧ (misapply E x c2).m_owner = E.misapplyEffects x c2
      ∧ c2.m_auras = c.m_auras.eraseIdx it
      ∧ (∀ T, c2.m_auraTypeCount T = c.m_auraTypeCount T - countEffects T x.effects)
      ∧ (∀ T, hasAura c2 T = true ↔ ∃ y ∈ c2.m_auras, y.hasEffect T = true) := by
  obtain ⟨c2, h1, h2, h3, h4, _, _⟩ := removeAura_of_getElem? E c it x hx hc
  refine ⟨c2, h1, h2, rfl, h3, ?_, ?_⟩
  · intro T
    have hd := h1
    unfold removeAura_detach at hd
    rw [hx] at hd
    simp only at hd
    cases hr : reduceCounters c.m_auraTypeCount x.effects with
    | none => rw [hr] at hd; simp at hd
    | some cnt =>
      rw [hr] at hd
      simp only [Option.some.injEq, Prod.mk.injEq, true_and] at hd
      rw [← hd]
      exact (reduceCounters_some_le _ _ _ hr T).2
  · intro T
    unfold hasAura
    rw [decide_eq_true_iff, h4 T, effectCount_pos_iff]

theorem C10_unapply_sees_post_removal_witness :
    ∃ c2, removeAura_detach demoState1 0 = some (demoAura1.setSlot 0, c2)
      ∧ removeAura demoEnv demoState1 0 = some (misapply demoEnv (demoAura1.setSlot 0) c2)
      ∧ (misapply demoEnv (demoAura1.setSlot 0) c2).m_owner
          = demoEnv.misapplyEffects (demoAura1.setSlot 0) c2
      ∧ c2.m_auras = demoState1.m_auras.eraseIdx 0
      ∧ (∀ T, c2.m_auraTypeCount T
          = demoState1.m_auraTypeCount T - countEffects T (demoAura1.setSlot 0).effects)
      ∧ (∀ T, hasAura c2 T = true ↔ ∃ y ∈ c2.m_auras, y.hasEffect T = true) :=
  C10_unapply_sees_post_removal demoEnv demoState1 0 (demoAura1.setSlot 0)
    (Reachable_CountersOk demoEnv demoState1
      (Reachable.addAura demoAura1 false true (Reachable.empty demoOwner) rfl))
    rfl

/-! ## C11: the frame of `removeAura` -/

theorem demoState3_CountersOk : CountersOk demoState3 :=
  Reachable_CountersOk demoEnv demoState3
    (Reachable.addAura demoAura4 false true
      (Reachable.addAura demoAura3 false true
        (Reachable.addAura demoAura1 false true (Reachable.empty demoOwner) rfl) rfl) rfl)

/-- What `removeAura` at a valid iterator does, under consistent counters. -/
theorem removeAura_frame (E : Env) (c : AuraContainer) (it : Nat) (x : AuraSpellSlot)
    (hx : c.m_auras[it]? = some x) (hc : CountersOk c) :
    ∃ c', removeAura E c it = some c'
      ∧ c'.m_auras = c.m_auras.eraseIdx it
      ∧ (∀ T, c'.m_auraTypeCount T + countEffects T x.effects = c.m_auraTypeCount T)
      ∧ c'.calls = c.calls ++ [HandlerCall.misapplyEffects x]
      ∧ CountersOk c' := by
  obtain ⟨c2, h1, h2, h3, h4, _, h6⟩ := removeAura_of_getElem? E c it x hx hc
  refine ⟨misapply E x c2, h2, h3, ?_, by rw [misapply_calls, h6], misapply_CountersOk E x c2 h4⟩
  intro T
  have hd := h1
  unfold removeAura_detach at hd
  rw [hx] at hd
  simp only at hd
  cases hr : reduceCounters c.m_auraTypeCount x.effects with
  | none => rw [hr] at hd; simp at hd
  | some cnt =>
    rw [hr] at hd
    simp only [Option.some.injEq, Prod.mk.injEq, true_and] at hd
    have := reduceCounters_some_le _ _ _ hr T
    rw [misapply_counters, ← hd]
    show cnt T + countEffects T x.effects = c.m_auraTypeCount T
    omega

/-- C11: for an instance `x` of the container (objects being told apart by
their address), `removeAura(x)` finds `x` at an iterator `j` and returns the
container whose list is the previous list with the element at `j` deleted and
all other elements in place and in order; every counter is lowered by exactly
the number of effects of `x` of its type; and the handler log grows by one
entry, `misapplyEffects` on `x`. -/
theorem C11_removeAura_frame (E : Env) (c : AuraContainer) (x : AuraSpellSlot)
    (hc : CountersOk c) (hmem : x ∈ c.m_auras)
    (hid : ∀ y ∈ c.m_auras, y.ptr = x.ptr → y = x) :
    ∃ j c', c.m_auras[j]? = some x ∧ findAura c x = j
      ∧ removeAuraRef E c x = some c' ∧ removeAura E c j = some c'
      ∧ c'.m_auras = c.m_auras.eraseIdx j
      ∧ (∀ T, c'.m_auraTypeCount T + countEffects T x.effects = c.m_auraTypeCount T)
      ∧ c'.calls = c.calls ++ [HandlerCall.misapplyEffects x] := by
  have hlt : findAura c x < c.m_auras.length := by
    unfold findAura
    exact List.findIdx_lt_length.mpr ⟨x, hmem, by simp⟩
  have hp : (c.m_auras[findAura c x]).ptr = x.ptr := by
    have hlt' : List.findIdx (fun y : AuraSpellSlot => y.ptr == x.ptr) c.m_auras
        < c.m_auras.length := hlt
    have := @List.findIdx_getElem _ (fun y : AuraSpellSlot => y.ptr == x.ptr) c.m_auras hlt'
    simpa [findAura] using this
  have hx : c.m_auras[findAura c x]? = some x := by
    rw [List.getElem?_eq_getElem hlt, hid _ (List.getElem_mem _) hp]
  obtain ⟨c', h1, h2, h3, h4, _⟩ := removeAura_frame E c _ x hx hc
  refine ⟨findAura c x, c', hx, rfl, ?_, h1, h2, h3, h4⟩
  unfold removeAuraRef
  rw [if_pos hlt, h1]

theorem C11_removeAura_frame_witness :
    ∃ j c', demoState3.m_auras[j]? = some (demoAura3.setSlot 1)
      ∧ findAura demoState3 (demoAura3.setSlot 1) = j
      ∧ removeAuraRef demoEnv demoState3 (demoAura3.setSlot 1) = some c'
      ∧ removeAura demoEnv demoState3 j = some c'
      ∧ c'.m_auras = demoState3.m_auras.eraseIdx j
      ∧ (∀ T, c'.m_auraTypeCount T + countEffects T (demoAura3.setSlot 1).effects
          = demoState3.m_auraTypeCount T)
      ∧ c'.calls = demoState3.calls ++ [HandlerCall.misapplyEffects (demoAura3.setSlot 1)] :=
  C11_removeAura_frame demoEnv demoState3 (demoAura3.setSlot 1) demoState3_CountersOk
    (by decide) (by decide)

/-! ## C13: death of the unit -/

/-- C13: on a container with consistent counters `handleTargetDeath` returns
(the loop ends within one round per instance); the list afterwards is the list
before restricted to the death persistent instances, in their order; and the
handler log grows by one `misapplyEffects` entry for each instance that was
not death persistent, in list order. -/
theorem C13_handleTargetDeath (E : Env) (c : AuraContainer) (hc : CountersOk c) :
    ∃ c', handleTargetDeath E c = some c'
      ∧ c'.m_auras = c.m_auras.filter (fun x => x.deathPersistent)
      ∧ c'.calls = c.calls
          ++ (c.m_auras.filter (fun x => !x.deathPersistent)).map HandlerCall.misapplyEffects
      ∧ (∀ x ∈ c'.m_auras, x.deathPersistent = true)
      ∧ (∀ x ∈ c.m_auras, x.deathPersistent = false →
          x ∉ c'.m_auras
          ∧ ((c.m_auras.filter (fun x => !x.deathPersistent)).map
              HandlerCall.misapplyEffects).count (HandlerCall.misapplyEffects x)
            = c.m_auras.count x) := by
  obtain ⟨c', h1, h2, _, h4⟩ := removeLoop_begin E (fun x => !x.deathPersistent) c hc
  have h2' : c'.m_auras = c.m_auras.filter (fun x => x.deathPersistent) := by
    rw [h2]; congr 1; funext x; simp
  refine ⟨c', h1, h2', h4, ?_, ?_⟩
  · intro x hx
    rw [h2'] at hx
    exact (List.mem_filter.mp hx).2
  · intro x _ hxd
    constructor
    · intro hin
      rw [h2'] at hin
      have := (List.mem_filter.mp hin).2
      rw [hxd] at this
      exact absurd this (by simp)
    · have hinj : Function.Injective HandlerCall.misapplyEffects := by
        intro a b hab
        cases hab
        rfl
      rw [List.count_map_of_injective _ _ hinj, List.count_filter (by simp [hxd])]

theorem C13_handleTargetDeath_witness :
    ∃ c', handleTargetDeath demoEnv demoState3 = some c'
      ∧ c'.m_auras = demoState3.m_auras.filter (fun x => x.deathPersistent)
      ∧ c'.calls = demoState3.calls
          ++ (demoState3.m_auras.filter (fun x => !x.deathPersistent)).map
              HandlerCall.misapplyEffects
      ∧ (∀ x ∈ c'.m_auras, x.deathPersistent = true)
      ∧ (∀ x ∈ demoState3.m_auras, x.deathPersistent = false →
          x ∉ c'.m_auras
          ∧ ((demoState3.m_auras.filter (fun x => !x.deathPersistent)).map
              HandlerCall.misapplyEffects).count (HandlerCall.misapplyEffects x)
            = demoState3.m_auras.count x) :=
  C13_handleTargetDeath demoEnv demoState3 demoState3_CountersOk

/-! ## C12: dispel -/

theorem removeFirst_succ_cons (p : AuraSpellSlot → Bool) (n : Nat) (x : AuraSpellSlot)
    (l : List AuraSpellSlot) :
    removeFirst p (n + 1) (x :: l)
      = if p x then removeFirst p n l else x :: removeFirst p (n + 1) l := rfl

theorem firstMatching_succ_cons (p : AuraSpellSlot → Bool) (n : Nat) (x : AuraSpellSlot)
    (l : List AuraSpellSlot) :
    firstMatching p (n + 1) (x :: l)
      = if p x then x :: firstMatching p n l else firstMatching p (n + 1) l := rfl

theorem removeFirst_zero (p : AuraSpellSlot → Bool) (l : List AuraSpellSlot) :
    removeFirst p 0 l = l := by
  cases l <;> rfl

theorem firstMatching_zero (p : AuraSpellSlot → Bool) (l : List AuraSpellSlot) :
    firstMatching p 0 l = [] := by
  cases l <;> rfl

theorem removeFirst_nil (p : AuraSpellSlot → Bool) (n : Nat) : removeFirst p n [] = [] := by
  cases n <;> rfl

theorem firstMatching_nil (p : AuraSpellSlot → Bool) (n : Nat) : firstMatching p n [] = [] := by
  cases n <;> rfl

theorem firstMatching_eq (p : AuraSpellSlot → Bool) (l : List AuraSpellSlot) :
    ∀ n, firstMatching p n l = (l.filter p).take n := by
  induction l with
  | nil => intro n; simp [firstMatching_nil]
  | cons x l ih =>
    intro n
    cases n with
    | zero => simp [firstMatching]
    | succ n =>
      rw [firstMatching_succ_cons]
      by_cases hp : p x = true
      · simp [hp, ih]
      · simp [hp, ih]

theorem removeFirst_filter_not (p : AuraSpellSlot → Bool) (l : List AuraSpellSlot) :
    ∀ n, (removeFirst p n l).filter (fun x => !p x) = l.filter (fun x => !p x) := by
  induction l with
  | nil => intro n; simp [removeFirst_nil]
  | cons x l ih =>
    intro n
    cases n with
    | zero => simp [removeFirst]
    | succ n =>
      rw [removeFirst_succ_cons]
      by_cases hp : p x = true
      · simp [hp, ih]
      · simp [hp, ih]

theorem removeFirst_filter (p : AuraSpellSlot → Bool) (l : List AuraSpellSlot) :
    ∀ n, (removeFirst p n l).filter p = (l.filter p).drop n := by
  induction l with
  | nil => intro n; simp [removeFirst_nil]
  | cons x l ih =>
    intro n
    cases n with
    | zero => simp [removeFirst]
    | succ n =>
      rw [removeFirst_succ_cons]
      by_cases hp : p x = true
      · simp [hp, ih]
      · simp [hp, ih]

theorem removeFirst_sublist (p : AuraSpellSlot → Bool) (l : List AuraSpellSlot) :
    ∀ n, List.Sublist (removeFirst p n l) l := by
  induction l with
  | nil => intro n; simp [removeFirst_nil]
  | cons x l ih =>
    intro n
    cases n with
    | zero => simp [removeFirst]
    | succ n =>
      rw [removeFirst_succ_cons]
      by_cases hp : p x = true
      · simp only [hp, if_true]
        exact List.Sublist.cons _ (ih n)
      · simp only [hp]
        exact List.Sublist.cons₂ _ (ih (n + 1))

/-- The dispel loop, started at the end of `pre` with `suf` still to visit and
`successCount` removals done: it removes the first `count - successCount`
matching instances of `suf`. -/
theorem dispelLoop_full (E : Env) (dispelType : Nat) (dispelPositive : Bool) (count : Nat)
    (suf : List AuraSpellSlot) :
    ∀ (fuel : Nat) (pre : List AuraSpellSlot) (n : Nat) (c : AuraContainer),
      c.m_auras = pre ++ suf → CountersOk c → suf.length ≤ fuel → n < count →
      ∃ c', dispelLoop E dispelType dispelPositive count fuel pre.length n c
          = some (n + min (count - n) (suf.countP (dispelMatch dispelType dispelPositive)), c')
        ∧ c'.m_auras = pre ++ removeFirst (dispelMatch dispelType dispelPositive) (count - n) suf
        ∧ c'.calls = c.calls
            ++ (firstMatching (dispelMatch dispelType dispelPositive) (count - n) suf).map
                HandlerCall.misapplyEffects := by
  induction suf with
  | nil =>
    intro fuel pre n c hl hc _ _
    refine ⟨c, ?_, by simpa [removeFirst_nil] using hl, by simp [firstMatching_nil]⟩
    cases fuel with
    | zero => simp [dispelLoop, hl]
    | succ k =>
      have : c.m_auras[pre.length]? = none := by rw [hl]; simp
      simp [dispelLoop, this]
  | cons x suf ih =>
    intro fuel pre n c hl hc hf hn
    cases fuel with
    | zero => simp at hf
    | succ k =>
      have hk : suf.length ≤ k := by simpa using hf
      have hget : c.m_auras[pre.length]? = some x := by rw [hl]; exact getElem?_split pre suf x
      obtain ⟨m, hm⟩ : ∃ m, count - n = m + 1 := ⟨count - n - 1, by omega⟩
      rw [hm, removeFirst_succ_cons, firstMatching_succ_cons, List.countP_cons]
      by_cases hp : x.spell.dispel = dispelType ∧ x.positive = dispelPositive
      · have hp' : dispelMatch dispelType dispelPositive x = true := by
          simp [dispelMatch, hp]
        obtain ⟨c2, _, h2, h3, h4, _, h6⟩ := removeAura_split E c pre suf x hl hc
        by_cases hcount : count ≤ n + 1
        · have hm0 : m = 0 := by omega
          refine ⟨misapply E x c2, ?_, ?_, ?_⟩
          · simp only [dispelLoop, hget, hp, and_self, if_true, h2, hcount, hp']
            congr 2
            omega
          · rw [misapply_m_auras, h3, hp', if_pos rfl, hm0, removeFirst_zero]
          · rw [misapply_calls, h6, hp', if_pos rfl, hm0, firstMatching_zero]; rfl
        · obtain ⟨c', k1, k2, k3⟩ := ih k pre (n + 1) (misapply E x c2) h3 h4 hk (by omega)
          have hm' : count - (n + 1) = m := by omega
          rw [hm'] at k1 k2 k3
          refine ⟨c', ?_, ?_, ?_⟩
          · simp only [dispelLoop, hget, hp, and_self, if_true, h2, hcount, if_false, hp']
            rw [k1]
            congr 2
            rw [Nat.min_def, Nat.min_def]
            split_ifs <;> omega
          · rw [k2, hp', if_pos rfl]
          · rw [k3, misapply_calls, h6, hp', if_pos rfl]
            simp
      · have hp' : dispelMatch dispelType dispelPositive x = false := by
          simp only [dispelMatch, decide_eq_false_iff_not]; exact hp
        have hl' : c.m_auras = (pre ++ [x]) ++ suf := by simp [hl]
        obtain ⟨c', k1, k2, k3⟩ := ih k (pre ++ [x]) n c hl' hc hk hn
        rw [hm] at k1 k2 k3
        refine ⟨c', ?_, ?_, ?_⟩
        · simp only [dispelLoop, hget, hp, if_false, hp']
          simpa using k1
        · rw [k2, hp']; simp
        · rw [k3, hp']; simp

/-- C12: for `dispelType != 0` and `count >= 1`, on a container with consistent
counters, `removeAurasDueToDispel` returns `min count m`, with `m` the number
of instances whose dispel type and polarity match, and leaves the list without
its first `count` matching instances: the instances that do not match are all
kept, the matching ones beyond the first `count` are kept, the result is a
sub-list of the list before (same relative order), and the removed instances
are unapplied in list order. -/
theorem C12_removeAurasDueToDispel (E : Env) (c : AuraContainer) (dispelType : Nat)
    (dispelPositive : Bool) (count : Nat) (hd : dispelType ≠ 0) (hcount : 1 ≤ count)
    (hc : CountersOk c) :
    ∃ c', removeAurasDueToDispel E c dispelType dispelPositive count
        = some (min count (c.m_auras.countP (dispelMatch dispelType dispelPositive)), c')
      ∧ c'.m_auras = removeFirst (dispelMatch dispelType dispelPositive) count c.m_auras
      ∧ c'.calls = c.calls
          ++ ((c.m_auras.filter (dispelMatch dispelType dispelPositive)).take count).map
              HandlerCall.misapplyEffects
      ∧ c'.m_auras.filter (fun x => !dispelMatch dispelType dispelPositive x)
          = c.m_auras.filter (fun x => !dispelMatch dispelType dispelPositive x)
      ∧ c'.m_auras.filter (dispelMatch dispelType dispelPositive)
          = (c.m_auras.filter (dispelMatch dispelType dispelPositive)).drop count
      ∧ List.Sublist c'.m_auras c.m_auras := by
  obtain ⟨c', h1, h2, h3⟩ := dispelLoop_full E dispelType dispelPositive count c.m_auras
    c.m_auras.length [] 0 c (by simp) hc (Nat.le_refl _) (by omega)
  simp only [List.length_nil, Nat.zero_add, Nat.sub_zero, List.nil_append] at h1 h2 h3
  refine ⟨c', ?_, h2, ?_, ?_, ?_, ?_⟩
  · unfold removeAurasDueToDispel
    rw [if_neg (by omega), h1]
  · rw [h3, firstMatching_eq]
  · rw [h2, removeFirst_filter_not]
  · rw [h2, removeFirst_filter]
  · rw [h2]; exact removeFirst_sublist _ _ _

theorem C12_removeAurasDueToDispel_witness :
    ∃ c', removeAurasDueToDispel demoEnv demoState3 1 true 1
        = some (min 1 (demoState3.m_auras.countP (dispelMatch 1 true)), c')
      ∧ c'.m_auras = removeFirst (dispelMatch 1 true) 1 demoState3.m_auras
      ∧ c'.calls = demoState3.calls
          ++ ((demoState3.m_auras.filter (dispelMatch 1 true)).take 1).map
              HandlerCall.misapplyEffects
      ∧ c'.m_auras.filter (fun x => !dispelMatch 1 true x)
          = demoState3.m_auras.filter (fun x => !dispelMatch 1 true x)
      ∧ c'.m_auras.filter (dispelMatch 1 true)
          = (demoState3.m_auras.filter (dispelMatch 1 true)).drop 1
      ∧ List.Sublist c'.m_auras demoState3.m_auras :=
  C12_removeAurasDueToDispel demoEnv demoState3 1 true 1 (by decide) (by decide)
    demoState3_CountersOk

/-! ## C19: the total multiplier -/

theorem getTotalMultiplier_effects_eq (type : Nat) (es : List AuraEffect) :
    ∀ m : ℚ, getTotalMultiplier_effects type es m
      = m * ((es.filter (fun e => e.aura == type)).map
          (fun e => (100 + (e.basePoints : ℚ)) / 100)).prod := by
  induction es with
  | nil => intro m; simp [getTotalMultiplier_effects]
  | cons e es ih =>
    intro m
    by_cases h : e.aura = type
    · rw [getTotalMultiplier_effects, if_pos h, ih]
      simp [h, mul_assoc]
    · rw [getTotalMultiplier_effects, if_neg h, ih]
      simp [h]

theorem getTotalMultiplier_loop_eq (type : Nat) (l : List AuraSpellSlot) :
    ∀ m : ℚ, getTotalMultiplier_loop type l m
      = m * (((allEffects l).filter (fun e => e.aura == type)).map
          (fun e => (100 + (e.basePoints : ℚ)) / 100)).prod := by
  induction l with
  | nil => intro m; simp [getTotalMultiplier_loop, allEffects]
  | cons a rest ih =>
    intro m
    rw [getTotalMultiplier_loop, ih, getTotalMultiplier_effects_eq]
    simp [allEffects, mul_assoc]

/-- C19: over exact rationals, `getTotalMultiplier T` is the product of
`(100 + basePoints) / 100` over the effects of type `T` of all instances;
effects of other types do not enter the product; it is `1` when no effect has
type `T`; and base points 10 and 20 give `33 / 25 = 1.32`, not `1.30`. -/
theorem C19_getTotalMultiplier :
    (∀ (c : AuraContainer) (T : Nat), getTotalMultiplier c T
      = (((allEffects c.m_auras).filter (fun e => e.aura == T)).map
          (fun e => (100 + (e.basePoints : ℚ)) / 100)).prod)
    ∧ (∀ (c : AuraContainer) (T : Nat), (∀ e ∈ allEffects c.m_auras, e.aura ≠ T) →
        getTotalMultiplier c T = 1)
    ∧ getTotalMultiplier demoMultiplierState 4 = 33 / 25
    ∧ getTotalMultiplier demoMultiplierState 4 ≠ 13 / 10 := by
  have h1 : ∀ (c : AuraContainer) (T : Nat), getTotalMultiplier c T
      = (((allEffects c.m_auras).filter (fun e => e.aura == T)).map
          (fun e => (100 + (e.basePoints : ℚ)) / 100)).prod := by
    intro c T
    unfold getTotalMultiplier
    rw [getTotalMultiplier_loop_eq, one_mul]
  have h3 : getTotalMultiplier demoMultiplierState 4 = 33 / 25 := by
    simp [getTotalMultiplier, getTotalMultiplier_loop, getTotalMultiplier_effects,
      demoMultiplierState]
    norm_num
  refine ⟨h1, ?_, h3, ?_⟩
  · intro c T hno
    rw [h1]
    have : (allEffects c.m_auras).filter (fun e => e.aura == T) = [] := by
      rw [List.filter_eq_nil_iff]
      intro e he
      simpa using hno e he
    rw [this]
    rfl
  · rw [h3]; norm_num

/-! ## C20: traversal with a visitor -/

theorem forEachEffect_stops {σ : Type} (functor : σ → AuraEffect → Bool × σ)
    (es : List AuraEffect) :
    ∀ st : σ, ∀ p ∈ (forEachEffect functor es st).1.dropLast, p.2 = true := by
  induction es with
  | nil => intro st p hp; simp [forEachEffect] at hp
  | cons e es ih =>
    intro st p hp
    unfold forEachEffect at hp
    rcases hf : functor st e with ⟨b, st'⟩
    rw [hf] at hp
    cases b with
    | false => simp at hp
    | true =>
      simp only at hp
      rcases hr : forEachEffect functor es st' with ⟨log, st''⟩
      have ih' := ih st'
      rw [hr] at hp ih'
      simp only at hp ih'
      cases log with
      | nil => simp at hp
      | cons q log =>
        rw [List.dropLast_cons₂] at hp
        rcases List.mem_cons.mp hp with h | h
        · rw [h]
        · exact ih' p h

/-- C20, on the code: within one instance the traversal does stop at the first
"stop" of the visitor (every call but the last of `forEachEffect` returned
true).  But `forEachAura` and `forEachAuraOfType` go on with the next instance:
on a container with three instances and a visitor that returns "stop" on every
effect, `forEachAura` calls the visitor three times and
`forEachAuraOfType 4` calls it twice, once per instance with such an effect. -/
theorem C20_visitor_called_after_stop :
    (∀ (functor : Nat → AuraEffect → Bool × Nat) (es : List AuraEffect) (st : Nat),
        ∀ p ∈ (forEachEffect functor es st).1.dropLast, p.2 = true)
    ∧ forEachAura demoMultiplierState stopVisitor 0
        = ([({ aura := 4, basePoints := 10 }, false), ({ aura := 8, basePoints := 50 }, false),
            ({ aura := 4, basePoints := 20 }, false)], 3)
    ∧ forEachAuraOfType demoMultiplierState 4 stopVisitor 0
        = ([({ aura := 4, basePoints := 10 }, false), ({ aura := 4, basePoints := 20 }, false)], 2) := by
  refine ⟨fun functor es st => forEachEffect_stops functor es st, rfl, rfl⟩

/-! ## The absorb loop, step by step -/

theorem absorbStart_eq (E : Env) (c : AuraContainer) (damage : Nat) :
    ({ damage := damage, ownerMana := c.m_owner.getUInt32Value E.Power1 } : AbsorbState)
      = absorbStart E c damage := rfl

/-- One round of the loop of `consumeAbsorb` at the instance `x` that follows
`pre`: the effects of `x` are visited, then `x` is removed or kept, and the
loop ends when no damage is left. -/
theorem consumeAbsorb_loop_step (E : Env) (school k : Nat) (pre suf : List AuraSpellSlot)
    (x : AuraSpellSlot) (s : AbsorbState) (c : AuraContainer)
    (hl : c.m_auras = pre ++ x :: suf) (hc : CountersOk c) :
    ∃ x' c1 c2, x' = { x with effects :=
          (consumeAbsorb_effects E school x.effects { s with shouldRemove := false }).1 }
      ∧ c1 = { c with m_auras := pre ++ x' :: suf } ∧ CountersOk c1
      ∧ c2.m_auras = pre ++ suf ∧ CountersOk c2 ∧ c2.m_owner = c.m_owner ∧ c2.calls = c.calls
      ∧ consumeAbsorb_loop E school (k + 1) pre.length s c =
          if (consumeAbsorb_effects E school x.effects { s with shouldRemove := false }).2.shouldRemove
              = true then
            if (consumeAbsorb_effects E school x.effects { s with shouldRemove := false }).2.damage
                = 0 then
              some ((consumeAbsorb_effects E school x.effects { s with shouldRemove := false }).2,
                misapply E x' c2)
            else consumeAbsorb_loop E school k pre.length
              (consumeAbsorb_effects E school x.effects { s with shouldRemove := false }).2
              (misapply E x' c2)
          else if (consumeAbsorb_effects E school x.effects { s with shouldRemove := false }).2.damage
              = 0 then
            some ((consumeAbsorb_effects E school x.effects { s with shouldRemove := false }).2, c1)
          else consumeAbsorb_loop E school k (pre.length + 1)
            (consumeAbsorb_effects E school x.effects { s with shouldRemove := false }).2 c1 := by
  have hget : c.m_auras[pre.length]? = some x := by rw [hl]; exact getElem?_split pre suf x
  rcases hr : consumeAbsorb_effects E school x.effects { s with shouldRemove := false }
    with ⟨es', s'⟩
  have hcnt : ∀ T, countEffects T es' = countEffects T x.effects := by
    intro T
    have := consumeAbsorb_effects_count E school T x.effects { s with shouldRemove := false }
    rw [hr] at this
    exact this
  obtain ⟨x', hx'⟩ : ∃ x' : AuraSpellSlot, x' = { x with effects := es' } := ⟨_, rfl⟩
  obtain ⟨c1, hc1def⟩ : ∃ c1 : AuraContainer,
      c1 = { c with m_auras := pre ++ x' :: suf } := ⟨_, rfl⟩
  have hset : c.m_auras.set pre.length x' = pre ++ x' :: suf := by
    rw [hl]; exact set_split pre suf x _
  have hl1 : c1.m_auras = pre ++ x' :: suf := by rw [hc1def]
  have hc1 : CountersOk c1 := by
    intro T
    rw [hl1, effectCount_replace T pre suf x x' (by rw [hx']; exact hcnt T), ← hl, hc1def]
    exact hc T
  obtain ⟨c2, _, h2, h3, h4, h5, h6⟩ := removeAura_split E c1 pre suf x' hl1 hc1
  have h5' : c2.m_owner = c.m_owner := by rw [h5, hc1def]
  have h6' : c2.calls = c.calls := by rw [h6, hc1def]
  refine ⟨x', c1, c2, hx', hc1def, hc1, h3, h4, h5', h6', ?_⟩
  have hc1set : ({ c with m_auras := c.m_auras.set pre.length x' } : AuraContainer) = c1 := by
    rw [hc1def, hset]
  simp only [consumeAbsorb_loop, hget, hr, ← hx', hc1set, h2]

/-- An invariant of the captured variables that the callback and the reset of
`shouldRemove` preserve holds after the visit of the effects of an instance. -/
theorem consumeAbsorb_effects_invariant (E : Env) (school : Nat) (R : AbsorbState → Prop)
    (hstep : ∀ e s, R s → R (consumeAbsorb_effect E school e s).2.2) :
    ∀ (es : List AuraEffect) (s : AbsorbState), R s → R (consumeAbsorb_effects E school es s).2 := by
  intro es
  induction es with
  | nil => intro s hs; exact hs
  | cons e es ih =>
    intro s hs
    have h1 := hstep e s hs
    unfold consumeAbsorb_effects
    rcases hr : consumeAbsorb_effect E school e s with ⟨b, e', s'⟩
    rw [hr] at h1
    cases b with
    | true =>
      simp only
      have := ih s' h1
      rcases hr2 : consumeAbsorb_effects E school es s' with ⟨es', s''⟩
      rw [hr2] at this
      exact this
    | false => exact h1

/-- Such an invariant holds for the variables at the end of the loop. -/
theorem consumeAbsorb_loop_invariant (E : Env) (school : Nat) (R : AbsorbState → Prop)
    (hreset : ∀ s, R s → R { s with shouldRemove := false })
    (hstep : ∀ e s, R s → R (consumeAbsorb_effect E school e s).2.2) :
    ∀ (fuel it : Nat) (s : AbsorbState) (c : AuraContainer) (r : AbsorbState × AuraContainer),
      R s → consumeAbsorb_loop E school fuel it s c = some r → R r.1 := by
  intro fuel
  induction fuel with
  | zero =>
    intro it s c r hs h
    unfold consumeAbsorb_loop at h
    split at h
    · simp at h
    · cases h; exact hs
  | succ k ih =>
    intro it s c r hs h
    unfold consumeAbsorb_loop at h
    cases hx : c.m_auras[it]? with
    | none => rw [hx] at h; cases h; exact hs
    | some x =>
      rw [hx] at h
      simp only at h
      have hs' := consumeAbsorb_effects_invariant E school R hstep x.effects _ (hreset s hs)
      rcases hr : consumeAbsorb_effects E school x.effects { s with shouldRemove := false }
        with ⟨es', s'⟩
      rw [hr] at h hs'
      simp only at h hs'
      split at h
      · cases hrm : removeAura E { c with m_auras := c.m_auras.set it { x with effects := es' } } it with
        | none => rw [hrm] at h; simp at h
        | some c2 =>
          rw [hrm] at h
          simp only at h
          split at h
          · cases h; exact hs'
          · exact ih _ _ _ _ hs' h
      · split at h
        · cases h; exact hs'
        · exact ih _ _ _ _ hs' h

theorem consumeAbsorb_effect_eq (E : Env) (school : Nat) (e : AuraEffect) (s : AbsorbState) :
    consumeAbsorb_effect E school e s =
      if absorbMatch E school e then
        if e.aura = E.ManaShield ∧ consumableOf E e s.ownerMana = 0 then (false, e, s)
        else if s.damage ≤ consumableOf E e s.ownerMana then
          (false, { e with basePoints := toInt32 (consumableOf E e s.ownerMana - s.damage) },
            { s with absorbed := (s.absorbed + s.damage) % 4294967296,
                     ownerMana := if e.aura = E.ManaShield then E.manaAfter s.ownerMana s.damage e else s.ownerMana,
                     manaConsumed := if e.aura = E.ManaShield then true else s.manaConsumed,
                     damage := 0,
                     shouldRemove := if toInt32 (consumableOf E e s.ownerMana - s.damage) = 0 then true else s.shouldRemove,
                     events := s.events ++ [{ effect := e, ownerMana := s.ownerMana, minuend := consumableOf E e s.ownerMana, subtrahend := s.damage }] })
        else
          (false, e,
            { s with absorbed := (s.absorbed + consumableOf E e s.ownerMana) % 4294967296,
                     damage := s.damage - consumableOf E e s.ownerMana,
                     shouldRemove := true,
                     ownerMana := if e.aura = E.ManaShield then E.manaAfter s.ownerMana (consumableOf E e s.ownerMana) e else s.ownerMana,
                     manaConsumed := if e.aura = E.ManaShield then true else s.manaConsumed,
                     events := s.events ++ [{ effect := e, ownerMana := s.ownerMana, minuend := s.damage, subtrahend := consumableOf E e s.ownerMana }] })
      else (decide (s.damage ≠ 0), e, s) := by
  unfold consumeAbsorb_effect consumableOf absorbMatch
  by_cases hms : e.aura = E.ManaShield
  · simp only [hms, if_true, true_and, Nat.le_zero]
  · simp only [hms, if_false, false_and]

/-- The four ways the callback of `consumeAbsorb` can go. -/
theorem consumeAbsorb_effect_cases (E : Env) (school : Nat) (e : AuraEffect) (s : AbsorbState) :
    (¬ absorbMatch E school e
      ∧ consumeAbsorb_effect E school e s = (decide (s.damage ≠ 0), e, s))
    ∨ (absorbMatch E school e ∧ e.aura = E.ManaShield ∧ consumableOf E e s.ownerMana = 0
      ∧ consumeAbsorb_effect E school e s = (false, e, s))
    ∨ (absorbMatch E school e ∧ ¬ (e.aura = E.ManaShield ∧ consumableOf E e s.ownerMana = 0)
      ∧ s.damage ≤ consumableOf E e s.ownerMana
      ∧ consumeAbsorb_effect E school e s =
        (false, { e with basePoints := toInt32 (consumableOf E e s.ownerMana - s.damage) },
          { s with absorbed := (s.absorbed + s.damage) % 4294967296,
                   ownerMana := if e.aura = E.ManaShield then E.manaAfter s.ownerMana s.damage e else s.ownerMana,
                   manaConsumed := if e.aura = E.ManaShield then true else s.manaConsumed,
                   damage := 0,
                   shouldRemove := if toInt32 (consumableOf E e s.ownerMana - s.damage) = 0 then true else s.shouldRemove,
                   events := s.events ++ [{ effect := e, ownerMana := s.ownerMana, minuend := consumableOf E e s.ownerMana, subtrahend := s.damage }] }))
    ∨ (absorbMatch E school e ∧ ¬ (e.aura = E.ManaShield ∧ consumableOf E e s.ownerMana = 0)
      ∧ consumableOf E e s.ownerMana < s.damage
      ∧ consumeAbsorb_effect E school e s =
        (false, e,
          { s with absorbed := (s.absorbed + consumableOf E e s.ownerMana) % 4294967296,
                   damage := s.damage - consumableOf E e s.ownerMana,
                   shouldRemove := true,
                   ownerMana := if e.aura = E.ManaShield then E.manaAfter s.ownerMana (consumableOf E e s.ownerMana) e else s.ownerMana,
                   manaConsumed := if e.aura = E.ManaShield then true else s.manaConsumed,
                   events := s.events ++ [{ effect := e, ownerMana := s.ownerMana, minuend := s.damage, subtrahend := consumableOf E e s.ownerMana }] })) := by
  rw [consumeAbsorb_effect_eq]
  by_cases hm : absorbMatch E school e
  · right
    rw [if_pos hm]
    by_cases h0 : e.aura = E.ManaShield ∧ consumableOf E e s.ownerMana = 0
    · left
      rw [if_pos h0]
      exact ⟨hm, h0.1, h0.2, rfl⟩
    · right
      rw [if_neg h0]
      by_cases hd : s.damage ≤ consumableOf E e s.ownerMana
      · left
        rw [if_pos hd]
        exact ⟨hm, h0, hd, rfl⟩
      · right
        rw [if_neg hd]
        exact ⟨hm, h0, by omega, rfl⟩
  · left
    rw [if_neg hm]
    exact ⟨hm, rfl⟩

theorem consumableOf_le (E : Env) (e : AuraEffect) (ownerMana : Nat) :
    consumableOf E e ownerMana ≤ e.basePoints.natAbs := by
  unfold consumableOf
  have := Nat.mod_le e.basePoints.natAbs 4294967296
  split
  · exact Nat.le_trans (Nat.min_le_right _ _) this
  · exact this

/-! ## C14: bounds on the absorbed amount -/

theorem demoAbsorbState_CountersOk : CountersOk demoAbsorbState :=
  Reachable_CountersOk demoEnv demoAbsorbState
    (Reachable.addAura absorbAura false true
      (Reachable.addAura demoAura3 false true (Reachable.empty demoOwner) rfl) rfl)

theorem consumeAbsorb_effect_conserves (E : Env) (school D : Nat) (hD : D < 4294967296)
    (e : AuraEffect) (s : AbsorbState)
    (hs : s.absorbed + s.damage = D ∧ ∀ ev ∈ s.events, ev.subtrahend ≤ ev.minuend) :
    (consumeAbsorb_effect E school e s).2.2.absorbed
        + (consumeAbsorb_effect E school e s).2.2.damage = D
      ∧ ∀ ev ∈ (consumeAbsorb_effect E school e s).2.2.events, ev.subtrahend ≤ ev.minuend := by
  obtain ⟨h1, h2⟩ := hs
  rcases consumeAbsorb_effect_cases E school e s with
    ⟨_, hr⟩ | ⟨_, _, _, hr⟩ | ⟨_, _, hd, hr⟩ | ⟨_, _, hd, hr⟩
  · rw [hr]; exact ⟨h1, h2⟩
  · rw [hr]; exact ⟨h1, h2⟩
  · rw [hr]
    refine ⟨?_, ?_⟩
    · show (s.absorbed + s.damage) % 4294967296 + 0 = D
      rw [Nat.mod_eq_of_lt (by omega)]; omega
    · intro ev hev
      rcases List.mem_append.mp hev with h | h
      · exact h2 ev h
      · rw [List.mem_singleton.mp h]; exact hd
  · rw [hr]
    refine ⟨?_, ?_⟩
    · show (s.absorbed + consumableOf E e s.ownerMana) % 4294967296
          + (s.damage - consumableOf E e s.ownerMana) = D
      rw [Nat.mod_eq_of_lt (by omega)]; omega
    · intro ev hev
      rcases List.mem_append.mp hev with h | h
      · exact h2 ev h
      · rw [List.mem_singleton.mp h]; exact Nat.le_of_lt hd

theorem consumeAbsorb_effect_capacity (E : Env) (school : Nat) (e : AuraEffect) (s : AbsorbState) :
    (consumeAbsorb_effect E school e s).2.2.absorbed
      ≤ s.absorbed + (if absorbMatch E school e then e.basePoints.natAbs else 0) := by
  have hle := consumableOf_le E e s.ownerMana
  rcases consumeAbsorb_effect_cases E school e s with
    ⟨_, hr⟩ | ⟨_, _, _, hr⟩ | ⟨hm, _, hd, hr⟩ | ⟨hm, _, hd, hr⟩
  · rw [hr]; exact Nat.le_add_right _ _
  · rw [hr]; exact Nat.le_add_right _ _
  · rw [hr, if_pos hm]
    show (s.absorbed + s.damage) % 4294967296 ≤ _
    have := Nat.mod_le (s.absorbed + s.damage) 4294967296
    omega
  · rw [hr, if_pos hm]
    show (s.absorbed + consumableOf E e s.ownerMana) % 4294967296 ≤ _
    have := Nat.mod_le (s.absorbed + consumableOf E e s.ownerMana) 4294967296
    omega

theorem consumeAbsorb_effects_capacity (E : Env) (school : Nat) (es : List AuraEffect) :
    ∀ s : AbsorbState,
      (consumeAbsorb_effects E school es s).2.absorbed ≤ s.absorbed + effectsCapacity E school es := by
  induction es with
  | nil => intro s; exact Nat.le_add_right _ _
  | cons e es ih =>
    intro s
    have h1 := consumeAbsorb_effect_capacity E school e s
    unfold consumeAbsorb_effects
    rcases hr : consumeAbsorb_effect E school e s with ⟨b, e', s'⟩
    rw [hr] at h1
    simp only at h1
    cases b with
    | true =>
      simp only
      have h2 := ih s'
      rcases hr2 : consumeAbsorb_effects E school es s' with ⟨es', s''⟩
      rw [hr2] at h2
      simp only at h2 ⊢
      unfold effectsCapacity
      omega
    | false =>
      simp only
      unfold effectsCapacity
      omega

/-- The loop from the end of `pre` on returns, and absorbs at most the capacity
of the instances it still has to visit. -/
theorem consumeAbsorb_loop_capacity (E : Env) (school : Nat) (suf : List AuraSpellSlot) :
    ∀ (fuel : Nat) (pre : List AuraSpellSlot) (s : AbsorbState) (c : AuraContainer),
      c.m_auras = pre ++ suf → CountersOk c → suf.length ≤ fuel →
      ∃ r, consumeAbsorb_loop E school fuel pre.length s c = some r
        ∧ r.1.absorbed ≤ s.absorbed + capacitySum E school suf := by
  induction suf with
  | nil =>
    intro fuel pre s c hl _ _
    refine ⟨(s, c), ?_, Nat.le_add_right _ _⟩
    cases fuel with
    | zero => simp [consumeAbsorb_loop, hl]
    | succ k =>
      have : c.m_auras[pre.length]? = none := by rw [hl]; simp
      simp [consumeAbsorb_loop, this]
  | cons x suf ih =>
    intro fuel pre s c hl hc hf
    cases fuel with
    | zero => simp at hf
    | succ k =>
      have hk : suf.length ≤ k := by simpa using hf
      obtain ⟨x', c1, c2, _, hc1, hc1ok, h3, h4, _, _, hstep⟩ :=
        consumeAbsorb_loop_step E school k pre suf x s c hl hc
      have hcap : (consumeAbsorb_effects E school x.effects { s with shouldRemove := false }).2.absorbed
          ≤ s.absorbed + effectsCapacity E school x.effects :=
        consumeAbsorb_effects_capacity E school x.effects { s with shouldRemove := false }
      obtain ⟨s1, hs1⟩ : ∃ s1, s1
          = (consumeAbsorb_effects E school x.effects { s with shouldRemove := false }).2 := ⟨_, rfl⟩
      rw [← hs1] at hstep hcap
      rw [hstep]
      unfold capacitySum
      split
      · split
        · exact ⟨(s1, misapply E x' c2), rfl, by show s1.absorbed ≤ _; omega⟩
        · obtain ⟨r, k1, k2⟩ := ih k pre s1 (misapply E x' c2) h3 h4 hk
          exact ⟨r, k1, by omega⟩
      · split
        · exact ⟨(s1, c1), rfl, by show s1.absorbed ≤ _; omega⟩
        · have hl' : c1.m_auras = (pre ++ [x']) ++ suf := by rw [hc1]; simp
          obtain ⟨r, k1, k2⟩ := ih k (pre ++ [x']) s1 c1 hl' hc1ok hk
          refine ⟨r, ?_, by omega⟩
          simpa using k1

/-- C14: for a damage amount below `2^32` and a container with consistent
counters, `consumeAbsorb` returns; the returned amount is at most `damage`
(the amount and the damage left add up to `damage`), and at most the sum of
`|base points|` over the `SchoolAbsorb` and `ManaShield` effects whose school
mask intersects `school`; and in every `UInt32` subtraction that was executed
the subtrahend is at most the minuend. -/
theorem C14_absorb_bounds (E : Env) (c : AuraContainer) (damage school : Nat)
    (hd : damage < 4294967296) (hc : CountersOk c) :
    ∃ s cl c', consumeAbsorb_loop E school c.m_auras.length 0 (absorbStart E c damage) c
          = some (s, cl)
      ∧ consumeAbsorb E c damage school = some (s.absorbed, c')
      ∧ s.absorbed ≤ damage ∧ s.absorbed + s.damage = damage
      ∧ s.absorbed ≤ capacitySum E school c.m_auras
      ∧ ∀ ev ∈ s.events, ev.subtrahend ≤ ev.minuend := by
  obtain ⟨⟨s, cl⟩, h1, h2⟩ := consumeAbsorb_loop_capacity E school c.m_auras c.m_auras.length []
    (absorbStart E c damage) c (by simp) hc (Nat.le_refl _)
  simp only [List.length_nil] at h1
  have hinv : s.absorbed + s.damage = damage ∧ ∀ ev ∈ s.events, ev.subtrahend ≤ ev.minuend :=
    consumeAbsorb_loop_invariant E school
    (fun s => s.absorbed + s.damage = damage ∧ ∀ ev ∈ s.events, ev.subtrahend ≤ ev.minuend)
    (fun s hs => hs)
    (fun e s hs => consumeAbsorb_effect_conserves E school damage hd e s hs)
    c.m_auras.length 0 (absorbStart E c damage) c (s, cl)
    ⟨by simp [absorbStart], by simp [absorbStart]⟩ h1
  have hret : ∃ c', consumeAbsorb E c damage school = some (s.absorbed, c') := by
    unfold consumeAbsorb
    rw [absorbStart_eq, h1]
    simp only
    split
    · exact ⟨_, rfl⟩
    · exact ⟨_, rfl⟩
  obtain ⟨c', hc'⟩ := hret
  refine ⟨s, cl, c', h1, hc', by have := hinv.1; omega, hinv.1, ?_, hinv.2⟩
  simpa [absorbStart] using h2

theorem C14_absorb_bounds_witness :
    ∃ s cl c', consumeAbsorb_loop demoEnv 4 demoAbsorbState.m_auras.length 0
          (absorbStart demoEnv demoAbsorbState 80) demoAbsorbState = some (s, cl)
      ∧ consumeAbsorb demoEnv demoAbsorbState 80 4 = some (s.absorbed, c')
      ∧ s.absorbed ≤ 80 ∧ s.absorbed + s.damage = 80
      ∧ s.absorbed ≤ capacitySum demoEnv 4 demoAbsorbState.m_auras
      ∧ ∀ ev ∈ s.events, ev.subtrahend ≤ ev.minuend :=
  C14_absorb_bounds demoEnv demoAbsorbState 80 4 (by decide) demoAbsorbState_CountersOk

/-! ## Binary32 rounding -/

theorem roundHalfEven_eq (x : ℚ) (n : ℤ) (h1 : (n : ℚ) - 1 / 2 < x) (h2 : x < (n : ℚ) + 1 / 2) :
    roundHalfEven x = n := by
  unfold roundHalfEven
  by_cases hx : (n : ℚ) ≤ x
  · have hf : ⌊x⌋ = n := by
      rw [Int.floor_eq_iff]
      constructor
      · exact hx
      · linarith
    rw [hf, if_pos (by linarith)]
  · have hx' : x < n := lt_of_not_le hx
    have hf : ⌊x⌋ = n - 1 := by
      rw [Int.floor_eq_iff]
      push_cast
      constructor
      · linarith
      · linarith
    rw [hf]
    push_cast
    rw [if_neg (by linarith), if_pos (by linarith)]
    ring

theorem f32Exponent_eq (q : ℚ) (n : ℤ) (hn : -126 ≤ n) (h1 : (2 : ℚ) ^ n ≤ |q|)
    (h2 : |q| < (2 : ℚ) ^ (n + 1)) : f32Exponent q = n := by
  have hpos : 0 < |q| := lt_of_lt_of_le (by positivity) h1
  have hlog : Int.log 2 |q| = n := by
    apply le_antisymm
    · have := (Int.lt_zpow_iff_log_lt (b := 2) (by norm_num) hpos).mp (by exact_mod_cast h2)
      omega
    · exact (Int.zpow_le_iff_le_log (b := 2) (by norm_num) hpos).mp (by exact_mod_cast h1)
  unfold f32Exponent
  rw [hlog]
  exact max_eq_left hn

/-- The binary32 number nearest to `q`, from the exponent `n` of its interval
and the integer `m` nearest to `q / 2 ^ (n - 23)`. -/
theorem roundF32_eq (q : ℚ) (n m : ℤ) (hn : -126 ≤ n) (h1 : (2 : ℚ) ^ n ≤ |q|)
    (h2 : |q| < (2 : ℚ) ^ (n + 1))
    (h3 : (m : ℚ) - 1 / 2 < q / 2 ^ (n - 23)) (h4 : q / 2 ^ (n - 23) < (m : ℚ) + 1 / 2) :
    roundF32 q = (m : ℚ) * 2 ^ (n - 23) := by
  unfold roundF32
  rw [f32Exponent_eq q n hn h1 h2, roundHalfEven_eq _ m h3 h4]

theorem floor_lt_two_pow_32 (q : ℚ) (h : q < 4294967296) : ⌊q⌋₊ < 4294967296 := by
  by_cases h0 : 0 ≤ q
  · exact (Nat.floor_lt h0).mpr (by exact_mod_cast h)
  · rw [Nat.floor_of_nonpos (le_of_lt (lt_of_not_le h0))]
    norm_num

theorem floatToUInt32_of_lt (q : ℚ) (h : q < 4294967296) : floatToUInt32 q = ⌊q⌋₊ :=
  Nat.mod_eq_of_lt (floor_lt_two_pow_32 q h)

theorem floatEnv_float : FloatArithmetic floatEnv :=
  ⟨fun mana e _ h => floatToUInt32_of_lt (f32Quotient mana e) h,
   fun mana amount e _ h => floatToUInt32_of_lt (f32Difference mana amount e) h⟩

theorem roundF32_1 : roundF32 1 = 1 := by
  rw [roundF32_eq 1 0 8388608 (by norm_num) (by norm_num [abs_of_pos])
    (by norm_num [abs_of_pos]) (by norm_num) (by norm_num)]
  norm_num

theorem roundF32_3 : roundF32 3 = 3 := by
  rw [roundF32_eq 3 1 12582912 (by norm_num) (by norm_num [abs_of_pos])
    (by norm_num [abs_of_pos]) (by norm_num) (by norm_num)]
  norm_num

theorem roundF32_9 : roundF32 9 = 9 := by
  rw [roundF32_eq 9 3 9437184 (by norm_num) (by norm_num [abs_of_pos])
    (by norm_num [abs_of_pos]) (by norm_num) (by norm_num)]
  norm_num

theorem roundF32_10 : roundF32 10 = 10 := by
  rw [roundF32_eq 10 3 10485760 (by norm_num) (by norm_num [abs_of_pos])
    (by norm_num [abs_of_pos]) (by norm_num) (by norm_num)]
  norm_num

theorem roundF32_21 : roundF32 21 = 21 := by
  rw [roundF32_eq 21 4 11010048 (by norm_num) (by norm_num [abs_of_pos])
    (by norm_num [abs_of_pos]) (by norm_num) (by norm_num)]
  norm_num

/-- The `float` literal `0.3f`. -/
theorem roundF32_three_tenths : roundF32 (3 / 10) = 5033165 / 16777216 := by
  rw [roundF32_eq (3 / 10) (-2) 10066330 (by norm_num) (by norm_num [abs_of_pos])
    (by norm_num [abs_of_pos]) (by norm_num) (by norm_num)]
  norm_num

/-- The binary32 number nearest to `1/7`. -/
theorem roundF32_one_seventh : roundF32 (1 / 7) = 9586981 / 67108864 := by
  rw [roundF32_eq (1 / 7) (-3) 9586981 (by norm_num) (by norm_num [abs_of_pos])
    (by norm_num [abs_of_pos]) (by norm_num) (by norm_num)]
  norm_num

theorem multipleOf_shieldEffect : multipleOf shieldEffect = 3 / 2 := by
  simp [multipleOf, shieldEffect]

theorem multipleOf_shieldEffect03 : multipleOf shieldEffect03 = 5033165 / 16777216 := by
  simp [multipleOf, shieldEffect03]

theorem multipleOf_shieldEffect7 : multipleOf shieldEffect7 = 9586981 / 67108864 := by
  simp [multipleOf, shieldEffect7]

/-- `(float)3 / 0.3f` is `10.0f`, while `3 / 0.3f` without rounding is below
`10`. -/
theorem f32Quotient_03 : f32Quotient 3 shieldEffect03 = 10 := by
  unfold f32Quotient
  rw [multipleOf_shieldEffect03, show ((3 : ℕ) : ℚ) = 3 by norm_num, roundF32_3,
    roundF32_eq _ 3 10485760 (by norm_num) (by norm_num [abs_of_pos])
      (by norm_num [abs_of_pos]) (by norm_num) (by norm_num)]
  norm_num

theorem f32Quotient_shield : f32Quotient 10 shieldEffect = 13981013 / 2097152 := by
  unfold f32Quotient
  rw [multipleOf_shieldEffect, show ((10 : ℕ) : ℚ) = 10 by norm_num, roundF32_10,
    roundF32_eq _ 2 13981013 (by norm_num) (by norm_num [abs_of_pos])
      (by norm_num [abs_of_pos]) (by norm_num) (by norm_num)]
  norm_num

theorem f32Difference_shield : f32Difference 10 1 shieldEffect = 17 / 2 := by
  unfold f32Difference
  rw [multipleOf_shieldEffect, show ((10 : ℕ) : ℚ) = 10 by norm_num,
    show ((1 : ℕ) : ℚ) = 1 by norm_num, roundF32_10, roundF32_1,
    show (1 : ℚ) * (3 / 2) = 3 / 2 by norm_num,
    roundF32_eq (3 / 2) 0 12582912 (by norm_num) (by norm_num [abs_of_pos])
      (by norm_num [abs_of_pos]) (by norm_num) (by norm_num),
    roundF32_eq _ 3 8912896 (by norm_num) (by norm_num [abs_of_pos])
      (by norm_num [abs_of_pos]) (by norm_num) (by norm_num)]
  norm_num

theorem f32Quotient_7 : f32Quotient 3 shieldEffect7 = 21 := by
  unfold f32Quotient
  rw [multipleOf_shieldEffect7, show ((3 : ℕ) : ℚ) = 3 by norm_num, roundF32_3,
    roundF32_eq _ 4 11010048 (by norm_num) (by norm_num [abs_of_pos])
      (by norm_num [abs_of_pos]) (by norm_num) (by norm_num)]
  norm_num

/-- `(float)3 - (float)21 * k` for the binary32 number `k` nearest to `1/7`:
the product is rounded up to the `float` above `3`. -/
theorem f32Difference_7 : f32Difference 3 21 shieldEffect7 = -1 / 4194304 := by
  unfold f32Difference
  rw [multipleOf_shieldEffect7, show ((3 : ℕ) : ℚ) = 3 by norm_num,
    show ((21 : ℕ) : ℚ) = 21 by norm_num, roundF32_3, roundF32_21,
    roundF32_eq (21 * (9586981 / 67108864)) 1 12582913 (by norm_num)
      (by norm_num [abs_of_pos]) (by norm_num [abs_of_pos]) (by norm_num) (by norm_num),
    roundF32_eq _ (-22) (-8388608) (by norm_num) (by norm_num [abs_of_neg])
      (by norm_num [abs_of_neg]) (by norm_num) (by norm_num)]
  norm_num

/-! ## C17: the mana cap of a mana shield -/

theorem consumeAbsorb_effect_events (E : Env) (school : Nat) (P : AbsorbEvent → Prop)
    (e : AuraEffect) (s : AbsorbState) (hs : ∀ ev ∈ s.events, P ev)
    (hnew : ∀ amount, amount ≤ consumableOf E e s.ownerMana → amount ≤ s.damage →
      ∀ minuend, P { effect := e, ownerMana := s.ownerMana, minuend := minuend,
                     subtrahend := amount }) :
    ∀ ev ∈ (consumeAbsorb_effect E school e s).2.2.events, P ev := by
  rcases consumeAbsorb_effect_cases E school e s with
    ⟨_, hr⟩ | ⟨_, _, _, hr⟩ | ⟨_, _, hd, hr⟩ | ⟨_, _, hd, hr⟩
  · rw [hr]; exact hs
  · rw [hr]; exact hs
  · rw [hr]
    intro ev hev
    rcases List.mem_append.mp hev with h | h
    · exact hs ev h
    · rw [List.mem_singleton.mp h]
      exact hnew s.damage hd (Nat.le_refl _) _
  · rw [hr]
    intro ev hev
    rcases List.mem_append.mp hev with h | h
    · exact hs ev h
    · rw [List.mem_singleton.mp h]
      exact hnew _ (Nat.le_refl _) (Nat.le_of_lt hd) _

theorem consumeAbsorb_effects_skip (E : Env) (school : Nat) (e : AuraEffect)
    (esuf : List AuraEffect) (s : AbsorbState)
    (he : consumeAbsorb_effect E school e s = (false, e, s)) :
    ∀ epre : List AuraEffect, (∀ f ∈ epre, ¬ absorbMatch E school f) →
      consumeAbsorb_effects E school (epre ++ e :: esuf) s = (epre ++ e :: esuf, s) := by
  intro epre
  induction epre with
  | nil =>
    intro _
    simp only [List.nil_append, consumeAbsorb_effects, he]
  | cons f epre ih =>
    intro hpre
    have hf : consumeAbsorb_effect E school f s = (decide (s.damage ≠ 0), f, s) := by
      rw [consumeAbsorb_effect_eq, if_neg (hpre f (List.mem_cons_self _ _))]
    have ih' := ih (fun g hg => hpre g (List.mem_cons_of_mem _ hg))
    show consumeAbsorb_effects E school (f :: (epre ++ e :: esuf)) s = _
    unfold consumeAbsorb_effects
    rw [hf]
    by_cases hd : s.damage = 0
    · simp [hd]
    · simp only [ne_eq, hd, not_false_eq_true, decide_True, ih']
      rfl

theorem setEffects_self (x : AuraSpellSlot) : ({ x with effects := x.effects } : AuraSpellSlot) = x := by
  cases x; rfl

theorem set_m_auras_self (c : AuraContainer) (pre suf : List AuraSpellSlot) (x : AuraSpellSlot)
    (hl : c.m_auras = pre ++ x :: suf) :
    ({ c with m_auras := c.m_auras.set pre.length x } : AuraContainer) = c := by
  have : c.m_auras.set pre.length x = c.m_auras := by
    rw [hl]; exact set_split pre suf x x
  rw [this]

/-- A round of the loop at an instance whose effects are visited without any
absorption: the instance is kept as it is and the loop goes on with the next
instance, or ends when no damage is left. -/
theorem consumeAbsorb_loop_skip (E : Env) (school fuel : Nat) (c : AuraContainer)
    (pre suf : List AuraSpellSlot) (x : AuraSpellSlot) (s : AbsorbState)
    (hl : c.m_auras = pre ++ x :: suf)
    (heff : consumeAbsorb_effects E school x.effects { s with shouldRemove := false }
      = (x.effects, { s with shouldRemove := false })) :
    consumeAbsorb_loop E school (fuel + 1) pre.length s c =
      if s.damage = 0 then some ({ s with shouldRemove := false }, c)
      else consumeAbsorb_loop E school fuel (pre.length + 1) { s with shouldRemove := false } c := by
  have hget : c.m_auras[pre.length]? = some x := by rw [hl]; exact getElem?_split pre suf x
  simp only [consumeAbsorb_loop, hget, heff, setEffects_self, set_m_auras_self c pre suf x hl]
  simp

theorem floatToUInt32_natCast (n : Nat) (h : n < 4294967296) : floatToUInt32 (n : ℚ) = n := by
  unfold floatToUInt32
  rw [Nat.floor_natCast, Nat.mod_eq_of_lt h]

theorem consumableOf_le_capacity (E : Env) (e : AuraEffect) (ownerMana : Nat)
    (hms : e.aura = E.ManaShield) :
    consumableOf E e ownerMana ≤ E.manaShieldCapacity ownerMana e := by
  unfold consumableOf
  rw [if_pos hms]
  exact Nat.min_le_left _ _

/-- `consumeAbsorb` from the result of its loop. -/
theorem consumeAbsorb_of_loop (E : Env) (c : AuraContainer) (damage school : Nat)
    (s : AbsorbState) (cl : AuraContainer)
    (h : consumeAbsorb_loop E school c.m_auras.length 0 (absorbStart E c damage) c = some (s, cl)) :
    consumeAbsorb E c damage school
      = some (s.absorbed,
          if s.manaConsumed = true then
            { cl with m_owner := cl.m_owner.setUInt32Value E.Power1 s.ownerMana }
          else cl) := by
  unfold consumeAbsorb
  rw [absorbStart_eq, h]
  cases hmc : s.manaConsumed <;> simp [hmc]

/-- The callback of `consumeAbsorb` on a `ManaShield` effect whose capped
capacity is at least 1 and below the damage. -/
theorem consumeAbsorb_effect_shield_over (E : Env) (school : Nat) (e : AuraEffect)
    (s : AbsorbState) (hm : absorbMatch E school e) (hms : e.aura = E.ManaShield)
    (hk1 : 1 ≤ consumableOf E e s.ownerMana) (hd : consumableOf E e s.ownerMana < s.damage) :
    consumeAbsorb_effect E school e s =
      (false, e,
        { s with absorbed := (s.absorbed + consumableOf E e s.ownerMana) % 4294967296,
                 damage := s.damage - consumableOf E e s.ownerMana,
                 shouldRemove := true,
                 ownerMana := E.manaAfter s.ownerMana (consumableOf E e s.ownerMana) e,
                 manaConsumed := true,
                 events := s.events ++ [{ effect := e, ownerMana := s.ownerMana, minuend := s.damage, subtrahend := consumableOf E e s.ownerMana }] }) := by
  rw [consumeAbsorb_effect_eq, if_pos hm, if_neg (fun h => by omega), if_neg (by omega)]
  simp only [hms, if_true]

/-- The loop of `consumeAbsorb` on a container with one instance that has one
effect, at which the callback stops. -/
theorem consumeAbsorb_loop_one (E : Env) (school d : Nat) (c : AuraContainer) (x : AuraSpellSlot)
    (e e1 : AuraEffect) (s1 : AbsorbState) (hl : c.m_auras = [x]) (hx : x.effects = [e])
    (hc : CountersOk c)
    (he : consumeAbsorb_effect E school e (absorbStart E c d) = (false, e1, s1)) :
    (s1.shouldRemove = false → s1.damage = 0 →
      consumeAbsorb_loop E school c.m_auras.length 0 (absorbStart E c d) c
        = some (s1, { c with m_auras := [{ x with effects := [e1] }] }))
    ∧ (s1.shouldRemove = true →
      ∃ cl, consumeAbsorb_loop E school c.m_auras.length 0 (absorbStart E c d) c = some (s1, cl)
        ∧ cl.m_auras = []
        ∧ cl.calls = c.calls ++ [HandlerCall.misapplyEffects { x with effects := [e1] }]) := by
  obtain ⟨x', c1, c2, hx', hc1, _, h3, _, _, h6, hstep⟩ :=
    consumeAbsorb_loop_step E school 0 [] [] x (absorbStart E c d) c (by simpa using hl) hc
  have hreset : ({ absorbStart E c d with shouldRemove := false } : AbsorbState)
      = absorbStart E c d := rfl
  have heffs : consumeAbsorb_effects E school x.effects (absorbStart E c d) = ([e1], s1) := by
    rw [hx]
    simp only [consumeAbsorb_effects, he]
  rw [hreset, heffs] at hstep hx'
  have hlen : c.m_auras.length = 0 + 1 := by rw [hl]; rfl
  simp only [List.length_nil] at hstep
  rw [hlen]
  constructor
  · intro hr hd
    rw [hstep]
    simp only [hr, hd, Bool.false_eq_true, if_false, if_true]
    rw [hc1, hx']
    rfl
  · intro hr
    refine ⟨misapply E x' c2, ?_, ?_, ?_⟩
    · rw [hstep]
      simp only [hr, if_true]
      by_cases hd : s1.damage = 0
      · rw [if_pos hd]
      · rw [if_neg hd]
        have hm : (misapply E x' c2).m_auras = [] := by
          rw [misapply_m_auras, h3]; rfl
        simp [consumeAbsorb_loop, hm]
    · rw [misapply_m_auras, h3]; rfl
    · rw [misapply_calls, h6, hx']

/-- C17, as the code has it: in a run of `consumeAbsorb`, every absorption by a
`ManaShield` effect is of an amount of at most the `UInt32` value of the
`float` quotient `(float)m / k` of line 242, with `m` the local owner mana at
that point and `k` the multiple of the effect (`1` when the multiple value is
`0`), and of at most `|base points|`; on a container with consistent counters
the run returns.  Where the conversion is defined that
value is the integral part of the binary32 quotient, which can exceed
`floor (m / k)`.  The returned amount is the sum of the amounts of the
absorptions; and when the first absorb effect for the school of an instance is
a `ManaShield` effect for which that value is `0` (a binary32 quotient above
`-1` and below `1`), nothing is absorbed at that instance, the instance stays
in the container unchanged, and the loop goes on behind it. -/
theorem C17_mana_shield_clamp (E : Env) (school : Nat) (hE : FloatArithmetic E) :
    (∀ (c : AuraContainer) (damage : Nat), CountersOk c →
        ∃ s cl, consumeAbsorb_loop E school c.m_auras.length 0 (absorbStart E c damage) c
          = some (s, cl))
    ∧ (∀ (c : AuraContainer) (damage : Nat) (s : AbsorbState) (cl : AuraContainer),
        damage < 4294967296 →
        consumeAbsorb_loop E school c.m_auras.length 0 (absorbStart E c damage) c = some (s, cl) →
        s.absorbed = (s.events.map (fun ev => ev.subtrahend)).sum
        ∧ ∀ ev ∈ s.events, ev.effect.aura = E.ManaShield →
            ev.subtrahend ≤ E.manaShieldCapacity ev.ownerMana ev.effect
            ∧ ev.subtrahend ≤ ev.effect.basePoints.natAbs
            ∧ (-1 < f32Quotient ev.ownerMana ev.effect →
                f32Quotient ev.ownerMana ev.effect < 4294967296 →
                ev.subtrahend ≤ ⌊f32Quotient ev.ownerMana ev.effect⌋₊))
    ∧ (∀ (fuel : Nat) (c : AuraContainer) (pre suf : List AuraSpellSlot) (x : AuraSpellSlot)
        (epre esuf : List AuraEffect) (e : AuraEffect) (s : AbsorbState),
        c.m_auras = pre ++ x :: suf → x.effects = epre ++ e :: esuf →
        (∀ f ∈ epre, ¬ absorbMatch E school f) → absorbMatch E school e →
        e.aura = E.ManaShield →
        (E.manaShieldCapacity s.ownerMana e = 0
          ∨ (-1 < f32Quotient s.ownerMana e ∧ f32Quotient s.ownerMana e < 1)) →
        consumeAbsorb_loop E school (fuel + 1) pre.length s c =
          if s.damage = 0 then some ({ s with shouldRemove := false }, c)
          else consumeAbsorb_loop E school fuel (pre.length + 1)
            { s with shouldRemove := false } c) := by
  refine ⟨?_, ?_, ?_⟩
  · intro c damage hc
    obtain ⟨⟨s, cl⟩, h1, _⟩ := consumeAbsorb_loop_capacity E school c.m_auras c.m_auras.length []
      (absorbStart E c damage) c (by simp) hc (Nat.le_refl _)
    simp only [List.length_nil] at h1
    exact ⟨s, cl, h1⟩
  · intro c damage s cl hd h
    have hinv : (s.absorbed + s.damage = damage
          ∧ s.absorbed = (s.events.map (fun ev => ev.subtrahend)).sum)
        ∧ ∀ ev ∈ s.events, ev.effect.aura = E.ManaShield →
            ev.subtrahend ≤ E.manaShieldCapacity ev.ownerMana ev.effect
            ∧ ev.subtrahend ≤ ev.effect.basePoints.natAbs
            ∧ (-1 < f32Quotient ev.ownerMana ev.effect →
                f32Quotient ev.ownerMana ev.effect < 4294967296 →
                ev.subtrahend ≤ ⌊f32Quotient ev.ownerMana ev.effect⌋₊) :=
      consumeAbsorb_loop_invariant E school
        (fun s => (s.absorbed + s.damage = damage
            ∧ s.absorbed = (s.events.map (fun ev => ev.subtrahend)).sum)
          ∧ ∀ ev ∈ s.events, ev.effect.aura = E.ManaShield →
              ev.subtrahend ≤ E.manaShieldCapacity ev.ownerMana ev.effect
              ∧ ev.subtrahend ≤ ev.effect.basePoints.natAbs
              ∧ (-1 < f32Quotient ev.ownerMana ev.effect →
                  f32Quotient ev.ownerMana ev.effect < 4294967296 →
                  ev.subtrahend ≤ ⌊f32Quotient ev.ownerMana ev.effect⌋₊))
        (fun s hs => hs)
        (fun e s hs => by
          refine ⟨?_, ?_⟩
          · obtain ⟨⟨h1, h2⟩, _⟩ := hs
            rcases consumeAbsorb_effect_cases E school e s with
              ⟨_, hr⟩ | ⟨_, _, _, hr⟩ | ⟨_, _, hd', hr⟩ | ⟨_, _, hd', hr⟩
            · rw [hr]; exact ⟨h1, h2⟩
            · rw [hr]; exact ⟨h1, h2⟩
            · rw [hr]
              simp only [List.map_append, List.map_cons, List.map_nil, List.sum_append,
                List.sum_cons, List.sum_nil]
              rw [Nat.mod_eq_of_lt (by omega)]
              omega
            · rw [hr]
              simp only [List.map_append, List.map_cons, List.map_nil, List.sum_append,
                List.sum_cons, List.sum_nil]
              rw [Nat.mod_eq_of_lt (by omega)]
              omega
          · exact consumeAbsorb_effect_events E school
              (fun ev => ev.effect.aura = E.ManaShield →
                ev.subtrahend ≤ E.manaShieldCapacity ev.ownerMana ev.effect
                ∧ ev.subtrahend ≤ ev.effect.basePoints.natAbs
                ∧ (-1 < f32Quotient ev.ownerMana ev.effect →
                    f32Quotient ev.ownerMana ev.effect < 4294967296 →
                    ev.subtrahend ≤ ⌊f32Quotient ev.ownerMana ev.effect⌋₊))
              e s hs.2
              (fun amount ha _ _ hms => by
                have hcap := Nat.le_trans ha (consumableOf_le_capacity E e s.ownerMana hms)
                refine ⟨hcap, Nat.le_trans ha (consumableOf_le E e s.ownerMana), ?_⟩
                intro hq1 hq2
                have := hE.1 s.ownerMana e hq1 hq2
                show amount ≤ ⌊f32Quotient s.ownerMana e⌋₊
                omega))
        c.m_auras.length 0 (absorbStart E c damage) c (s, cl)
        ⟨⟨by simp [absorbStart], by simp [absorbStart]⟩, by simp [absorbStart]⟩ h
    exact ⟨hinv.1.2, hinv.2⟩
  · intro fuel c pre suf x epre esuf e s hl hx hpre hm hms h0
    have hcap : E.manaShieldCapacity s.ownerMana e = 0 := by
      rcases h0 with h0 | ⟨h1, h2⟩
      · exact h0
      · rw [hE.1 s.ownerMana e h1 (lt_trans h2 (by norm_num))]
        exact Nat.floor_eq_zero.mpr h2
    have hcons : consumableOf E e s.ownerMana = 0 := by
      have := consumableOf_le_capacity E e s.ownerMana hms
      omega
    have he : consumeAbsorb_effect E school e { s with shouldRemove := false }
        = (false, e, { s with shouldRemove := false }) := by
      rw [consumeAbsorb_effect_eq, if_pos hm, if_pos ⟨hms, hcons⟩]
    apply consumeAbsorb_loop_skip E school fuel c pre suf x s hl
    rw [hx]
    exact consumeAbsorb_effects_skip E school e esuf _ he epre hpre

theorem C17_mana_shield_clamp_witness :
    (∀ (c : AuraContainer) (damage : Nat), CountersOk c →
        ∃ s cl, consumeAbsorb_loop floatEnv 4 c.m_auras.length 0 (absorbStart floatEnv c damage) c
          = some (s, cl))
    ∧ (∀ (c : AuraContainer) (damage : Nat) (s : AbsorbState) (cl : AuraContainer),
        damage < 4294967296 →
        consumeAbsorb_loop floatEnv 4 c.m_auras.length 0 (absorbStart floatEnv c damage) c
          = some (s, cl) →
        s.absorbed = (s.events.map (fun ev => ev.subtrahend)).sum
        ∧ ∀ ev ∈ s.events, ev.effect.aura = floatEnv.ManaShield →
            ev.subtrahend ≤ floatEnv.manaShieldCapacity ev.ownerMana ev.effect
            ∧ ev.subtrahend ≤ ev.effect.basePoints.natAbs
            ∧ (-1 < f32Quotient ev.ownerMana ev.effect →
                f32Quotient ev.ownerMana ev.effect < 4294967296 →
                ev.subtrahend ≤ ⌊f32Quotient ev.ownerMana ev.effect⌋₊))
    ∧ (∀ (fuel : Nat) (c : AuraContainer) (pre suf : List AuraSpellSlot) (x : AuraSpellSlot)
        (epre esuf : List AuraEffect) (e : AuraEffect) (s : AbsorbState),
        c.m_auras = pre ++ x :: suf → x.effects = epre ++ e :: esuf →
        (∀ f ∈ epre, ¬ absorbMatch floatEnv 4 f) → absorbMatch floatEnv 4 e →
        e.aura = floatEnv.ManaShield →
        (floatEnv.manaShieldCapacity s.ownerMana e = 0
          ∨ (-1 < f32Quotient s.ownerMana e ∧ f32Quotient s.ownerMana e < 1)) →
        consumeAbsorb_loop floatEnv 4 (fuel + 1) pre.length s c =
          if s.damage = 0 then some ({ s with shouldRemove := false }, c)
          else consumeAbsorb_loop floatEnv 4 fuel (pre.length + 1)
            { s with shouldRemove := false } c) :=
  C17_mana_shield_clamp floatEnv 4 floatEnv_float

theorem shieldState03_CountersOk : CountersOk shieldState03 :=
  Reachable_CountersOk floatEnv shieldState03
    (Reachable.addAura shieldAura03 false true (Reachable.empty manaOwner3) rfl)

theorem consumable_03 : consumableOf floatEnv shieldEffect03 3 = 10 := by
  have h : floatEnv.manaShieldCapacity 3 shieldEffect03 = 10 := by
    show floatToUInt32 (f32Quotient 3 shieldEffect03) = 10
    rw [f32Quotient_03]
    exact floatToUInt32_natCast 10 (by norm_num)
  unfold consumableOf
  rw [if_pos (by decide), h]
  decide

theorem floor_quotient_03 : ⌊((3 : ℕ) : ℚ) / multipleOf shieldEffect03⌋₊ = 9 := by
  rw [multipleOf_shieldEffect03, Nat.floor_eq_iff (by norm_num)]
  constructor <;> norm_num

/-- C17 fails as stated: the unit has 3 mana and one mana shield of 100 points
whose multiple is the `float` `0.3f`, for the school of the damage.
`floor (3 / 0.3f)` is 9, the `float` quotient `(float)3 / 0.3f` is `10.0f`, and
`consumeAbsorb 50 school` absorbs 10 at that effect. -/
theorem C17_float_quotient_counterexample :
    shieldState03.m_owner.getUInt32Value floatEnv.Power1 = 3
    ∧ shieldState03.m_auras = [shieldAura03.setSlot 0]
    ∧ (shieldAura03.setSlot 0).effects = [shieldEffect03]
    ∧ multipleOf shieldEffect03 = roundF32 (3 / 10)
    ∧ ⌊((3 : ℕ) : ℚ) / multipleOf shieldEffect03⌋₊ = 9
    ∧ f32Quotient 3 shieldEffect03 = 10
    ∧ ∃ s cl c', consumeAbsorb_loop floatEnv 4 shieldState03.m_auras.length 0
          (absorbStart floatEnv shieldState03 50) shieldState03 = some (s, cl)
      ∧ s.events = [{ effect := shieldEffect03, ownerMana := 3, minuend := 50, subtrahend := 10 }]
      ∧ consumeAbsorb floatEnv shieldState03 50 4 = some (10, c') := by
  have hcons : consumableOf floatEnv shieldEffect03
      (absorbStart floatEnv shieldState03 50).ownerMana = 10 := consumable_03
  have heff := consumeAbsorb_effect_shield_over floatEnv 4 shieldEffect03
    (absorbStart floatEnv shieldState03 50) (by decide) rfl
    (by rw [hcons]; decide) (by rw [hcons]; decide)
  rw [hcons] at heff
  obtain ⟨cl, hloop, _, _⟩ := (consumeAbsorb_loop_one floatEnv 4 50 shieldState03
    (shieldAura03.setSlot 0) shieldEffect03 _ _ rfl rfl shieldState03_CountersOk heff).2 rfl
  have hret := consumeAbsorb_of_loop floatEnv shieldState03 50 4 _ cl hloop
  have hk : multipleOf shieldEffect03 = roundF32 (3 / 10) := by
    rw [multipleOf_shieldEffect03, roundF32_three_tenths]
  exact ⟨rfl, rfl, rfl, hk, floor_quotient_03, f32Quotient_03, _, cl, _, hloop, rfl, hret⟩

/-! ## C15: one school absorb aura -/

theorem consumeAbsorb_effects_at (E : Env) (school : Nat) (e e' : AuraEffect)
    (esuf : List AuraEffect) (s s' : AbsorbState) (hd : s.damage ≠ 0)
    (he : consumeAbsorb_effect E school e s = (false, e', s')) :
    ∀ epre : List AuraEffect, (∀ f ∈ epre, ¬ absorbMatch E school f) →
      consumeAbsorb_effects E school (epre ++ e :: esuf) s = (epre ++ e' :: esuf, s') := by
  intro epre
  induction epre with
  | nil =>
    intro _
    simp only [List.nil_append, consumeAbsorb_effects, he]
  | cons f epre ih =>
    intro hpre
    have hf : consumeAbsorb_effect E school f s = (true, f, s) := by
      rw [consumeAbsorb_effect_eq, if_neg (hpre f (List.mem_cons_self _ _))]
      simp [hd]
    have ih' := ih (fun g hg => hpre g (List.mem_cons_of_mem _ hg))
    show consumeAbsorb_effects E school (f :: (epre ++ e :: esuf)) s = _
    unfold consumeAbsorb_effects
    rw [hf]
    simp only [ih']
    rfl

theorem consumeAbsorb_effects_pass (E : Env) (school : Nat) (s : AbsorbState) :
    ∀ es : List AuraEffect, (∀ f ∈ es, ¬ absorbMatch E school f) →
      consumeAbsorb_effects E school es s = (es, s) := by
  intro es
  induction es with
  | nil => intro _; rfl
  | cons f es ih =>
    intro hes
    have hf : consumeAbsorb_effect E school f s = (decide (s.damage ≠ 0), f, s) := by
      rw [consumeAbsorb_effect_eq, if_neg (hes f (List.mem_cons_self _ _))]
    have ih' := ih (fun g hg => hes g (List.mem_cons_of_mem _ hg))
    unfold consumeAbsorb_effects
    rw [hf]
    by_cases hd : s.damage = 0
    · simp [hd]
    · simp only [ne_eq, hd, not_false_eq_true, decide_True, ih']

/-- The loop over instances without an absorb effect for the school, with damage
left: nothing is absorbed and the container is unchanged. -/
theorem consumeAbsorb_loop_pass (E : Env) (school : Nat) (suf : List AuraSpellSlot) :
    ∀ (fuel : Nat) (pre : List AuraSpellSlot) (s : AbsorbState) (c : AuraContainer),
      c.m_auras = pre ++ suf → suf.length ≤ fuel → s.damage ≠ 0 →
      (∀ y ∈ suf, ∀ f ∈ y.effects, ¬ absorbMatch E school f) →
      ∃ s', consumeAbsorb_loop E school fuel pre.length s c = some (s', c)
        ∧ s'.absorbed = s.absorbed ∧ s'.damage = s.damage ∧ s'.ownerMana = s.ownerMana
        ∧ s'.manaConsumed = s.manaConsumed ∧ s'.events = s.events := by
  induction suf with
  | nil =>
    intro fuel pre s c hl _ _ _
    refine ⟨s, ?_, rfl, rfl, rfl, rfl, rfl⟩
    cases fuel with
    | zero => simp [consumeAbsorb_loop, hl]
    | succ k =>
      have : c.m_auras[pre.length]? = none := by rw [hl]; simp
      simp [consumeAbsorb_loop, this]
  | cons x suf ih =>
    intro fuel pre s c hl hf hd hno
    cases fuel with
    | zero => simp at hf
    | succ k =>
      have hk : suf.length ≤ k := by simpa using hf
      have heff := consumeAbsorb_effects_pass E school { s with shouldRemove := false } x.effects
        (hno x (List.mem_cons_self _ _))
      rw [consumeAbsorb_loop_skip E school k c pre suf x s hl heff, if_neg hd]
      have hl' : c.m_auras = (pre ++ [x]) ++ suf := by simp [hl]
      obtain ⟨s', k1, k2, k3, k4, k5, k6⟩ := ih k (pre ++ [x]) { s with shouldRemove := false } c
        hl' hk hd (fun y hy => hno y (List.mem_cons_of_mem _ hy))
      refine ⟨s', ?_, k2, k3, k4, k5, k6⟩
      simpa using k1

theorem resetShouldRemove_self (s : AbsorbState) (h : s.shouldRemove = false) :
    ({ s with shouldRemove := false } : AbsorbState) = s := by
  cases s
  simp only at h
  subst h
  rfl

/-- The loop passes the instances without an absorb effect for the school that
precede the first one with such an effect. -/
theorem consumeAbsorb_loop_prefix (E : Env) (school : Nat) (s : AbsorbState) (c : AuraContainer)
    (hd : s.damage ≠ 0) (hs : s.shouldRemove = false) (rest : List AuraSpellSlot) :
    ∀ (mid pre0 : List AuraSpellSlot) (fuel : Nat),
      c.m_auras = pre0 ++ (mid ++ rest) →
      (∀ y ∈ mid, ∀ f ∈ y.effects, ¬ absorbMatch E school f) →
      consumeAbsorb_loop E school (mid.length + fuel) pre0.length s c
        = consumeAbsorb_loop E school fuel (pre0.length + mid.length) s c := by
  intro mid
  induction mid with
  | nil => intro pre0 fuel _ _; simp
  | cons x mid ih =>
    intro pre0 fuel hl hno
    have heff := consumeAbsorb_effects_pass E school { s with shouldRemove := false } x.effects
      (hno x (List.mem_cons_self _ _))
    have hfuel : (x :: mid).length + fuel = (mid.length + fuel) + 1 := by
      simp only [List.length_cons]; omega
    have hl1 : c.m_auras = pre0 ++ x :: (mid ++ rest) := by simpa using hl
    rw [hfuel, consumeAbsorb_loop_skip E school _ c pre0 (mid ++ rest) x s hl1 heff, if_neg hd,
      resetShouldRemove_self s hs]
    have hl' : c.m_auras = (pre0 ++ [x]) ++ (mid ++ rest) := by simp [hl1]
    have := ih (pre0 ++ [x]) fuel hl' (fun y hy => hno y (List.mem_cons_of_mem _ hy))
    simp only [List.length_append, List.length_singleton] at this
    rw [this]
    congr 1
    simp only [List.length_cons]
    omega

theorem toInt32_of_lt (v : Nat) (h : v < 2147483648) : toInt32 v = (v : Int) := by
  unfold toInt32
  rw [Nat.mod_eq_of_lt (by omega), if_pos h]

/-- The callback on an absorb effect for the school that is no mana shield. -/
theorem consumeAbsorb_effect_school (E : Env) (school : Nat) (e : AuraEffect) (s : AbsorbState)
    (hm : absorbMatch E school e) (hms : ¬ e.aura = E.ManaShield)
    (hcap : e.basePoints.natAbs < 2147483648) :
    consumeAbsorb_effect E school e s =
      if s.damage ≤ e.basePoints.natAbs then
        (false, { e with basePoints := ((e.basePoints.natAbs - s.damage : Nat) : Int) },
          { s with absorbed := (s.absorbed + s.damage) % 4294967296,
                   damage := 0,
                   shouldRemove := if e.basePoints.natAbs - s.damage = 0 then true else s.shouldRemove,
                   events := s.events ++ [{ effect := e, ownerMana := s.ownerMana, minuend := e.basePoints.natAbs, subtrahend := s.damage }] })
      else
        (false, e,
          { s with absorbed := (s.absorbed + e.basePoints.natAbs) % 4294967296,
                   damage := s.damage - e.basePoints.natAbs,
                   shouldRemove := true,
                   events := s.events ++ [{ effect := e, ownerMana := s.ownerMana, minuend := s.damage, subtrahend := e.basePoints.natAbs }] }) := by
  have hc : consumableOf E e s.ownerMana = e.basePoints.natAbs := by
    unfold consumableOf
    rw [if_neg hms, Nat.mod_eq_of_lt (by omega)]
  have h0 : ¬ (e.aura = E.ManaShield ∧ consumableOf E e s.ownerMana = 0) := fun h => hms h.1
  rw [consumeAbsorb_effect_eq, if_pos hm, if_neg h0, hc]
  have ht : toInt32 (e.basePoints.natAbs - s.damage) = ((e.basePoints.natAbs - s.damage : Nat) : Int) :=
    toInt32_of_lt _ (by omega)
  rw [ht]
  simp only [hms, if_false, Int.natCast_eq_zero]

/-- The loop of `consumeAbsorb` on a container whose absorb effects for the school
all sit in the instance `x`, the first of them being the school absorb effect
`e`: the state of the local variables and the container after the loop. -/
theorem consumeAbsorb_loop_single (E : Env) (c : AuraContainer) (d school : Nat)
    (pre suf : List AuraSpellSlot) (x : AuraSpellSlot) (epre esuf : List AuraEffect)
    (e : AuraEffect) (hl : c.m_auras = pre ++ x :: suf) (hx : x.effects = epre ++ e :: esuf)
    (hm : absorbMatch E school e) (hms : ¬ e.aura = E.ManaShield)
    (hcap : e.basePoints.natAbs < 2147483648)
    (hpre : ∀ y ∈ pre, ∀ f ∈ y.effects, ¬ absorbMatch E school f)
    (hsuf : ∀ y ∈ suf, ∀ f ∈ y.effects, ¬ absorbMatch E school f)
    (hepre : ∀ f ∈ epre, ¬ absorbMatch E school f)
    (hd1 : 1 ≤ d ∨ (pre = [] ∧ epre = [])) (hd : d < 4294967296) (hc : CountersOk c) :
    (d < e.basePoints.natAbs →
      ∃ s, consumeAbsorb_loop E school c.m_auras.length 0 (absorbStart E c d) c
          = some (s, { c with m_auras := pre ++ { x with effects := epre
              ++ { e with basePoints := ((e.basePoints.natAbs - d : Nat) : Int) } :: esuf } :: suf })
        ∧ s.absorbed = d ∧ s.manaConsumed = false)
    ∧ (e.basePoints.natAbs ≤ d →
      ∃ s c', consumeAbsorb_loop E school c.m_auras.length 0 (absorbStart E c d) c = some (s, c')
        ∧ s.absorbed = e.basePoints.natAbs ∧ s.manaConsumed = false
        ∧ c'.m_auras = pre ++ suf
        ∧ c'.calls = c.calls ++ [HandlerCall.misapplyEffects { x with effects := epre
            ++ (if d = e.basePoints.natAbs then { e with basePoints := 0 } else e) :: esuf }]) := by
  have hpref : consumeAbsorb_loop E school c.m_auras.length 0 (absorbStart E c d) c
      = consumeAbsorb_loop E school (suf.length + 1) pre.length (absorbStart E c d) c := by
    rcases hd1 with h1 | ⟨h1, _⟩
    · have hd0 : (absorbStart E c d).damage ≠ 0 := by
        show d ≠ 0
        omega
      have := consumeAbsorb_loop_prefix E school (absorbStart E c d) c hd0 rfl (x :: suf) pre []
        (suf.length + 1) (by simpa using hl) hpre
      simp only [List.length_nil, Nat.zero_add] at this
      rw [← this, hl]
      simp only [List.length_append, List.length_cons]
    · rw [hl, h1]
      rfl
  have hat : ∀ (e1 : AuraEffect) (s1 : AbsorbState),
      consumeAbsorb_effect E school e (absorbStart E c d) = (false, e1, s1) →
      consumeAbsorb_effects E school (epre ++ e :: esuf) (absorbStart E c d)
        = (epre ++ e1 :: esuf, s1) := by
    intro e1 s1 he1
    rcases hd1 with h1 | ⟨_, h1⟩
    · have hd0 : (absorbStart E c d).damage ≠ 0 := by
        show d ≠ 0
        omega
      exact consumeAbsorb_effects_at E school e e1 esuf (absorbStart E c d) s1 hd0 he1 epre hepre
    · rw [h1]
      simp only [List.nil_append, consumeAbsorb_effects, he1]
  obtain ⟨x', c1, c2, hx', hc1, _, h3, h4, _, h6, hstep⟩ :=
    consumeAbsorb_loop_step E school suf.length pre suf x (absorbStart E c d) c hl hc
  have hreset : ({ absorbStart E c d with shouldRemove := false } : AbsorbState)
      = absorbStart E c d := rfl
  rw [hreset] at hstep hx'
  have hcb := consumeAbsorb_effect_school E school e (absorbStart E c d) hm hms hcap
  constructor
  · intro hlt
    have hle : (absorbStart E c d).damage ≤ e.basePoints.natAbs := by
      show d ≤ _
      omega
    rw [if_pos hle] at hcb
    obtain ⟨e1, s1, hcb1, he1, ha1, hdm1, hr1, hmc1⟩ : ∃ e1 s1,
        consumeAbsorb_effect E school e (absorbStart E c d) = (false, e1, s1)
        ∧ e1 = { e with basePoints := ((e.basePoints.natAbs - d : Nat) : Int) }
        ∧ s1.absorbed = d ∧ s1.damage = 0 ∧ s1.shouldRemove = false
        ∧ s1.manaConsumed = false := by
      refine ⟨_, _, hcb, rfl, ?_, rfl, ?_, rfl⟩
      · show (0 + d) % 4294967296 = d
        rw [Nat.zero_add, Nat.mod_eq_of_lt hd]
      · show (if e.basePoints.natAbs - d = 0 then true else false) = false
        rw [if_neg (by omega)]
    have heff := hat e1 s1 hcb1
    rw [← hx] at heff
    rw [heff] at hstep hx'
    simp only [hr1, hdm1, Bool.false_eq_true, if_false, if_true] at hstep
    refine ⟨s1, ?_, ha1, hmc1⟩
    rw [hpref, hstep, hc1, hx', he1]
  · intro hge
    by_cases heq : d = e.basePoints.natAbs
    · have hle : (absorbStart E c d).damage ≤ e.basePoints.natAbs := by
        show d ≤ _
        omega
      rw [if_pos hle] at hcb
      obtain ⟨e1, s1, hcb1, he1, ha1, hdm1, hr1, hmc1⟩ : ∃ e1 s1,
          consumeAbsorb_effect E school e (absorbStart E c d) = (false, e1, s1)
          ∧ e1 = { e with basePoints := 0 }
          ∧ s1.absorbed = e.basePoints.natAbs ∧ s1.damage = 0 ∧ s1.shouldRemove = true
          ∧ s1.manaConsumed = false := by
        refine ⟨_, _, hcb, ?_, ?_, rfl, ?_, rfl⟩
        · show ({ e with basePoints := ((e.basePoints.natAbs - d : Nat) : Int) } : AuraEffect) = _
          rw [show e.basePoints.natAbs - d = 0 by omega]
          rfl
        · show (0 + d) % 4294967296 = e.basePoints.natAbs
          rw [Nat.zero_add, Nat.mod_eq_of_lt hd, heq]
        · show (if e.basePoints.natAbs - d = 0 then true else false) = true
          rw [if_pos (by omega)]
      have heff := hat e1 s1 hcb1
      rw [← hx] at heff
      rw [heff] at hstep hx'
      simp only [hr1, hdm1, if_true] at hstep
      refine ⟨s1, misapply E x' c2, ?_, ha1, hmc1, ?_, ?_⟩
      · rw [hpref, hstep]
      · rw [misapply_m_auras, h3]
      · rw [misapply_calls, h6, hx', he1, if_pos heq]
    · have hgt : ¬ (absorbStart E c d).damage ≤ e.basePoints.natAbs := by
        show ¬ d ≤ _
        omega
      rw [if_neg hgt] at hcb
      obtain ⟨s1, hcb1, ha1, hdm1, hr1, hmc1⟩ : ∃ s1,
          consumeAbsorb_effect E school e (absorbStart E c d) = (false, e, s1)
          ∧ s1.absorbed = e.basePoints.natAbs ∧ s1.damage ≠ 0 ∧ s1.shouldRemove = true
          ∧ s1.manaConsumed = false := by
        refine ⟨_, hcb, ?_, ?_, rfl, rfl⟩
        · show (0 + e.basePoints.natAbs) % 4294967296 = e.basePoints.natAbs
          rw [Nat.zero_add, Nat.mod_eq_of_lt (by omega)]
        · show d - e.basePoints.natAbs ≠ 0
          omega
      have heff := hat e s1 hcb1
      rw [← hx] at heff
      rw [heff] at hstep hx'
      simp only [hr1, hdm1, if_true, if_false] at hstep
      obtain ⟨s', k1, k2, _, _, k5, _⟩ := consumeAbsorb_loop_pass E school suf suf.length pre s1
        (misapply E x' c2) (by rw [misapply_m_auras, h3]) (Nat.le_refl _) hdm1 hsuf
      refine ⟨s', misapply E x' c2, ?_, ?_, ?_, ?_, ?_⟩
      · rw [hpref, hstep]
        exact k1
      · rw [k2, ha1]
      · rw [k5, hmc1]
      · rw [misapply_m_auras, h3]
      · rw [misapply_calls, h6, hx', if_neg heq,
          show (x.effects, s1).1 = epre ++ e :: esuf from hx]

/-- With damage `0` the loop of `consumeAbsorb` ends after the first effect of
the first instance when that effect is no absorb effect for the school (and
after the first instance when it has no effect): nothing is absorbed and the
container is left as it is. -/
theorem consumeAbsorb_zero_unreached (E : Env) (c : AuraContainer) (school : Nat)
    (y : AuraSpellSlot) (rest : List AuraSpellSlot) (hl : c.m_auras = y :: rest)
    (hy : ∀ f, y.effects.head? = some f → ¬ absorbMatch E school f) :
    consumeAbsorb E c 0 school = some (0, c) := by
  have heff : consumeAbsorb_effects E school y.effects
      { absorbStart E c 0 with shouldRemove := false }
        = (y.effects, { absorbStart E c 0 with shouldRemove := false }) := by
    cases hys : y.effects with
    | nil => rfl
    | cons f fs =>
      have hf : consumeAbsorb_effect E school f { absorbStart E c 0 with shouldRemove := false }
          = (false, f, { absorbStart E c 0 with shouldRemove := false }) := by
        rw [consumeAbsorb_effect_eq, if_neg (hy f (by rw [hys]; rfl))]
        rfl
      simp only [consumeAbsorb_effects, hf]
  have hloop := consumeAbsorb_loop_skip E school rest.length c [] rest y (absorbStart E c 0)
    (by simpa using hl) heff
  have hlen : c.m_auras.length = rest.length + 1 := by rw [hl]; rfl
  unfold consumeAbsorb
  rw [absorbStart_eq, hlen]
  simp only [List.length_nil] at hloop
  rw [hloop]
  rfl

/-- C15, as the code has it: for a damage `d < 2^32`, on a container with
consistent counters whose absorb effects for the school all sit in one
instance `x`, the first of them being a school absorb effect `e` of capacity
`|base points| < 2^31`, `consumeAbsorb d school` returns the minimum of `d` and
the capacity.  When `d >= 1`, or when `e` is the first effect of the first
instance of the list: if `d` is below the capacity only the base points of `e`
change, to capacity minus `d`; otherwise `x` is removed from the list (all
other instances stay in place) and unapplied.  When `d = 0` and `e` is not the
first effect of the first instance, the loop ends before it reaches `e` and the
container is left as it is, also when the capacity is `0`. -/
theorem C15_single_school_absorb (E : Env) (c : AuraContainer) (d school : Nat)
    (pre suf : List AuraSpellSlot) (x : AuraSpellSlot) (epre esuf : List AuraEffect)
    (e : AuraEffect) (hl : c.m_auras = pre ++ x :: suf) (hx : x.effects = epre ++ e :: esuf)
    (hm : absorbMatch E school e) (hms : ¬ e.aura = E.ManaShield)
    (hcap : e.basePoints.natAbs < 2147483648)
    (hpre : ∀ y ∈ pre, ∀ f ∈ y.effects, ¬ absorbMatch E school f)
    (hsuf : ∀ y ∈ suf, ∀ f ∈ y.effects, ¬ absorbMatch E school f)
    (hepre : ∀ f ∈ epre, ¬ absorbMatch E school f)
    (hd : d < 4294967296) (hc : CountersOk c) :
    (∃ c', consumeAbsorb E c d school = some (min d e.basePoints.natAbs, c'))
    ∧ (1 ≤ d ∨ (pre = [] ∧ epre = []) →
        (d < e.basePoints.natAbs →
          consumeAbsorb E c d school
            = some (d, { c with m_auras := pre ++ { x with effects := epre
                ++ { e with basePoints := ((e.basePoints.natAbs - d : Nat) : Int) } :: esuf } :: suf }))
        ∧ (e.basePoints.natAbs ≤ d →
          ∃ c', consumeAbsorb E c d school = some (e.basePoints.natAbs, c')
            ∧ c'.m_auras = pre ++ suf
            ∧ c'.calls = c.calls ++ [HandlerCall.misapplyEffects { x with effects := epre
                ++ (if d = e.basePoints.natAbs then { e with basePoints := 0 } else e) :: esuf }]))
    ∧ (d = 0 → ¬ (pre = [] ∧ epre = []) → consumeAbsorb E c d school = some (0, c)) := by
  have hreach : 1 ≤ d ∨ (pre = [] ∧ epre = []) →
      (d < e.basePoints.natAbs →
        consumeAbsorb E c d school
          = some (d, { c with m_auras := pre ++ { x with effects := epre
              ++ { e with basePoints := ((e.basePoints.natAbs - d : Nat) : Int) } :: esuf } :: suf }))
      ∧ (e.basePoints.natAbs ≤ d →
        ∃ c', consumeAbsorb E c d school = some (e.basePoints.natAbs, c')
          ∧ c'.m_auras = pre ++ suf
          ∧ c'.calls = c.calls ++ [HandlerCall.misapplyEffects { x with effects := epre
              ++ (if d = e.basePoints.natAbs then { e with basePoints := 0 } else e) :: esuf }]) := by
    intro hd1
    obtain ⟨h1, h2⟩ := consumeAbsorb_loop_single E c d school pre suf x epre esuf e hl hx hm hms
      hcap hpre hsuf hepre hd1 hd hc
    constructor
    · intro hlt
      obtain ⟨s, k1, k2, k3⟩ := h1 hlt
      unfold consumeAbsorb
      rw [absorbStart_eq, k1]
      simp only [k3, k2, Bool.false_eq_true, if_false]
    · intro hge
      obtain ⟨s, c', k1, k2, k3, k4, k5⟩ := h2 hge
      refine ⟨c', ?_, k4, k5⟩
      unfold consumeAbsorb
      rw [absorbStart_eq, k1]
      simp only [k3, k2, Bool.false_eq_true, if_false]
  have hzero : d = 0 → ¬ (pre = [] ∧ epre = []) → consumeAbsorb E c d school = some (0, c) := by
    intro h0 hne
    subst h0
    cases pre with
    | cons y pre1 =>
      refine consumeAbsorb_zero_unreached E c school y (pre1 ++ x :: suf) (by simpa using hl) ?_
      intro f hf
      exact hpre y (List.mem_cons_self _ _) f (List.mem_of_mem_head? hf)
    | nil =>
      refine consumeAbsorb_zero_unreached E c school x suf (by simpa using hl) ?_
      intro f hf
      cases epre with
      | nil => exact absurd ⟨rfl, rfl⟩ hne
      | cons g epre1 =>
        rw [hx] at hf
        have hfg : g = f := by simpa using hf
        rw [← hfg]
        exact hepre g (List.mem_cons_self _ _)
  refine ⟨?_, hreach, hzero⟩
  by_cases hd1 : 1 ≤ d ∨ (pre = [] ∧ epre = [])
  · obtain ⟨h1, h2⟩ := hreach hd1
    by_cases hlt : d < e.basePoints.natAbs
    · exact ⟨_, by rw [h1 hlt, Nat.min_eq_left (Nat.le_of_lt hlt)]⟩
    · obtain ⟨c', k1, _, _⟩ := h2 (by omega)
      exact ⟨c', by rw [k1, Nat.min_eq_right (by omega)]⟩
  · have h0 : d = 0 := by
      by_contra hne
      exact hd1 (Or.inl (by omega))
    refine ⟨c, ?_⟩
    rw [hzero h0 (fun h => hd1 (Or.inr h)), h0, Nat.zero_min]

theorem C15_single_school_absorb_witness :
    (∃ c', consumeAbsorb demoEnv demoAbsorbState 80 4 = some (min 80 (50 : Int).natAbs, c'))
    ∧ (1 ≤ 80 ∨ ([demoAura3.setSlot 0] = [] ∧ ([] : List AuraEffect) = []) →
        (80 < (50 : Int).natAbs →
          consumeAbsorb demoEnv demoAbsorbState 80 4
            = some (80, { demoAbsorbState with m_auras := [demoAura3.setSlot 0]
                ++ { absorbAura.setSlot 1 with effects := []
                  ++ { ({ aura := 69, miscvaluea := 4, basePoints := 50 } : AuraEffect) with
                        basePoints := (((50 : Int).natAbs - 80 : Nat) : Int) } :: [] } :: [] }))
        ∧ ((50 : Int).natAbs ≤ 80 →
          ∃ c', consumeAbsorb demoEnv demoAbsorbState 80 4 = some ((50 : Int).natAbs, c')
            ∧ c'.m_auras = [demoAura3.setSlot 0] ++ []
            ∧ c'.calls = demoAbsorbState.calls
                ++ [HandlerCall.misapplyEffects { absorbAura.setSlot 1 with effects := []
                  ++ (if 80 = (50 : Int).natAbs then
                        { ({ aura := 69, miscvaluea := 4, basePoints := 50 } : AuraEffect) with
                          basePoints := 0 }
                      else { aura := 69, miscvaluea := 4, basePoints := 50 }) :: [] }]))
    ∧ (80 = 0 → ¬ ([demoAura3.setSlot 0] = [] ∧ ([] : List AuraEffect) = []) →
        consumeAbsorb demoEnv demoAbsorbState 80 4 = some (0, demoAbsorbState)) :=
  C15_single_school_absorb demoEnv demoAbsorbState 80 4 [demoAura3.setSlot 0] []
    (absorbAura.setSlot 1) [] [] { aura := 69, miscvaluea := 4, basePoints := 50 }
    rfl rfl (by decide) (by decide) (by decide) (by decide) (by simp) (by simp)
    (by decide) demoAbsorbState_CountersOk

/-- C15 fails as stated at `d = 0`: the unit carries an aura without absorb
effect and, behind it, an aura whose only effect is a school absorb effect of
capacity 0 for the school; `consumeAbsorb 0 school` returns 0 and leaves the
container as it is (the loop ends after the first instance), although the
damage is not below the capacity. -/
theorem C15_zero_damage_counterexample :
    zeroAbsorbState.m_auras = [demoAura3.setSlot 0, zeroAbsorbAura.setSlot 1]
    ∧ (∀ f ∈ (demoAura3.setSlot 0).effects, ¬ absorbMatch demoEnv 4 f)
    ∧ (zeroAbsorbAura.setSlot 1).effects = [{ aura := 69, miscvaluea := 4, basePoints := 0 }]
    ∧ absorbMatch demoEnv 4 { aura := 69, miscvaluea := 4, basePoints := 0 }
    ∧ (0 : Int).natAbs ≤ 0
    ∧ consumeAbsorb demoEnv zeroAbsorbState 0 4 = some (0, zeroAbsorbState)
    ∧ zeroAbsorbAura.setSlot 1 ∈ zeroAbsorbState.m_auras := by
  refine ⟨rfl, by decide, rfl, by decide, by decide, rfl, by decide⟩

/-! ## C16: absorption in list order -/

theorem consumeAbsorb_effects_damage_le (E : Env) (school : Nat) (es : List AuraEffect)
    (s : AbsorbState) : (consumeAbsorb_effects E school es s).2.damage ≤ s.damage := by
  refine consumeAbsorb_effects_invariant E school (fun t => t.damage ≤ s.damage) ?_ es s
    (Nat.le_refl _)
  intro e t ht
  rcases consumeAbsorb_effect_cases E school e t with
    ⟨_, hr⟩ | ⟨_, _, _, hr⟩ | ⟨_, _, _, hr⟩ | ⟨_, _, _, hr⟩
  · rw [hr]; exact ht
  · rw [hr]; exact ht
  · rw [hr]; exact Nat.zero_le _
  · rw [hr]
    show t.damage - _ ≤ s.damage
    omega

/-- The visit of the effects of an instance whose first absorb effect for the
school is a school absorb effect, with damage left: either no damage is left
afterwards, or the effects are unchanged, the instance is to be removed and the
capacity of the effect was below the damage. -/
theorem consumeAbsorb_effects_schoolFirst (E : Env) (school : Nat) (es epre esuf : List AuraEffect)
    (e : AuraEffect) (s : AbsorbState) (hes : es = epre ++ e :: esuf)
    (hepre : ∀ f ∈ epre, ¬ absorbMatch E school f) (hm : absorbMatch E school e)
    (hms : ¬ e.aura = E.ManaShield) (hd : s.damage ≠ 0) :
    (consumeAbsorb_effects E school es s).2.damage = 0
    ∨ ((consumeAbsorb_effects E school es s).2.shouldRemove = true
      ∧ (consumeAbsorb_effects E school es s).1 = es
      ∧ e.basePoints.natAbs % 4294967296 < s.damage) := by
  have hc : consumableOf E e s.ownerMana = e.basePoints.natAbs % 4294967296 := by
    unfold consumableOf
    rw [if_neg hms]
  have h0 : ¬ (e.aura = E.ManaShield ∧ consumableOf E e s.ownerMana = 0) := fun h => hms h.1
  have hcb := consumeAbsorb_effect_eq E school e s
  rw [if_pos hm, if_neg h0, hc] at hcb
  by_cases hle : s.damage ≤ e.basePoints.natAbs % 4294967296
  · left
    rw [if_pos hle] at hcb
    rw [hes, consumeAbsorb_effects_at E school e _ esuf s _ hd hcb epre hepre]
  · right
    rw [if_neg hle] at hcb
    rw [hes, consumeAbsorb_effects_at E school e _ esuf s _ hd hcb epre hepre]
    exact ⟨rfl, rfl, by omega⟩

/-- The loop from the end of `pre0` on, for an instance `A` still to be visited
whose first absorb effect for the school is the school absorb effect `e`: the
instances behind `A` are left as the tail of the list, or `A` was removed,
unchanged, and its capacity was below the damage. -/
theorem consumeAbsorb_loop_order (E : Env) (school : Nat) (suf0 : List AuraSpellSlot) :
    ∀ (fuel : Nat) (pre0 : List AuraSpellSlot) (s : AbsorbState) (c : AuraContainer)
      (r : AbsorbState × AuraContainer),
      c.m_auras = pre0 ++ suf0 → CountersOk c → suf0.length ≤ fuel →
      consumeAbsorb_loop E school fuel pre0.length s c = some r →
      (∃ L, r.2.calls = c.calls ++ L)
      ∧ ∀ (pre suf : List AuraSpellSlot) (A : AuraSpellSlot) (epre esuf : List AuraEffect)
          (e : AuraEffect),
          suf0 = pre ++ A :: suf → A.effects = epre ++ e :: esuf →
          (∀ f ∈ epre, ¬ absorbMatch E school f) → absorbMatch E school e →
          ¬ e.aura = E.ManaShield →
          (∃ kept, r.2.m_auras = pre0 ++ kept ++ suf ∧ kept.length ≤ pre.length + 1)
          ∨ (∃ L, r.2.calls = c.calls ++ L ∧ HandlerCall.misapplyEffects A ∈ L
              ∧ e.basePoints.natAbs % 4294967296 < s.damage) := by
  induction suf0 with
  | nil =>
    intro fuel pre0 s c r hl _ _ h
    have hr : r = (s, c) := by
      cases fuel with
      | zero =>
        unfold consumeAbsorb_loop at h
        rw [if_neg (by rw [hl]; simp)] at h
        exact (Option.some.inj h).symm
      | succ k =>
        have hn : c.m_auras[pre0.length]? = none := by rw [hl]; simp
        unfold consumeAbsorb_loop at h
        rw [hn] at h
        exact (Option.some.inj h).symm
    refine ⟨⟨[], by rw [hr]; simp⟩, ?_⟩
    intro pre suf A epre esuf e hsplit
    exact absurd hsplit (by simp)
  | cons x suf0 ih =>
    intro fuel pre0 s c r hl hc hf h
    cases fuel with
    | zero => simp at hf
    | succ k =>
      have hk : suf0.length ≤ k := by simpa using hf
      obtain ⟨x', c1, c2, hx', hc1, hc1ok, h3, h4, _, h6, hstep⟩ :=
        consumeAbsorb_loop_step E school k pre0 suf0 x s c hl hc
      have hmono : (consumeAbsorb_effects E school x.effects { s with shouldRemove := false }).2.damage
          ≤ s.damage :=
        consumeAbsorb_effects_damage_le E school x.effects { s with shouldRemove := false }
      obtain ⟨s1, hs1⟩ : ∃ s1, s1
          = (consumeAbsorb_effects E school x.effects { s with shouldRemove := false }).2 := ⟨_, rfl⟩
      rw [← hs1] at hstep hmono
      rw [hstep] at h
      have hc1l : c1.m_auras = pre0 ++ x' :: suf0 := by rw [hc1]
      have hc1c : c1.calls = c.calls := by rw [hc1]
      -- what the visit of `x` does when `x` is the instance `A`
      have hfirst : ∀ (epre esuf : List AuraEffect) (e : AuraEffect),
          x.effects = epre ++ e :: esuf → (∀ f ∈ epre, ¬ absorbMatch E school f) →
          absorbMatch E school e → ¬ e.aura = E.ManaShield → s1.damage ≠ 0 →
          s1.shouldRemove = true ∧ x' = x ∧ e.basePoints.natAbs % 4294967296 < s.damage := by
        intro epre esuf e hxe hepre hm hms hd1
        have hd : ({ s with shouldRemove := false } : AbsorbState).damage ≠ 0 := by
          show s.damage ≠ 0
          omega
        rcases consumeAbsorb_effects_schoolFirst E school x.effects epre esuf e
            { s with shouldRemove := false } hxe hepre hm hms hd with h0 | ⟨k1, k2, k3⟩
        · rw [← hs1] at h0; exact absurd h0 hd1
        · rw [← hs1] at k1
          refine ⟨k1, ?_, k3⟩
          rw [hx', k2, setEffects_self]
      by_cases hrem : s1.shouldRemove = true
      · rw [if_pos hrem] at h
        by_cases hd0 : s1.damage = 0
        · rw [if_pos hd0] at h
          have hr : r = (s1, misapply E x' c2) := (Option.some.inj h).symm
          refine ⟨⟨[HandlerCall.misapplyEffects x'], by rw [hr, misapply_calls, h6]⟩, ?_⟩
          intro pre suf A epre esuf e hsplit _ _ _ _
          left
          cases pre with
          | nil =>
            simp only [List.nil_append, List.cons.injEq] at hsplit
            refine ⟨[], ?_, by simp⟩
            rw [hr, misapply_m_auras, h3, hsplit.2]
            simp
          | cons y pre' =>
            simp only [List.cons_append, List.cons.injEq] at hsplit
            refine ⟨pre' ++ [A], ?_, by simp⟩
            rw [hr, misapply_m_auras, h3, hsplit.2]
            simp
        · rw [if_neg hd0] at h
          obtain ⟨⟨L, hL⟩, ih2⟩ := ih k pre0 s1 (misapply E x' c2) r
            (by rw [misapply_m_auras, h3]) (misapply_CountersOk E x' c2 h4) hk h
          rw [misapply_calls, h6] at hL
          refine ⟨⟨HandlerCall.misapplyEffects x' :: L, by rw [hL]; simp⟩, ?_⟩
          intro pre suf A epre esuf e hsplit hA hepre hm hms
          cases pre with
          | nil =>
            simp only [List.nil_append, List.cons.injEq] at hsplit
            right
            obtain ⟨_, k2, k3⟩ := hfirst epre esuf e (by rw [hsplit.1]; exact hA) hepre hm hms hd0
            refine ⟨HandlerCall.misapplyEffects x' :: L, by rw [hL]; simp, ?_, k3⟩
            rw [k2, hsplit.1]
            exact List.mem_cons_self _ _
          | cons y pre' =>
            simp only [List.cons_append, List.cons.injEq] at hsplit
            rcases ih2 pre' suf A epre esuf e hsplit.2 hA hepre hm hms with
              ⟨kept, k1, k2⟩ | ⟨L', k1, k2, k3⟩
            · left
              exact ⟨kept, k1, by simp only [List.length_cons]; omega⟩
            · right
              rw [misapply_calls, h6] at k1
              refine ⟨HandlerCall.misapplyEffects x' :: L', by rw [k1]; simp,
                List.mem_cons_of_mem _ k2, by omega⟩
      · rw [if_neg hrem] at h
        by_cases hd0 : s1.damage = 0
        · rw [if_pos hd0] at h
          have hr : r = (s1, c1) := (Option.some.inj h).symm
          refine ⟨⟨[], by rw [hr, hc1c]; simp⟩, ?_⟩
          intro pre suf A epre esuf e hsplit _ _ _ _
          left
          cases pre with
          | nil =>
            simp only [List.nil_append, List.cons.injEq] at hsplit
            refine ⟨[x'], ?_, by simp⟩
            rw [hr, hc1l, hsplit.2]
            simp
          | cons y pre' =>
            simp only [List.cons_append, List.cons.injEq] at hsplit
            refine ⟨x' :: pre' ++ [A], ?_, by simp⟩
            rw [hr, hc1l, hsplit.2]
            simp
        · rw [if_neg hd0] at h
          have hl' : c1.m_auras = (pre0 ++ [x']) ++ suf0 := by rw [hc1l]; simp
          have h' : consumeAbsorb_loop E school k (pre0 ++ [x']).length s1 c1 = some r := by
            simpa using h
          obtain ⟨⟨L, hL⟩, ih2⟩ := ih k (pre0 ++ [x']) s1 c1 r hl' hc1ok hk h'
          rw [hc1c] at hL
          refine ⟨⟨L, hL⟩, ?_⟩
          intro pre suf A epre esuf e hsplit hA hepre hm hms
          cases pre with
          | nil =>
            simp only [List.nil_append, List.cons.injEq] at hsplit
            obtain ⟨k1, _, _⟩ := hfirst epre esuf e (by rw [hsplit.1]; exact hA) hepre hm hms hd0
            exact absurd k1 hrem
          | cons y pre' =>
            simp only [List.cons_append, List.cons.injEq] at hsplit
            rcases ih2 pre' suf A epre esuf e hsplit.2 hA hepre hm hms with
              ⟨kept, k1, k2⟩ | ⟨L', k1, k2, k3⟩
            · left
              refine ⟨x' :: kept, ?_, by simp only [List.length_cons]; omega⟩
              rw [k1]; simp
            · right
              rw [hc1c] at k1
              exact ⟨L', k1, k2, by omega⟩

theorem twoAbsorbState_CountersOk : CountersOk twoAbsorbState :=
  Reachable_CountersOk demoEnv twoAbsorbState
    (Reachable.addAura absorbAura2 false true
      (Reachable.addAura absorbAura false true (Reachable.empty demoOwner) rfl) rfl)

/-- C16: `consumeAbsorb` is a function of the container (with the unit), the
damage and the school, and it consumes in list order.  For an instance `A`
whose first absorb effect for the school is a school absorb effect `e`, with
`suf` the instances behind `A`: after the call either `suf` is still the tail
of the list, unchanged, or `A` was removed and unapplied by this call and the
capacity of `e` was below the damage.  So an instance behind `A` is changed or
removed only if `A` was removed; and when the damage is at most the capacity
of `e`, the instances behind `A` are left unchanged. -/
theorem C16_absorb_in_order (E : Env) (c c' : AuraContainer) (d school n : Nat)
    (pre suf : List AuraSpellSlot) (A : AuraSpellSlot) (epre esuf : List AuraEffect)
    (e : AuraEffect) (hl : c.m_auras = pre ++ A :: suf) (hA : A.effects = epre ++ e :: esuf)
    (hepre : ∀ f ∈ epre, ¬ absorbMatch E school f) (hm : absorbMatch E school e)
    (hms : ¬ e.aura = E.ManaShield) (hc : CountersOk c)
    (h : consumeAbsorb E c d school = some (n, c')) :
    ((∃ kept, c'.m_auras = kept ++ suf ∧ kept.length ≤ pre.length + 1)
      ∨ (∃ L, c'.calls = c.calls ++ L ∧ HandlerCall.misapplyEffects A ∈ L
          ∧ e.basePoints.natAbs % 4294967296 < d))
    ∧ (d ≤ e.basePoints.natAbs % 4294967296 →
        ∃ kept, c'.m_auras = kept ++ suf ∧ kept.length ≤ pre.length + 1) := by
  have key : (∃ kept, c'.m_auras = kept ++ suf ∧ kept.length ≤ pre.length + 1)
      ∨ (∃ L, c'.calls = c.calls ++ L ∧ HandlerCall.misapplyEffects A ∈ L
          ∧ e.basePoints.natAbs % 4294967296 < d) := by
    unfold consumeAbsorb at h
    cases hloop : consumeAbsorb_loop E school c.m_auras.length 0
        { damage := d, ownerMana := c.m_owner.getUInt32Value E.Power1 } c with
    | none => rw [hloop] at h; simp at h
    | some r =>
      rw [hloop] at h
      obtain ⟨s, cl⟩ := r
      have hcl : c'.m_auras = cl.m_auras ∧ c'.calls = cl.calls := by
        simp only at h
        split at h
        · simp only [Option.some.injEq, Prod.mk.injEq] at h
          rw [← h.2]
          exact ⟨rfl, rfl⟩
        · simp only [Option.some.injEq, Prod.mk.injEq] at h
          rw [← h.2]
          exact ⟨rfl, rfl⟩
      have := (consumeAbsorb_loop_order E school c.m_auras c.m_auras.length [] _ c (s, cl)
        (by simp) hc (Nat.le_refl _) hloop).2 pre suf A epre esuf e hl hA hepre hm hms
      rw [hcl.1, hcl.2]
      simpa using this
  refine ⟨key, ?_⟩
  intro hd
  rcases key with hk | ⟨_, _, _, hlt⟩
  · exact hk
  · omega

theorem C16_absorb_in_order_witness :
    ((∃ kept, (afterConsumeAbsorb demoEnv twoAbsorbState 20 4).m_auras
          = kept ++ [absorbAura2.setSlot 1] ∧ kept.length ≤ ([] : List AuraSpellSlot).length + 1)
      ∨ (∃ L, (afterConsumeAbsorb demoEnv twoAbsorbState 20 4).calls = twoAbsorbState.calls ++ L
          ∧ HandlerCall.misapplyEffects (absorbAura.setSlot 0) ∈ L
          ∧ (50 : Int).natAbs % 4294967296 < 20))
    ∧ (20 ≤ (50 : Int).natAbs % 4294967296 →
        ∃ kept, (afterConsumeAbsorb demoEnv twoAbsorbState 20 4).m_auras
          = kept ++ [absorbAura2.setSlot 1] ∧ kept.length ≤ ([] : List AuraSpellSlot).length + 1) :=
  C16_absorb_in_order demoEnv twoAbsorbState (afterConsumeAbsorb demoEnv twoAbsorbState 20 4)
    20 4 20 [] [absorbAura2.setSlot 1] (absorbAura.setSlot 0) [] []
    { aura := 69, miscvaluea := 4, basePoints := 50 } rfl rfl (by simp) (by decide) (by decide)
    twoAbsorbState_CountersOk rfl

/-! ## The callback on a mana shield that covers the damage -/

theorem toInt32_eq_zero (v : Nat) (hv : v < 4294967296) : toInt32 v = 0 ↔ v = 0 := by
  unfold toInt32
  rw [Nat.mod_eq_of_lt hv]
  split <;> omega

theorem consumableOf_lt (E : Env) (e : AuraEffect) (ownerMana : Nat) :
    consumableOf E e ownerMana < 4294967296 := by
  unfold consumableOf
  have h : e.basePoints.natAbs % 4294967296 < 4294967296 := Nat.mod_lt _ (by norm_num)
  split
  · exact Nat.lt_of_le_of_lt (Nat.min_le_right _ _) h
  · exact h

/-- The visit of the effects of an instance whose first absorb effect for the
school is `e`, when the callback stops at `e`. -/
theorem consumeAbsorb_effects_first (E : Env) (school : Nat) (e e' : AuraEffect)
    (epre esuf : List AuraEffect) (s s' : AbsorbState)
    (hfirst : epre = [] ∨ s.damage ≠ 0)
    (hepre : ∀ f ∈ epre, ¬ absorbMatch E school f)
    (he : consumeAbsorb_effect E school e s = (false, e', s')) :
    consumeAbsorb_effects E school (epre ++ e :: esuf) s = (epre ++ e' :: esuf, s') := by
  rcases hfirst with h | h
  · subst h
    simp only [List.nil_append, consumeAbsorb_effects, he]
  · exact consumeAbsorb_effects_at E school e e' esuf s s' h he epre hepre

/-- The callback of `consumeAbsorb` on a `ManaShield` effect whose capped
capacity covers the damage. -/
theorem consumeAbsorb_effect_shield (E : Env) (school : Nat) (e : AuraEffect) (s : AbsorbState)
    (hm : absorbMatch E school e) (hms : e.aura = E.ManaShield)
    (hk1 : 1 ≤ consumableOf E e s.ownerMana) (hd : s.damage ≤ consumableOf E e s.ownerMana) :
    consumeAbsorb_effect E school e s =
      (false, { e with basePoints := toInt32 (consumableOf E e s.ownerMana - s.damage) },
        { s with absorbed := (s.absorbed + s.damage) % 4294967296,
                 ownerMana := E.manaAfter s.ownerMana s.damage e,
                 manaConsumed := true,
                 damage := 0,
                 shouldRemove := if consumableOf E e s.ownerMana = s.damage then true else s.shouldRemove,
                 events := s.events ++ [{ effect := e, ownerMana := s.ownerMana, minuend := consumableOf E e s.ownerMana, subtrahend := s.damage }] }) := by
  have hlt : consumableOf E e s.ownerMana - s.damage < 4294967296 := by
    have h1 := consumableOf_lt E e s.ownerMana
    omega
  have hz : toInt32 (consumableOf E e s.ownerMana - s.damage) = 0
      ↔ consumableOf E e s.ownerMana = s.damage := by
    rw [toInt32_eq_zero _ hlt]
    omega
  rw [consumeAbsorb_effect_eq, if_pos hm, if_neg (fun h => by omega), if_pos hd]
  simp only [hms, if_true, hz]

/-! ## C18: the mana of the owner -/

theorem manaAfterEvents_append (E : Env) (m : Nat) (evs : List AbsorbEvent) (ev : AbsorbEvent) :
    manaAfterEvents E m (evs ++ [ev])
      = E.manaAfter (manaAfterEvents E m evs) ev.subtrahend ev.effect := by
  simp [manaAfterEvents, List.foldl_append]

/-- An absorption keeps `ManaInv`. -/
theorem manaInv_absorb (E : Env) (m0 : Nat) (e : AuraEffect)
    (s s' : AbsorbState) (amount minuend : Nat) (hs : ManaInv E m0 s)
    (hev : s'.events = s.events ++ [{ effect := e, ownerMana := s.ownerMana, minuend := minuend,
                                      subtrahend := amount }])
    (hmana : s'.ownerMana
      = if e.aura = E.ManaShield then E.manaAfter s.ownerMana amount e else s.ownerMana)
    (hcons : s'.manaConsumed = if e.aura = E.ManaShield then true else s.manaConsumed) :
    ManaInv E m0 s' := by
  obtain ⟨h1, h2⟩ := hs
  obtain ⟨ev, hevd⟩ : ∃ ev : AbsorbEvent,
      ev = { effect := e, ownerMana := s.ownerMana, minuend := minuend, subtrahend := amount } :=
    ⟨_, rfl⟩
  rw [← hevd] at hev
  have heve : ev.effect = e := by rw [hevd]
  have hevs : ev.subtrahend = amount := by rw [hevd]
  by_cases hms : e.aura = E.ManaShield
  · rw [if_pos hms] at hmana hcons
    have hf : manaShieldEvents E s'.events = manaShieldEvents E s.events ++ [ev] := by
      rw [hev]
      simp [manaShieldEvents, List.filter_append, heve, hms]
    refine ⟨?_, ?_⟩
    · rw [hcons, hf]; simp
    · rw [hmana, hf, manaAfterEvents_append, ← h2, heve, hevs]
  · rw [if_neg hms] at hmana hcons
    have hf : manaShieldEvents E s'.events = manaShieldEvents E s.events := by
      rw [hev]
      simp [manaShieldEvents, List.filter_append, heve, hms]
    refine ⟨?_, ?_⟩
    · rw [hcons, hf]; exact h1
    · rw [hmana, hf]; exact h2

/-- The callback of `consumeAbsorb` keeps `ManaInv`. -/
theorem manaInv_step (E : Env) (school m0 : Nat) (e : AuraEffect)
    (s : AbsorbState) (hs : ManaInv E m0 s) :
    ManaInv E m0 (consumeAbsorb_effect E school e s).2.2 := by
  rcases consumeAbsorb_effect_cases E school e s with
    ⟨_, hr⟩ | ⟨_, _, _, hr⟩ | ⟨_, _, _, hr⟩ | ⟨_, _, _, hr⟩
  · rw [hr]; exact hs
  · rw [hr]; exact hs
  · rw [hr]
    exact manaInv_absorb E m0 e s _ s.damage _ hs rfl rfl rfl
  · rw [hr]
    exact manaInv_absorb E m0 e s _ _ _ hs rfl rfl rfl

theorem removeAura_power (E : Env)
    (hh : ∀ x c0, (E.misapplyEffects x c0).getUInt32Value E.Power1
      = c0.m_owner.getUInt32Value E.Power1)
    (c c2 : AuraContainer) (it : Nat) (h : removeAura E c it = some c2) :
    c2.m_owner.getUInt32Value E.Power1 = c.m_owner.getUInt32Value E.Power1 := by
  unfold removeAura at h
  cases hd : removeAura_detach c it with
  | none => rw [hd] at h; simp at h
  | some r =>
    obtain ⟨strong, c1⟩ := r
    rw [hd] at h
    simp only [Option.some.injEq] at h
    have hc1 : c1.m_owner = c.m_owner := by
      unfold removeAura_detach at hd
      cases hx : c.m_auras[it]? with
      | none => rw [hx] at hd; simp at hd
      | some x =>
        rw [hx] at hd
        simp only at hd
        cases hcnt : reduceCounters c.m_auraTypeCount x.effects with
        | none => rw [hcnt] at hd; simp at hd
        | some cnt =>
          rw [hcnt] at hd
          simp only [Option.some.injEq, Prod.mk.injEq] at hd
          rw [← hd.2]
    rw [← h]
    show (E.misapplyEffects strong c1).getUInt32Value E.Power1 = _
    rw [hh, hc1]

/-- When the unapply handlers leave the mana field alone, the loop of
`consumeAbsorb` leaves it alone. -/
theorem consumeAbsorb_loop_power (E : Env) (school : Nat)
    (hh : ∀ x c0, (E.misapplyEffects x c0).getUInt32Value E.Power1
      = c0.m_owner.getUInt32Value E.Power1) :
    ∀ (fuel it : Nat) (s : AbsorbState) (c : AuraContainer) (r : AbsorbState × AuraContainer),
      consumeAbsorb_loop E school fuel it s c = some r →
      r.2.m_owner.getUInt32Value E.Power1 = c.m_owner.getUInt32Value E.Power1 := by
  intro fuel
  induction fuel with
  | zero =>
    intro it s c r h
    unfold consumeAbsorb_loop at h
    split at h
    · simp at h
    · cases h; rfl
  | succ k ih =>
    intro it s c r h
    unfold consumeAbsorb_loop at h
    cases hx : c.m_auras[it]? with
    | none => rw [hx] at h; cases h; rfl
    | some x =>
      rw [hx] at h
      simp only at h
      rcases hr : consumeAbsorb_effects E school x.effects { s with shouldRemove := false }
        with ⟨es', s'⟩
      rw [hr] at h
      simp only at h
      split at h
      · cases hrm : removeAura E { c with m_auras := c.m_auras.set it { x with effects := es' } } it with
        | none => rw [hrm] at h; simp at h
        | some c2 =>
          rw [hrm] at h
          simp only at h
          have hc2 := removeAura_power E hh _ c2 it hrm
          split at h
          · cases h; exact hc2
          · rw [ih _ _ _ _ h, hc2]
      · split at h
        · cases h; rfl
        · rw [ih _ _ _ _ h]

theorem manaInv_start (E : Env) (c : AuraContainer) (damage : Nat) :
    ManaInv E (c.m_owner.getUInt32Value E.Power1) (absorbStart E c damage) := by
  refine ⟨?_, ?_⟩
  · simp [absorbStart, manaShieldEvents]
  · simp [absorbStart, manaShieldEvents, manaAfterEvents]

/-- Where every conversion is defined, the local `ownerMana` is the binary32
difference cut to its integral part, absorption by absorption. -/
theorem manaAfterEvents_inRange (E : Env) (hE : FloatArithmetic E) :
    ∀ (evs : List AbsorbEvent) (m : Nat), InRangeEvents m evs →
      manaAfterEvents E m evs = f32ManaAfterEvents m evs := by
  intro evs
  induction evs with
  | nil => intro m _; rfl
  | cons ev evs ih =>
    intro m h
    obtain ⟨⟨h1, h2⟩, h3⟩ := h
    show manaAfterEvents E (E.manaAfter m ev.subtrahend ev.effect) evs
      = f32ManaAfterEvents ⌊f32Difference m ev.subtrahend ev.effect⌋₊ evs
    rw [hE.2 m _ _ h1 h2]
    exact ih _ h3

theorem exactEvents_inRange :
    ∀ (evs : List AbsorbEvent) (m : Nat), ExactEvents m evs → InRangeEvents m evs := by
  intro evs
  induction evs with
  | nil => intro m _; trivial
  | cons ev evs ih =>
    intro m h
    obtain ⟨n, hn, h1, _, h3⟩ := h
    refine ⟨⟨?_, ?_⟩, ?_⟩
    · rw [h1]
      have : (0 : ℚ) ≤ (n : ℚ) := Nat.cast_nonneg n
      linarith
    · rw [h1]
      exact_mod_cast hn
    · rw [h1, Nat.floor_natCast]
      exact ih n h3

/-- When no binary32 operation rounds, the local `ownerMana` is the mana at
the start minus the sum of the products. -/
theorem f32ManaAfterEvents_exact :
    ∀ (evs : List AbsorbEvent) (m : Nat), ExactEvents m evs →
      ((f32ManaAfterEvents m evs : ℕ) : ℚ) = (m : ℚ) - (evs.map manaCost).sum := by
  intro evs
  induction evs with
  | nil =>
    intro m _
    show ((m : ℕ) : ℚ) = (m : ℚ) - 0
    ring
  | cons ev evs ih =>
    intro m h
    obtain ⟨n, _, h1, h2, h3⟩ := h
    show ((f32ManaAfterEvents ⌊f32Difference m ev.subtrahend ev.effect⌋₊ evs : ℕ) : ℚ)
      = (m : ℚ) - (manaCost ev + (evs.map manaCost).sum)
    rw [h1, Nat.floor_natCast, ih n h3, h2]
    ring

theorem shieldState2_CountersOk : CountersOk shieldState2 :=
  Reachable_CountersOk floatEnv shieldState2
    (Reachable.addAura shieldAura2 false true (Reachable.empty manaOwner) rfl)

theorem floatEnv_power (x : AuraSpellSlot) (c0 : AuraContainer) :
    (floatEnv.misapplyEffects x c0).getUInt32Value floatEnv.Power1
      = c0.m_owner.getUInt32Value floatEnv.Power1 := by
  show (if x.slot = 0xFF then c0.m_owner
      else c0.m_owner.setUInt32Value (47 + x.slot) 0).getUInt32Value 23 = _
  split
  · rfl
  · show (if 23 = 47 + x.slot then 0 else c0.m_owner.getUInt32Value 23) = _
    rw [if_neg (by omega)]
    rfl

/-- C18, as the code has it: with binary32 `float` computations, unapply
handlers that leave the mana field alone and consistent counters,
`consumeAbsorb` returns, and the loop leaves the mana field of the owner as it
was.  The field is written once, after the loop, exactly when a `ManaShield`
effect went through an absorption (of an amount that may be 0), and is left as
it was otherwise.  Its value afterwards is the mana at the start after the
statements `ownerMana -= (amount * multiple)` of the absorptions of the
`ManaShield` effects, in order: where every conversion to `UInt32` is defined,
each one replaces the mana by the integral part of the binary32 difference
`(float)mana - (float)amount * multiple`; and when none of these binary32
differences is rounded and each is a `UInt32`, the field is the mana at the
start minus the sum of the products. -/
theorem C18_mana_committed (E : Env) (c : AuraContainer) (damage school : Nat)
    (hE : FloatArithmetic E)
    (hh : ∀ x c0, (E.misapplyEffects x c0).getUInt32Value E.Power1
      = c0.m_owner.getUInt32Value E.Power1)
    (hc : CountersOk c) :
    ∃ s cl c', consumeAbsorb_loop E school c.m_auras.length 0 (absorbStart E c damage) c
          = some (s, cl)
      ∧ cl.m_owner.getUInt32Value E.Power1 = c.m_owner.getUInt32Value E.Power1
      ∧ consumeAbsorb E c damage school = some (s.absorbed, c')
      ∧ c' = (if manaShieldEvents E s.events = [] then cl
              else { cl with m_owner := cl.m_owner.setUInt32Value E.Power1 s.ownerMana })
      ∧ c'.m_owner.getUInt32Value E.Power1
          = manaAfterEvents E (c.m_owner.getUInt32Value E.Power1) (manaShieldEvents E s.events)
      ∧ (InRangeEvents (c.m_owner.getUInt32Value E.Power1) (manaShieldEvents E s.events) →
          c'.m_owner.getUInt32Value E.Power1
            = f32ManaAfterEvents (c.m_owner.getUInt32Value E.Power1)
                (manaShieldEvents E s.events))
      ∧ (ExactEvents (c.m_owner.getUInt32Value E.Power1) (manaShieldEvents E s.events) →
          ((c'.m_owner.getUInt32Value E.Power1 : ℕ) : ℚ)
            = (c.m_owner.getUInt32Value E.Power1 : ℚ)
              - ((manaShieldEvents E s.events).map manaCost).sum) := by
  obtain ⟨⟨s, cl⟩, h1, _⟩ := consumeAbsorb_loop_capacity E school c.m_auras c.m_auras.length []
    (absorbStart E c damage) c (by simp) hc (Nat.le_refl _)
  simp only [List.length_nil] at h1
  have hinv : ManaInv E (c.m_owner.getUInt32Value E.Power1) s :=
    consumeAbsorb_loop_invariant E school (ManaInv E (c.m_owner.getUInt32Value E.Power1))
      (fun s hs => hs) (fun e s hs => manaInv_step E school _ e s hs)
      c.m_auras.length 0 (absorbStart E c damage) c (s, cl) (manaInv_start E c damage) h1
  have hpow : cl.m_owner.getUInt32Value E.Power1 = c.m_owner.getUInt32Value E.Power1 :=
    consumeAbsorb_loop_power E school hh _ _ _ _ (s, cl) h1
  obtain ⟨i1, i2⟩ := hinv
  have hval : ∀ c' : AuraContainer,
      c'.m_owner.getUInt32Value E.Power1
        = manaAfterEvents E (c.m_owner.getUInt32Value E.Power1) (manaShieldEvents E s.events) →
      (InRangeEvents (c.m_owner.getUInt32Value E.Power1) (manaShieldEvents E s.events) →
          c'.m_owner.getUInt32Value E.Power1
            = f32ManaAfterEvents (c.m_owner.getUInt32Value E.Power1)
                (manaShieldEvents E s.events))
      ∧ (ExactEvents (c.m_owner.getUInt32Value E.Power1) (manaShieldEvents E s.events) →
          ((c'.m_owner.getUInt32Value E.Power1 : ℕ) : ℚ)
            = (c.m_owner.getUInt32Value E.Power1 : ℚ)
              - ((manaShieldEvents E s.events).map manaCost).sum) := by
    intro c' hc'
    constructor
    · intro hr
      rw [hc', manaAfterEvents_inRange E hE _ _ hr]
    · intro hx
      rw [hc', manaAfterEvents_inRange E hE _ _ (exactEvents_inRange _ _ hx)]
      exact f32ManaAfterEvents_exact _ _ hx
  by_cases hev : manaShieldEvents E s.events = []
  · have hmc : s.manaConsumed = false := by
      cases hb : s.manaConsumed with
      | false => rfl
      | true => exact absurd hev (i1.mp hb)
    have hret : consumeAbsorb E c damage school = some (s.absorbed, cl) := by
      rw [consumeAbsorb_of_loop E c damage school s cl h1, hmc]
      rfl
    have hf : cl.m_owner.getUInt32Value E.Power1
        = manaAfterEvents E (c.m_owner.getUInt32Value E.Power1) (manaShieldEvents E s.events) := by
      rw [hpow, hev]; rfl
    exact ⟨s, cl, cl, h1, hpow, hret, by rw [if_pos hev], hf, hval cl hf⟩
  · have hmc : s.manaConsumed = true := i1.mpr hev
    have hret : consumeAbsorb E c damage school = some (s.absorbed,
        { cl with m_owner := cl.m_owner.setUInt32Value E.Power1 s.ownerMana }) := by
      rw [consumeAbsorb_of_loop E c damage school s cl h1, hmc]
      rfl
    have hfield : ({ cl with m_owner := cl.m_owner.setUInt32Value E.Power1 s.ownerMana }
        : AuraContainer).m_owner.getUInt32Value E.Power1 = s.ownerMana := by
      simp [GameUnit.setUInt32Value]
    have hf : ({ cl with m_owner := cl.m_owner.setUInt32Value E.Power1 s.ownerMana }
        : AuraContainer).m_owner.getUInt32Value E.Power1
        = manaAfterEvents E (c.m_owner.getUInt32Value E.Power1) (manaShieldEvents E s.events) := by
      rw [hfield]; exact i2
    exact ⟨s, cl, _, h1, hpow, hret, by rw [if_neg hev], hf, hval _ hf⟩

theorem C18_mana_committed_witness :
    ∃ s cl c', consumeAbsorb_loop floatEnv 4 shieldState2.m_auras.length 0
          (absorbStart floatEnv shieldState2 3) shieldState2 = some (s, cl)
      ∧ cl.m_owner.getUInt32Value floatEnv.Power1
          = shieldState2.m_owner.getUInt32Value floatEnv.Power1
      ∧ consumeAbsorb floatEnv shieldState2 3 4 = some (s.absorbed, c')
      ∧ c' = (if manaShieldEvents floatEnv s.events = [] then cl
              else { cl with m_owner := cl.m_owner.setUInt32Value floatEnv.Power1 s.ownerMana })
      ∧ c'.m_owner.getUInt32Value floatEnv.Power1
          = manaAfterEvents floatEnv (shieldState2.m_owner.getUInt32Value floatEnv.Power1)
              (manaShieldEvents floatEnv s.events)
      ∧ (InRangeEvents (shieldState2.m_owner.getUInt32Value floatEnv.Power1)
            (manaShieldEvents floatEnv s.events) →
          c'.m_owner.getUInt32Value floatEnv.Power1
            = f32ManaAfterEvents (shieldState2.m_owner.getUInt32Value floatEnv.Power1)
                (manaShieldEvents floatEnv s.events))
      ∧ (ExactEvents (shieldState2.m_owner.getUInt32Value floatEnv.Power1)
            (manaShieldEvents floatEnv s.events) →
          ((c'.m_owner.getUInt32Value floatEnv.Power1 : ℕ) : ℚ)
            = (shieldState2.m_owner.getUInt32Value floatEnv.Power1 : ℚ)
              - ((manaShieldEvents floatEnv s.events).map manaCost).sum) :=
  C18_mana_committed floatEnv shieldState2 3 4 floatEnv_float floatEnv_power
    shieldState2_CountersOk

theorem shieldState_CountersOk : CountersOk shieldState :=
  Reachable_CountersOk floatEnv shieldState
    (Reachable.addAura shieldAura false true (Reachable.empty manaOwner) rfl)

theorem shieldState7_CountersOk : CountersOk shieldState7 :=
  Reachable_CountersOk floatEnv shieldState7
    (Reachable.addAura shieldAura7 false true (Reachable.empty manaOwner3) rfl)

theorem shield_consumable : consumableOf floatEnv shieldEffect 10 = 6 := by
  have h : floatEnv.manaShieldCapacity 10 shieldEffect = 6 := by
    show floatToUInt32 (f32Quotient 10 shieldEffect) = 6
    have hf : ⌊(13981013 / 2097152 : ℚ)⌋₊ = 6 := by
      rw [Nat.floor_eq_iff (by norm_num)]
      constructor <;> norm_num
    rw [f32Quotient_shield, floatToUInt32, hf]
  unfold consumableOf
  rw [if_pos (by decide), h]
  decide

theorem shield_after : floatEnv.manaAfter 10 1 shieldEffect = 8 := by
  show floatToUInt32 (f32Difference 10 1 shieldEffect) = 8
  have hf : ⌊(17 / 2 : ℚ)⌋₊ = 8 := by
    rw [Nat.floor_eq_iff (by norm_num)]
    constructor <;> norm_num
  rw [f32Difference_shield, floatToUInt32, hf]

theorem consumable_7 : consumableOf floatEnv shieldEffect7 3 = 21 := by
  have h : floatEnv.manaShieldCapacity 3 shieldEffect7 = 21 := by
    show floatToUInt32 (f32Quotient 3 shieldEffect7) = 21
    rw [f32Quotient_7]
    exact floatToUInt32_natCast 21 (by norm_num)
  unfold consumableOf
  rw [if_pos (by decide), h]
  decide

theorem shield_after_7 : floatEnv.manaAfter 3 21 shieldEffect7 = 0 := by
  show floatToUInt32 (f32Difference 3 21 shieldEffect7) = 0
  have hf : ⌊(-1 / 4194304 : ℚ)⌋₊ = 0 := Nat.floor_of_nonpos (by norm_num)
  rw [f32Difference_7, floatToUInt32, hf]

/-- C18 fails as stated.  First input: the unit has 10 mana and one mana shield
of 100 points with `3/2` mana per point, for the school of the damage;
`consumeAbsorb 1 school` absorbs 1 at that effect and writes 8, and 8 is not
`10 - 1 * 3/2`.  Second input: the unit has 3 mana and one mana shield of 100
points whose multiple is the `float` nearest to `1/7`; `consumeAbsorb 21 school`
absorbs 21 at that effect, the product `21 * multiple` is above 3, the `float`
difference is `-2^(-22)`, below 0, and 0 is written. -/
theorem C18_fractional_multiplier_counterexample :
    (shieldState.m_owner.getUInt32Value floatEnv.Power1 = 10
      ∧ shieldState.m_auras = [shieldAura.setSlot 0]
      ∧ (shieldAura.setSlot 0).effects = [shieldEffect]
      ∧ ∃ s cl c', consumeAbsorb_loop floatEnv 4 shieldState.m_auras.length 0
            (absorbStart floatEnv shieldState 1) shieldState = some (s, cl)
        ∧ s.events = [{ effect := shieldEffect, ownerMana := 10, minuend := 6, subtrahend := 1 }]
        ∧ consumeAbsorb floatEnv shieldState 1 4 = some (1, c')
        ∧ c'.m_owner.getUInt32Value floatEnv.Power1 = 8
        ∧ ((8 : ℕ) : ℚ) ≠ ((10 : ℕ) : ℚ) - ((1 : ℕ) : ℚ) * multipleOf shieldEffect)
    ∧ (shieldState7.m_owner.getUInt32Value floatEnv.Power1 = 3
      ∧ shieldState7.m_auras = [shieldAura7.setSlot 0]
      ∧ (shieldAura7.setSlot 0).effects = [shieldEffect7]
      ∧ multipleOf shieldEffect7 = roundF32 (1 / 7)
      ∧ ∃ s cl c', consumeAbsorb_loop floatEnv 4 shieldState7.m_auras.length 0
            (absorbStart floatEnv shieldState7 21) shieldState7 = some (s, cl)
        ∧ s.events = [{ effect := shieldEffect7, ownerMana := 3, minuend := 21, subtrahend := 21 }]
        ∧ consumeAbsorb floatEnv shieldState7 21 4 = some (21, c')
        ∧ ((3 : ℕ) : ℚ) < ((21 : ℕ) : ℚ) * multipleOf shieldEffect7
        ∧ f32Difference 3 21 shieldEffect7 = -1 / 4194304
        ∧ c'.m_owner.getUInt32Value floatEnv.Power1 = 0) := by
  constructor
  · have hcons : consumableOf floatEnv shieldEffect
        (absorbStart floatEnv shieldState 1).ownerMana = 6 := shield_consumable
    have hafter : floatEnv.manaAfter (absorbStart floatEnv shieldState 1).ownerMana
        (absorbStart floatEnv shieldState 1).damage shieldEffect = 8 := shield_after
    have heff := consumeAbsorb_effect_shield floatEnv 4 shieldEffect
      (absorbStart floatEnv shieldState 1) (by decide) rfl
      (by rw [hcons]; decide) (by rw [hcons]; decide)
    rw [hcons, hafter] at heff
    have hloop := (consumeAbsorb_loop_one floatEnv 4 1 shieldState
      (shieldAura.setSlot 0) shieldEffect _ _ rfl rfl shieldState_CountersOk heff).1 rfl rfl
    have hret := consumeAbsorb_of_loop floatEnv shieldState 1 4 _ _ hloop
    have hne : ((8 : ℕ) : ℚ) ≠ ((10 : ℕ) : ℚ) - ((1 : ℕ) : ℚ) * multipleOf shieldEffect := by
      rw [multipleOf_shieldEffect]
      norm_num
    exact ⟨rfl, rfl, rfl, _, _, _, hloop, rfl, hret, rfl, hne⟩
  · have hcons : consumableOf floatEnv shieldEffect7
        (absorbStart floatEnv shieldState7 21).ownerMana = 21 := consumable_7
    have hafter : floatEnv.manaAfter (absorbStart floatEnv shieldState7 21).ownerMana
        (absorbStart floatEnv shieldState7 21).damage shieldEffect7 = 0 := shield_after_7
    have heff := consumeAbsorb_effect_shield floatEnv 4 shieldEffect7
      (absorbStart floatEnv shieldState7 21) (by decide) rfl
      (by rw [hcons]; decide) (by rw [hcons]; decide)
    rw [hcons, hafter] at heff
    obtain ⟨cl, hloop, _, _⟩ := (consumeAbsorb_loop_one floatEnv 4 21 shieldState7
      (shieldAura7.setSlot 0) shieldEffect7 _ _ rfl rfl shieldState7_CountersOk heff).2 rfl
    have hret := consumeAbsorb_of_loop floatEnv shieldState7 21 4 _ cl hloop
    have hk : multipleOf shieldEffect7 = roundF32 (1 / 7) := by
      rw [multipleOf_shieldEffect7, roundF32_one_seventh]
    have hlt : ((3 : ℕ) : ℚ) < ((21 : ℕ) : ℚ) * multipleOf shieldEffect7 := by
      rw [multipleOf_shieldEffect7]
      norm_num
    exact ⟨rfl, rfl, rfl, hk, _, cl, _, hloop, rfl, hret, hlt, f32Difference_7, rfl⟩

/-! ## C27: the largest base points of a type -/

theorem forEachEffect_maximum (es : List AuraEffect) (t : Int) :
    (forEachEffect maximumVisitor es t).2 = (es.map (fun e => e.basePoints)).foldl max t := by
  induction es generalizing t with
  | nil => rfl
  | cons e es ih =>
    have hstep : (forEachEffect maximumVisitor (e :: es) t).2
        = (forEachEffect maximumVisitor es (if e.basePoints > t then e.basePoints else t)).2 := by
      simp only [forEachEffect, maximumVisitor]
    rw [hstep, ih, List.map_cons, List.foldl_cons]
    congr 1
    by_cases h : e.basePoints > t
    · rw [if_pos h, max_eq_right (le_of_lt h)]
    · rw [if_neg h, max_eq_left (not_lt.mp h)]

theorem allEffects_cons (aura : AuraSpellSlot) (rest : List AuraSpellSlot) :
    allEffects (aura :: rest) = aura.effects ++ allEffects rest := rfl

theorem getMaximumBasePoints_loop_eq (type : Nat) (l : List AuraSpellSlot) (t : Int) :
    getMaximumBasePoints_loop type l t = (basePointsOfType type l).foldl max t := by
  induction l generalizing t with
  | nil => rfl
  | cons aura rest ih =>
    simp only [getMaximumBasePoints_loop, forEachEffectOfType, forEachEffect_maximum, ih,
      basePointsOfType, allEffects_cons, List.filter_append, List.map_append, List.foldl_append]

theorem foldl_max_ge (l : List Int) (t : Int) :
    t ≤ l.foldl max t ∧ ∀ b ∈ l, b ≤ l.foldl max t := by
  induction l generalizing t with
  | nil => exact ⟨le_refl _, fun b hb => absurd hb (List.not_mem_nil b)⟩
  | cons a l ih =>
    obtain ⟨h1, h2⟩ := ih (max t a)
    rw [List.foldl_cons]
    refine ⟨le_trans (le_max_left t a) h1, ?_⟩
    intro b hb
    rcases List.mem_cons.mp hb with h | h
    · rw [h]; exact le_trans (le_max_right t a) h1
    · exact h2 b h

theorem foldl_max_mem (l : List Int) (t : Int) : l.foldl max t = t ∨ l.foldl max t ∈ l := by
  induction l generalizing t with
  | nil => exact Or.inl rfl
  | cons a l ih =>
    rw [List.foldl_cons]
    rcases ih (max t a) with h | h
    · rw [h]
      rcases max_choice t a with hm | hm
      · exact Or.inl hm
      · right; rw [hm]; exact List.mem_cons_self _ _
    · exact Or.inr (List.mem_cons_of_mem _ h)

/-- C27: `getMaximumBasePoints T` is the largest of `0` and the base points of
the effects of type `T` over all instances; effects of other types do not
influence it.  It is at least `0` and at least every such base points, and it
is `0` or one of them.  When some effect of type `T` has base points of at
least `0` it is the largest base points among the effects of type `T`; when all
of them are negative it is `0`. -/
theorem C27_maximum_base_points (c : AuraContainer) (T : Nat) :
    getMaximumBasePoints c T = (basePointsOfType T c.m_auras).foldl max 0
    ∧ 0 ≤ getMaximumBasePoints c T
    ∧ (∀ b ∈ basePointsOfType T c.m_auras, b ≤ getMaximumBasePoints c T)
    ∧ (getMaximumBasePoints c T = 0 ∨ getMaximumBasePoints c T ∈ basePointsOfType T c.m_auras)
    ∧ ((∃ b ∈ basePointsOfType T c.m_auras, 0 ≤ b) →
        getMaximumBasePoints c T ∈ basePointsOfType T c.m_auras)
    ∧ ((∀ b ∈ basePointsOfType T c.m_auras, b < 0) → getMaximumBasePoints c T = 0) := by
  have heq : getMaximumBasePoints c T = (basePointsOfType T c.m_auras).foldl max 0 :=
    getMaximumBasePoints_loop_eq T c.m_auras 0
  obtain ⟨h0, hge⟩ := foldl_max_ge (basePointsOfType T c.m_auras) 0
  have hmem := foldl_max_mem (basePointsOfType T c.m_auras) 0
  rw [← heq] at h0 hge hmem
  refine ⟨heq, h0, hge, hmem, ?_, ?_⟩
  · rintro ⟨b, hb, hb0⟩
    rcases hmem with h | h
    · have hle := hge b hb
      have hb' : b = 0 := by omega
      rw [h, ← hb']
      exact hb
    · exact h
  · intro hneg
    rcases hmem with h | h
    · exact h
    · have := hneg _ h
      omega

/-- C27 fails as stated when all base points of the type are negative: the
container holds one effect of type 4, with base points `-5`, and
`getMaximumBasePoints 4` is `0`, which is not the base points of any effect. -/
theorem C27_all_negative_counterexample :
    basePointsOfType 4 negativeState.m_auras = [-5]
    ∧ getMaximumBasePoints negativeState 4 = 0
    ∧ getMaximumBasePoints negativeState 4 ∉ basePointsOfType 4 negativeState.m_auras := by
  refine ⟨rfl, rfl, by decide⟩

/-! ## C21: the snapshot of the instances -/

theorem forEachEffect_serialize (es : List AuraEffect) (idx : Nat) (data : AuraData) :
    (forEachEffect serializeVisitor es (idx, data)).2
      = (idx + es.length,
          { data with basePoints := fun i =>
              if idx ≤ i then ((es[i - idx]?).map (fun e => e.basePoints)).getD (data.basePoints i)
              else data.basePoints i }) := by
  induction es generalizing idx data with
  | nil =>
    simp only [forEachEffect, List.length_nil, Nat.add_zero, List.getElem?_nil, Option.map_none',
      Option.getD_none, ite_self]
  | cons e es ih =>
    have hstep : (forEachEffect serializeVisitor (e :: es) (idx, data)).2
        = (forEachEffect serializeVisitor es (idx + 1,
            { data with basePoints := fun i =>
                if i = idx then e.basePoints else data.basePoints i })).2 := by
      simp only [forEachEffect, serializeVisitor]
    rw [hstep, ih]
    refine Prod.ext (by simp only [List.length_cons]; omega) ?_
    show ({ data with basePoints := _ } : AuraData) = { data with basePoints := _ }
    congr 1
    funext i
    by_cases h1 : idx + 1 ≤ i
    · have h2 : idx ≤ i := by omega
      have h3 : i - idx = (i - (idx + 1)) + 1 := by omega
      have h4 : ¬ i = idx := by omega
      simp only [h1, h2, if_true, h3, List.getElem?_cons_succ, h4, if_false]
    · by_cases h2 : i = idx
      · subst h2
        simp
      · have h3 : ¬ idx ≤ i := by omega
        simp only [h1, h2, h3, if_false]

theorem serializeAura_eq (dflt : AuraData) (aura : AuraSpellSlot) :
    serializeAura dflt aura = recordOf dflt aura := by
  unfold serializeAura recordOf
  simp only [forEachEffect_serialize]
  cases aura.caster <;> simp

theorem serializeAuraData_loop_eq (dflt : AuraData) (l : List AuraSpellSlot) (out : List AuraData) :
    serializeAuraData_loop dflt l out
      = out ++ (l.filter (fun a => !a.passive && !a.channeled)).map (recordOf dflt) := by
  induction l generalizing out with
  | nil => simp [serializeAuraData_loop]
  | cons a l ih =>
    unfold serializeAuraData_loop
    by_cases h : (a.passive || a.channeled) = true
    · rw [if_pos h, ih]
      have : (!a.passive && !a.channeled) = false := by
        cases hp : a.passive <;> cases hc : a.channeled <;> simp_all
      rw [List.filter_cons, this]
      simp
    · rw [if_neg h, ih]
      have : (!a.passive && !a.channeled) = true := by
        cases hp : a.passive <;> cases hc : a.channeled <;> simp_all
      rw [List.filter_cons, this]
      simp [serializeAura_eq]

/-- C21: `serializeAuraData` returns true, and `out_data` afterwards, whatever
it held before, is the list of the records of the instances that are neither
passive nor channeled, one each, in container order.  The record of an
instance holds its spell id, the caster guid when the caster is set, the item
guid, the total duration, the remaining time, the remaining charges, the
stack count and, at index `k`, the base points of its `k`-th effect.  The
function reads the container and returns no new one. -/
theorem C21_serializeAuraData (dflt : AuraData) (c : AuraContainer) (out_data : List AuraData) :
    serializeAuraData dflt c out_data
        = (true, (c.m_auras.filter (fun a => !a.passive && !a.channeled)).map (recordOf dflt))
    ∧ (serializeAuraData dflt c out_data).2.length
        = c.m_auras.countP (fun a => !a.passive && !a.channeled)
    ∧ ∀ (a : AuraSpellSlot) (k : Nat) (e : AuraEffect), a.effects[k]? = some e →
        (recordOf dflt a).spell = a.spell.id
        ∧ (∀ guid, a.caster = some guid → (recordOf dflt a).casterGuid = guid)
        ∧ (recordOf dflt a).itemGuid = a.itemGuid
        ∧ (recordOf dflt a).maxDuration = a.totalDuration
        ∧ (recordOf dflt a).remainingTime = a.remainingTime
        ∧ (recordOf dflt a).remainingCharges = a.remainingCharges
        ∧ (recordOf dflt a).stackCount = a.stackCount
        ∧ (recordOf dflt a).basePoints k = e.basePoints := by
  have h : serializeAuraData dflt c out_data
      = (true, (c.m_auras.filter (fun a => !a.passive && !a.channeled)).map (recordOf dflt)) := by
    unfold serializeAuraData
    rw [serializeAuraData_loop_eq, List.nil_append]
  refine ⟨h, ?_, ?_⟩
  · rw [h]
    simp only [List.length_map, List.countP_eq_length_filter]
  · intro a k e hk
    refine ⟨rfl, ?_, rfl, rfl, rfl, rfl, rfl, ?_⟩
    · intro guid hg
      simp only [recordOf, hg, Option.getD_some]
    · simp only [recordOf, hk, Option.map_some', Option.getD_some]

/-! ## C22, C23: restoring the instances of a snapshot -/

theorem addAura_returns (E : Env) (c : AuraContainer) (aura : AuraSpellSlot) (restoration : Bool)
    (hc : CountersOk c) (h0 : E.ModShapeShift ≠ 0) :
    ∃ b c', addAura E c aura restoration = some (b, c') := by
  by_cases hv : isVisible E aura
  · rcases candidate_cases E aura c.m_auras with hnone | ⟨pre, x, suf, hl, hpre, hx⟩
    · rw [addAura_of_no_candidate E c aura restoration hv hnone]
      unfold addAura_place
      by_cases hs : determineSlot E c aura 0xFF = 0xFF
      · exact ⟨false, c, by rw [if_pos hs]⟩
      · rw [if_neg hs]
        obtain ⟨c', hc'⟩ := addAura_insert_returns E c (aura.setSlot (determineSlot E c aura 0xFF))
          restoration hc (Or.inl h0)
        exact ⟨true, c', hc'⟩
    · by_cases hrank : x.spell.baseid = aura.spell.baseid ∧ aura.spell.rank < x.spell.rank
      · rw [addAura_of_candidate E c aura x restoration pre suf hv hl hpre hx, if_pos hrank]
        exact ⟨_, _, rfl⟩
      · by_cases hstack : x.spell.id = aura.spell.id ∧ 0 < aura.spell.stackamount
            ∧ x.caster = aura.caster ∧ aura.caster.isSome = true
        · rw [addAura_of_candidate E c aura x restoration pre suf hv hl hpre hx, if_neg hrank,
            if_pos hstack]
          exact ⟨_, _, rfl⟩
        · obtain ⟨c', h1, _⟩ := addAura_replaces E c aura x restoration pre suf hv hl hpre hx
            hrank hstack hc (Or.inl h0)
          exact ⟨true, c', h1⟩
  · have hv' : ¬ (aura.passive = false ∧ aura.spell.attributes0 &&& E.HiddenClientSide = 0) := hv
    unfold addAura
    rw [if_neg hv']
    obtain ⟨c', hc'⟩ := addAura_insert_returns E c aura restoration hc (Or.inl h0)
    exact ⟨true, c', hc'⟩

theorem restoreAuraData_loop_eq (E : Env) (R : RestoreEnv) (h0 : E.ModShapeShift ≠ 0) :
    ∀ (data : List AuraData) (k : Nat) (c : AuraContainer), CountersOk c →
      ∃ bs c', addAuras E true c (resolvedAuras R data k) = some (bs, c')
        ∧ bs.length = (resolvedAuras R data k).length
        ∧ restoreAuraData_loop E R data k c = some c' := by
  intro data
  induction data with
  | nil =>
    intro k c _
    exact ⟨[], c, rfl, rfl, rfl⟩
  | cons d rest ih =>
    intro k c hc
    cases hg : R.getById d.spell with
    | none =>
      obtain ⟨bs, c', h1, h2, h3⟩ := ih (k + 1) c hc
      refine ⟨bs, c', ?_, ?_, ?_⟩
      · simp only [resolvedAuras, hg]; exact h1
      · simp only [resolvedAuras, hg]; exact h2
      · simp only [restoreAuraData_loop, hg]; exact h3
    | some entry =>
      obtain ⟨b, c1, hadd⟩ := addAura_returns E c (restoreAura R k d entry) true hc h0
      have hc1 := addAura_CountersOk E c c1 _ true b hadd hc
      obtain ⟨bs, c', h1, h2, h3⟩ := ih (k + 1) c1 hc1
      refine ⟨b :: bs, c', ?_, ?_, ?_⟩
      · simp only [resolvedAuras, hg, addAuras, hadd, h1]
      · simp only [resolvedAuras, hg, List.length_cons, h2]
      · simp only [restoreAuraData_loop, hg, hadd]; exact h3

theorem empty_CountersOk (owner : GameUnit) : CountersOk (AuraContainer.empty owner) := by
  intro T; rfl

/-- C22: on a container with consistent counters `restoreAuraData` returns
true, and the container afterwards is the one that results from one call of
`addAura` with `restoration = true` for every record whose spell id resolves,
in the order of the records, whatever flags these calls return.  A record
whose spell id does not resolve is skipped: the loop goes on with the next
record on the same container.  For a record whose spell id resolves `addAura`
is called once, and the loop goes on with the next record on the container
that call leaves. -/
theorem C22_restoreAuraData (E : Env) (R : RestoreEnv) (c : AuraContainer) (data : List AuraData)
    (hc : CountersOk c) (h0 : E.ModShapeShift ≠ 0) :
    (∃ bs c', addAuras E true c (resolvedAuras R data 0) = some (bs, c')
        ∧ bs.length = (resolvedAuras R data 0).length
        ∧ restoreAuraData E R c data = some (true, c'))
    ∧ (∀ (d : AuraData) (rest : List AuraData) (k : Nat) (c0 : AuraContainer),
        R.getById d.spell = none →
        restoreAuraData_loop E R (d :: rest) k c0 = restoreAuraData_loop E R rest (k + 1) c0)
    ∧ (∀ (d : AuraData) (rest : List AuraData) (k : Nat) (c0 : AuraContainer) (entry : SpellEntry),
        R.getById d.spell = some entry →
        restoreAuraData_loop E R (d :: rest) k c0
          = (addAura E c0 (restoreAura R k d entry) true).bind
              (fun r => restoreAuraData_loop E R rest (k + 1) r.2)) := by
  refine ⟨?_, ?_, ?_⟩
  · obtain ⟨bs, c', h1, h2, h3⟩ := restoreAuraData_loop_eq E R h0 data 0 c hc
    refine ⟨bs, c', h1, h2, ?_⟩
    unfold restoreAuraData
    rw [h3]
  · intro d rest k c0 hg
    simp only [restoreAuraData_loop, hg]
  · intro d rest k c0 entry hg
    simp only [restoreAuraData_loop, hg]
    cases addAura E c0 (restoreAura R k d entry) true with
    | none => rfl
    | some r => rfl

theorem C22_restoreAuraData_witness :
    (∃ bs c', addAuras demoEnv true (AuraContainer.empty demoOwner)
          (resolvedAuras demoRestoreEnv demoSnapshot 0) = some (bs, c')
        ∧ bs.length = (resolvedAuras demoRestoreEnv demoSnapshot 0).length
        ∧ restoreAuraData demoEnv demoRestoreEnv (AuraContainer.empty demoOwner) demoSnapshot
            = some (true, c'))
    ∧ (∀ (d : AuraData) (rest : List AuraData) (k : Nat) (c0 : AuraContainer),
        demoRestoreEnv.getById d.spell = none →
        restoreAuraData_loop demoEnv demoRestoreEnv (d :: rest) k c0
          = restoreAuraData_loop demoEnv demoRestoreEnv rest (k + 1) c0)
    ∧ (∀ (d : AuraData) (rest : List AuraData) (k : Nat) (c0 : AuraContainer) (entry : SpellEntry),
        demoRestoreEnv.getById d.spell = some entry →
        restoreAuraData_loop demoEnv demoRestoreEnv (d :: rest) k c0
          = (addAura demoEnv c0 (restoreAura demoRestoreEnv k d entry) true).bind
              (fun r => restoreAuraData_loop demoEnv demoRestoreEnv rest (k + 1) r.2)) :=
  C22_restoreAuraData demoEnv demoRestoreEnv (AuraContainer.empty demoOwner) demoSnapshot
    (empty_CountersOk demoOwner) (by decide)

/-- C23: a record whose spell id resolves and whose caster guid is not resolved
(no world instance, or no unit of that guid in it) is not skipped.  The
instance that is built for it has the caster of the newly made object, which
`setCaster` was not called on; on a container with consistent counters
`addAura` is called with it and returns, and the loop goes on with the
remaining records on the container that call leaves. -/
theorem C23_unresolved_caster_restored (E : Env) (R : RestoreEnv) (c : AuraContainer)
    (d : AuraData) (rest : List AuraData) (k : Nat) (entry : SpellEntry)
    (hres : R.getById d.spell = some entry) (hcaster : restoreCaster R d = none)
    (hc : CountersOk c) (h0 : E.ModShapeShift ≠ 0) :
    (restoreAura R k d entry).caster = (R.makeSlot k entry d.itemGuid).caster
    ∧ ∃ b c1 c', addAura E c (restoreAura R k d entry) true = some (b, c1)
        ∧ restoreAuraData_loop E R rest (k + 1) c1 = some c'
        ∧ restoreAuraData_loop E R (d :: rest) k c = some c' := by
  refine ⟨?_, ?_⟩
  · simp only [restoreAura, hcaster, restoreCounts]
  · obtain ⟨b, c1, hadd⟩ := addAura_returns E c (restoreAura R k d entry) true hc h0
    have hc1 := addAura_CountersOk E c c1 _ true b hadd hc
    obtain ⟨_, c', _, _, h3⟩ := restoreAuraData_loop_eq E R h0 rest (k + 1) c1 hc1
    refine ⟨b, c1, c', hadd, h3, ?_⟩
    simp only [restoreAuraData_loop, hres, hadd]
    exact h3

theorem C23_unresolved_caster_restored_witness :
    (restoreAura demoRestoreEnv 0 lostCasterRecord { id := 700, baseid := 700, rank := 1 }).caster
        = (demoRestoreEnv.makeSlot 0 { id := 700, baseid := 700, rank := 1 }
            lostCasterRecord.itemGuid).caster
    ∧ ∃ b c1 c', addAura demoEnv (AuraContainer.empty demoOwner)
          (restoreAura demoRestoreEnv 0 lostCasterRecord { id := 700, baseid := 700, rank := 1 })
          true = some (b, c1)
        ∧ restoreAuraData_loop demoEnv demoRestoreEnv demoSnapshot (0 + 1) c1 = some c'
        ∧ restoreAuraData_loop demoEnv demoRestoreEnv (lostCasterRecord :: demoSnapshot) 0
            (AuraContainer.empty demoOwner) = some c' :=
  C23_unresolved_caster_restored demoEnv demoRestoreEnv (AuraContainer.empty demoOwner)
    lostCasterRecord demoSnapshot 0 { id := 700, baseid := 700, rank := 1 } rfl rfl
    (empty_CountersOk demoOwner) (by decide)

/-- C23 fails as stated: the container is empty, the snapshot is one record of
spell 700 whose caster guid 8 is not found in the world; `restoreAuraData`
returns true and the container afterwards holds one instance, of spell 700 and
without caster. -/
theorem C23_unresolved_caster_counterexample :
    demoRestoreEnv.getById lostCasterRecord.spell = some { id := 700, baseid := 700, rank := 1 }
    ∧ restoreCaster demoRestoreEnv lostCasterRecord = none
    ∧ (AuraContainer.empty demoOwner).m_auras = []
    ∧ restoreAuraData demoEnv demoRestoreEnv (AuraContainer.empty demoOwner) [lostCasterRecord]
        = some (true, afterRestore demoEnv demoRestoreEnv (AuraContainer.empty demoOwner)
            [lostCasterRecord])
    ∧ (afterRestore demoEnv demoRestoreEnv (AuraContainer.empty demoOwner)
          [lostCasterRecord]).m_auras
        = [{ ptr := 100, spell := { id := 700, baseid := 700, rank := 1 }, caster := none,
             slot := 0, stackCount := 1,
             effects := [{ aura := 69, miscvaluea := 4, basePoints := 50 }] }] := by
  refine ⟨rfl, rfl, rfl, rfl, rfl⟩

/-! ## C28: the capacity a mana shield keeps -/

/-- A round of the loop of `consumeAbsorb` at an instance `x` whose first
absorb effect for the school is the `ManaShield` effect `e`, on the branch
where the capped capacity (at least 1) covers the damage. -/
theorem consumeAbsorb_loop_shield (E : Env) (school fuel : Nat)
    (c : AuraContainer) (pre suf : List AuraSpellSlot) (x : AuraSpellSlot)
    (epre esuf : List AuraEffect) (e : AuraEffect) (s : AbsorbState)
    (hl : c.m_auras = pre ++ x :: suf) (hx : x.effects = epre ++ e :: esuf)
    (hepre : ∀ f ∈ epre, ¬ absorbMatch E school f) (hfirst : epre = [] ∨ s.damage ≠ 0)
    (hm : absorbMatch E school e) (hms : e.aura = E.ManaShield) (hc : CountersOk c)
    (hk1 : 1 ≤ consumableOf E e s.ownerMana) (hd : s.damage ≤ consumableOf E e s.ownerMana) :
    ∃ s', s'.damage = 0 ∧ s'.absorbed = (s.absorbed + s.damage) % 4294967296
      ∧ (consumableOf E e s.ownerMana ≠ s.damage →
          consumeAbsorb_loop E school (fuel + 1) pre.length s c
            = some (s', { c with m_auras := pre ++ { x with effects := epre
                ++ { e with basePoints := toInt32 (consumableOf E e s.ownerMana - s.damage) }
                  :: esuf } :: suf }))
      ∧ (consumableOf E e s.ownerMana = s.damage →
          ∃ c', consumeAbsorb_loop E school (fuel + 1) pre.length s c = some (s', c')
            ∧ c'.m_auras = pre ++ suf
            ∧ c'.calls = c.calls ++ [HandlerCall.misapplyEffects { x with effects := epre
                ++ { e with basePoints := toInt32 (consumableOf E e s.ownerMana - s.damage) }
                  :: esuf }]) := by
  obtain ⟨x', c1, c2, hx', hc1, _, h3, _, _, h6, hstep⟩ :=
    consumeAbsorb_loop_step E school fuel pre suf x s c hl hc
  have hcb := consumeAbsorb_effect_shield E school e { s with shouldRemove := false } hm hms
    hk1 hd
  obtain ⟨e1, he1⟩ : ∃ e1 : AuraEffect,
      e1 = { e with basePoints := toInt32 (consumableOf E e s.ownerMana - s.damage) } :=
    ⟨_, rfl⟩
  obtain ⟨s1, hs1⟩ : ∃ s1 : AbsorbState,
      s1 = (consumeAbsorb_effect E school e { s with shouldRemove := false }).2.2 := ⟨_, rfl⟩
  have hcb' : consumeAbsorb_effect E school e { s with shouldRemove := false }
      = (false, e1, s1) := by
    rw [hs1, he1, hcb]
  have hrem : s1.shouldRemove = decide (consumableOf E e s.ownerMana = s.damage) := by
    rw [hs1, hcb]
    by_cases hk : consumableOf E e s.ownerMana = s.damage
    · simp [hk]
    · simp [hk]
  have hdam : s1.damage = 0 := by rw [hs1, hcb]
  have habs : s1.absorbed = (s.absorbed + s.damage) % 4294967296 := by rw [hs1, hcb]
  have heffs : consumeAbsorb_effects E school x.effects { s with shouldRemove := false }
      = (epre ++ e1 :: esuf, s1) := by
    rw [hx]
    exact consumeAbsorb_effects_first E school e e1 epre esuf _ s1 hfirst hepre hcb'
  rw [heffs] at hstep hx'
  simp only [hrem, hdam, decide_eq_true_eq, if_true] at hstep
  rw [← he1]
  refine ⟨s1, hdam, habs, ?_, ?_⟩
  · intro hk
    rw [hstep, if_neg hk, hc1, hx']
  · intro hk
    rw [hstep, if_pos hk]
    refine ⟨_, rfl, ?_, ?_⟩
    · rw [misapply_m_auras, h3]
    · rw [misapply_calls, h6, hx']

/-- C28, as the code has it: a round of the loop of `consumeAbsorb` at an
instance `x` whose first absorb effect for the school is the `ManaShield`
effect `e`, on the branch where the capped capacity `k` (at least 1) covers the
damage `d` (which may be 0 when `e` is the first effect).  `k` is the minimum
of `|base points|` and the `UInt32` value of the `float` quotient
`(float)mana / multiple` of line 242, which is the integral part of the
binary32 quotient where the conversion is defined, and not always
`floor (mana / multiple)`.  The base points of `e` are set to `k - d`, not to
`|base points| - d`, and `k` is at most `|base points|`; the loop ends with no
damage left.  When `k` differs from `d` the instance stays with these base
points; when `k = d` it is removed and unapplied. -/
theorem C28_mana_shield_capped (E : Env) (hE : FloatArithmetic E) (school fuel : Nat)
    (c : AuraContainer) (pre suf : List AuraSpellSlot) (x : AuraSpellSlot)
    (epre esuf : List AuraEffect) (e : AuraEffect) (s : AbsorbState)
    (hl : c.m_auras = pre ++ x :: suf) (hx : x.effects = epre ++ e :: esuf)
    (hepre : ∀ f ∈ epre, ¬ absorbMatch E school f) (hfirst : epre = [] ∨ s.damage ≠ 0)
    (hm : absorbMatch E school e) (hms : e.aura = E.ManaShield) (hc : CountersOk c)
    (hk1 : 1 ≤ consumableOf E e s.ownerMana) (hd : s.damage ≤ consumableOf E e s.ownerMana) :
    consumableOf E e s.ownerMana
        = min (E.manaShieldCapacity s.ownerMana e) (e.basePoints.natAbs % 4294967296)
    ∧ (-1 < f32Quotient s.ownerMana e → f32Quotient s.ownerMana e < 4294967296 →
        consumableOf E e s.ownerMana
          = min ⌊f32Quotient s.ownerMana e⌋₊ (e.basePoints.natAbs % 4294967296))
    ∧ consumableOf E e s.ownerMana ≤ e.basePoints.natAbs
    ∧ ∃ s', s'.damage = 0 ∧ s'.absorbed = (s.absorbed + s.damage) % 4294967296
      ∧ (consumableOf E e s.ownerMana ≠ s.damage →
          consumeAbsorb_loop E school (fuel + 1) pre.length s c
            = some (s', { c with m_auras := pre ++ { x with effects := epre
                ++ { e with basePoints := toInt32 (consumableOf E e s.ownerMana - s.damage) }
                  :: esuf } :: suf }))
      ∧ (consumableOf E e s.ownerMana = s.damage →
          ∃ c', consumeAbsorb_loop E school (fuel + 1) pre.length s c = some (s', c')
            ∧ c'.m_auras = pre ++ suf
            ∧ c'.calls = c.calls ++ [HandlerCall.misapplyEffects { x with effects := epre
                ++ { e with basePoints := toInt32 (consumableOf E e s.ownerMana - s.damage) }
                  :: esuf }]) := by
  have hdef : consumableOf E e s.ownerMana
      = min (E.manaShieldCapacity s.ownerMana e) (e.basePoints.natAbs % 4294967296) := by
    unfold consumableOf
    rw [if_pos hms]
  refine ⟨hdef, ?_, consumableOf_le E e s.ownerMana,
    consumeAbsorb_loop_shield E school fuel c pre suf x epre esuf e s hl hx hepre hfirst hm hms hc
      hk1 hd⟩
  intro h1 h2
  rw [hdef, hE.1 s.ownerMana e h1 h2]

theorem C28_mana_shield_capped_witness :
    consumableOf floatEnv shieldEffect shieldStart.ownerMana
        = min (floatEnv.manaShieldCapacity shieldStart.ownerMana shieldEffect)
            (shieldEffect.basePoints.natAbs % 4294967296)
    ∧ (-1 < f32Quotient shieldStart.ownerMana shieldEffect →
        f32Quotient shieldStart.ownerMana shieldEffect < 4294967296 →
        consumableOf floatEnv shieldEffect shieldStart.ownerMana
          = min ⌊f32Quotient shieldStart.ownerMana shieldEffect⌋₊
              (shieldEffect.basePoints.natAbs % 4294967296))
    ∧ consumableOf floatEnv shieldEffect shieldStart.ownerMana ≤ shieldEffect.basePoints.natAbs
    ∧ ∃ s', s'.damage = 0
      ∧ s'.absorbed = (shieldStart.absorbed + shieldStart.damage) % 4294967296
      ∧ (consumableOf floatEnv shieldEffect shieldStart.ownerMana ≠ shieldStart.damage →
          consumeAbsorb_loop floatEnv 4 (0 + 1) ([] : List AuraSpellSlot).length shieldStart
              shieldState
            = some (s', { shieldState with m_auras := [] ++ { shieldAura.setSlot 0 with effects := [] ++ { shieldEffect with basePoints := toInt32 (consumableOf floatEnv shieldEffect shieldStart.ownerMana - shieldStart.damage) } :: [] } :: [] }))
      ∧ (consumableOf floatEnv shieldEffect shieldStart.ownerMana = shieldStart.damage →
          ∃ c', consumeAbsorb_loop floatEnv 4 (0 + 1) ([] : List AuraSpellSlot).length shieldStart
              shieldState = some (s', c')
            ∧ c'.m_auras = [] ++ []
            ∧ c'.calls = shieldState.calls ++ [HandlerCall.misapplyEffects { shieldAura.setSlot 0 with effects := [] ++ { shieldEffect with basePoints := toInt32 (consumableOf floatEnv shieldEffect shieldStart.ownerMana - shieldStart.damage) } :: [] }]) :=
  C28_mana_shield_capped floatEnv floatEnv_float 4 0 shieldState [] [] (shieldAura.setSlot 0) [] []
    shieldEffect shieldStart rfl rfl (by simp) (Or.inl rfl) (by decide)
    rfl shieldState_CountersOk
    (by show 1 ≤ consumableOf floatEnv shieldEffect 10; rw [shield_consumable]; decide)
    (by show 1 ≤ consumableOf floatEnv shieldEffect 10; rw [shield_consumable]; decide)

/-- C28 fails as stated: the unit has 3 mana and one mana shield of 100 points
whose multiple is the `float` `0.3f`, for the school of the damage, and the
damage is 9.  `min (floor (3 / 0.3f)) 100` is 9, the damage, so that the aura
would be removed; the capacity the code computes is 10 (`(float)3 / 0.3f` is
`10.0f`), `consumeAbsorb 9 school` absorbs 9 and the aura stays with base
points 1. -/
theorem C28_float_capacity_counterexample :
    shieldState03.m_owner.getUInt32Value floatEnv.Power1 = 3
    ∧ shieldState03.m_auras = [shieldAura03.setSlot 0]
    ∧ (shieldAura03.setSlot 0).effects = [shieldEffect03]
    ∧ multipleOf shieldEffect03 = roundF32 (3 / 10)
    ∧ min ⌊((3 : ℕ) : ℚ) / multipleOf shieldEffect03⌋₊ shieldEffect03.basePoints.natAbs = 9
    ∧ consumableOf floatEnv shieldEffect03 3 = 10
    ∧ ∃ s cl c', consumeAbsorb_loop floatEnv 4 shieldState03.m_auras.length 0
          (absorbStart floatEnv shieldState03 9) shieldState03 = some (s, cl)
      ∧ consumeAbsorb floatEnv shieldState03 9 4 = some (9, c')
      ∧ cl.m_auras
          = [{ shieldAura03.setSlot 0 with effects := [{ shieldEffect03 with basePoints := 1 }] }]
      ∧ c'.m_auras = cl.m_auras := by
  have hcons : consumableOf floatEnv shieldEffect03
      (absorbStart floatEnv shieldState03 9).ownerMana = 10 := consumable_03
  have heff := consumeAbsorb_effect_shield floatEnv 4 shieldEffect03
    (absorbStart floatEnv shieldState03 9) (by decide) rfl
    (by rw [hcons]; decide) (by rw [hcons]; decide)
  rw [hcons] at heff
  have hloop := (consumeAbsorb_loop_one floatEnv 4 9 shieldState03
    (shieldAura03.setSlot 0) shieldEffect03 _ _ rfl rfl shieldState03_CountersOk heff).1 rfl rfl
  have hret := consumeAbsorb_of_loop floatEnv shieldState03 9 4 _ _ hloop
  have hk : multipleOf shieldEffect03 = roundF32 (3 / 10) := by
    rw [multipleOf_shieldEffect03, roundF32_three_tenths]
  have hmin : min ⌊((3 : ℕ) : ℚ) / multipleOf shieldEffect03⌋₊ shieldEffect03.basePoints.natAbs
      = 9 := by
    rw [floor_quotient_03]
    decide
  exact ⟨rfl, rfl, rfl, hk, hmin, consumable_03, _, _, _, hloop, hret, rfl, rfl⟩

/-! ## C30: the dispel effect of a spell -/

theorem removeFirst_length (p : AuraSpellSlot → Bool) (l : List AuraSpellSlot) :
    ∀ n, l.length ≤ (removeFirst p n l).length + n := by
  induction l with
  | nil => intro n; simp [removeFirst_nil]
  | cons x l ih =>
    intro n
    cases n with
    | zero => simp [removeFirst_zero]
    | succ k =>
      rw [removeFirst_succ_cons]
      by_cases hp : p x = true
      · rw [if_pos hp]
        have := ih k
        simp only [List.length_cons]
        omega
      · rw [if_neg hp]
        have := ih (k + 1)
        simp only [List.length_cons]
        omega

/-- C30: for a living target that is hit (the spell did not fail on it), with
a dispel type other than 0 and consistent counters, the dispel effect calls
`removeAurasDueToDispel` with `dispelPositive` true exactly when the effect
points are not 0, and with the count 1.  Whatever the points, at most one
instance is removed: the first one in list order that has the dispel type and
is positive when the points are not 0, negative when they are 0; it is
unapplied, and all other instances stay. -/
theorem C30_dispel_one_aura (E : Env) (K : CastEnv) (effect : SpellEffect) (t : SpellTarget)
    (hhit : (spellEffectDispel_points K effect t).2 = false) (halive : t.alive = true)
    (hd : effect.miscvaluea ≠ 0) (hc : CountersOk t.auras) :
    ∃ n c', spellEffectDispel_target E K effect t = some c'
      ∧ removeAurasDueToDispel E t.auras effect.miscvaluea
          (decide ((spellEffectDispel_points K effect t).1 ≠ 0)) 1 = some (n, c')
      ∧ n ≤ 1
      ∧ c'.m_auras = removeFirst (dispelMatch effect.miscvaluea
          (decide ((spellEffectDispel_points K effect t).1 ≠ 0))) 1 t.auras.m_auras
      ∧ t.auras.m_auras.length ≤ c'.m_auras.length + 1
      ∧ c'.calls = t.auras.calls
          ++ ((t.auras.m_auras.filter (dispelMatch effect.miscvaluea
                (decide ((spellEffectDispel_points K effect t).1 ≠ 0)))).take 1).map
              HandlerCall.misapplyEffects
      ∧ (∀ x ∈ (t.auras.m_auras.filter (dispelMatch effect.miscvaluea
                (decide ((spellEffectDispel_points K effect t).1 ≠ 0)))).take 1,
          x.spell.dispel = effect.miscvaluea
          ∧ ((spellEffectDispel_points K effect t).1 ≠ 0 → x.positive = true)
          ∧ ((spellEffectDispel_points K effect t).1 = 0 → x.positive = false)) := by
  obtain ⟨c', h1, h2, h3⟩ := dispelLoop_full E effect.miscvaluea
    (decide ((spellEffectDispel_points K effect t).1 ≠ 0)) 1 t.auras.m_auras
    t.auras.m_auras.length [] 0 t.auras (by simp) hc (Nat.le_refl _) (by omega)
  simp only [List.length_nil, Nat.zero_add, Nat.sub_zero, List.nil_append] at h1 h2 h3
  have hrem : removeAurasDueToDispel E t.auras effect.miscvaluea
      (decide ((spellEffectDispel_points K effect t).1 ≠ 0)) 1
      = some (min 1 (t.auras.m_auras.countP (dispelMatch effect.miscvaluea
          (decide ((spellEffectDispel_points K effect t).1 ≠ 0)))), c') := by
    unfold removeAurasDueToDispel
    rw [if_neg (by omega), h1]
  refine ⟨_, c', ?_, hrem, Nat.min_le_left _ _, h2, ?_, ?_, ?_⟩
  · unfold spellEffectDispel_target
    rw [hhit, halive, hrem]
    rfl
  · rw [h2]
    exact removeFirst_length _ _ 1
  · rw [h3, firstMatching_eq]
  · intro x hx
    have hmem := List.mem_of_mem_take hx
    have hp := (List.mem_filter.mp hmem).2
    have hp' : x.spell.dispel = effect.miscvaluea
        ∧ x.positive = decide ((spellEffectDispel_points K effect t).1 ≠ 0) := by
      simpa [dispelMatch] using hp
    refine ⟨hp'.1, ?_, ?_⟩
    · intro hne
      rw [hp'.2]
      exact decide_eq_true hne
    · intro heq
      rw [hp'.2]
      simp [heq]

theorem C30_dispel_one_aura_witness :
    ∃ n c', spellEffectDispel_target demoEnv demoCastEnv { miscvaluea := 1 } demoTarget = some c'
      ∧ removeAurasDueToDispel demoEnv demoTarget.auras ({ miscvaluea := 1 } : SpellEffect).miscvaluea
          (decide ((spellEffectDispel_points demoCastEnv { miscvaluea := 1 } demoTarget).1 ≠ 0)) 1
          = some (n, c')
      ∧ n ≤ 1
      ∧ c'.m_auras = removeFirst (dispelMatch ({ miscvaluea := 1 } : SpellEffect).miscvaluea
          (decide ((spellEffectDispel_points demoCastEnv { miscvaluea := 1 } demoTarget).1 ≠ 0))) 1
          demoTarget.auras.m_auras
      ∧ demoTarget.auras.m_auras.length ≤ c'.m_auras.length + 1
      ∧ c'.calls = demoTarget.auras.calls
          ++ ((demoTarget.auras.m_auras.filter (dispelMatch ({ miscvaluea := 1 } : SpellEffect).miscvaluea
                (decide ((spellEffectDispel_points demoCastEnv { miscvaluea := 1 } demoTarget).1
                  ≠ 0)))).take 1).map
              HandlerCall.misapplyEffects
      ∧ (∀ x ∈ (demoTarget.auras.m_auras.filter (dispelMatch ({ miscvaluea := 1 } : SpellEffect).miscvaluea
                (decide ((spellEffectDispel_points demoCastEnv { miscvaluea := 1 } demoTarget).1
                  ≠ 0)))).take 1,
          x.spell.dispel = ({ miscvaluea := 1 } : SpellEffect).miscvaluea
          ∧ ((spellEffectDispel_points demoCastEnv { miscvaluea := 1 } demoTarget).1 ≠ 0 →
              x.positive = true)
          ∧ ((spellEffectDispel_points demoCastEnv { miscvaluea := 1 } demoTarget).1 = 0 →
              x.positive = false)) :=
  C30_dispel_one_aura demoEnv demoCastEnv { miscvaluea := 1 } demoTarget
    (by simp [spellEffectDispel_points, demoTarget, demoCastEnv]) rfl (by decide)
    demoState3_CountersOk

/-! ## C25: the stealth flag -/

/-- C25: the unapply handler of `ModStealth` clears the stealth state whatever
`hasAura(ModStealth)` says.  A player character carries two auras with a
`ModStealth` effect and is in stealth (byte 2 of `Bytes1` is 2, bit `0x20` of
`CharacterBytes2` is set); after `removeAura` of the first of them the second
is still there and `hasAura(ModStealth)` is true, and byte 2 of `Bytes1` and
bit `0x20` of `CharacterBytes2` are 0.  `handleWaterWalk` sets no flag change
in the same situation. -/
theorem C25_stealth_cleared_with_aura_left :
    stealthView stealthState = ([stealthAura1.setSlot 0, stealthAura2.setSlot 1], true, 2, 0x20)
    ∧ (removeAuraRef stealthEnv stealthState stealthAura1).map stealthView
        = some ([stealthAura2.setSlot 1], true, 0, 0)
    ∧ (∀ (F : FieldEnv) (isGameCharacter : Bool) (c : AuraContainer),
        F.Bytes1 ≠ F.CharacterBytes2 →
        byteOf ((handleModStealth F isGameCharacter false c).getUInt32Value F.Bytes1) 2 = 0)
    ∧ (∀ (F : FieldEnv) (c : AuraContainer), hasAura c F.WaterWalk = true →
        handleWaterWalk F false c = none) := by
  refine ⟨rfl, rfl, ?_, ?_⟩
  · intro F isGameCharacter c hne
    have hbyte : ∀ v : Nat, byteOf (v - byteOf v 2 * 256 ^ 2 + (0x00 % 256) * 256 ^ 2) 2 = 0 := by
      intro v
      unfold byteOf
      norm_num
      omega
    cases isGameCharacter with
    | false =>
      show byteOf ((setByteValue c.m_owner F.Bytes1 2 0x00).getUInt32Value F.Bytes1) 2 = 0
      simp only [setByteValue, GameUnit.setUInt32Value, if_true]
      exact hbyte _
    | true =>
      show byteOf (((setByteValue c.m_owner F.Bytes1 2 0x00).setUInt32Value F.CharacterBytes2
        _).getUInt32Value F.Bytes1) 2 = 0
      simp only [setByteValue, GameUnit.setUInt32Value, if_true, if_neg hne]
      exact hbyte _
  · intro F c h
    simp [handleWaterWalk, h]

/-! ## C26: apply and unapply of a damage bonus -/

theorem floatToInt32_intCast (z : Int) : floatToInt32 (z : ℚ) = z := by
  unfold floatToInt32
  split
  · exact Int.floor_intCast z
  · exact Int.ceil_intCast z

theorem floatToInt32_unit (n : Nat) (z : Int) :
    floatToInt32 ((n : ℚ) * 1 + (z : ℚ)) = (n : Int) + z := by
  have : (n : ℚ) * 1 + (z : ℚ) = (((n : Int) + z : Int) : ℚ) := by push_cast; ring
  rw [this, floatToInt32_intCast]

/-- The loop body of `handleModDamageDone` for the percentage `1`, in integers. -/
theorem handleModDamageDone_school_unit (F : FieldEnv) (apply : Bool) (basePoints : Int)
    (school : Nat) (u : GameUnit) :
    handleModDamageDone_school F 1 apply basePoints school u
      = (u.setUInt32Value (F.ModDamageDonePos + school)
          (if (((u.getUInt32Value (F.ModDamageDonePos + school) % 4294967296 + 4294967296
                  - u.getUInt32Value (F.ModDamageDoneNeg + school) % 4294967296) % 4294967296 : Nat)
                : Int) + (if apply then basePoints else -basePoints) > 0 then
            int32ToUInt32 ((((u.getUInt32Value (F.ModDamageDonePos + school) % 4294967296 + 4294967296
                  - u.getUInt32Value (F.ModDamageDoneNeg + school) % 4294967296) % 4294967296 : Nat)
                : Int) + (if apply then basePoints else -basePoints))
          else 0)).setUInt32Value (F.ModDamageDoneNeg + school)
          (if (((u.getUInt32Value (F.ModDamageDonePos + school) % 4294967296 + 4294967296
                  - u.getUInt32Value (F.ModDamageDoneNeg + school) % 4294967296) % 4294967296 : Nat)
                : Int) + (if apply then basePoints else -basePoints) < 0 then
            int32ToUInt32 ((((u.getUInt32Value (F.ModDamageDonePos + school) % 4294967296 + 4294967296
                  - u.getUInt32Value (F.ModDamageDoneNeg + school) % 4294967296) % 4294967296 : Nat)
                : Int) + (if apply then basePoints else -basePoints))
          else 0) := by
  unfold handleModDamageDone_school
  simp only [floatToInt32_unit]

theorem handleModDamageDone_demo (apply : Bool) (u : GameUnit) :
    handleModDamageDone demoFields true (fun _ => 1) apply damageDoneEffect u
      = handleModDamageDone_school demoFields 1 apply (-10) 1 u := by
  have h1 : (2 &&& (1 <<< 1) : Nat) ≠ 0 := by decide
  have h2 : ¬ (2 &&& (1 <<< 2) : Nat) ≠ 0 := by decide
  have h3 : ¬ (2 &&& (1 <<< 3) : Nat) ≠ 0 := by decide
  have h4 : ¬ (2 &&& (1 <<< 4) : Nat) ≠ 0 := by decide
  have h5 : ¬ (2 &&& (1 <<< 5) : Nat) ≠ 0 := by decide
  have h6 : ¬ (2 &&& (1 <<< 6) : Nat) ≠ 0 := by decide
  simp only [handleModDamageDone, damageDoneEffect, Bool.not_true, Bool.false_eq_true, if_false,
    List.foldl_cons, List.foldl_nil, if_pos h1, if_neg h2, if_neg h3, if_neg h4, if_neg h5,
    if_neg h6]

/-- C26: apply followed by unapply of a `ModDamageDone` effect does not restore
the fields.  A player character has `0` in `ModDamageDonePos + 1` and in
`ModDamageDoneNeg + 1` and the percentage `1`; the effect has `-10` points for
school 1.  After apply the negative field holds `-10` as a `UInt32`; after
unapply the positive field holds `20`, not `0`. -/
theorem C26_unapply_does_not_restore :
    demoOwner.getUInt32Value (demoFields.ModDamageDonePos + 1) = 0
    ∧ demoOwner.getUInt32Value (demoFields.ModDamageDoneNeg + 1) = 0
    ∧ (handleModDamageDone demoFields true (fun _ => 1) true damageDoneEffect
        demoOwner).getUInt32Value (demoFields.ModDamageDonePos + 1) = 0
    ∧ (handleModDamageDone demoFields true (fun _ => 1) true damageDoneEffect
        demoOwner).getUInt32Value (demoFields.ModDamageDoneNeg + 1) = 4294967286
    ∧ (handleModDamageDone demoFields true (fun _ => 1) false damageDoneEffect
        (handleModDamageDone demoFields true (fun _ => 1) true damageDoneEffect
          demoOwner)).getUInt32Value (demoFields.ModDamageDonePos + 1) = 20
    ∧ (handleModDamageDone demoFields true (fun _ => 1) false damageDoneEffect
        (handleModDamageDone demoFields true (fun _ => 1) true damageDoneEffect
          demoOwner)).getUInt32Value (demoFields.ModDamageDoneNeg + 1) = 0 := by
  simp only [handleModDamageDone_demo, handleModDamageDone_school_unit]
  refine ⟨rfl, rfl, ?_, ?_, ?_, ?_⟩ <;> decide

/-! ## C29: the points of an applied aura -/

theorem modifiedByBonus_false (K : CastEnv) (aura : Nat) : modifiedByBonus K aura = some false := by
  unfold modifiedByBonus switchEntry switchAssignments
  split <;> rfl

theorem spellEffectApplyAura_points_normal (K : CastEnv) (spellId attributes4 : Nat)
    (effect : SpellEffect) (spellPower spellBonusPct : Nat) (t : SpellTarget)
    (dots : List PeriodicEffect) (hmiss : t.hitInfo ≠ K.Miss) (hnormal : t.victimState = K.Normal)
    (hevades : K.Normal ≠ K.Evades) (himmune : K.Normal ≠ K.IsImmune)
    (hresist : t.resist ≠ 100) :
    spellEffectApplyAura_points K spellId attributes4 effect spellPower spellBonusPct t dots
      = if effect.aura = K.PeriodicDamage ∧ attributes4 &&& K.StackDotModifier ≠ 0 then
          (stackDotPoints K spellId dots (K.calculateEffectBasePoints effect)).map
            (fun p => (p, SpellMissInfo.None))
        else some (K.calculateEffectBasePoints effect, SpellMissInfo.None) := by
  unfold spellEffectApplyAura_points
  rw [if_neg hmiss, hnormal, if_neg hevades, if_neg himmune, if_pos rfl, if_neg hresist,
    modifiedByBonus_false]
  simp only [Bool.false_eq_true, if_false]

/-- The quotients that the callback of line 350 adds, one for each effect of
the spell being cast. -/
theorem stackDotPoints_some (K : CastEnv) (spellId : Nat) :
    ∀ (dots : List PeriodicEffect) (p : Nat),
      (∀ a ∈ dots, a.spellId = spellId → a.maxTickCount ≠ 0) →
      stackDotPoints K spellId dots p
        = some (if ∀ a ∈ dots, a.spellId ≠ spellId then p
                else (p + ((dots.filter (fun a => decide (a.spellId = spellId))).map
                  (fun a => K.tickQuotient (a.basePoints * (a.maxTickCount - a.tickCount))
                    a.maxTickCount)).sum) % 4294967296) := by
  intro dots
  induction dots with
  | nil => intro p _; simp [stackDotPoints]
  | cons a l ih =>
    intro p h
    have hl : ∀ b ∈ l, b.spellId = spellId → b.maxTickCount ≠ 0 :=
      fun b hb => h b (List.mem_cons_of_mem _ hb)
    by_cases ha : a.spellId = spellId
    · have h0 := h a (List.mem_cons_self _ _) ha
      have hv : stackDotVisitor K spellId p a = some ((p
          + K.tickQuotient (a.basePoints * (a.maxTickCount - a.tickCount)) a.maxTickCount)
          % 4294967296) := by
        unfold stackDotVisitor
        rw [if_pos ha, if_neg h0]
      have hne : ¬ ∀ b ∈ a :: l, b.spellId ≠ spellId := fun hall => hall a (List.mem_cons_self _ _) ha
      unfold stackDotPoints
      rw [hv]
      simp only [ih _ hl, if_neg hne, List.filter_cons, ha, decide_True, if_true, List.map_cons,
        List.sum_cons]
      congr 1
      split
      · rename_i hnone
        have hf : l.filter (fun a => decide (a.spellId = spellId)) = [] := by
          rw [List.filter_eq_nil_iff]
          intro b hb
          simpa using hnone b hb
        rw [hf]
        simp
      · rw [Nat.add_mod, Nat.mod_mod, ← Nat.add_mod, Nat.add_assoc]
    · have hv : stackDotVisitor K spellId p a = some p := by
        unfold stackDotVisitor
        rw [if_neg ha]
      unfold stackDotPoints
      rw [hv]
      simp only [ih _ hl, List.filter_cons, ha, decide_False, Bool.false_eq_true, if_false]
      congr 1
      have hiff : (∀ b ∈ a :: l, b.spellId ≠ spellId) ↔ (∀ b ∈ l, b.spellId ≠ spellId) := by
        constructor
        · intro hall b hb
          exact hall b (List.mem_cons_of_mem _ hb)
        · intro hall b hb
          rcases List.mem_cons.mp hb with rfl | hb
          · exact ha
          · exact hall b hb
      by_cases hall : ∀ b ∈ l, b.spellId ≠ spellId
      · rw [if_pos hall, if_pos (hiff.mpr hall)]
      · rw [if_neg hall, if_neg (fun h1 => hall (hiff.mp h1))]

/-- The callback of line 350 has no result when an effect of the spell being
cast has the maximum tick count `0`. -/
theorem stackDotPoints_none (K : CastEnv) (spellId : Nat) :
    ∀ (dots : List PeriodicEffect) (p : Nat),
      (∃ a ∈ dots, a.spellId = spellId ∧ a.maxTickCount = 0) →
      stackDotPoints K spellId dots p = none := by
  intro dots
  induction dots with
  | nil => intro p h; obtain ⟨a, ha, _⟩ := h; cases ha
  | cons a l ih =>
    intro p h
    unfold stackDotPoints
    cases hv : stackDotVisitor K spellId p a with
    | none => rfl
    | some q =>
      simp only
      apply ih
      obtain ⟨b, hb, hb1, hb2⟩ := h
      rcases List.mem_cons.mp hb with rfl | hb
      · unfold stackDotVisitor at hv
        rw [if_pos hb1, if_pos hb2] at hv
        cases hv
      · exact ⟨b, hb, hb1, hb2⟩

/-- C29: after the `switch` of `spellEffectApplyAura` the flag `modifiedByBonus`
is false for every aura type, the three periodic ones included.  So for a
target that is hit normally with a resist other than 100, the points of the
aura do not depend on the spell power, the bonus percentage or the resist:
they are `calculateEffectBasePoints(effect)`, unless the effect is a
`PeriodicDamage` effect of a spell with the attribute `StackDotModifier`.  In
that case the callback adds, for each `PeriodicDamage` effect of the same spell
on the target, the quotient of its remaining damage by its maximum tick count,
the sum wrapping as a `UInt32`; when one of these effects has the maximum tick
count `0` the division is one by zero and the call has no result. -/
theorem C29_points_without_bonus (K : CastEnv) (spellId attributes4 : Nat) (effect : SpellEffect)
    (spellPower spellBonusPct : Nat) (t : SpellTarget) (dots : List PeriodicEffect)
    (hmiss : t.hitInfo ≠ K.Miss) (hnormal : t.victimState = K.Normal)
    (hevades : K.Normal ≠ K.Evades) (himmune : K.Normal ≠ K.IsImmune)
    (hresist : t.resist ≠ 100) :
    (∀ aura, modifiedByBonus K aura = some false)
    ∧ (¬ (effect.aura = K.PeriodicDamage ∧ attributes4 &&& K.StackDotModifier ≠ 0) →
        spellEffectApplyAura_points K spellId attributes4 effect spellPower spellBonusPct t dots
          = some (K.calculateEffectBasePoints effect, SpellMissInfo.None))
    ∧ ((effect.aura = K.PeriodicDamage ∧ attributes4 &&& K.StackDotModifier ≠ 0) →
        (∀ a ∈ dots, a.spellId = spellId → a.maxTickCount ≠ 0) →
        spellEffectApplyAura_points K spellId attributes4 effect spellPower spellBonusPct t dots
          = some (if ∀ a ∈ dots, a.spellId ≠ spellId then K.calculateEffectBasePoints effect
                  else (K.calculateEffectBasePoints effect
                    + ((dots.filter (fun a => decide (a.spellId = spellId))).map
                        (fun a => K.tickQuotient (a.basePoints * (a.maxTickCount - a.tickCount))
                          a.maxTickCount)).sum) % 4294967296,
                  SpellMissInfo.None))
    ∧ ((effect.aura = K.PeriodicDamage ∧ attributes4 &&& K.StackDotModifier ≠ 0) →
        (∃ a ∈ dots, a.spellId = spellId ∧ a.maxTickCount = 0) →
        spellEffectApplyAura_points K spellId attributes4 effect spellPower spellBonusPct t dots
          = none) := by
  have hmain := spellEffectApplyAura_points_normal K spellId attributes4 effect spellPower
    spellBonusPct t dots hmiss hnormal hevades himmune hresist
  refine ⟨modifiedByBonus_false K, ?_, ?_, ?_⟩
  · intro h
    rw [hmain, if_neg h]
  · intro h hz
    rw [hmain, if_pos h, stackDotPoints_some K spellId dots _ hz]
    rfl
  · intro h hz
    rw [hmain, if_pos h, stackDotPoints_none K spellId dots _ hz]
    rfl

theorem C29_points_without_bonus_witness :
    (∀ aura, modifiedByBonus demoCastEnv aura = some false)
    ∧ (¬ (dotEffect.aura = demoCastEnv.PeriodicDamage ∧ 0x200 &&& demoCastEnv.StackDotModifier ≠ 0) →
        spellEffectApplyAura_points demoCastEnv 1 0x200 dotEffect 500 10 demoTarget [runningDot]
          = some (demoCastEnv.calculateEffectBasePoints dotEffect, SpellMissInfo.None))
    ∧ ((dotEffect.aura = demoCastEnv.PeriodicDamage ∧ 0x200 &&& demoCastEnv.StackDotModifier ≠ 0) →
        (∀ a ∈ [runningDot], a.spellId = 1 → a.maxTickCount ≠ 0) →
        spellEffectApplyAura_points demoCastEnv 1 0x200 dotEffect 500 10 demoTarget [runningDot]
          = some (if ∀ a ∈ [runningDot], a.spellId ≠ 1 then
                    demoCastEnv.calculateEffectBasePoints dotEffect
                  else (demoCastEnv.calculateEffectBasePoints dotEffect
                    + (([runningDot].filter (fun a => decide (a.spellId = 1))).map
                        (fun a => demoCastEnv.tickQuotient
                          (a.basePoints * (a.maxTickCount - a.tickCount)) a.maxTickCount)).sum)
                    % 4294967296,
                  SpellMissInfo.None))
    ∧ ((dotEffect.aura = demoCastEnv.PeriodicDamage ∧ 0x200 &&& demoCastEnv.StackDotModifier ≠ 0) →
        (∃ a ∈ [runningDot], a.spellId = 1 ∧ a.maxTickCount = 0) →
        spellEffectApplyAura_points demoCastEnv 1 0x200 dotEffect 500 10 demoTarget [runningDot]
          = none) :=
  C29_points_without_bonus demoCastEnv 1 0x200 dotEffect 500 10 demoTarget [runningDot]
    (by decide) rfl (by decide) (by decide) (by simp [demoTarget])

/-- C29 fails as stated for a `PeriodicDamage` effect of a spell with the
attribute `StackDotModifier`: the target is hit normally with resist 0 and
carries a `PeriodicDamage` effect of the same spell (10 points, 4 ticks left of
4, so that the quotient is 10 for the signed and for the unsigned division);
`calculateEffectBasePoints` gives 30 and the points of the aura are 40.  With
the maximum tick count 0 in place of 4 the call has no result. -/
theorem C29_stack_dot_counterexample :
    demoTarget.hitInfo ≠ demoCastEnv.Miss ∧ demoTarget.victimState = demoCastEnv.Normal
    ∧ demoTarget.resist ≠ 100
    ∧ demoCastEnv.calculateEffectBasePoints dotEffect = 30
    ∧ spellEffectApplyAura_points demoCastEnv 1 0x200 dotEffect 500 10 demoTarget [runningDot]
        = some (40, SpellMissInfo.None)
    ∧ spellEffectApplyAura_points demoCastEnv 1 0x200 dotEffect 500 10 demoTarget
        [{ runningDot with maxTickCount := 0 }] = none := by
  have hr : demoTarget.resist ≠ 100 := by
    show (0 : ℚ) ≠ 100
    norm_num
  refine ⟨by decide, rfl, hr, rfl, ?_, ?_⟩
  · rw [spellEffectApplyAura_points_normal demoCastEnv 1 0x200 dotEffect 500 10 demoTarget
      [runningDot] (by decide) rfl (by decide) (by decide) hr]
    decide
  · rw [spellEffectApplyAura_points_normal demoCastEnv 1 0x200 dotEffect 500 10 demoTarget
      _ (by decide) rfl (by decide) (by decide) hr]
    decide

/-! ## C24: apply and unapply are paired -/

theorem pairing_append (p : Nat) (l1 l2 : List HandlerCall) :
    ∀ n, pairing p (l1 ++ l2) n = (pairing p l1 n).bind (pairing p l2) := by
  induction l1 with
  | nil => intro n; rfl
  | cons call l1 ih =>
    intro n
    cases call with
    | applyEffects x r =>
      simp only [List.cons_append, pairing]
      exact ih _
    | misapplyEffects x =>
      simp only [List.cons_append, pairing]
      by_cases hx : x.ptr = p
      · rw [if_pos hx, if_pos hx]
        by_cases hn : n = 0
        · rw [if_pos hn, if_pos hn]; rfl
        · rw [if_neg hn, if_neg hn]; exact ih _
      · rw [if_neg hx, if_neg hx]; exact ih _

theorem ptrCount_nil (p : Nat) : ptrCount p [] = 0 := rfl

theorem ptrCount_cons (p : Nat) (x : AuraSpellSlot) (l : List AuraSpellSlot) :
    ptrCount p (x :: l) = ptrCount p l + (if x.ptr = p then 1 else 0) := by
  simp [ptrCount, List.countP_cons]

theorem ptrCount_append (p : Nat) (l1 l2 : List AuraSpellSlot) :
    ptrCount p (l1 ++ l2) = ptrCount p l1 + ptrCount p l2 := by
  simp [ptrCount, List.countP_append]

theorem ptrCount_filter (p : Nat) (q : AuraSpellSlot → Bool) (l : List AuraSpellSlot) :
    ptrCount p l = ptrCount p (l.filter q) + ptrCount p (l.filter (fun x => !q x)) := by
  induction l with
  | nil => rfl
  | cons x l ih =>
    by_cases hq : q x = true
    · simp only [List.filter_cons, hq, if_true, Bool.not_true, Bool.false_eq_true, if_false,
        ptrCount_cons, ih]
      omega
    · have hq' : q x = false := by simpa using hq
      simp only [List.filter_cons, hq', Bool.false_eq_true, if_false, Bool.not_false, if_true,
        ptrCount_cons, ih]
      omega

theorem ptrCount_removeFirst (p : Nat) (q : AuraSpellSlot → Bool) (l : List AuraSpellSlot) :
    ∀ n, ptrCount p l = ptrCount p (firstMatching q n l) + ptrCount p (removeFirst q n l) := by
  induction l with
  | nil => intro n; simp [firstMatching_nil, removeFirst_nil, ptrCount_nil]
  | cons x l ih =>
    intro n
    cases n with
    | zero => simp [firstMatching_zero, removeFirst_zero, ptrCount_nil]
    | succ k =>
      rw [firstMatching_succ_cons, removeFirst_succ_cons]
      by_cases hq : q x = true
      · rw [if_pos hq, if_pos hq, ptrCount_cons, ptrCount_cons, ih k]
        omega
      · rw [if_neg hq, if_neg hq, ptrCount_cons, ptrCount_cons, ih (k + 1)]
        omega

/-- Unapplying a list of instances closes one application for each entry. -/
theorem pairing_misapply (p : Nat) (removed : List AuraSpellSlot) :
    ∀ m, pairing p (removed.map HandlerCall.misapplyEffects) (m + ptrCount p removed) = some m := by
  induction removed with
  | nil => intro m; rfl
  | cons x removed ih =>
    intro m
    simp only [List.map_cons, pairing, ptrCount_cons]
    by_cases hx : x.ptr = p
    · rw [if_pos hx, if_pos hx, if_neg (by omega)]
      have : m + (ptrCount p removed + 1) - 1 = m + ptrCount p removed := by omega
      rw [this]
      exact ih m
    · rw [if_neg hx, if_neg hx]
      exact ih m

/-- The step of the removal operations: the instances `removed` leave the list
and are unapplied. -/
theorem Paired_remove (c c' : AuraContainer) (removed : List AuraSpellSlot) (hc : Paired c)
    (hcount : ∀ p, ptrCount p c.m_auras = ptrCount p removed + ptrCount p c'.m_auras)
    (hcalls : c'.calls = c.calls ++ removed.map HandlerCall.misapplyEffects) : Paired c' := by
  intro p
  rw [hcalls, pairing_append, hc p, hcount p, Nat.add_comm]
  exact pairing_misapply p removed _

/-- The step of `addAura` that appends: the instances `removed` leave the list
and are unapplied, then the new instance is appended and applied. -/
theorem Paired_add (c c' : AuraContainer) (removed kept : List AuraSpellSlot) (a : AuraSpellSlot)
    (restoration : Bool) (hc : Paired c)
    (hcount : ∀ p, ptrCount p c.m_auras = ptrCount p removed + ptrCount p kept)
    (hl : c'.m_auras = kept ++ [a])
    (hcalls : c'.calls = c.calls ++ removed.map HandlerCall.misapplyEffects
      ++ [HandlerCall.applyEffects a restoration]) : Paired c' := by
  intro p
  rw [hcalls, pairing_append, pairing_append, hc p, hcount p, Nat.add_comm, hl, ptrCount_append,
    ptrCount_cons, ptrCount_nil]
  simp only [Option.bind_eq_bind, Option.some_bind, pairing_misapply, pairing, Nat.zero_add]
  split <;> rfl

theorem removeAura_Paired (E : Env) (c c' : AuraContainer) (it : Nat)
    (h : removeAura E c it = some c') (hc : CountersOk c) (hp : Paired c) : Paired c' := by
  obtain ⟨x, hx⟩ := removeAura_some E c c' it h
  obtain ⟨hl, hlen⟩ := split_of_getElem? c.m_auras it x hx
  obtain ⟨c2, _, h2, h3, _, _, h6⟩ := removeAura_split E c _ _ x hl hc
  rw [hlen, h] at h2
  have hc' : c' = misapply E x c2 := Option.some.inj h2
  refine Paired_remove c c' [x] hp ?_ ?_
  · intro p
    rw [hc', misapply_m_auras, h3]
    conv_lhs => rw [hl]
    simp only [ptrCount_append, ptrCount_cons, ptrCount_nil]
    omega
  · rw [hc', misapply_calls, h6]
    rfl

theorem removeAuraRef_Paired (E : Env) (c c' : AuraContainer) (aura : AuraSpellSlot)
    (h : removeAuraRef E c aura = some c') (hc : CountersOk c) (hp : Paired c) : Paired c' := by
  unfold removeAuraRef at h
  split at h
  · exact removeAura_Paired E c c' _ h hc hp
  · cases h; exact hp

theorem removeLoop_Paired (E : Env) (q : AuraSpellSlot → Bool) (c c' : AuraContainer)
    (h : removeLoop E q c.m_auras.length 0 c = some c') (hc : CountersOk c) (hp : Paired c) :
    Paired c' := by
  obtain ⟨c2, h1, h2, _, h4⟩ := removeLoop_begin E q c hc
  rw [h1] at h
  have hcc : c2 = c' := Option.some.inj h
  rw [← hcc]
  refine Paired_remove c c2 (c.m_auras.filter q) hp ?_ h4
  intro p
  rw [h2]
  exact ptrCount_filter p q c.m_auras

theorem removeAurasDueToDispel_Paired (E : Env) (c : AuraContainer) (dispelType : Nat)
    (dispelPositive : Bool) (count : Nat) (r : Nat × AuraContainer)
    (h : removeAurasDueToDispel E c dispelType dispelPositive count = some r)
    (hc : CountersOk c) (hp : Paired c) : Paired r.2 := by
  unfold removeAurasDueToDispel at h
  split at h
  · simp at h
  · rename_i hcond
    obtain ⟨c2, h1, h2, h3⟩ := dispelLoop_full E dispelType dispelPositive count c.m_auras
      c.m_auras.length [] 0 c (by simp) hc (Nat.le_refl _) (by omega)
    simp only [List.length_nil, Nat.sub_zero, List.nil_append] at h1 h2 h3
    rw [h1] at h
    have hcc : r = (_, c2) := (Option.some.inj h).symm
    rw [hcc]
    refine Paired_remove c c2 _ hp ?_ h3
    intro p
    rw [h2]
    exact ptrCount_removeFirst p _ c.m_auras count

theorem ptrCount_cleanup (E : Env) (aura : AuraSpellSlot) (p : Nat) (l : List AuraSpellSlot) :
    ptrCount p l = ptrCount p (cleanedUp E aura l) + ptrCount p (afterCleanup E aura l) := by
  unfold cleanedUp afterCleanup
  split
  · exact ptrCount_filter p _ l
  · simp [ptrCount_nil]

theorem addAura_Paired (E : Env) (c c' : AuraContainer) (aura : AuraSpellSlot)
    (restoration b : Bool) (h : addAura E c aura restoration = some (b, c'))
    (hc : CountersOk c) (hp : Paired c) : Paired c' := by
  rcases addAura_outcome E c c' aura restoration b hc h with
    ⟨pre, x, suf, _, hl, _, _, _, _, hl', hcalls⟩
    | ⟨pre, x, suf, _, hl, _, _, _, _, hl', hcalls⟩
    | ⟨_, ⟨_, hcc⟩ | ⟨_, s, hl', hcalls⟩⟩
  · refine Paired_remove c c' [] hp ?_ (by rw [hcalls]; simp)
    intro p
    rw [hl, hl']
    simp only [ptrCount_append, ptrCount_cons, ptrCount_nil]
    have : (x.addStack aura).ptr = x.ptr := rfl
    rw [this]
    omega
  · refine Paired_add c c' (x :: cleanedUp E aura (pre ++ suf)) (afterCleanup E aura (pre ++ suf))
      (aura.setSlot x.slot) restoration hp ?_ hl' ?_
    · intro p
      have := ptrCount_cleanup E aura p (pre ++ suf)
      rw [hl]
      simp only [ptrCount_append, ptrCount_cons] at this ⊢
      omega
    · rw [hcalls]
      simp
  · rw [hcc]; exact hp
  · exact Paired_add c c' (cleanedUp E aura c.m_auras) (afterCleanup E aura c.m_auras)
      (aura.setSlot s) restoration hp (fun p => ptrCount_cleanup E aura p c.m_auras) hl' hcalls

/-- The loop of `consumeAbsorb` removes instances from the list and unapplies
them, and leaves the identity of the instances it keeps. -/
theorem consumeAbsorb_loop_trace (E : Env) (school : Nat) (suf0 : List AuraSpellSlot) :
    ∀ (fuel : Nat) (pre0 : List AuraSpellSlot) (s : AbsorbState) (c : AuraContainer)
      (r : AbsorbState × AuraContainer),
      c.m_auras = pre0 ++ suf0 → CountersOk c → suf0.length ≤ fuel →
      consumeAbsorb_loop E school fuel pre0.length s c = some r →
      ∃ removed, r.2.calls = c.calls ++ removed.map HandlerCall.misapplyEffects
        ∧ ∀ p, ptrCount p c.m_auras = ptrCount p removed + ptrCount p r.2.m_auras := by
  induction suf0 with
  | nil =>
    intro fuel pre0 s c r hl _ _ h
    have hr : r = (s, c) := by
      cases fuel with
      | zero =>
        unfold consumeAbsorb_loop at h
        rw [if_neg (by rw [hl]; simp)] at h
        exact (Option.some.inj h).symm
      | succ k =>
        have hn : c.m_auras[pre0.length]? = none := by rw [hl]; simp
        unfold consumeAbsorb_loop at h
        rw [hn] at h
        exact (Option.some.inj h).symm
    refine ⟨[], by rw [hr]; simp, ?_⟩
    intro p
    rw [hr, ptrCount_nil, Nat.zero_add]
  | cons x suf0 ih =>
    intro fuel pre0 s c r hl hc hf h
    cases fuel with
    | zero => simp at hf
    | succ k =>
      have hk : suf0.length ≤ k := by simpa using hf
      obtain ⟨x', c1, c2, hx', hc1, hc1ok, h3, h4, _, h6, hstep⟩ :=
        consumeAbsorb_loop_step E school k pre0 suf0 x s c hl hc
      obtain ⟨s1, hs1⟩ : ∃ s1, s1
          = (consumeAbsorb_effects E school x.effects { s with shouldRemove := false }).2 := ⟨_, rfl⟩
      rw [← hs1] at hstep
      rw [hstep] at h
      have hptr : x'.ptr = x.ptr := by rw [hx']
      have hc1l : c1.m_auras = pre0 ++ x' :: suf0 := by rw [hc1]
      have hc1c : c1.calls = c.calls := by rw [hc1]
      have hkeep : ∀ p, ptrCount p c.m_auras = ptrCount p c1.m_auras := by
        intro p
        rw [hl, hc1l]
        simp only [ptrCount_append, ptrCount_cons, hptr]
      have hdrop : ∀ p, ptrCount p c.m_auras
          = ptrCount p [x'] + ptrCount p (misapply E x' c2).m_auras := by
        intro p
        rw [hl, misapply_m_auras, h3]
        simp only [ptrCount_append, ptrCount_cons, ptrCount_nil, hptr]
        omega
      by_cases hrem : s1.shouldRemove = true
      · rw [if_pos hrem] at h
        by_cases hd0 : s1.damage = 0
        · rw [if_pos hd0] at h
          have hr : r = (s1, misapply E x' c2) := (Option.some.inj h).symm
          refine ⟨[x'], by rw [hr, misapply_calls, h6]; rfl, ?_⟩
          intro p
          rw [hr]
          exact hdrop p
        · rw [if_neg hd0] at h
          obtain ⟨removed, k1, k2⟩ := ih k pre0 s1 (misapply E x' c2) r
            (by rw [misapply_m_auras, h3]) (misapply_CountersOk E x' c2 h4) hk h
          refine ⟨x' :: removed, ?_, ?_⟩
          · rw [k1, misapply_calls, h6]
            simp
          · intro p
            have h1 := hdrop p
            have h2 := k2 p
            simp only [ptrCount_cons, ptrCount_nil] at h1 ⊢
            omega
      · rw [if_neg hrem] at h
        by_cases hd0 : s1.damage = 0
        · rw [if_pos hd0] at h
          have hr : r = (s1, c1) := (Option.some.inj h).symm
          refine ⟨[], by rw [hr, hc1c]; simp, ?_⟩
          intro p
          rw [hr, ptrCount_nil, Nat.zero_add]
          exact hkeep p
        · rw [if_neg hd0] at h
          have hl1 : c1.m_auras = (pre0 ++ [x']) ++ suf0 := by rw [hc1l]; simp
          have h' : consumeAbsorb_loop E school k (pre0 ++ [x']).length s1 c1 = some r := by
            simpa using h
          obtain ⟨removed, k1, k2⟩ := ih k (pre0 ++ [x']) s1 c1 r hl1 hc1ok hk h'
          refine ⟨removed, by rw [k1, hc1c], ?_⟩
          intro p
          rw [hkeep p]
          exact k2 p

theorem consumeAbsorb_Paired (E : Env) (c : AuraContainer) (damage school : Nat)
    (r : Nat × AuraContainer) (h : consumeAbsorb E c damage school = some r)
    (hc : CountersOk c) (hp : Paired c) : Paired r.2 := by
  unfold consumeAbsorb at h
  cases hloop : consumeAbsorb_loop E school c.m_auras.length 0
      { damage := damage, ownerMana := c.m_owner.getUInt32Value E.Power1 } c with
  | none => rw [hloop] at h; simp at h
  | some rl =>
    rw [hloop] at h
    obtain ⟨s, cl⟩ := rl
    obtain ⟨removed, k1, k2⟩ := consumeAbsorb_loop_trace E school c.m_auras c.m_auras.length []
      _ c (s, cl) (by simp) hc (Nat.le_refl _) hloop
    have hcl : Paired cl := Paired_remove c cl removed hp k2 k1
    simp only at h
    split at h
    · rw [← Option.some.inj h]
      exact hcl
    · rw [← Option.some.inj h]
      exact hcl

theorem Reachable_Paired (E : Env) (c : AuraContainer) (h : Reachable E c) : Paired c := by
  induction h with
  | empty owner => intro p; rfl
  | addAura aura restoration b hprev hstep ih =>
    exact addAura_Paired E _ _ aura restoration b hstep (Reachable_CountersOk E _ hprev) ih
  | removeAura it hprev hstep ih =>
    exact removeAura_Paired E _ _ it hstep (Reachable_CountersOk E _ hprev) ih
  | removeAuraRef aura hprev hstep ih =>
    exact removeAuraRef_Paired E _ _ aura hstep (Reachable_CountersOk E _ hprev) ih
  | removeAllAurasDueToSpell spellId hprev hstep ih =>
    unfold removeAllAurasDueToSpell at hstep
    split at hstep
    · simp at hstep
    · exact removeLoop_Paired E _ _ _ hstep (Reachable_CountersOk E _ hprev) ih
  | removeAllAurasDueToItem itemGuid hprev hstep ih =>
    unfold removeAllAurasDueToItem at hstep
    split at hstep
    · simp at hstep
    · exact removeLoop_Paired E _ _ _ hstep (Reachable_CountersOk E _ hprev) ih
  | removeAllAurasDueToMechanic immunityMask hprev hstep ih =>
    unfold removeAllAurasDueToMechanic at hstep
    split at hstep
    · simp at hstep
    · exact removeLoop_Paired E _ _ _ hstep (Reachable_CountersOk E _ hprev) ih
  | removeAllAurasDueToInterrupt flags hprev hstep ih =>
    exact removeLoop_Paired E _ _ _ hstep (Reachable_CountersOk E _ hprev) ih
  | removeAurasDueToDispel dispelType dispelPositive count n hprev hstep ih =>
    exact removeAurasDueToDispel_Paired E _ dispelType dispelPositive count _ hstep
      (Reachable_CountersOk E _ hprev) ih
  | removeAurasByType auraType hprev hstep ih =>
    unfold removeAurasByType at hstep
    split at hstep
    · simp at hstep
    · exact removeLoop_Paired E _ _ _ hstep (Reachable_CountersOk E _ hprev) ih
  | handleTargetDeath hprev hstep ih =>
    exact removeLoop_Paired E _ _ _ hstep (Reachable_CountersOk E _ hprev) ih
  | removeAllAuras hprev hstep ih =>
    exact removeLoop_Paired E _ _ _ hstep (Reachable_CountersOk E _ hprev) ih
  | consumeAbsorb damage school n hprev hstep ih =>
    exact consumeAbsorb_Paired E _ damage school _ hstep (Reachable_CountersOk E _ hprev) ih

theorem applyCount_append (p : Nat) (l1 l2 : List HandlerCall) :
    applyCount p (l1 ++ l2) = applyCount p l1 + applyCount p l2 := by
  induction l1 with
  | nil => simp [applyCount]
  | cons call l1 ih =>
    cases call with
    | applyEffects x r =>
      show applyCount p (HandlerCall.applyEffects x r :: (l1 ++ l2)) = _
      simp only [applyCount, ih]
      omega
    | misapplyEffects x =>
      show applyCount p (HandlerCall.misapplyEffects x :: (l1 ++ l2)) = _
      simp only [applyCount, ih]

theorem misapplyCount_append (p : Nat) (l1 l2 : List HandlerCall) :
    misapplyCount p (l1 ++ l2) = misapplyCount p l1 + misapplyCount p l2 := by
  induction l1 with
  | nil => simp [misapplyCount]
  | cons call l1 ih =>
    cases call with
    | applyEffects x r =>
      show misapplyCount p (HandlerCall.applyEffects x r :: (l1 ++ l2)) = _
      simp only [misapplyCount, ih]
    | misapplyEffects x =>
      show misapplyCount p (HandlerCall.misapplyEffects x :: (l1 ++ l2)) = _
      simp only [misapplyCount, ih]
      omega

/-- What a well paired log says in numbers: the applications of `p` are its
unapplications plus the open ones, and in no prefix of the log are there more
unapplications of `p` than applications. -/
theorem pairing_counts (p : Nat) (calls : List HandlerCall) :
    ∀ k n, pairing p calls k = some n →
      applyCount p calls + k = misapplyCount p calls + n
      ∧ ∀ pre suf, calls = pre ++ suf → misapplyCount p pre ≤ applyCount p pre + k := by
  induction calls with
  | nil =>
    intro k n h
    have hn : k = n := Option.some.inj h
    refine ⟨by simp [applyCount, misapplyCount, hn], ?_⟩
    intro pre suf hsplit
    have : pre = [] := (List.append_eq_nil.mp hsplit.symm).1
    rw [this]
    simp [misapplyCount]
  | cons call rest ih =>
    intro k n h
    cases call with
    | applyEffects x r =>
      simp only [pairing] at h
      by_cases hx : x.ptr = p
      · rw [if_pos hx] at h
        obtain ⟨h1, h2⟩ := ih _ n h
        refine ⟨?_, ?_⟩
        · simp only [applyCount, misapplyCount, if_pos hx]
          omega
        · intro pre suf hsplit
          cases pre with
          | nil => simp [misapplyCount]
          | cons call' pre' =>
            simp only [List.cons_append, List.cons.injEq] at hsplit
            have h3 := h2 pre' suf hsplit.2
            rw [← hsplit.1]
            simp only [applyCount, misapplyCount, if_pos hx]
            omega
      · rw [if_neg hx] at h
        obtain ⟨h1, h2⟩ := ih _ n h
        refine ⟨?_, ?_⟩
        · simp only [applyCount, misapplyCount, if_neg hx]
          omega
        · intro pre suf hsplit
          cases pre with
          | nil => simp [misapplyCount]
          | cons call' pre' =>
            simp only [List.cons_append, List.cons.injEq] at hsplit
            have h3 := h2 pre' suf hsplit.2
            rw [← hsplit.1]
            simp only [applyCount, misapplyCount, if_neg hx]
            omega
    | misapplyEffects x =>
      simp only [pairing] at h
      by_cases hx : x.ptr = p
      · rw [if_pos hx] at h
        by_cases hk : k = 0
        · rw [if_pos hk] at h
          simp at h
        · rw [if_neg hk] at h
          obtain ⟨h1, h2⟩ := ih _ n h
          refine ⟨?_, ?_⟩
          · simp only [applyCount, misapplyCount, if_pos hx]
            omega
          · intro pre suf hsplit
            cases pre with
            | nil => simp [misapplyCount]
            | cons call' pre' =>
              simp only [List.cons_append, List.cons.injEq] at hsplit
              have h3 := h2 pre' suf hsplit.2
              rw [← hsplit.1]
              simp only [applyCount, misapplyCount, if_pos hx]
              omega
      · rw [if_neg hx] at h
        obtain ⟨h1, h2⟩ := ih _ n h
        refine ⟨?_, ?_⟩
        · simp only [applyCount, misapplyCount, if_neg hx]
          omega
        · intro pre suf hsplit
          cases pre with
          | nil => simp [misapplyCount]
          | cons call' pre' =>
            simp only [List.cons_append, List.cons.injEq] at hsplit
            have h3 := h2 pre' suf hsplit.2
            rw [← hsplit.1]
            simp only [applyCount, misapplyCount, if_neg hx]
            omega

/-- C24: in every state the container reaches from the empty container by its
operations, the handler log is paired per instance.  Every `misapplyEffects`
call on an instance comes after more `applyEffects` calls than
`misapplyEffects` calls on that instance, so it closes an application of its
own; for every instance the number of applications is the number of
unapplications plus the number of its entries in the list, so an instance
that has left the list was unapplied exactly once per application;
`removeAura` erases one entry and unapplies that instance once; a call of
`addAura` that returns false leaves the container and the log as they are; and
a call of `addAura` that merges the aura into an existing instance as a stack
returns true and runs no handler. -/
theorem C24_apply_unapply_paired (E : Env) (c : AuraContainer) (h : Reachable E c) :
    (∀ pre x suf, c.calls = pre ++ HandlerCall.misapplyEffects x :: suf →
        misapplyCount x.ptr pre < applyCount x.ptr pre)
    ∧ (∀ p, applyCount p c.calls = misapplyCount p c.calls + ptrCount p c.m_auras)
    ∧ (∀ it c', removeAura E c it = some c' →
        ∃ x, c.m_auras[it]? = some x ∧ c'.m_auras = c.m_auras.eraseIdx it
          ∧ c'.calls = c.calls ++ [HandlerCall.misapplyEffects x])
    ∧ (∀ aura restoration c', addAura E c aura restoration = some (false, c') → c' = c)
    ∧ (∀ aura restoration b c' it, isVisible E aura →
        addAura_scan E aura c.m_auras 0 = Resolution.stack it →
        addAura E c aura restoration = some (b, c') →
        b = true ∧ c'.calls = c.calls ∧ c'.m_auras.length = c.m_auras.length) := by
  have hc := Reachable_CountersOk E c h
  have hp := Reachable_Paired E c h
  refine ⟨?_, ?_, ?_, ?_, ?_⟩
  · intro pre x suf hsplit
    obtain ⟨_, h2⟩ := pairing_counts x.ptr c.calls 0 _ (hp x.ptr)
    have h3 := h2 (pre ++ [HandlerCall.misapplyEffects x]) suf (by rw [hsplit]; simp)
    rw [misapplyCount_append, applyCount_append] at h3
    simp only [misapplyCount, applyCount, if_true] at h3
    omega
  · intro p
    obtain ⟨h1, _⟩ := pairing_counts p c.calls 0 _ (hp p)
    omega
  · intro it c' hrem
    obtain ⟨x, hx⟩ := removeAura_some E c c' it hrem
    obtain ⟨c2, _, h2, h3, _, _, h6⟩ := removeAura_of_getElem? E c it x hx hc
    rw [hrem] at h2
    have hc' : c' = misapply E x c2 := Option.some.inj h2
    refine ⟨x, hx, ?_, ?_⟩
    · rw [hc', misapply_m_auras, h3]
    · rw [hc', misapply_calls, h6]
  · intro aura restoration c' hadd
    rcases addAura_outcome E c c' aura restoration false hc hadd with
      ⟨_, _, _, _, _, _, _, _, hb, _⟩ | ⟨_, _, _, _, _, _, _, _, hb, _⟩
      | ⟨_, ⟨_, hcc⟩ | ⟨hb, _⟩⟩
    · exact absurd hb (by simp)
    · exact absurd hb (by simp)
    · exact hcc
    · exact absurd hb (by simp)
  · intro aura restoration b c' it hv hscan hadd
    rcases addAura_outcome E c c' aura restoration b hc hadd with
      ⟨pre, x, suf, _, hl, _, _, _, hb, hl', hcalls⟩ | ⟨_, _, _, _, _, _, _, hr, _⟩
      | ⟨hu, _⟩
    · refine ⟨hb, hcalls, ?_⟩
      rw [hl, hl']
      simp
    · rw [hscan] at hr
      exact Resolution.noConfusion hr
    · rcases hu with hu | hu | hu
      · exact absurd hv hu
      · rw [hscan] at hu; exact Resolution.noConfusion hu
      · rw [hscan] at hu; exact Resolution.noConfusion hu

theorem C24_apply_unapply_paired_witness :
    (∀ pre x suf, demoStateDeath.calls = pre ++ HandlerCall.misapplyEffects x :: suf →
        misapplyCount x.ptr pre < applyCount x.ptr pre)
    ∧ (∀ p, applyCount p demoStateDeath.calls = misapplyCount p demoStateDeath.calls
        + ptrCount p demoStateDeath.m_auras)
    ∧ (∀ it c', removeAura demoEnv demoStateDeath it = some c' →
        ∃ x, demoStateDeath.m_auras[it]? = some x
          ∧ c'.m_auras = demoStateDeath.m_auras.eraseIdx it
          ∧ c'.calls = demoStateDeath.calls ++ [HandlerCall.misapplyEffects x])
    ∧ (∀ aura restoration c', addAura demoEnv demoStateDeath aura restoration = some (false, c') →
        c' = demoStateDeath)
    ∧ (∀ aura restoration b c' it, isVisible demoEnv aura →
        addAura_scan demoEnv aura demoStateDeath.m_auras 0 = Resolution.stack it →
        addAura demoEnv demoStateDeath aura restoration = some (b, c') →
        b = true ∧ c'.calls = demoStateDeath.calls
          ∧ c'.m_auras.length = demoStateDeath.m_auras.length) :=
  C24_apply_unapply_paired demoEnv demoStateDeath
    (Reachable.handleTargetDeath
      (Reachable.addAura demoAura4 false true
        (Reachable.addAura demoAura3 false true
          (Reachable.addAura demoAura1 false true (Reachable.empty demoOwner) rfl) rfl) rfl)
      rfl)

end AuraContainer

end wowpp
